import Mathlib

/-!
# hackeroni `h1`: JSON:API decoding and pagination

A shallow embedding of the resource decoders (`UnmarshalJSON` of `Credential`,
`CredentialInquiry`, `Program`, `StructuredScope`, `User`) and of the `ListAll…`
pagination loops of package `h1`, together with the part of Go's `encoding/json`
those decoders run on.

Layout
* `Json`   : documents, the validating scanner, string unquoting (library model)
* `GoJson` : `json.Unmarshal` into pointers, scalars, slices and structs, and the
  documents `json.Marshal` writes for pointers and slices (library model)
* `H1`     : the types and functions of package `h1`, the default encoding of its
  structs, and the transports used to observe the listing loops
-/

set_option autoImplicit false

namespace Json

/-- An error value returned by `json.Unmarshal`.
* `syntaxError offset` is `*json.SyntaxError`; `offset` is the number of bytes read
  when the scanner rejected the input.
* `unmarshalTypeError value goType` is `*json.UnmarshalTypeError` (JSON value kind,
  Go type it could not be stored in).
* `unmarshalerError msg` is an error returned by the `UnmarshalJSON` method of a
  type declared outside the files embedded here. -/
inductive JsonError where
  | syntaxError (offset : Nat)
  | unmarshalTypeError (value : String) (goType : String)
  | unmarshalerError (msg : String)
  deriving DecidableEq, Repr

/-- A JSON document after scanning. Object members are kept in document order
and duplicate keys are kept, because the decoder processes members one by one.
A number keeps its literal text; keys and strings are unquoted. -/
inductive JSON where
  | null
  | bool (b : Bool)
  | num (lit : String)
  | str (s : String)
  | arr (elems : List JSON)
  | obj (members : List (String × JSON))
  deriving Repr

/-- Failure of the scanner: an unexpected byte with `rest` bytes of input still
unread after it, the end of input, or recursion fuel exhausted (unreachable from
`parse`, which supplies enough fuel for the length of its input). -/
inductive ScanFail where
  | invalidCharacter (rest : Nat)
  | unexpectedEnd
  | fuel
  deriving DecidableEq, Repr

abbrev Scan (α : Type) := Except ScanFail (α × List Nat)

/-- Nesting limit of the scanner (`maxNestingDepth`). -/
def maxNestingDepth : Nat := 10000

/-- Go `isSpace`: the four JSON white space bytes. -/
def isSpace (c : Nat) : Bool := c = 0x20 || c = 0x09 || c = 0x0d || c = 0x0a

def skipSpace : List Nat → List Nat
  | [] => []
  | c :: rest => if isSpace c then skipSpace rest else c :: rest

def isDigit (c : Nat) : Bool := 0x30 ≤ c && c ≤ 0x39

def isHex (c : Nat) : Bool :=
  (0x30 ≤ c && c ≤ 0x39) || (0x61 ≤ c && c ≤ 0x66) || (0x41 ≤ c && c ≤ 0x46)

/-- Consume the bytes of `lit` (the tail of `true`, `false` or `null`). -/
def expectBytes : List Nat → List Nat → Scan Unit
  | [], s => .ok ((), s)
  | _ :: _, [] => .error .unexpectedEnd
  | l :: ls, c :: rest => if c = l then expectBytes ls rest else .error (.invalidCharacter rest.length)

/-- Zero or more digits. -/
def takeDigits : List Nat → List Nat × List Nat
  | [] => ([], [])
  | c :: rest =>
    if isDigit c then
      let (ds, r) := takeDigits rest
      (c :: ds, r)
    else ([], c :: rest)

/-- One or more digits. -/
def takeDigits1 (s : List Nat) : Scan (List Nat) :=
  match s with
  | [] => .error .unexpectedEnd
  | c :: rest =>
    if isDigit c then
      let (ds, r) := takeDigits rest
      .ok (c :: ds, r)
    else .error (.invalidCharacter rest.length)

/-- Optional fraction `.digits`. -/
def scanFrac (s : List Nat) : Scan (List Nat) :=
  match s with
  | 0x2e :: rest =>
    match takeDigits1 rest with
    | .ok (ds, r) => .ok (0x2e :: ds, r)
    | .error e => .error e
  | _ => .ok ([], s)

/-- Optional exponent `e|E [+|-] digits`. -/
def scanExp (s : List Nat) : Scan (List Nat) :=
  match s with
  | [] => .ok ([], s)
  | c :: rest =>
    if c = 0x65 || c = 0x45 then
      match rest with
      | [] => .error .unexpectedEnd
      | d :: rest2 =>
        if d = 0x2b || d = 0x2d then
          match takeDigits1 rest2 with
          | .ok (ds, r) => .ok (c :: d :: ds, r)
          | .error e => .error e
        else
          match takeDigits1 rest with
          | .ok (ds, r) => .ok (c :: ds, r)
          | .error e => .error e
    else .ok ([], s)

/-- Integer part, after the optional minus sign: `0` or a non-zero digit followed
by digits. -/
def scanInt (s : List Nat) : Scan (List Nat) :=
  match s with
  | [] => .error .unexpectedEnd
  | c :: rest =>
    if c = 0x30 then .ok ([c], rest)
    else if 0x31 ≤ c && c ≤ 0x39 then
      let (ds, r) := takeDigits rest
      .ok (c :: ds, r)
    else .error (.invalidCharacter rest.length)

/-- A number literal; the literal's bytes are returned. -/
def scanNumber (s : List Nat) : Scan (List Nat) :=
  let (sign, s1) := match s with
    | 0x2d :: rest => ([0x2d], rest)
    | _ => ([], s)
  match scanInt s1 with
  | .error e => .error e
  | .ok (ip, s2) =>
    match scanFrac s2 with
    | .error e => .error e
    | .ok (fp, s3) =>
      match scanExp s3 with
      | .error e => .error e
      | .ok (ep, s4) => .ok (sign ++ ip ++ fp ++ ep, s4)

/-- Where the scanner is inside a string literal: in plain text, right after a
backslash, or inside `\u` with `k + 1` hexadecimal digits still to come
(`stateInString`, `stateInStringEsc`, `stateInStringEscU…`). -/
inductive StringState where
  | plain
  | esc
  | hex (k : Nat)
  deriving DecidableEq, Repr

/-- Put a scanned byte in front of the bytes scanned after it. -/
def consByte (c : Nat) (r : Scan (List Nat)) : Scan (List Nat) :=
  match r with
  | .ok (bs, rest) => .ok (c :: bs, rest)
  | .error e => .error e

/-- The body of a string literal after the opening quote, up to and excluding
the closing quote: the raw bytes, escapes still in place. One byte is read per
step, as the scanner does. -/
def scanStringBody : StringState → List Nat → Scan (List Nat)
  | _, [] => .error .unexpectedEnd
  | .plain, c :: rest =>
    if c = 0x22 then .ok ([], rest)
    else if c = 0x5c then consByte c (scanStringBody .esc rest)
    else if c < 0x20 then .error (.invalidCharacter rest.length)
    else consByte c (scanStringBody .plain rest)
  | .esc, c :: rest =>
    if c = 0x62 || c = 0x66 || c = 0x6e || c = 0x72 || c = 0x74 || c = 0x5c || c = 0x2f
        || c = 0x22 then consByte c (scanStringBody .plain rest)
    else if c = 0x75 then consByte c (scanStringBody (.hex 3) rest)
    else .error (.invalidCharacter rest.length)
  | .hex k, c :: rest =>
    if isHex c then
      match k with
      | 0 => consByte c (scanStringBody .plain rest)
      | k2 + 1 => consByte c (scanStringBody (.hex k2) rest)
    else .error (.invalidCharacter rest.length)

/-- Model of `utf8.DecodeRune`: the first rune of `p` and its width in bytes;
`(0xFFFD, 1)` for an invalid or truncated encoding. -/
def decodeRune (p : List Nat) : Nat × Nat :=
  match p with
  | [] => (0xFFFD, 0)
  | p0 :: t =>
    if p0 < 0x80 then (p0, 1)
    else if p0 < 0xC2 || 0xF4 < p0 then (0xFFFD, 1)
    else
      let lo := if p0 = 0xE0 then 0xA0 else if p0 = 0xF0 then 0x90 else 0x80
      let hi := if p0 = 0xED then 0x9F else if p0 = 0xF4 then 0x8F else 0xBF
      let sz := if p0 < 0xE0 then 2 else if p0 < 0xF0 then 3 else 4
      match t with
      | [] => (0xFFFD, 1)
      | b1 :: t1 =>
        if b1 < lo || hi < b1 then (0xFFFD, 1)
        else if sz = 2 then ((p0 % 0x20) * 0x40 + b1 % 0x40, 2)
        else
          match t1 with
          | [] => (0xFFFD, 1)
          | b2 :: t2 =>
            if b2 < 0x80 || 0xBF < b2 then (0xFFFD, 1)
            else if sz = 3 then ((p0 % 0x10) * 0x1000 + (b1 % 0x40) * 0x40 + b2 % 0x40, 3)
            else
              match t2 with
              | [] => (0xFFFD, 1)
              | b3 :: _ =>
                if b3 < 0x80 || 0xBF < b3 then (0xFFFD, 1)
                else ((p0 % 0x08) * 0x40000 + (b1 % 0x40) * 0x1000 + (b2 % 0x40) * 0x40
                        + b3 % 0x40, 4)

/-- Value of a hexadecimal digit. -/
def hexVal (c : Nat) : Nat :=
  if 0x30 ≤ c && c ≤ 0x39 then c - 0x30
  else if 0x61 ≤ c && c ≤ 0x66 then c - 0x61 + 10
  else c - 0x41 + 10

/-- Model of `getu4`: the rune of a leading `\uXXXX`, if there is one. -/
def getu4 (s : List Nat) : Option Nat :=
  match s with
  | 0x5c :: 0x75 :: a :: b :: c :: d :: _ =>
    if isHex a && isHex b && isHex c && isHex d then
      some (hexVal a * 0x1000 + hexVal b * 0x100 + hexVal c * 0x10 + hexVal d)
    else none
  | _ => none

def isSurrogate (r : Nat) : Bool := 0xD800 ≤ r && r < 0xE000

/-- Model of `utf16.DecodeRune`: the rune of a surrogate pair, `0xFFFD` when the
pair is not valid. -/
def utf16DecodeRune (r1 : Nat) (r2 : Option Nat) : Nat :=
  match r2 with
  | none => 0xFFFD
  | some r2 =>
    if 0xD800 ≤ r1 && r1 < 0xDC00 && 0xDC00 ≤ r2 && r2 < 0xE000 then
      (r1 - 0xD800) * 0x400 + (r2 - 0xDC00) + 0x10000
    else 0xFFFD

/-- Model of `unquoteBytes` on the raw body of a string literal that the scanner
accepted: escapes are resolved, and every rune is coerced to well-formed UTF-8
(so the result is a sequence of Unicode scalar values). -/
def unquote : Nat → List Nat → List Char
  | 0, _ => []
  | _, [] => []
  | fuel + 1, c :: rest =>
    if c = 0x5c then
      match rest with
      | [] => []
      | e :: rest2 =>
        if e = 0x75 then
          match getu4 (c :: rest) with
          | none => []
          | some rr =>
            let after := rest2.drop 4
            if isSurrogate rr then
              let dec := utf16DecodeRune rr (getu4 after)
              if dec ≠ 0xFFFD then Char.ofNat dec :: unquote fuel (after.drop 6)
              else Char.ofNat 0xFFFD :: unquote fuel after
            else Char.ofNat rr :: unquote fuel after
        else
          let ch : Nat :=
            if e = 0x62 then 0x08 else if e = 0x66 then 0x0c else if e = 0x6e then 0x0a
            else if e = 0x72 then 0x0d else if e = 0x74 then 0x09 else e
          Char.ofNat ch :: unquote fuel rest2
    else if c < 0x80 then Char.ofNat c :: unquote fuel rest
    else
      let (rr, size) := decodeRune (c :: rest)
      Char.ofNat rr :: unquote fuel (rest.drop (size - 1))

/-- A string literal starting at its opening quote. -/
def scanString (s : List Nat) : Scan String :=
  match s with
  | [] => .error .unexpectedEnd
  | c :: rest =>
    if c = 0x22 then
      match scanStringBody .plain rest with
      | .ok (body, r) => .ok (String.mk (unquote body.length body), r)
      | .error e => .error e
    else .error (.invalidCharacter rest.length)

mutual
/-- One JSON value at the head of `s` (leading white space allowed), at nesting
depth `depth`. -/
def scanValue : Nat → Nat → List Nat → Scan JSON
  | 0, _, _ => .error .fuel
  | fuel + 1, depth, s =>
    match skipSpace s with
    | [] => .error .unexpectedEnd
    | c :: rest =>
      if c = 0x7b then
        if depth + 1 ≤ maxNestingDepth then
          match skipSpace rest with
          | [] => .error .unexpectedEnd
          | d :: rest2 =>
            if d = 0x7d then .ok (JSON.obj [], rest2)
            else
              match scanMembers fuel (depth + 1) (d :: rest2) with
              | .ok (ms, r) => .ok (JSON.obj ms, r)
              | .error e => .error e
        else .error (.invalidCharacter rest.length)
      else if c = 0x5b then
        if depth + 1 ≤ maxNestingDepth then
          match skipSpace rest with
          | [] => .error .unexpectedEnd
          | d :: rest2 =>
            if d = 0x5d then .ok (JSON.arr [], rest2)
            else
              match scanElems fuel (depth + 1) (d :: rest2) with
              | .ok (es, r) => .ok (JSON.arr es, r)
              | .error e => .error e
        else .error (.invalidCharacter rest.length)
      else if c = 0x22 then
        match scanString (c :: rest) with
        | .ok (str, r) => .ok (JSON.str str, r)
        | .error e => .error e
      else if c = 0x2d || isDigit c then
        match scanNumber (c :: rest) with
        | .ok (lit, r) => .ok (JSON.num (String.mk (lit.map Char.ofNat)), r)
        | .error e => .error e
      else if c = 0x74 then
        match expectBytes [0x72, 0x75, 0x65] rest with
        | .ok (_, r) => .ok (JSON.bool true, r)
        | .error e => .error e
      else if c = 0x66 then
        match expectBytes [0x61, 0x6c, 0x73, 0x65] rest with
        | .ok (_, r) => .ok (JSON.bool false, r)
        | .error e => .error e
      else if c = 0x6e then
        match expectBytes [0x75, 0x6c, 0x6c] rest with
        | .ok (_, r) => .ok (JSON.null, r)
        | .error e => .error e
      else .error (.invalidCharacter rest.length)
/-- The elements of an array after `[`, the first one at the head of `s`, up to
and including the closing `]`. -/
def scanElems : Nat → Nat → List Nat → Scan (List JSON)
  | 0, _, _ => .error .fuel
  | fuel + 1, depth, s =>
    match scanValue fuel depth s with
    | .error e => .error e
    | .ok (v, r) =>
      match skipSpace r with
      | [] => .error .unexpectedEnd
      | c :: rest =>
        if c = 0x2c then
          match scanElems fuel depth rest with
          | .ok (vs, r2) => .ok (v :: vs, r2)
          | .error e => .error e
        else if c = 0x5d then .ok ([v], rest)
        else .error (.invalidCharacter rest.length)
/-- The members of an object after `{`, the first key at the head of `s` (leading
white space allowed), up to and including the closing `}`. -/
def scanMembers : Nat → Nat → List Nat → Scan (List (String × JSON))
  | 0, _, _ => .error .fuel
  | fuel + 1, depth, s =>
    match scanString (skipSpace s) with
    | .error e => .error e
    | .ok (key, r) =>
      match skipSpace r with
      | [] => .error .unexpectedEnd
      | c :: rest =>
        if c = 0x3a then
          match scanValue fuel depth rest with
          | .error e => .error e
          | .ok (v, r2) =>
            match skipSpace r2 with
            | [] => .error .unexpectedEnd
            | d :: rest2 =>
              if d = 0x2c then
                match scanMembers fuel depth rest2 with
                | .ok (ms, r3) => .ok ((key, v) :: ms, r3)
                | .error e => .error e
              else if d = 0x7d then .ok ([(key, v)], rest2)
              else .error (.invalidCharacter rest2.length)
        else .error (.invalidCharacter rest.length)
end

/-- Scan a whole input: one value, then only white space (`checkValid` together
with the value the decoder reads). A failure is reported as the
`*json.SyntaxError` with the scanner's byte count: the index of the rejected
byte plus one, or the length of the input when it ended too early. -/
def parse (data : List UInt8) : Except JsonError JSON :=
  let s := data.map UInt8.toNat
  let toErr : ScanFail → JsonError := fun f =>
    match f with
    | .invalidCharacter rest => .syntaxError (s.length - rest)
    | _ => .syntaxError s.length
  match scanValue (2 * s.length + 1) 0 s with
  | .error f => .error (toErr f)
  | .ok (v, r) =>
    match skipSpace r with
    | [] => .ok v
    | _ :: rest => .error (.syntaxError (s.length - rest.length))

/-- The bytes of a text (its UTF-8 encoding), for writing inputs down. -/
def bytes (text : String) : List UInt8 := text.data.flatMap String.utf8EncodeChar

/-! ### Go strings

A Go `string` is a sequence of bytes; a text is held as its UTF-8 encoding. -/

/-- Model of `utf8.AppendRune`: the UTF-8 encoding of a rune below `0x110000`. -/
def encodeRune (r : Nat) : List Nat :=
  if r < 0x80 then [r]
  else if r < 0x800 then [0xC0 + r / 0x40, 0x80 + r % 0x40]
  else if r < 0x10000 then [0xE0 + r / 0x1000, 0x80 + r / 0x40 % 0x40, 0x80 + r % 0x40]
  else [0xF0 + r / 0x40000, 0x80 + r / 0x1000 % 0x40, 0x80 + r / 0x40 % 0x40, 0x80 + r % 0x40]

/-- A Go `string`: any sequence of bytes. -/
abbrev GoString := List UInt8

/-- The Go `string` that holds the text `s`: its UTF-8 encoding. -/
def goString (s : String) : GoString :=
  s.data.flatMap (fun c => (encodeRune c.toNat).map UInt8.ofNat)

/-- The runes `json.Marshal` writes for the bytes of a Go string, as the scanner
reads them back: the encoder walks the string with `utf8.DecodeRuneInString`,
writes a validly encoded rune unchanged and `\ufffd` for a byte that starts no
valid encoding. The first argument counts the bytes still to skip of the rune
decoded last. -/
def validRunes : Nat → List Nat → List Char
  | _, [] => []
  | skip + 1, _ :: bs => validRunes skip bs
  | 0, b :: bs =>
    Char.ofNat (decodeRune (b :: bs)).1 :: validRunes ((decodeRune (b :: bs)).2 - 1) bs

/-- The text `json.Marshal` writes for a Go string: its runes, U+FFFD for each
byte that is not part of a valid UTF-8 encoding. -/
def goText (g : GoString) : String := String.mk (validRunes 0 (g.map UInt8.toNat))

end Json


namespace GoJson

open Json

/-- Go `d.saveError`: only the first saved error is kept. -/
def saveError (saved new : Option JsonError) : Option JsonError :=
  match saved with
  | some e => some e
  | none => new

/-- Decoding one JSON value into a Go variable of type `α` (`d.value`): from
the value and the variable's current content to either an error that aborts
`Unmarshal` at once (returned by an `UnmarshalJSON` method), or the new content
together with the error the decoder saves and goes on with
(an `UnmarshalTypeError`), if any. -/
abbrev Store (α : Type) := JSON → α → Except JsonError (α × Option JsonError)

/-- The `Value` text of an `UnmarshalTypeError` for a JSON value. -/
def valueKind : JSON → String
  | .null => "null"
  | .bool _ => "bool"
  | .num _ => "number"
  | .str _ => "string"
  | .arr _ => "array"
  | .obj _ => "object"

/-- Into a Go `string`: `null` has no effect, a string is stored, anything else
is a type error. -/
def storeString : Store String := fun v cur =>
  match v with
  | .null => .ok (cur, none)
  | .str s => .ok (s, none)
  | other => .ok (cur, some (.unmarshalTypeError (valueKind other) "string"))

/-- Into a Go `bool`. -/
def storeBool : Store Bool := fun v cur =>
  match v with
  | .null => .ok (cur, none)
  | .bool b => .ok (b, none)
  | other => .ok (cur, some (.unmarshalTypeError (valueKind other) "bool"))

/-- Model of `strconv.ParseUint(s, 10, 64)` on a JSON number literal: the value
when the literal is all digits and fits 64 bits. -/
def parseUint64 (lit : String) : Option Nat :=
  if lit.data.all Char.isDigit && !lit.data.isEmpty then
    let n := lit.data.foldl (fun acc c => acc * 10 + (c.toNat - 48)) 0
    if n < 2 ^ 64 then some n else none
  else none

/-- Into a Go `uint64`. -/
def storeUint64 : Store Nat := fun v cur =>
  match v with
  | .null => .ok (cur, none)
  | .num lit =>
    match parseUint64 lit with
    | some n => .ok (n, none)
    | none => .ok (cur, some (.unmarshalTypeError ("number " ++ lit) "uint64"))
  | other => .ok (cur, some (.unmarshalTypeError (valueKind other) "uint64"))

/-- Into a Go `float64`, whose values are of a type `F` with
`strconv.ParseFloat` given as `parseFloat` (`none` when out of range). -/
def storeFloat64 {F : Type} (parseFloat : String → Option F) : Store F := fun v cur =>
  match v with
  | .null => .ok (cur, none)
  | .num lit =>
    match parseFloat lit with
    | some x => .ok (x, none)
    | none => .ok (cur, some (.unmarshalTypeError ("number " ++ lit) "float64"))
  | other => .ok (cur, some (.unmarshalTypeError (valueKind other) "float64"))

/-- Into a pointer `*T` (`none` is the nil pointer): `null` sets the pointer to
nil; any other value is decoded into the pointee, which is allocated with the
zero value when the pointer is nil. -/
def storePtr {α : Type} (zero : α) (st : Store α) : Store (Option α) := fun v cur =>
  match v with
  | .null => .ok (none, none)
  | other =>
    match st other (cur.getD zero) with
    | .error e => .error e
    | .ok (a, saved) => .ok (some a, saved)

/-- The elements of a JSON array, each decoded into a zero value and appended
(the package documentation: "Unmarshal resets the slice length to zero and then
appends each element to the slice"). A decoder that decodes into the elements a
slice already holds can differ from this only on a document that gives the same
key twice. -/
def storeElems {α : Type} (zero : α) (st : Store α) :
    List JSON → Except JsonError (List α × Option JsonError)
  | [] => .ok ([], none)
  | v :: vs =>
    match st v zero with
    | .error e => .error e
    | .ok (a, saved) =>
      match storeElems zero st vs with
      | .error e => .error e
      | .ok (as, saved2) => .ok (a :: as, saveError saved saved2)

/-- Into a slice `[]T` (`none` is the nil slice, `some []` the empty non-nil
slice): `null` sets the slice to nil, an array replaces its elements (the empty
array gives the empty non-nil slice), anything else is a type error. -/
def storeSlice {α : Type} (goType : String) (zero : α) (st : Store α) :
    Store (Option (List α)) := fun v cur =>
  match v with
  | .null => .ok (none, none)
  | .arr vs =>
    match storeElems zero st vs with
    | .error e => .error e
    | .ok (as, saved) => .ok (some as, saved)
  | other => .ok (cur, some (.unmarshalTypeError (valueKind other) goType))

/-- Least member of a rune's case-folding orbit, for the runes whose orbit
contains an ASCII letter: lower case letters, U+017F (long s) and U+212A
(Kelvin sign). Other runes never fold to an ASCII letter and are kept. -/
def foldRune (c : Char) : Char :=
  if c.toNat = 0x17F then Char.ofNat 0x53
  else if c.toNat = 0x212A then Char.ofNat 0x4B
  else if 0x61 ≤ c.toNat ∧ c.toNat ≤ 0x7A then Char.ofNat (c.toNat - 0x20)
  else c

/-- Go `foldName`: the key under which a field name is found case-insensitively. -/
def foldName (name : String) : String := String.mk (name.data.map foldRune)

/-- A JSON-visible field of a struct type `α`: its JSON name (from the `json`
tag, or the Go field name) and how a value is decoded into it. -/
structure StructField (α : Type) where
  name : String
  store : Store α

/-- The field an object key is decoded into: the field with exactly that name,
or else the first one whose name matches case-insensitively. -/
def findField {α : Type} (fields : List (StructField α)) (key : String) : Option (StructField α) :=
  match fields.find? (fun f => decide (f.name = key)) with
  | some f => some f
  | none => fields.find? (fun f => decide (foldName f.name = foldName key))

/-- The member loop of `d.object`: members are decoded in document order, each
into the field its key selects; members with an unknown key are skipped. -/
def decodeMembers {α : Type} (fields : List (StructField α)) :
    List (String × JSON) → α → Option JsonError → Except JsonError (α × Option JsonError)
  | [], a, saved => .ok (a, saved)
  | (key, v) :: ms, a, saved =>
    match findField fields key with
    | none => decodeMembers fields ms a saved
    | some f =>
      match f.store v a with
      | .error e => .error e
      | .ok (a2, new) => decodeMembers fields ms a2 (saveError saved new)

/-- Into a struct value with the given fields: `null` has no effect, an object is
decoded member by member into the current content, anything else is a type
error. -/
def storeStruct {α : Type} (goType : String) (fields : List (StructField α)) : Store α := fun v cur =>
  match v with
  | .null => .ok (cur, none)
  | .obj ms => decodeMembers fields ms cur none
  | other => .ok (cur, some (.unmarshalTypeError (valueKind other) goType))

/-- A field of an embedded (or nested) struct seen as a field of the enclosing
struct: `get` reads the inner struct, `set` writes it back. -/
def StructField.lift {α β : Type} (get : β → α) (set : β → α → β) (f : StructField α) : StructField β :=
  { name := f.name
    store := fun v b =>
      match f.store v (get b) with
      | .error e => .error e
      | .ok (a, saved) => .ok (set b a, saved) }

/-- A struct field `name` of the enclosing struct, decoded by `st`. -/
def StructField.of {α β : Type} (name : String) (get : β → α) (set : β → α → β) (st : Store α) :
    StructField β :=
  { name := name
    store := fun v b =>
      match st v (get b) with
      | .error e => .error e
      | .ok (a, saved) => .ok (set b a, saved) }

/-- A pointer field that may point at a struct embedded in the same variable:
`nil`, `embedded` (the address of the embedded struct, as set up before
decoding), or `fresh a` (a struct the decoder allocated). -/
inductive AttrPtr (α : Type) where
  | nil
  | embedded
  | fresh (a : α)
  deriving DecidableEq, Repr

/-- Decoding into the field `Attributes *T` of a helper whose embedded struct
is read by `getE` and written by `setE`: `null` sets the pointer to nil;
another value is decoded into the struct the pointer points at, which is the
embedded struct itself as long as the pointer still holds its address. -/
def storeAttributes {α β : Type} (zero : α) (st : Store α) (getE : β → α) (setE : β → α → β)
    (getP : β → AttrPtr α) (setP : β → AttrPtr α → β) : Store β := fun v h =>
  match v with
  | .null => .ok (setP h .nil, none)
  | other =>
    match getP h with
    | .embedded =>
      match st other (getE h) with
      | .error e => .error e
      | .ok (a, saved) => .ok (setE h a, saved)
    | .nil =>
      match st other zero with
      | .error e => .error e
      | .ok (a, saved) => .ok (setP h (.fresh a), saved)
    | .fresh a0 =>
      match st other a0 with
      | .error e => .error e
      | .ok (a, saved) => .ok (setP h (.fresh a), saved)

/-- How a helper struct `β` holds its embedded struct `α` and its `Attributes`
pointer: readers and writers of both, with the laws of independent struct
fields. -/
structure Embedding (α β : Type) where
  getE : β → α
  setE : β → α → β
  getP : β → AttrPtr α
  setP : β → AttrPtr α → β
  getE_setE : ∀ h a, getE (setE h a) = a
  setE_setE : ∀ h a b, setE (setE h a) b = setE h b
  setE_getE : ∀ h, setE h (getE h) = h
  getP_setE : ∀ h a, getP (setE h a) = getP h
  getE_setP : ∀ h q, getE (setP h q) = getE h

/-- The field `Attributes *T` with tag `json:"attributes"` of a helper, `T` being
decoded as a struct with fields `base`. -/
def attributesField {α β : Type} (E : Embedding α β) (zero : α) (goType : String)
    (base : List (StructField α)) : StructField β :=
  { name := "attributes"
    store := storeAttributes zero (storeStruct goType base) E.getE E.setE E.getP E.setP }

/-- The field named `n0` of a table is the one writer of the component `get` of
the struct, and writes it through `st0`: the names of the table stay distinct when
letter case is ignored, a field named `n0` exists, every other field leaves `get`
alone, and the field named `n0` decodes into `get` by `st0`. -/
structure Component {α γ : Type} (fields : List (StructField α)) (n0 : String) (get : α → γ)
    (st0 : Store γ) : Prop where
  hinj : ∀ f ∈ fields, ∀ g ∈ fields, foldName f.name = foldName g.name → f.name = g.name
  h0 : ∃ f0 ∈ fields, f0.name = n0
  hframe : ∀ f ∈ fields, f.name ≠ n0 → ∀ v a a2 e, f.store v a = .ok (a2, e) → get a2 = get a
  hact : ∀ f ∈ fields, f.name = n0 → ∀ v a a2 e, f.store v a = .ok (a2, e) →
    st0 v (get a) = .ok (get a2, e)

/-- The members of an object; no members for any other value. -/
def membersOf : JSON → List (String × JSON)
  | .obj ms => ms
  | _ => []

/-- The values found in `vs` under a path of keys, in document order: at each
step all members of the objects reached so far whose key matches the next key of
the path in some letter case. -/
def valuesAt : List String → List JSON → List JSON
  | [], vs => vs
  | k :: ks, vs =>
    valuesAt ks (((vs.flatMap membersOf).filter
      (fun kv => decide (foldName kv.1 = foldName k))).map (·.2))

/-- No member of the document, at top level or in an object under `attributes`,
has a key that matches `name` in some letter case. -/
def absentFrom (name : String) (doc : JSON) : Prop :=
  valuesAt [name] [doc] = [] ∧ valuesAt ["attributes", name] [doc] = []

/-- Decoding the values `vs` one after the other into the same variable, as long
as no error is returned or saved. -/
def applyAll {γ : Type} (st : Store γ) : List JSON → γ → Option γ
  | [], c => some c
  | v :: vs, c =>
    match st v c with
    | .ok (c2, none) => applyAll st vs c2
    | _ => none

/-- Model of `json.Unmarshal(data, &v)`: the input is scanned first and a syntax
error is returned before anything is stored; otherwise the value is decoded
into `v`, and the first saved error, if any, is returned at the end. The result
is the error, or the content of `v` after a call that returned nil (what `v`
holds after a failed call is not modelled: no caller in `h1` reads it). -/
def Unmarshal {α : Type} (data : List UInt8) (st : Store α) (v : α) : Except JsonError α :=
  match parse data with
  | .error e => .error e
  | .ok doc =>
    match st doc v with
    | .error e => .error e
    | .ok (_, some e) => .error e
    | .ok (v2, none) => .ok v2

/-- The decoding phase of `Unmarshal` alone, on a value the enclosing decoder has already
scanned: this is what a nested `UnmarshalJSON` call does with the bytes of an
element of the enclosing document. -/
def UnmarshalValue {α : Type} (doc : JSON) (st : Store α) (v : α) : Except JsonError α :=
  match st doc v with
  | .error e => .error e
  | .ok (_, some e) => .error e
  | .ok (v2, none) => .ok v2

/-- How `encoding/json` encodes a pointer: `null` for nil, else the pointee. -/
def marshalPtr {α : Type} (enc : α → JSON) : Option α → JSON
  | none => .null
  | some a => enc a

/-- The member of a slice field tagged `omitempty`: none when the slice is nil
or empty, else the array of the encoded elements. -/
def marshalOmitEmpty {α : Type} (name : String) (enc : α → JSON) :
    Option (List α) → List (String × JSON)
  | none => []
  | some [] => []
  | some (x :: xs) => [(name, .arr ((x :: xs).map enc))]

/-- Model of `json.Marshal` on a Go `string`, read back by the scanner: the JSON
string of its text, in which U+FFFD stands for each byte that starts no valid
UTF-8 encoding. -/
def marshalString (g : GoString) : JSON := .str (goText g)

/-! ### Definitions used to state that the order of members does not matter -/

/-- Two results of a member loop agree: both are an error that aborts the
decoding, or both hold the same value, with a saved error in both or in
neither. -/
def Agree {α : Type} (r1 r2 : Except JsonError (α × Option JsonError)) : Prop :=
  match r1, r2 with
  | .error _, .error _ => True
  | .ok (a1, e1), .ok (a2, e2) => a1 = a2 ∧ (e1 = none ↔ e2 = none)
  | _, _ => False

/-- Two fields decode independently of each other: whether one of them aborts,
what it stores and the error it saves are the same before and after a value is
decoded into the other. -/
def Commute {α : Type} (f g : StructField α) : Prop :=
  ∀ (v w : JSON) (a : α),
    match f.store v a, g.store w a with
    | .ok (a1, e1), .ok (a2, e2) =>
      ∃ a3, g.store w a1 = .ok (a3, e2) ∧ f.store v a2 = .ok (a3, e1)
    | .error _, .ok (a2, _) => ∃ e, f.store v a2 = .error e
    | .ok (a1, _), .error _ => ∃ e, g.store w a1 = .error e
    | .error _, .error _ => True

end GoJson

namespace H1

open Json GoJson

/-- Declarations of package `h1` that the decoders use and that are outside the
embedded files: the types `Timestamp`, `Group`, `Member` with their zero values
and the way `encoding/json` decodes a value into each (through its
`UnmarshalJSON` method or field by field), and the type `float64` with
`strconv.ParseFloat`. -/
structure Externals where
  Timestamp : Type
  zeroTimestamp : Timestamp
  storeTimestamp : Store Timestamp
  Group : Type
  zeroGroup : Group
  storeGroup : Store Group
  Member : Type
  zeroMember : Member
  storeMember : Store Member
  Float64 : Type
  zeroFloat64 : Float64
  parseFloat : String → Option Float64

/-! ### credential.go -/

structure CredentialsTable where
  Username : Option String
  Password : Option String
  deriving DecidableEq, Repr

structure Credentials where
  Table : Option CredentialsTable
  deriving DecidableEq, Repr

/-- Go `type Credential struct`: every field is a pointer. -/
structure Credential where
  ID : Option String
  «Type» : Option String
  Credentials : Option Credentials
  Revoked : Option Bool
  AssigneeID : Option String
  AssigneeUsername : Option String
  deriving DecidableEq, Repr

def CredentialsTable.zero : CredentialsTable := ⟨none, none⟩
def Credentials.zero : Credentials := ⟨none⟩
def Credential.zero : Credential := ⟨none, none, none, none, none, none⟩

def CredentialsTable.fields : List (StructField CredentialsTable) :=
  [ StructField.of "username" (·.Username) (fun s x => { s with Username := x }) (storePtr "" storeString),
    StructField.of "password" (·.Password) (fun s x => { s with Password := x }) (storePtr "" storeString) ]

def Credentials.fields : List (StructField Credentials) :=
  [ StructField.of "table" (·.Table) (fun s x => { s with Table := x })
      (storePtr CredentialsTable.zero (storeStruct "h1.CredentialsTable" CredentialsTable.fields)) ]

/-- Go `type credential Credential`: the same struct without the `UnmarshalJSON` method. -/
abbrev credential := Credential

/-- JSON fields of `credential`, from the struct tags. -/
def credential.fields : List (StructField credential) :=
  [ StructField.of "id" (·.ID) (fun s x => { s with ID := x }) (storePtr "" storeString),
    StructField.of "type" (·.«Type») (fun s x => { s with «Type» := x }) (storePtr "" storeString),
    StructField.of "credentials" (·.Credentials) (fun s x => { s with Credentials := x })
      (storePtr Credentials.zero (storeStruct "h1.Credentials" Credentials.fields)),
    StructField.of "revoked" (·.Revoked) (fun s x => { s with Revoked := x }) (storePtr false storeBool),
    StructField.of "assignee_id" (·.AssigneeID) (fun s x => { s with AssigneeID := x })
      (storePtr "" storeString),
    StructField.of "assignee_username" (·.AssigneeUsername)
      (fun s x => { s with AssigneeUsername := x }) (storePtr "" storeString) ]

/-- Go `type credentialUnmarshalHelper struct { credential; Attributes *credential }`. -/
structure credentialUnmarshalHelper where
  credential : H1.credential
  Attributes : AttrPtr H1.credential
  deriving DecidableEq, Repr

/-- JSON fields of the helper: the promoted fields of the embedded `credential`
and `attributes`. -/
def credentialUnmarshalHelper.fields : List (StructField credentialUnmarshalHelper) :=
  credential.fields.map
      (StructField.lift (·.credential) (fun h c => { h with credential := c })) ++
  [ { name := "attributes"
      store := storeAttributes Credential.zero (storeStruct "h1.credential" credential.fields)
        (·.credential) (fun h c => { h with credential := c })
        (·.Attributes) (fun h q => { h with Attributes := q }) } ]

/-- Go `func (ci *Credential) UnmarshalJSON(b []byte) error`: the receiver after the
call and the returned error. -/
def Credential.UnmarshalJSON (ci : Credential) (b : List UInt8) : Credential × Option JsonError :=
  let helper : credentialUnmarshalHelper := { credential := Credential.zero, Attributes := .embedded }
  match Unmarshal b (storeStruct "h1.credentialUnmarshalHelper" credentialUnmarshalHelper.fields)
      helper with
  | .error err => (ci, some err)
  | .ok helper => (helper.credential, none)

/-! ### credential_inquiry.go -/

structure CredentialInquiry where
  ID : Option String
  «Type» : Option String
  Description : Option String
  deriving DecidableEq, Repr

def CredentialInquiry.zero : CredentialInquiry := ⟨none, none, none⟩

abbrev credentialInquiry := CredentialInquiry

def credentialInquiry.fields : List (StructField credentialInquiry) :=
  [ StructField.of "id" (·.ID) (fun s x => { s with ID := x }) (storePtr "" storeString),
    StructField.of "type" (·.«Type») (fun s x => { s with «Type» := x }) (storePtr "" storeString),
    StructField.of "description" (·.Description) (fun s x => { s with Description := x })
      (storePtr "" storeString) ]

structure credentialInquiryUnmarshalHelper where
  credentialInquiry : H1.credentialInquiry
  Attributes : AttrPtr H1.credentialInquiry
  deriving DecidableEq, Repr

def credentialInquiryUnmarshalHelper.fields : List (StructField credentialInquiryUnmarshalHelper) :=
  credentialInquiry.fields.map
      (StructField.lift (·.credentialInquiry) (fun h c => { h with credentialInquiry := c })) ++
  [ { name := "attributes"
      store := storeAttributes CredentialInquiry.zero
        (storeStruct "h1.credentialInquiry" credentialInquiry.fields)
        (·.credentialInquiry) (fun h c => { h with credentialInquiry := c })
        (·.Attributes) (fun h q => { h with Attributes := q }) } ]

/-- Go `func (ci *CredentialInquiry) UnmarshalJSON(b []byte) error`. -/
def CredentialInquiry.UnmarshalJSON (ci : CredentialInquiry) (b : List UInt8) :
    CredentialInquiry × Option JsonError :=
  let helper : credentialInquiryUnmarshalHelper :=
    { credentialInquiry := CredentialInquiry.zero, Attributes := .embedded }
  match Unmarshal b
      (storeStruct "h1.credentialInquiryUnmarshalHelper" credentialInquiryUnmarshalHelper.fields)
      helper with
  | .error err => (ci, some err)
  | .ok helper => (helper.credentialInquiry, none)

/-! ### structured-scope.go -/

/-- Go `type StructuredScope struct`: five fields are plain values, not pointers. -/
structure StructuredScope (X : Externals) where
  ID : Option String
  «Type» : Option String
  AssetIdentifier : String
  AssetType : String
  EligibleForBounty : Bool
  EligibleForSubmission : Bool
  Instruction : Option String
  ConfidentialityRequirement : Option String
  IntegrityRequirement : Option String
  AvailabilityRequirement : Option String
  MaxSeverity : String
  CreatedAt : Option X.Timestamp
  UpdatedAt : Option X.Timestamp
  Reference : Option String

def StructuredScope.zero (X : Externals) : StructuredScope X :=
  { ID := none, «Type» := none, AssetIdentifier := "", AssetType := "",
    EligibleForBounty := false, EligibleForSubmission := false, Instruction := none,
    ConfidentialityRequirement := none, IntegrityRequirement := none,
    AvailabilityRequirement := none, MaxSeverity := "", CreatedAt := none, UpdatedAt := none,
    Reference := none }

abbrev structuredScope (X : Externals) := StructuredScope X

def structuredScope.fields (X : Externals) : List (StructField (structuredScope X)) :=
  [ StructField.of "id" (·.ID) (fun s x => { s with ID := x }) (storePtr "" storeString),
    StructField.of "type" (·.«Type») (fun s x => { s with «Type» := x }) (storePtr "" storeString),
    StructField.of "asset_identifier" (·.AssetIdentifier)
      (fun s x => { s with AssetIdentifier := x }) storeString,
    StructField.of "asset_type" (·.AssetType) (fun s x => { s with AssetType := x }) storeString,
    StructField.of "eligible_for_bounty" (·.EligibleForBounty)
      (fun s x => { s with EligibleForBounty := x }) storeBool,
    StructField.of "eligible_for_submission" (·.EligibleForSubmission)
      (fun s x => { s with EligibleForSubmission := x }) storeBool,
    StructField.of "instruction" (·.Instruction) (fun s x => { s with Instruction := x })
      (storePtr "" storeString),
    StructField.of "confidentiality_requirement" (·.ConfidentialityRequirement)
      (fun s x => { s with ConfidentialityRequirement := x }) (storePtr "" storeString),
    StructField.of "integrity_requirement" (·.IntegrityRequirement)
      (fun s x => { s with IntegrityRequirement := x }) (storePtr "" storeString),
    StructField.of "availability_requirement" (·.AvailabilityRequirement)
      (fun s x => { s with AvailabilityRequirement := x }) (storePtr "" storeString),
    StructField.of "max_severity" (·.MaxSeverity) (fun s x => { s with MaxSeverity := x })
      storeString,
    StructField.of "created_at" (·.CreatedAt) (fun s x => { s with CreatedAt := x })
      (storePtr X.zeroTimestamp X.storeTimestamp),
    StructField.of "updated_at" (·.UpdatedAt) (fun s x => { s with UpdatedAt := x })
      (storePtr X.zeroTimestamp X.storeTimestamp),
    StructField.of "reference" (·.Reference) (fun s x => { s with Reference := x })
      (storePtr "" storeString) ]

structure structuredScopeUnmarshalHelper (X : Externals) where
  structuredScope : H1.structuredScope X
  Attributes : AttrPtr (H1.structuredScope X)

def structuredScopeUnmarshalHelper.fields (X : Externals) :
    List (StructField (structuredScopeUnmarshalHelper X)) :=
  (structuredScope.fields X).map
      (StructField.lift (·.structuredScope) (fun h c => { h with structuredScope := c })) ++
  [ { name := "attributes"
      store := storeAttributes (StructuredScope.zero X)
        (storeStruct "h1.structuredScope" (structuredScope.fields X))
        (·.structuredScope) (fun h c => { h with structuredScope := c })
        (·.Attributes) (fun h q => { h with Attributes := q }) } ]

/-- Go `func (s *StructuredScope) UnmarshalJSON(b []byte) error`. -/
def StructuredScope.UnmarshalJSON {X : Externals} (s : StructuredScope X) (b : List UInt8) :
    StructuredScope X × Option JsonError :=
  let helper : structuredScopeUnmarshalHelper X :=
    { structuredScope := StructuredScope.zero X, Attributes := .embedded }
  match Unmarshal b
      (storeStruct "h1.structuredScopeUnmarshalHelper" (structuredScopeUnmarshalHelper.fields X))
      helper with
  | .error err => (s, some err)
  | .ok helper => (helper.structuredScope, none)

/-! ### program.go -/

/-- Go `type Program struct`; `Groups` is `[]*Group`, `Members` is `[]*Member`. -/
structure Program (X : Externals) where
  ID : Option String
  «Type» : Option String
  Handle : Option String
  Policy : Option String
  CreatedAt : Option X.Timestamp
  UpdatedAt : Option X.Timestamp
  Groups : Option (List (Option X.Group))
  Members : Option (List (Option X.Member))

def Program.zero (X : Externals) : Program X :=
  { ID := none, «Type» := none, Handle := none, Policy := none, CreatedAt := none,
    UpdatedAt := none, Groups := none, Members := none }

abbrev program (X : Externals) := Program X

/-- Decoding into `[]*Group`. -/
def storeGroups (X : Externals) : Store (Option (List (Option X.Group))) :=
  storeSlice "[]*h1.Group" none (storePtr X.zeroGroup X.storeGroup)

/-- Decoding into `[]*Member`. -/
def storeMembers (X : Externals) : Store (Option (List (Option X.Member))) :=
  storeSlice "[]*h1.Member" none (storePtr X.zeroMember X.storeMember)

def program.fields (X : Externals) : List (StructField (program X)) :=
  [ StructField.of "id" (·.ID) (fun s x => { s with ID := x }) (storePtr "" storeString),
    StructField.of "type" (·.«Type») (fun s x => { s with «Type» := x }) (storePtr "" storeString),
    StructField.of "handle" (·.Handle) (fun s x => { s with Handle := x }) (storePtr "" storeString),
    StructField.of "policy" (·.Policy) (fun s x => { s with Policy := x }) (storePtr "" storeString),
    StructField.of "created_at" (·.CreatedAt) (fun s x => { s with CreatedAt := x })
      (storePtr X.zeroTimestamp X.storeTimestamp),
    StructField.of "updated_at" (·.UpdatedAt) (fun s x => { s with UpdatedAt := x })
      (storePtr X.zeroTimestamp X.storeTimestamp),
    StructField.of "groups" (·.Groups) (fun s x => { s with Groups := x }) (storeGroups X),
    StructField.of "member" (·.Members) (fun s x => { s with Members := x }) (storeMembers X) ]

/-- Go `struct { Data []*Group }` under `Relationships.Groups`. -/
structure programRelationshipsGroups (X : Externals) where
  Data : Option (List (Option X.Group))

/-- Go `struct { Data []*Member }` under `Relationships.Members`. -/
structure programRelationshipsMembers (X : Externals) where
  Data : Option (List (Option X.Member))

/-- The anonymous struct type of `programUnmarshalHelper.Relationships`. -/
structure programRelationships (X : Externals) where
  Groups : programRelationshipsGroups X
  Members : programRelationshipsMembers X

def programRelationships.fields (X : Externals) : List (StructField (programRelationships X)) :=
  [ StructField.of "groups" (·.Groups) (fun s x => { s with Groups := x })
      (storeStruct "struct Relationships.Groups"
        [ StructField.of "data" (·.Data) (fun (_ : programRelationshipsGroups X) x => { Data := x })
            (storeGroups X) ]),
    StructField.of "members" (·.Members) (fun s x => { s with Members := x })
      (storeStruct "struct Relationships.Members"
        [ StructField.of "data" (·.Data) (fun (_ : programRelationshipsMembers X) x => { Data := x })
            (storeMembers X) ]) ]

structure programUnmarshalHelper (X : Externals) where
  program : H1.program X
  Attributes : AttrPtr (H1.program X)
  Relationships : programRelationships X

def programUnmarshalHelper.fields (X : Externals) : List (StructField (programUnmarshalHelper X)) :=
  (program.fields X).map (StructField.lift (·.program) (fun h c => { h with program := c })) ++
  [ { name := "attributes"
      store := storeAttributes (Program.zero X) (storeStruct "h1.program" (program.fields X))
        (·.program) (fun h c => { h with program := c })
        (·.Attributes) (fun h q => { h with Attributes := q }) },
    StructField.of "relationships" (·.Relationships) (fun h r => { h with Relationships := r })
      (storeStruct "struct Relationships" (programRelationships.fields X)) ]

/-- The helper as declared by `var helper programUnmarshalHelper` followed by
`helper.Attributes = &helper.program`. -/
def programUnmarshalHelper.init (X : Externals) : programUnmarshalHelper X :=
  { program := Program.zero X, Attributes := .embedded,
    Relationships := { Groups := { Data := none }, Members := { Data := none } } }

/-- Go `func (p *Program) UnmarshalJSON(b []byte) error`. -/
def Program.UnmarshalJSON {X : Externals} (p : Program X) (b : List UInt8) :
    Program X × Option JsonError :=
  let helper := programUnmarshalHelper.init X
  match Unmarshal b (storeStruct "h1.programUnmarshalHelper" (programUnmarshalHelper.fields X))
      helper with
  | .error err => (p, some err)
  | .ok helper =>
    let p : Program X := helper.program
    let p := { p with Groups := helper.Relationships.Groups.Data }
    let p := { p with Members := helper.Relationships.Members.Data }
    (p, none)

/-- The same method called by the decoder on an element `doc` of an enclosing
document (the element's bytes passed `checkValid` with the enclosing input). -/
def Program.unmarshalElement {X : Externals} (p : Program X) (doc : JSON) :
    Program X × Option JsonError :=
  let helper := programUnmarshalHelper.init X
  match UnmarshalValue doc
      (storeStruct "h1.programUnmarshalHelper" (programUnmarshalHelper.fields X)) helper with
  | .error err => (p, some err)
  | .ok helper =>
    let p : Program X := helper.program
    let p := { p with Groups := helper.Relationships.Groups.Data }
    let p := { p with Members := helper.Relationships.Members.Data }
    (p, none)

/-! ### user.go -/

structure UserProfilePicture where
  Size62x62 : Option String
  Size82x82 : Option String
  Size110x110 : Option String
  Size260x260 : Option String
  deriving DecidableEq, Repr

def UserProfilePicture.zero : UserProfilePicture := ⟨none, none, none, none⟩

def UserProfilePicture.fields : List (StructField UserProfilePicture) :=
  [ StructField.of "62x62" (·.Size62x62) (fun s x => { s with Size62x62 := x })
      (storePtr "" storeString),
    StructField.of "82x82" (·.Size82x82) (fun s x => { s with Size82x82 := x })
      (storePtr "" storeString),
    StructField.of "110x110" (·.Size110x110) (fun s x => { s with Size110x110 := x })
      (storePtr "" storeString),
    StructField.of "260x260" (·.Size260x260) (fun s x => { s with Size260x260 := x })
      (storePtr "" storeString) ]

/-- Go `type User struct`; `ProfilePicture` is a struct value, `ParticipatingPrograms`
is `[]Program`. -/
structure User (X : Externals) where
  ID : Option String
  «Type» : Option String
  Disabled : Option Bool
  Username : Option String
  Name : Option String
  ProfilePicture : UserProfilePicture
  Bio : Option String
  Website : Option String
  Location : Option String
  Reputation : Option Nat
  Signal : Option X.Float64
  Impact : Option X.Float64
  HackeroneTriager : Option Bool
  CreatedAt : Option X.Timestamp
  ParticipatingPrograms : Option (List (Program X))

def User.zero (X : Externals) : User X :=
  { ID := none, «Type» := none, Disabled := none, Username := none, Name := none,
    ProfilePicture := UserProfilePicture.zero, Bio := none, Website := none, Location := none,
    Reputation := none, Signal := none, Impact := none, HackeroneTriager := none,
    CreatedAt := none, ParticipatingPrograms := none }

abbrev user (X : Externals) := User X

/-- Decoding into an element of `[]Program`: the element is addressable and
`*Program` has an `UnmarshalJSON` method, which the decoder calls (also for
`null`); an error it returns aborts the enclosing `Unmarshal`. -/
def storeProgram (X : Externals) : Store (Program X) := fun v cur =>
  match Program.unmarshalElement cur v with
  | (_, some err) => .error err
  | (p, none) => .ok (p, none)

/-- Decoding into `[]Program`. -/
def storePrograms (X : Externals) : Store (Option (List (Program X))) :=
  storeSlice "[]h1.Program" (Program.zero X) (storeProgram X)

def user.fields (X : Externals) : List (StructField (user X)) :=
  [ StructField.of "id" (·.ID) (fun s x => { s with ID := x }) (storePtr "" storeString),
    StructField.of "type" (·.«Type») (fun s x => { s with «Type» := x }) (storePtr "" storeString),
    StructField.of "disabled" (·.Disabled) (fun s x => { s with Disabled := x })
      (storePtr false storeBool),
    StructField.of "username" (·.Username) (fun s x => { s with Username := x })
      (storePtr "" storeString),
    StructField.of "name" (·.Name) (fun s x => { s with Name := x }) (storePtr "" storeString),
    StructField.of "profile_picture" (·.ProfilePicture) (fun s x => { s with ProfilePicture := x })
      (storeStruct "h1.UserProfilePicture" UserProfilePicture.fields),
    StructField.of "bio" (·.Bio) (fun s x => { s with Bio := x }) (storePtr "" storeString),
    StructField.of "website" (·.Website) (fun s x => { s with Website := x })
      (storePtr "" storeString),
    StructField.of "location" (·.Location) (fun s x => { s with Location := x })
      (storePtr "" storeString),
    StructField.of "reputation" (·.Reputation) (fun s x => { s with Reputation := x })
      (storePtr 0 storeUint64),
    StructField.of "signal" (·.Signal) (fun s x => { s with Signal := x })
      (storePtr X.zeroFloat64 (storeFloat64 X.parseFloat)),
    StructField.of "impact" (·.Impact) (fun s x => { s with Impact := x })
      (storePtr X.zeroFloat64 (storeFloat64 X.parseFloat)),
    StructField.of "hackerone_triager" (·.HackeroneTriager)
      (fun s x => { s with HackeroneTriager := x }) (storePtr false storeBool),
    StructField.of "created_at" (·.CreatedAt) (fun s x => { s with CreatedAt := x })
      (storePtr X.zeroTimestamp X.storeTimestamp),
    StructField.of "participating_programs" (·.ParticipatingPrograms)
      (fun s x => { s with ParticipatingPrograms := x }) (storePrograms X) ]

/-- Go `struct { Data []Program }` under `Relationships.ParticipatingPrograms`. -/
structure userRelationshipsParticipatingPrograms (X : Externals) where
  Data : Option (List (Program X))

/-- The anonymous struct type of `userUnmarshalHelper.Relationships`. -/
structure userRelationships (X : Externals) where
  ParticipatingPrograms : userRelationshipsParticipatingPrograms X

def userRelationships.fields (X : Externals) : List (StructField (userRelationships X)) :=
  [ StructField.of "participating_programs" (·.ParticipatingPrograms)
      (fun (_ : userRelationships X) x => { ParticipatingPrograms := x })
      (storeStruct "struct Relationships.ParticipatingPrograms"
        [ StructField.of "data" (·.Data)
            (fun (_ : userRelationshipsParticipatingPrograms X) x => { Data := x })
            (storePrograms X) ]) ]

structure userUnmarshalHelper (X : Externals) where
  user : H1.user X
  Attributes : AttrPtr (H1.user X)
  Relationships : userRelationships X

/-- JSON fields of the helper. `Relationships` carries no `json` tag, so its JSON
name is the Go field name. -/
def userUnmarshalHelper.fields (X : Externals) : List (StructField (userUnmarshalHelper X)) :=
  (user.fields X).map (StructField.lift (·.user) (fun h c => { h with user := c })) ++
  [ { name := "attributes"
      store := storeAttributes (User.zero X) (storeStruct "h1.user" (user.fields X))
        (·.user) (fun h c => { h with user := c })
        (·.Attributes) (fun h q => { h with Attributes := q }) },
    StructField.of "Relationships" (·.Relationships) (fun h r => { h with Relationships := r })
      (storeStruct "struct Relationships" (userRelationships.fields X)) ]

def userUnmarshalHelper.init (X : Externals) : userUnmarshalHelper X :=
  { user := User.zero X, Attributes := .embedded,
    Relationships := { ParticipatingPrograms := { Data := none } } }

/-- Go `func (u *User) UnmarshalJSON(b []byte) error`. -/
def User.UnmarshalJSON {X : Externals} (u : User X) (b : List UInt8) :
    User X × Option JsonError :=
  let helper := userUnmarshalHelper.init X
  match Unmarshal b (storeStruct "h1.userUnmarshalHelper" (userUnmarshalHelper.fields X))
      helper with
  | .error err => (u, some err)
  | .ok helper =>
    let u : User X := helper.user
    let u := { u with ParticipatingPrograms := helper.Relationships.ParticipatingPrograms.Data }
    (u, none)

/-- A simple instance of the outside declarations: timestamps, groups and
members are JSON strings kept as text (anything else is rejected by their
`UnmarshalJSON`), floats are kept as their literal. -/
def Externals.text : Externals :=
  { Timestamp := String
    zeroTimestamp := ""
    storeTimestamp := fun v _ =>
      match v with
      | .str s => .ok (s, none)
      | _ => .error (.unmarshalerError "timestamp")
    Group := String
    zeroGroup := ""
    storeGroup := storeString
    Member := String
    zeroMember := ""
    storeMember := storeString
    Float64 := String
    zeroFloat64 := "0"
    parseFloat := fun lit => some lit }

/-! ### The helpers' embedded struct and `Attributes` pointer as independent fields -/

def credentialUnmarshalHelper.embedding : Embedding H1.credential credentialUnmarshalHelper :=
  { getE := (·.credential), setE := fun h c => { h with credential := c }
    getP := (·.Attributes), setP := fun h q => { h with Attributes := q }
    getE_setE := fun _ _ => rfl, setE_setE := fun _ _ _ => rfl, setE_getE := fun _ => rfl
    getP_setE := fun _ _ => rfl, getE_setP := fun _ _ => rfl }

def credentialInquiryUnmarshalHelper.embedding :
    Embedding H1.credentialInquiry credentialInquiryUnmarshalHelper :=
  { getE := (·.credentialInquiry), setE := fun h c => { h with credentialInquiry := c }
    getP := (·.Attributes), setP := fun h q => { h with Attributes := q }
    getE_setE := fun _ _ => rfl, setE_setE := fun _ _ _ => rfl, setE_getE := fun _ => rfl
    getP_setE := fun _ _ => rfl, getE_setP := fun _ _ => rfl }

def structuredScopeUnmarshalHelper.embedding (X : Externals) :
    Embedding (H1.structuredScope X) (structuredScopeUnmarshalHelper X) :=
  { getE := (·.structuredScope), setE := fun h c => { h with structuredScope := c }
    getP := (·.Attributes), setP := fun h q => { h with Attributes := q }
    getE_setE := fun _ _ => rfl, setE_setE := fun _ _ _ => rfl, setE_getE := fun _ => rfl
    getP_setE := fun _ _ => rfl, getE_setP := fun _ _ => rfl }

def programUnmarshalHelper.embedding (X : Externals) :
    Embedding (H1.program X) (programUnmarshalHelper X) :=
  { getE := (·.program), setE := fun h c => { h with program := c }
    getP := (·.Attributes), setP := fun h q => { h with Attributes := q }
    getE_setE := fun _ _ => rfl, setE_setE := fun _ _ _ => rfl, setE_getE := fun _ => rfl
    getP_setE := fun _ _ => rfl, getE_setP := fun _ _ => rfl }

def userUnmarshalHelper.embedding (X : Externals) : Embedding (H1.user X) (userUnmarshalHelper X) :=
  { getE := (·.user), setE := fun h c => { h with user := c }
    getP := (·.Attributes), setP := fun h q => { h with Attributes := q }
    getE_setE := fun _ _ => rfl, setE_setE := fun _ _ _ => rfl, setE_getE := fun _ => rfl
    getP_setE := fun _ _ => rfl, getE_setP := fun _ _ => rfl }

/-! ### The fields of the resource structs by kind

For each resource struct, `pointers` lists its pointer fields (JSON name, "the
field is nil") and `values` its fields of a value type (JSON name, "the field
holds the zero value of its type"). The fields filled from `relationships`
(`Program.Groups`, `Program.Members`, `User.ParticipatingPrograms`) are in
neither list. -/

def Credential.pointers : List (String × (Credential → Prop)) :=
  [ ("id", fun c => c.ID = none), ("type", fun c => c.«Type» = none),
    ("credentials", fun c => c.Credentials = none), ("revoked", fun c => c.Revoked = none),
    ("assignee_id", fun c => c.AssigneeID = none),
    ("assignee_username", fun c => c.AssigneeUsername = none) ]

def CredentialInquiry.pointers : List (String × (CredentialInquiry → Prop)) :=
  [ ("id", fun c => c.ID = none), ("type", fun c => c.«Type» = none),
    ("description", fun c => c.Description = none) ]

def Program.pointers (X : Externals) : List (String × (Program X → Prop)) :=
  [ ("id", fun c => c.ID = none), ("type", fun c => c.«Type» = none),
    ("handle", fun c => c.Handle = none), ("policy", fun c => c.Policy = none),
    ("created_at", fun c => c.CreatedAt = none), ("updated_at", fun c => c.UpdatedAt = none) ]

def StructuredScope.pointers (X : Externals) : List (String × (StructuredScope X → Prop)) :=
  [ ("id", fun c => c.ID = none), ("type", fun c => c.«Type» = none),
    ("instruction", fun c => c.Instruction = none),
    ("confidentiality_requirement", fun c => c.ConfidentialityRequirement = none),
    ("integrity_requirement", fun c => c.IntegrityRequirement = none),
    ("availability_requirement", fun c => c.AvailabilityRequirement = none),
    ("created_at", fun c => c.CreatedAt = none), ("updated_at", fun c => c.UpdatedAt = none),
    ("reference", fun c => c.Reference = none) ]

def StructuredScope.values (X : Externals) : List (String × (StructuredScope X → Prop)) :=
  [ ("asset_identifier", fun c => c.AssetIdentifier = ""),
    ("asset_type", fun c => c.AssetType = ""),
    ("eligible_for_bounty", fun c => c.EligibleForBounty = false),
    ("eligible_for_submission", fun c => c.EligibleForSubmission = false),
    ("max_severity", fun c => c.MaxSeverity = "") ]

def User.pointers (X : Externals) : List (String × (User X → Prop)) :=
  [ ("id", fun c => c.ID = none), ("type", fun c => c.«Type» = none),
    ("disabled", fun c => c.Disabled = none), ("username", fun c => c.Username = none),
    ("name", fun c => c.Name = none), ("bio", fun c => c.Bio = none),
    ("website", fun c => c.Website = none), ("location", fun c => c.Location = none),
    ("reputation", fun c => c.Reputation = none), ("signal", fun c => c.Signal = none),
    ("impact", fun c => c.Impact = none),
    ("hackerone_triager", fun c => c.HackeroneTriager = none),
    ("created_at", fun c => c.CreatedAt = none) ]

def User.values (X : Externals) : List (String × (User X → Prop)) :=
  [ ("profile_picture", fun c => c.ProfilePicture = UserProfilePicture.zero) ]

/-! ### Listing services: report_service.go, program_service.go, credential_service.go -/

/-- Modelled from the spec: the page link set of a response, `{self,
next(optional), previous(optional)}`; an absent link is the empty string. The
type is declared outside the embedded files. -/
structure Links where
  Self : String
  Next : String
  Previous : String
  deriving DecidableEq, Repr

/-- Modelled from the spec: the response of the transport collaborator, which
"exposes pagination link metadata". The type is declared outside the embedded
files. -/
structure Response where
  Links : H1.Links
  deriving DecidableEq, Repr

/-- Modelled from the spec: the list cursor `{page number, page size}`. The type
is declared outside the embedded files. -/
structure ListOptions where
  Page : Nat
  PageSize : Nat
  deriving DecidableEq, Repr

/-- What one call `resp, err := s.client.Do(req, v)` gives: the slice left in
`*v`, the response and the error. -/
structure DoResult (Item Err : Type) where
  data : Option (List Item)
  resp : Option Response
  err : Option Err

/-- Modelled from the spec: the transport collaborator (`s.client` with
`NewRequest` and `Do`) and the other declarations the listing methods use that
are outside the embedded files: `addOptions` (whose error the callers drop),
`defaultPageSize` and `Links.NextPageNumber`. `World` is the state of everything
the transport talks to; `Do` may change it. -/
structure service (World Request Err Opts Item : Type) where
  addOptions : String → Opts → ListOptions → String
  NewRequest : String → String → Except Err Request
  Do : Request → World → DoResult Item Err × World
  defaultPageSize : Nat
  NextPageNumber : Links → Nat

/-- The three results `([]T, *Response, error)` of a listing method. -/
structure Listing (Item Err : Type) where
  items : Option (List Item)
  resp : Option Response
  err : Option Err

/-- How a call ends: it returns, or it dereferences a nil `*Response`. -/
inductive Outcome (ρ : Type) where
  | returned (r : ρ)
  | nilDereference

/-- One pass through the body of a `for { … }` loop. -/
inductive LoopStep (σ ρ : Type) where
  | again (s : σ)
  | leave (r : ρ)

/-- A `for { … }` loop run for at most `fuel` passes; `none` when the passes are
used up before the loop is left. -/
def forLoop {σ ρ : Type} (body : σ → LoopStep σ ρ) : Nat → σ → Option ρ
  | 0, _ => none
  | fuel + 1, s =>
    match body s with
    | .leave r => some r
    | .again s2 => forLoop body fuel s2

/-- A Go slice `[]T` that is not nil. -/
abbrev Slice (α : Type) := List α

section Services

variable {World Request Err Item : Type}

/-- Go `func (s *ReportService) List(filterOpts, listOpts)`. -/
def ReportService.List {ReportListFilter : Type}
    (s : service World Request Err ReportListFilter Item)
    (filterOpts : ReportListFilter) (listOpts : ListOptions) (w : World) :
    Listing Item Err × World :=
  let u := s.addOptions "reports" filterOpts listOpts
  match s.NewRequest "GET" u with
  | .error err => ({ items := none, resp := none, err := some err }, w)
  | .ok req =>
    let (r, w2) := s.Do req w
    match r.err with
    | some err => ({ items := none, resp := r.resp, err := some err }, w2)
    | none => ({ items := r.data, resp := r.resp, err := none }, w2)

/-- Go `func (s *ReportService) ListAll(filterOpts)`. The loop state is
`(listOpts, reports, world, calls)`, where `calls` is ghost state counting the calls
of `s.List`; it is returned beside the results and the final world. -/
def ReportService.ListAll {ReportListFilter : Type}
    (s : service World Request Err ReportListFilter Item)
    (filterOpts : ReportListFilter) (fuel : Nat) (w : World) :
    Option (Outcome (Listing Item Err) × World × Nat) :=
  let listOpts : ListOptions := { Page := 0, PageSize := s.defaultPageSize }
  let reports : Slice Item := []
  forLoop (fun (st : ListOptions × Slice Item × World × Nat) =>
    let (listOpts, reports, w, calls) := st
    match ReportService.List s filterOpts listOpts w with
    | ({ items := _, resp := resp, err := some err }, w2) =>
      .leave (.returned { items := none, resp := resp, err := some err }, w2, calls + 1)
    | ({ items := reportList, resp := resp, err := none }, w2) =>
      let reports := reports ++ reportList.getD []
      match resp with
      | none => .leave (.nilDereference, w2, calls + 1)
      | some resp =>
        if resp.Links.Next = "" then
          .leave (.returned { items := some reports, resp := none, err := none }, w2, calls + 1)
        else
          .again ({ listOpts with Page := s.NextPageNumber resp.Links }, reports, w2, calls + 1))
    fuel (listOpts, reports, w, 0)

/-- Go `func (s *ProgramService) ListStructuredScopes(programID, listOpts)`. -/
def ProgramService.ListStructuredScopes (s : service World Request Err Unit Item)
    (programID : String) (listOpts : ListOptions) (w : World) : Listing Item Err × World :=
  let opts : Unit := ()
  let u := s.addOptions ("programs/" ++ programID ++ "/structured_scopes") opts listOpts
  match s.NewRequest "GET" u with
  | .error err => ({ items := none, resp := none, err := some err }, w)
  | .ok req =>
    let (r, w2) := s.Do req w
    match r.err with
    | some err => ({ items := none, resp := r.resp, err := some err }, w2)
    | none => ({ items := r.data, resp := r.resp, err := none }, w2)

/-- Go `func (s *ProgramService) ListAllStructuredScopes(programID)`, with the ghost
counter of `s.ListStructuredScopes` calls. -/
def ProgramService.ListAllStructuredScopes (s : service World Request Err Unit Item)
    (programID : String) (fuel : Nat) (w : World) :
    Option (Outcome (Listing Item Err) × World × Nat) :=
  let listOpts : ListOptions := { Page := 0, PageSize := s.defaultPageSize }
  let data : List Item := []
  forLoop (fun (st : ListOptions × List Item × World × Nat) =>
    let (listOpts, data, w, calls) := st
    match ProgramService.ListStructuredScopes s programID listOpts w with
    | ({ items := _, resp := resp, err := some err }, w2) =>
      .leave (.returned { items := none, resp := resp, err := some err }, w2, calls + 1)
    | ({ items := items, resp := resp, err := none }, w2) =>
      let data := data ++ items.getD []
      match resp with
      | none => .leave (.nilDereference, w2, calls + 1)
      | some resp =>
        if resp.Links.Next = "" then
          .leave (.returned { items := some data, resp := none, err := none }, w2, calls + 1)
        else
          .again ({ listOpts with Page := s.NextPageNumber resp.Links }, data, w2, calls + 1))
    fuel (listOpts, data, w, 0)

/-- Go `func (s *CredentialService) ListCredentialInquiries(programID, listOpts)`. -/
def CredentialService.ListCredentialInquiries (s : service World Request Err Unit Item)
    (programID : String) (listOpts : ListOptions) (w : World) : Listing Item Err × World :=
  let opts : Unit := ()
  let u := s.addOptions ("programs/" ++ programID ++ "/credential_inquiries") opts listOpts
  match s.NewRequest "GET" u with
  | .error err => ({ items := none, resp := none, err := some err }, w)
  | .ok req =>
    let (r, w2) := s.Do req w
    match r.err with
    | some err => ({ items := none, resp := r.resp, err := some err }, w2)
    | none => ({ items := r.data, resp := r.resp, err := none }, w2)

/-- Go `func (s *CredentialService) ListAllCredentialInquiries(programID)`, with the
ghost counter of `s.ListCredentialInquiries` calls. -/
def CredentialService.ListAllCredentialInquiries (s : service World Request Err Unit Item)
    (programID : String) (fuel : Nat) (w : World) :
    Option (Outcome (Listing Item Err) × World × Nat) :=
  let listOpts : ListOptions := { Page := 0, PageSize := s.defaultPageSize }
  let data : List Item := []
  forLoop (fun (st : ListOptions × List Item × World × Nat) =>
    let (listOpts, data, w, calls) := st
    match CredentialService.ListCredentialInquiries s programID listOpts w with
    | ({ items := _, resp := resp, err := some err }, w2) =>
      .leave (.returned { items := none, resp := resp, err := some err }, w2, calls + 1)
    | ({ items := items, resp := resp, err := none }, w2) =>
      let data := data ++ items.getD []
      match resp with
      | none => .leave (.nilDereference, w2, calls + 1)
      | some resp =>
        if resp.Links.Next = "" then
          .leave (.returned { items := some data, resp := none, err := none }, w2, calls + 1)
        else
          .again ({ listOpts with Page := s.NextPageNumber resp.Links }, data, w2, calls + 1))
    fuel (listOpts, data, w, 0)

/-- Go `func (s *CredentialService) ListCredentialInquiryResponses(programID, inquiryID,
listOpts)`. -/
def CredentialService.ListCredentialInquiryResponses (s : service World Request Err Unit Item)
    (programID inquiryID : String) (listOpts : ListOptions) (w : World) :
    Listing Item Err × World :=
  let opts : Unit := ()
  let u := s.addOptions
    ("programs/" ++ programID ++ "/credential_inquiries/" ++ inquiryID
      ++ "/credential_inquiry_responses") opts listOpts
  match s.NewRequest "GET" u with
  | .error err => ({ items := none, resp := none, err := some err }, w)
  | .ok req =>
    let (r, w2) := s.Do req w
    match r.err with
    | some err => ({ items := none, resp := r.resp, err := some err }, w2)
    | none => ({ items := r.data, resp := r.resp, err := none }, w2)

/-- Go `func (s *CredentialService) ListAllCredentialInquiryResponses(programID,
inquiryID)`, with the ghost counter of `s.ListCredentialInquiryResponses` calls. -/
def CredentialService.ListAllCredentialInquiryResponses
    (s : service World Request Err Unit Item) (programID inquiryID : String) (fuel : Nat)
    (w : World) : Option (Outcome (Listing Item Err) × World × Nat) :=
  let listOpts : ListOptions := { Page := 0, PageSize := s.defaultPageSize }
  let data : List Item := []
  forLoop (fun (st : ListOptions × List Item × World × Nat) =>
    let (listOpts, data, w, calls) := st
    match CredentialService.ListCredentialInquiryResponses s programID inquiryID listOpts w with
    | ({ items := _, resp := resp, err := some err }, w2) =>
      .leave (.returned { items := none, resp := resp, err := some err }, w2, calls + 1)
    | ({ items := items, resp := resp, err := none }, w2) =>
      let data := data ++ items.getD []
      match resp with
      | none => .leave (.nilDereference, w2, calls + 1)
      | some resp =>
        if resp.Links.Next = "" then
          .leave (.returned { items := some data, resp := none, err := none }, w2, calls + 1)
        else
          .again ({ listOpts with Page := s.NextPageNumber resp.Links }, data, w2, calls + 1))
    fuel (listOpts, data, w, 0)

end Services

/-! ### Definitions used to state the properties of the listing loops -/

section Pagination

variable {World Err Item : Type}

/-- The common body of the four `ListAll…` loops, over the page fetch method
`fetch` they call. -/
def paginateBody (fetch : ListOptions → World → Listing Item Err × World) (next : Links → Nat)
    (st : ListOptions × List Item × World × Nat) :
    LoopStep (ListOptions × List Item × World × Nat) (Outcome (Listing Item Err) × World × Nat) :=
  let (listOpts, data, w, calls) := st
  match fetch listOpts w with
  | ({ items := _, resp := resp, err := some err }, w2) =>
    .leave (.returned { items := none, resp := resp, err := some err }, w2, calls + 1)
  | ({ items := items, resp := resp, err := none }, w2) =>
    let data := data ++ items.getD []
    match resp with
    | none => .leave (.nilDereference, w2, calls + 1)
    | some resp =>
      if resp.Links.Next = "" then
        .leave (.returned { items := some data, resp := none, err := none }, w2, calls + 1)
      else
        .again ({ listOpts with Page := next resp.Links }, data, w2, calls + 1)

/-- The common shape of the four `ListAll…` methods. -/
def paginate (fetch : ListOptions → World → Listing Item Err × World) (next : Links → Nat)
    (pageSize : Nat) (fuel : Nat) (w : World) : Option (Outcome (Listing Item Err) × World × Nat) :=
  forLoop (paginateBody fetch next) fuel ({ Page := 0, PageSize := pageSize }, [], w, 0)

/-- A successful page: the slice the fetch returned and its response. -/
abbrev Page (Item : Type) := Option (List Item) × Response

/-- The items of a page (a nil slice has none). -/
def Page.items (p : Page Item) : List Item := p.1.getD []

/-- The predicate `Serves fetch next opts w pages w2 opts2`: from world `w` and cursor `opts`,
the successive calls of `fetch` return the pages `pages`, in this order, each
with a nil error, the cursor being moved after each page to the page number of
its `next` link; the calls leave the world `w2` and the cursor `opts2`. -/
def Serves (fetch : ListOptions → World → Listing Item Err × World) (next : Links → Nat) :
    ListOptions → World → List (Page Item) → World → ListOptions → Prop
  | opts, w, [], w2, opts2 => w2 = w ∧ opts2 = opts
  | opts, w, p :: ps, w2, opts2 =>
    ∃ w1, fetch opts w = ({ items := p.1, resp := some p.2, err := none }, w1) ∧
      Serves fetch next { opts with Page := next p.2.Links } w1 ps w2 opts2

/-- A transport that answers the successive `Do` calls with queued results and
records the requests it received. -/
structure Script (Item Err : Type) where
  pending : List (DoResult Item Err)
  requests : List (String × String)

/-- A service over a scripted transport: requests are `(method, url)` pairs,
`NewRequest` always succeeds, `Do` hands out the next queued result (the error
`closed` once the queue is empty), the URL renders the cursor, and the page
number of a `next` link is its length. -/
def scripted {Opts : Type} (closed : Err) (pageSize : Nat) :
    service (Script Item Err) (String × String) Err Opts Item :=
  { addOptions := fun path _ o => path ++ "?page=" ++ toString o.Page ++ "&size=" ++ toString o.PageSize
    NewRequest := fun m u => .ok (m, u)
    Do := fun req w =>
      match w.pending with
      | [] => ({ data := none, resp := none, err := some closed },
               { w with requests := w.requests ++ [req] })
      | r :: rest => (r, { pending := rest, requests := w.requests ++ [req] })
    defaultPageSize := pageSize
    NextPageNumber := fun l => l.Next.length }

/-- Three queued pages of sizes 2, 2 and 1; the first two carry a `next` link. -/
def samplePages : List (Page Nat) :=
  [ (some [1, 2], { Links := { Self := "p1", Next := "p2", Previous := "" } }),
    (some [3, 4], { Links := { Self := "p2", Next := "p3", Previous := "p1" } }),
    (some [5], { Links := { Self := "p3", Next := "", Previous := "p2" } }) ]

/-- The scripted transport that answers with `samplePages`. -/
def sampleWorld : Script Nat String :=
  { pending := samplePages.map (fun p => { data := p.1, resp := some p.2, err := none })
    requests := [] }

/-- The scripted transport whose second answer is an error. -/
def failingWorld : Script Nat String :=
  { pending :=
      [ { data := some [1, 2],
          resp := some { Links := { Self := "p1", Next := "p2", Previous := "" } }, err := none },
        { data := none, resp := none, err := some "boom" },
        { data := some [5],
          resp := some { Links := { Self := "p3", Next := "", Previous := "p2" } }, err := none } ]
    requests := [] }

end Pagination

/-! ### Definitions used to state the properties of the decoders -/

/-- The document `doc2` is `doc1` without one member `k: null`, taken out at top
level or out of an object under a key that selects `attributes`. -/
def nullDropped (k : String) (doc1 doc2 : JSON) : Prop :=
  (∃ ms1 ms2, doc1 = .obj (ms1 ++ (k, .null) :: ms2) ∧ doc2 = .obj (ms1 ++ ms2)) ∨
  (∃ ms1 ka as1 as2 ms2, foldName ka = foldName "attributes" ∧
    doc1 = .obj (ms1 ++ (ka, .obj (as1 ++ (k, .null) :: as2)) :: ms2) ∧
    doc2 = .obj (ms1 ++ (ka, .obj (as1 ++ as2)) :: ms2))

/-- Two calls return the same struct, and one returns an error exactly when the
other does. -/
def sameOutcome {α : Type} (r1 r2 : α × Option JsonError) : Prop :=
  r1.1 = r2.1 ∧ (r1.2 = none ↔ r2.2 = none)

/-! The fields that hold a JSON string, `*string` or `string`, by JSON name, each
with the string it holds (`none` for a nil pointer). -/

def Credential.strings : List (String × (Credential → Option String)) :=
  [ ("id", fun c => c.ID), ("type", fun c => c.«Type»), ("assignee_id", fun c => c.AssigneeID),
    ("assignee_username", fun c => c.AssigneeUsername) ]

def CredentialInquiry.strings : List (String × (CredentialInquiry → Option String)) :=
  [ ("id", fun c => c.ID), ("type", fun c => c.«Type»), ("description", fun c => c.Description) ]

def StructuredScope.strings (X : Externals) : List (String × (StructuredScope X → Option String)) :=
  [ ("id", fun c => c.ID), ("type", fun c => c.«Type»),
    ("asset_identifier", fun c => some c.AssetIdentifier),
    ("asset_type", fun c => some c.AssetType), ("instruction", fun c => c.Instruction),
    ("confidentiality_requirement", fun c => c.ConfidentialityRequirement),
    ("integrity_requirement", fun c => c.IntegrityRequirement),
    ("availability_requirement", fun c => c.AvailabilityRequirement),
    ("max_severity", fun c => some c.MaxSeverity), ("reference", fun c => c.Reference) ]

def Program.strings (X : Externals) : List (String × (Program X → Option String)) :=
  [ ("id", fun c => c.ID), ("type", fun c => c.«Type»), ("handle", fun c => c.Handle),
    ("policy", fun c => c.Policy) ]

def User.strings (X : Externals) : List (String × (User X → Option String)) :=
  [ ("id", fun c => c.ID), ("type", fun c => c.«Type»), ("username", fun c => c.Username),
    ("name", fun c => c.Name), ("bio", fun c => c.Bio), ("website", fun c => c.Website),
    ("location", fun c => c.Location) ]

/-! ### The resource structs as Go values, and their default encoding

A Go `string` is a sequence of bytes. What a decoder stores is always valid
UTF-8, which is why the structs above hold text; a value built by a caller can
hold any bytes, and that is the value `json.Marshal` is given. No `MarshalJSON` is
declared for the resource structs, so `json.Marshal` writes the members in field
order under the names of the `json` tags, `null` for a nil pointer, and leaves out
a member tagged `omitempty` whose slice is nil or empty. The encoder is modelled
by the document it writes. -/


/-- Declarations of package `h1` outside the embedded files that `encoding/json`
uses to encode a `Timestamp`, a `Group` and a `Member`: the document each value
is written as (by its `MarshalJSON` method or field by field). -/
structure Encoders (X : Externals) where
  marshalTimestamp : X.Timestamp → JSON
  marshalGroup : X.Group → JSON
  marshalMember : X.Member → JSON

/-- The encoders that go with `Externals.text`: each value is written as a JSON
string. -/
def Encoders.text : Encoders Externals.text :=
  { marshalTimestamp := .str, marshalGroup := .str, marshalMember := .str }

/-- Go `type CredentialsTable struct`, its strings as bytes. -/
structure CredentialsTableValue where
  Username : Option GoString
  Password : Option GoString
  deriving DecidableEq, Repr

/-- Go `type Credentials struct`, its strings as bytes. -/
structure CredentialsValue where
  Table : Option CredentialsTableValue
  deriving DecidableEq, Repr

/-- Go `type Credential struct`, its strings as bytes. -/
structure CredentialValue where
  ID : Option GoString
  «Type» : Option GoString
  Credentials : Option CredentialsValue
  Revoked : Option Bool
  AssigneeID : Option GoString
  AssigneeUsername : Option GoString
  deriving DecidableEq, Repr

/-- Go `type CredentialInquiry struct`, its strings as bytes. -/
structure CredentialInquiryValue where
  ID : Option GoString
  «Type» : Option GoString
  Description : Option GoString
  deriving DecidableEq, Repr

/-- Go `type StructuredScope struct`, its strings as bytes. -/
structure StructuredScopeValue (X : Externals) where
  ID : Option GoString
  «Type» : Option GoString
  AssetIdentifier : GoString
  AssetType : GoString
  EligibleForBounty : Bool
  EligibleForSubmission : Bool
  Instruction : Option GoString
  ConfidentialityRequirement : Option GoString
  IntegrityRequirement : Option GoString
  AvailabilityRequirement : Option GoString
  MaxSeverity : GoString
  CreatedAt : Option X.Timestamp
  UpdatedAt : Option X.Timestamp
  Reference : Option GoString

/-- Go `type Program struct`, its strings as bytes. -/
structure ProgramValue (X : Externals) where
  ID : Option GoString
  «Type» : Option GoString
  Handle : Option GoString
  Policy : Option GoString
  CreatedAt : Option X.Timestamp
  UpdatedAt : Option X.Timestamp
  Groups : Option (List (Option X.Group))
  Members : Option (List (Option X.Member))

/-- The Go value that holds the texts of a `CredentialsTable`. -/
def CredentialsTable.toValue (t : CredentialsTable) : CredentialsTableValue :=
  { Username := t.Username.map goString, Password := t.Password.map goString }

/-- The Go value that holds the texts of a `Credentials`. -/
def Credentials.toValue (c : Credentials) : CredentialsValue :=
  { Table := c.Table.map CredentialsTable.toValue }

/-- The Go value that holds the texts of a `Credential`. -/
def Credential.toValue (c : Credential) : CredentialValue :=
  { ID := c.ID.map goString, «Type» := c.«Type».map goString,
    Credentials := c.Credentials.map Credentials.toValue, Revoked := c.Revoked,
    AssigneeID := c.AssigneeID.map goString,
    AssigneeUsername := c.AssigneeUsername.map goString }

/-- The Go value that holds the texts of a `CredentialInquiry`. -/
def CredentialInquiry.toValue (c : CredentialInquiry) : CredentialInquiryValue :=
  { ID := c.ID.map goString, «Type» := c.«Type».map goString,
    Description := c.Description.map goString }

/-- The Go value that holds the texts of a `StructuredScope`. -/
def StructuredScope.toValue {X : Externals} (s : StructuredScope X) : StructuredScopeValue X :=
  { ID := s.ID.map goString, «Type» := s.«Type».map goString,
    AssetIdentifier := goString s.AssetIdentifier, AssetType := goString s.AssetType,
    EligibleForBounty := s.EligibleForBounty, EligibleForSubmission := s.EligibleForSubmission,
    Instruction := s.Instruction.map goString,
    ConfidentialityRequirement := s.ConfidentialityRequirement.map goString,
    IntegrityRequirement := s.IntegrityRequirement.map goString,
    AvailabilityRequirement := s.AvailabilityRequirement.map goString,
    MaxSeverity := goString s.MaxSeverity, CreatedAt := s.CreatedAt, UpdatedAt := s.UpdatedAt,
    Reference := s.Reference.map goString }

/-- The Go value that holds the texts of a `Program`. -/
def Program.toValue {X : Externals} (p : Program X) : ProgramValue X :=
  { ID := p.ID.map goString, «Type» := p.«Type».map goString, Handle := p.Handle.map goString,
    Policy := p.Policy.map goString, CreatedAt := p.CreatedAt, UpdatedAt := p.UpdatedAt,
    Groups := p.Groups, Members := p.Members }

/-- The struct a Go `CredentialsTable` is read back as: the text of each string. -/
def CredentialsTableValue.text (t : CredentialsTableValue) : CredentialsTable :=
  { Username := t.Username.map goText, Password := t.Password.map goText }

/-- The struct a Go `Credentials` is read back as. -/
def CredentialsValue.text (c : CredentialsValue) : Credentials :=
  { Table := c.Table.map CredentialsTableValue.text }

/-- The struct a Go `Credential` is read back as: the text of each string. -/
def CredentialValue.text (c : CredentialValue) : Credential :=
  { ID := c.ID.map goText, «Type» := c.«Type».map goText,
    Credentials := c.Credentials.map CredentialsValue.text, Revoked := c.Revoked,
    AssigneeID := c.AssigneeID.map goText, AssigneeUsername := c.AssigneeUsername.map goText }

/-- The struct a Go `CredentialInquiry` is read back as: the text of each string. -/
def CredentialInquiryValue.text (c : CredentialInquiryValue) : CredentialInquiry :=
  { ID := c.ID.map goText, «Type» := c.«Type».map goText,
    Description := c.Description.map goText }

/-- The struct a Go `StructuredScope` is read back as: the text of each string. -/
def StructuredScopeValue.text {X : Externals} (s : StructuredScopeValue X) : StructuredScope X :=
  { ID := s.ID.map goText, «Type» := s.«Type».map goText,
    AssetIdentifier := goText s.AssetIdentifier, AssetType := goText s.AssetType,
    EligibleForBounty := s.EligibleForBounty, EligibleForSubmission := s.EligibleForSubmission,
    Instruction := s.Instruction.map goText,
    ConfidentialityRequirement := s.ConfidentialityRequirement.map goText,
    IntegrityRequirement := s.IntegrityRequirement.map goText,
    AvailabilityRequirement := s.AvailabilityRequirement.map goText,
    MaxSeverity := goText s.MaxSeverity, CreatedAt := s.CreatedAt, UpdatedAt := s.UpdatedAt,
    Reference := s.Reference.map goText }

/-- The struct a Go `Program` is read back as from its flat encoding: the text of
each string, and no groups or members. -/
def ProgramValue.text {X : Externals} (p : ProgramValue X) : Program X :=
  { ID := p.ID.map goText, «Type» := p.«Type».map goText, Handle := p.Handle.map goText,
    Policy := p.Policy.map goText, CreatedAt := p.CreatedAt, UpdatedAt := p.UpdatedAt,
    Groups := none, Members := none }

/-- Model of `json.Marshal` on a `CredentialsTable`: the document it writes. -/
def CredentialsTableValue.Marshal (t : CredentialsTableValue) : JSON :=
  .obj [("username", marshalPtr marshalString t.Username),
    ("password", marshalPtr marshalString t.Password)]

/-- Model of `json.Marshal` on a `Credentials`. -/
def CredentialsValue.Marshal (c : CredentialsValue) : JSON :=
  .obj [("table", marshalPtr CredentialsTableValue.Marshal c.Table)]

/-- Model of `json.Marshal` on a `Credential`: one member for each field, in field
order, `null` for a nil pointer. -/
def CredentialValue.Marshal (c : CredentialValue) : JSON :=
  .obj [ ("id", marshalPtr marshalString c.ID), ("type", marshalPtr marshalString c.«Type»),
    ("credentials", marshalPtr CredentialsValue.Marshal c.Credentials),
    ("revoked", marshalPtr .bool c.Revoked),
    ("assignee_id", marshalPtr marshalString c.AssigneeID),
    ("assignee_username", marshalPtr marshalString c.AssigneeUsername) ]

/-- Model of `json.Marshal` on a `CredentialInquiry`. -/
def CredentialInquiryValue.Marshal (c : CredentialInquiryValue) : JSON :=
  .obj [ ("id", marshalPtr marshalString c.ID), ("type", marshalPtr marshalString c.«Type»),
    ("description", marshalPtr marshalString c.Description) ]

/-- Model of `json.Marshal` on a `StructuredScope`; the five value fields are
written as a string or a boolean. -/
def StructuredScopeValue.Marshal {X : Externals} (M : Encoders X) (s : StructuredScopeValue X) :
    JSON :=
  .obj [ ("id", marshalPtr marshalString s.ID), ("type", marshalPtr marshalString s.«Type»),
    ("asset_identifier", marshalString s.AssetIdentifier),
    ("asset_type", marshalString s.AssetType),
    ("eligible_for_bounty", .bool s.EligibleForBounty),
    ("eligible_for_submission", .bool s.EligibleForSubmission),
    ("instruction", marshalPtr marshalString s.Instruction),
    ("confidentiality_requirement", marshalPtr marshalString s.ConfidentialityRequirement),
    ("integrity_requirement", marshalPtr marshalString s.IntegrityRequirement),
    ("availability_requirement", marshalPtr marshalString s.AvailabilityRequirement),
    ("max_severity", marshalString s.MaxSeverity),
    ("created_at", marshalPtr M.marshalTimestamp s.CreatedAt),
    ("updated_at", marshalPtr M.marshalTimestamp s.UpdatedAt),
    ("reference", marshalPtr marshalString s.Reference) ]

/-- Model of `json.Marshal` on a `Program`: `Groups` is written under `groups` and
`Members` under `member` (the names of the tags), each left out when the slice is
nil or empty (`omitempty`). -/
def ProgramValue.Marshal {X : Externals} (M : Encoders X) (p : ProgramValue X) : JSON :=
  .obj ([ ("id", marshalPtr marshalString p.ID), ("type", marshalPtr marshalString p.«Type»),
    ("handle", marshalPtr marshalString p.Handle),
    ("policy", marshalPtr marshalString p.Policy),
    ("created_at", marshalPtr M.marshalTimestamp p.CreatedAt),
    ("updated_at", marshalPtr M.marshalTimestamp p.UpdatedAt) ] ++
    marshalOmitEmpty "groups" (marshalPtr M.marshalGroup) p.Groups ++
    marshalOmitEmpty "member" (marshalPtr M.marshalMember) p.Members)

/-! ### Definitions used to state how the listing loops move the cursor -/

section Cursor
variable {World Request Err Opts Item : Type}

/-- The service `s` over a transport that also records, in order, each request
it receives together with the response it gives. -/
def recording (s : service World Request Err Opts Item) :
    service (World × List (Request × Option Response)) Request Err Opts Item :=
  { addOptions := s.addOptions
    NewRequest := s.NewRequest
    Do := fun req w =>
      let (r, w2) := s.Do req w.1
      (r, (w2, w.2 ++ [(req, r.resp)]))
    defaultPageSize := s.defaultPageSize
    NextPageNumber := s.NextPageNumber }

/-- The common body of the four `List…` methods, over the path and the options
they pass to `addOptions`. -/
def listWith (s : service World Request Err Opts Item) (path : String) (opts : Opts)
    (listOpts : ListOptions) (w : World) : Listing Item Err × World :=
  let u := s.addOptions path opts listOpts
  match s.NewRequest "GET" u with
  | .error err => ({ items := none, resp := none, err := some err }, w)
  | .ok req =>
    let (r, w2) := s.Do req w
    match r.err with
    | some err => ({ items := none, resp := r.resp, err := some err }, w2)
    | none => ({ items := r.data, resp := r.resp, err := none }, w2)

/-- The predicate `cursorTrace build next c log` on the recorded requests of a
paginator: the first request is the one `build` makes from the cursor `c`, and
each later request is made from the cursor of the request before it with `Page`
replaced by the page number `next` reads from the links of the response to that
request; `PageSize` is the same in all of them. -/
def cursorTrace (build : ListOptions → Except Err Request) (next : Links → Nat) :
    ListOptions → List (Request × Option Response) → Prop
  | _, [] => True
  | c, (req, resp) :: rest =>
    build c = .ok req ∧
      (rest = [] ∨
        ∃ r, resp = some r ∧ cursorTrace build next { c with Page := next r.Links } rest)

/-- Three queued pages of sizes 2, 2 and 1; the `next` links of the first two have
the lengths 4 and 7, which `scripted` reads as their page numbers. -/
def cursorPages : List (Page Nat) :=
  [ (some [1, 2], { Links := { Self := "a", Next := "four", Previous := "" } }),
    (some [3, 4], { Links := { Self := "b", Next := "seventh", Previous := "a" } }),
    (some [5], { Links := { Self := "c", Next := "", Previous := "b" } }) ]

/-- The scripted transport that answers with `cursorPages`. -/
def cursorWorld : Script Nat String :=
  { pending := cursorPages.map (fun p => { data := p.1, resp := some p.2, err := none })
    requests := [] }

end Cursor

end H1


/-! ## Properties -/

/-! ### The scanner: consumed input and fuel -/

namespace Json

theorem skipSpace_length (s : List Nat) : (skipSpace s).length ≤ s.length := by
  induction s with
  | nil => simp [skipSpace]
  | cons c rest ih =>
    simp only [skipSpace]
    split
    · simp only [List.length_cons]; omega
    · simp

theorem skipSpace_cons_length (s rest : List Nat) (c : Nat) (h : skipSpace s = c :: rest) :
    rest.length + 1 ≤ s.length := by
  have := skipSpace_length s
  rw [h] at this
  simpa using this

theorem expectBytes_length (lit : List Nat) :
    ∀ (s r : List Nat), expectBytes lit s = .ok ((), r) → r.length ≤ s.length := by
  induction lit with
  | nil =>
    intro s r h
    simp only [expectBytes, Except.ok.injEq, Prod.mk.injEq, true_and] at h
    rw [h]
  | cons l ls ih =>
    intro s r h
    cases s with
    | nil => simp [expectBytes] at h
    | cons c rest =>
      simp only [expectBytes] at h
      split at h
      · have := ih rest r h
        simp only [List.length_cons]; omega
      · cases h

theorem takeDigits_length (s : List Nat) : (takeDigits s).2.length ≤ s.length := by
  induction s with
  | nil => simp [takeDigits]
  | cons c rest ih =>
    simp only [takeDigits]
    split
    · simp only [List.length_cons]; omega
    · simp

theorem takeDigits1_length (s ds r : List Nat) (h : takeDigits1 s = .ok (ds, r)) :
    r.length + 1 ≤ s.length := by
  cases s with
  | nil => simp [takeDigits1] at h
  | cons c rest =>
    simp only [takeDigits1] at h
    split at h
    · simp only [Except.ok.injEq, Prod.mk.injEq] at h
      have := takeDigits_length rest
      rw [← h.2]
      simp only [List.length_cons]; omega
    · cases h

theorem scanFrac_length (s ds r : List Nat) (h : scanFrac s = .ok (ds, r)) :
    r.length ≤ s.length := by
  unfold scanFrac at h
  split at h
  · split at h
    · rename_i ds2 r2 h2
      simp only [Except.ok.injEq, Prod.mk.injEq] at h
      have := takeDigits1_length _ _ _ h2
      rw [← h.2]
      simp only [List.length_cons]; omega
    · cases h
  · simp only [Except.ok.injEq, Prod.mk.injEq] at h
    rw [h.2]

theorem scanExp_length (s ds r : List Nat) (h : scanExp s = .ok (ds, r)) :
    r.length ≤ s.length := by
  unfold scanExp at h
  split at h
  · simp only [Except.ok.injEq, Prod.mk.injEq] at h
    rw [← h.2]
  · split at h
    · split at h
      · cases h
      · split at h
        · split at h
          · rename_i ds2 r2 h2
            simp only [Except.ok.injEq, Prod.mk.injEq] at h
            have := takeDigits1_length _ _ _ h2
            rw [← h.2]
            simp only [List.length_cons]; omega
          · cases h
        · split at h
          · rename_i ds2 r2 h2
            simp only [Except.ok.injEq, Prod.mk.injEq] at h
            have := takeDigits1_length _ _ _ h2
            rw [← h.2]
            simp only [List.length_cons] at this ⊢; omega
          · cases h
    · simp only [Except.ok.injEq, Prod.mk.injEq] at h
      rw [← h.2]

theorem scanInt_length (s ds r : List Nat) (h : scanInt s = .ok (ds, r)) :
    r.length + 1 ≤ s.length := by
  unfold scanInt at h
  split at h
  · cases h
  · split at h
    · simp only [Except.ok.injEq, Prod.mk.injEq] at h
      rw [← h.2]
      simp
    · split at h
      · simp only [Except.ok.injEq, Prod.mk.injEq] at h
        rename_i c rest _ _
        have := takeDigits_length rest
        rw [← h.2]
        simp only [List.length_cons]; omega
      · cases h

theorem scanNumber_length (s lit r : List Nat) (h : scanNumber s = .ok (lit, r)) :
    r.length + 1 ≤ s.length := by
  unfold scanNumber at h
  simp only at h
  have hs1 : (match s with | 0x2d :: rest => ([0x2d], rest) | _ => ([], s)).2.length ≤ s.length := by
    split
    · simp
    · simp
  generalize (match s with | 0x2d :: rest => ([0x2d], rest) | _ => ([], s)) = p at h hs1
  obtain ⟨sign, s1⟩ := p
  simp only at h hs1
  cases h1 : scanInt s1 with
  | error e => rw [h1] at h; cases h
  | ok r1 =>
    obtain ⟨ip, s2⟩ := r1
    rw [h1] at h
    simp only at h
    cases h2 : scanFrac s2 with
    | error e => rw [h2] at h; cases h
    | ok r2 =>
      obtain ⟨fp, s3⟩ := r2
      rw [h2] at h
      simp only at h
      cases h3 : scanExp s3 with
      | error e => rw [h3] at h; cases h
      | ok r3 =>
        obtain ⟨ep, s4⟩ := r3
        rw [h3] at h
        simp only [Except.ok.injEq, Prod.mk.injEq] at h
        have a1 := scanInt_length _ _ _ h1
        have a2 := scanFrac_length _ _ _ h2
        have a3 := scanExp_length _ _ _ h3
        rw [← h.2]
        omega

theorem consByte_ok (c : Nat) (r : Scan (List Nat)) (bs rest : List Nat)
    (h : consByte c r = .ok (bs, rest)) : ∃ bs2, r = .ok (bs2, rest) := by
  unfold consByte at h
  split at h
  · simp only [Except.ok.injEq, Prod.mk.injEq] at h
    rename_i bs2 rest2
    exact ⟨bs2, by rw [h.2]⟩
  · cases h

theorem scanStringBody_length (s : List Nat) :
    ∀ (st : StringState) (bs r : List Nat), scanStringBody st s = .ok (bs, r) →
      r.length + 1 ≤ s.length := by
  induction s with
  | nil =>
    intro st bs r h
    cases st <;> simp [scanStringBody] at h
  | cons c rest ih =>
    intro st bs r h
    simp only [List.length_cons]
    cases st with
    | plain =>
      simp only [scanStringBody] at h
      split at h
      · simp only [Except.ok.injEq, Prod.mk.injEq] at h
        rw [← h.2]
      · split at h
        · obtain ⟨bs2, h2⟩ := consByte_ok _ _ _ _ h
          have := ih _ _ _ h2
          omega
        · split at h
          · cases h
          · obtain ⟨bs2, h2⟩ := consByte_ok _ _ _ _ h
            have := ih _ _ _ h2
            omega
    | esc =>
      simp only [scanStringBody] at h
      split at h
      · obtain ⟨bs2, h2⟩ := consByte_ok _ _ _ _ h
        have := ih _ _ _ h2
        omega
      · split at h
        · obtain ⟨bs2, h2⟩ := consByte_ok _ _ _ _ h
          have := ih _ _ _ h2
          omega
        · cases h
    | hex k =>
      simp only [scanStringBody] at h
      split at h
      · cases k with
        | zero =>
          obtain ⟨bs2, h2⟩ := consByte_ok _ _ _ _ h
          have := ih _ _ _ h2
          omega
        | succ k2 =>
          obtain ⟨bs2, h2⟩ := consByte_ok _ _ _ _ h
          have := ih _ _ _ h2
          omega
      · cases h

theorem scanString_length (s r : List Nat) (str : String) (h : scanString s = .ok (str, r)) :
    r.length + 2 ≤ s.length := by
  cases s with
  | nil => simp [scanString] at h
  | cons c rest =>
    simp only [scanString] at h
    split at h
    · cases hb : scanStringBody .plain rest with
      | error e => rw [hb] at h; cases h
      | ok p =>
        obtain ⟨body, r2⟩ := p
        rw [hb] at h
        simp only [Except.ok.injEq, Prod.mk.injEq] at h
        have := scanStringBody_length rest .plain body r2 hb
        rw [← h.2]
        simp only [List.length_cons]
        omega
    · cases h

theorem expectBytes_no_fuel (lit : List Nat) :
    ∀ (s : List Nat), expectBytes lit s ≠ .error .fuel := by
  induction lit with
  | nil => intro s; simp [expectBytes]
  | cons l ls ih =>
    intro s
    cases s with
    | nil => simp [expectBytes]
    | cons c rest =>
      simp only [expectBytes]
      split
      · exact ih rest
      · simp

theorem takeDigits1_no_fuel (s : List Nat) : takeDigits1 s ≠ .error .fuel := by
  unfold takeDigits1
  split
  · simp
  · split <;> simp

theorem scanFrac_no_fuel (s : List Nat) : scanFrac s ≠ .error .fuel := by
  unfold scanFrac
  split
  · rename_i rest
    have := takeDigits1_no_fuel rest
    split
    · simp
    · rename_i e he
      intro h
      simp only [Except.error.injEq] at h
      rw [h] at he
      exact this he
  · simp

theorem scanExp_no_fuel (s : List Nat) : scanExp s ≠ .error .fuel := by
  unfold scanExp
  split
  · simp
  · split
    · split
      · simp
      · split
        · rename_i rest2 _
          have := takeDigits1_no_fuel rest2
          split
          · simp
          · rename_i e he
            intro h
            simp only [Except.error.injEq] at h
            rw [h] at he
            exact this he
        · rename_i d rest2 _
          have := takeDigits1_no_fuel (d :: rest2)
          split
          · simp
          · rename_i e he
            intro h
            simp only [Except.error.injEq] at h
            rw [h] at he
            exact this he
    · simp

theorem scanInt_no_fuel (s : List Nat) : scanInt s ≠ .error .fuel := by
  unfold scanInt
  split
  · simp
  · split
    · simp
    · split <;> simp

theorem scanNumber_no_fuel (s : List Nat) : scanNumber s ≠ .error .fuel := by
  unfold scanNumber
  simp only
  generalize (match s with | 0x2d :: rest => ([0x2d], rest) | _ => ([], s)) = p
  obtain ⟨sign, s1⟩ := p
  simp only
  cases h1 : scanInt s1 with
  | error e =>
    simp only [ne_eq, Except.error.injEq]
    intro h
    exact scanInt_no_fuel s1 (by rw [h1, h])
  | ok r1 =>
    simp only
    cases h2 : scanFrac r1.2 with
    | error e =>
      simp only [ne_eq, Except.error.injEq]
      intro h
      exact scanFrac_no_fuel r1.2 (by rw [h2, h])
    | ok r2 =>
      simp only
      cases h3 : scanExp r2.2 with
      | error e =>
        simp only [ne_eq, Except.error.injEq]
        intro h
        exact scanExp_no_fuel r2.2 (by rw [h3, h])
      | ok r3 => simp

theorem consByte_no_fuel (c : Nat) (r : Scan (List Nat)) (h : r ≠ .error .fuel) :
    consByte c r ≠ .error .fuel := by
  unfold consByte
  split
  · simp
  · rename_i e
    intro h2
    simp only [Except.error.injEq] at h2
    exact h (by rw [h2])

theorem scanStringBody_no_fuel (s : List Nat) :
    ∀ (st : StringState), scanStringBody st s ≠ .error .fuel := by
  induction s with
  | nil => intro st; cases st <;> simp [scanStringBody]
  | cons c rest ih =>
    intro st
    cases st with
    | plain =>
      simp only [scanStringBody]
      split
      · simp
      · split
        · exact consByte_no_fuel _ _ (ih _)
        · split
          · simp
          · exact consByte_no_fuel _ _ (ih _)
    | esc =>
      simp only [scanStringBody]
      split
      · exact consByte_no_fuel _ _ (ih _)
      · split
        · exact consByte_no_fuel _ _ (ih _)
        · simp
    | hex k =>
      simp only [scanStringBody]
      split
      · cases k with
        | zero => exact consByte_no_fuel _ _ (ih _)
        | succ k2 => exact consByte_no_fuel _ _ (ih _)
      · simp

theorem scanString_no_fuel (s : List Nat) : scanString s ≠ .error .fuel := by
  cases s with
  | nil => simp [scanString]
  | cons c rest =>
    simp only [scanString]
    split
    · cases hb : scanStringBody .plain rest with
      | error e =>
        simp only [ne_eq, Except.error.injEq]
        intro h
        exact scanStringBody_no_fuel rest .plain (by rw [hb, h])
      | ok p => simp
    · simp


/-- Every successful scan consumes at least one byte. -/
theorem scan_length (fuel : Nat) :
    (∀ depth s v r, scanValue fuel depth s = .ok (v, r) → r.length + 1 ≤ s.length) ∧
    (∀ depth s vs r, scanElems fuel depth s = .ok (vs, r) → r.length + 1 ≤ s.length) ∧
    (∀ depth s ms r, scanMembers fuel depth s = .ok (ms, r) → r.length + 1 ≤ s.length) := by
  induction fuel with
  | zero =>
    refine ⟨?_, ?_, ?_⟩ <;> intro depth s v r h
    · simp [scanValue] at h
    · simp [scanElems] at h
    · simp [scanMembers] at h
  | succ fuel ih =>
    obtain ⟨ihV, ihE, ihM⟩ := ih
    refine ⟨?_, ?_, ?_⟩
    · intro depth s v r h
      simp only [scanValue] at h
      cases hs : skipSpace s with
      | nil => rw [hs] at h; cases h
      | cons c rest =>
        rw [hs] at h
        simp only at h
        have hlen := skipSpace_cons_length s rest c hs
        by_cases h1 : c = 0x7b
        · rw [if_pos h1] at h
          by_cases hd : depth + 1 ≤ maxNestingDepth
          · rw [if_pos hd] at h
            cases hs2 : skipSpace rest with
            | nil => rw [hs2] at h; cases h
            | cons d rest2 =>
              rw [hs2] at h
              simp only at h
              have hlen2 := skipSpace_cons_length rest rest2 d hs2
              by_cases h2 : d = 0x7d
              · rw [if_pos h2] at h
                simp only [Except.ok.injEq, Prod.mk.injEq] at h
                rw [← h.2]
                omega
              · rw [if_neg h2] at h
                cases hm : scanMembers fuel (depth + 1) (d :: rest2) with
                | error e => rw [hm] at h; cases h
                | ok p =>
                  rw [hm] at h
                  simp only [Except.ok.injEq, Prod.mk.injEq] at h
                  have := ihM _ _ _ _ hm
                  rw [← h.2]
                  simp only [List.length_cons] at this
                  omega
          · rw [if_neg hd] at h
            cases h
        · rw [if_neg h1] at h
          by_cases h3 : c = 0x5b
          · rw [if_pos h3] at h
            by_cases hd : depth + 1 ≤ maxNestingDepth
            · rw [if_pos hd] at h
              cases hs2 : skipSpace rest with
              | nil => rw [hs2] at h; cases h
              | cons d rest2 =>
                rw [hs2] at h
                simp only at h
                have hlen2 := skipSpace_cons_length rest rest2 d hs2
                by_cases h2 : d = 0x5d
                · rw [if_pos h2] at h
                  simp only [Except.ok.injEq, Prod.mk.injEq] at h
                  rw [← h.2]
                  omega
                · rw [if_neg h2] at h
                  cases hm : scanElems fuel (depth + 1) (d :: rest2) with
                  | error e => rw [hm] at h; cases h
                  | ok p =>
                    rw [hm] at h
                    simp only [Except.ok.injEq, Prod.mk.injEq] at h
                    have := ihE _ _ _ _ hm
                    rw [← h.2]
                    simp only [List.length_cons] at this
                    omega
            · rw [if_neg hd] at h
              cases h
          · rw [if_neg h3] at h
            by_cases h4 : c = 0x22
            · rw [if_pos h4] at h
              cases hm : scanString (c :: rest) with
              | error e => rw [hm] at h; cases h
              | ok p =>
                rw [hm] at h
                simp only [Except.ok.injEq, Prod.mk.injEq] at h
                have := scanString_length _ _ _ hm
                rw [← h.2]
                simp only [List.length_cons] at this
                omega
            · rw [if_neg h4] at h
              by_cases h5 : (c = 0x2d || isDigit c) = true
              · rw [if_pos h5] at h
                cases hm : scanNumber (c :: rest) with
                | error e => rw [hm] at h; cases h
                | ok p =>
                  rw [hm] at h
                  simp only [Except.ok.injEq, Prod.mk.injEq] at h
                  have := scanNumber_length _ _ _ hm
                  rw [← h.2]
                  simp only [List.length_cons] at this
                  omega
              · rw [if_neg h5] at h
                by_cases h6 : c = 0x74
                · rw [if_pos h6] at h
                  cases hm : expectBytes [0x72, 0x75, 0x65] rest with
                  | error e => rw [hm] at h; cases h
                  | ok p =>
                    rw [hm] at h
                    simp only [Except.ok.injEq, Prod.mk.injEq] at h
                    have := expectBytes_length _ _ _ hm
                    rw [← h.2]
                    omega
                · rw [if_neg h6] at h
                  by_cases h7 : c = 0x66
                  · rw [if_pos h7] at h
                    cases hm : expectBytes [0x61, 0x6c, 0x73, 0x65] rest with
                    | error e => rw [hm] at h; cases h
                    | ok p =>
                      rw [hm] at h
                      simp only [Except.ok.injEq, Prod.mk.injEq] at h
                      have := expectBytes_length _ _ _ hm
                      rw [← h.2]
                      omega
                  · rw [if_neg h7] at h
                    by_cases h8 : c = 0x6e
                    · rw [if_pos h8] at h
                      cases hm : expectBytes [0x75, 0x6c, 0x6c] rest with
                      | error e => rw [hm] at h; cases h
                      | ok p =>
                        rw [hm] at h
                        simp only [Except.ok.injEq, Prod.mk.injEq] at h
                        have := expectBytes_length _ _ _ hm
                        rw [← h.2]
                        omega
                    · rw [if_neg h8] at h
                      cases h
    · intro depth s vs r h
      simp only [scanElems] at h
      cases hv : scanValue fuel depth s with
      | error e => rw [hv] at h; cases h
      | ok p =>
        obtain ⟨v, r1⟩ := p
        rw [hv] at h
        simp only at h
        have hl1 := ihV _ _ _ _ hv
        cases hs : skipSpace r1 with
        | nil => rw [hs] at h; cases h
        | cons c rest =>
          rw [hs] at h
          simp only at h
          have hlen := skipSpace_cons_length r1 rest c hs
          by_cases h1 : c = 0x2c
          · rw [if_pos h1] at h
            cases hm : scanElems fuel depth rest with
            | error e => rw [hm] at h; cases h
            | ok p2 =>
              rw [hm] at h
              simp only [Except.ok.injEq, Prod.mk.injEq] at h
              have := ihE _ _ _ _ hm
              rw [← h.2]
              omega
          · rw [if_neg h1] at h
            by_cases h2 : c = 0x5d
            · rw [if_pos h2] at h
              simp only [Except.ok.injEq, Prod.mk.injEq] at h
              rw [← h.2]
              omega
            · rw [if_neg h2] at h
              cases h
    · intro depth s ms r h
      simp only [scanMembers] at h
      cases hk : scanString (skipSpace s) with
      | error e => rw [hk] at h; cases h
      | ok p =>
        obtain ⟨key, r1⟩ := p
        rw [hk] at h
        simp only at h
        have hl0 := skipSpace_length s
        have hl1 := scanString_length _ _ _ hk
        cases hs : skipSpace r1 with
        | nil => rw [hs] at h; cases h
        | cons c rest =>
          rw [hs] at h
          simp only at h
          have hlen := skipSpace_cons_length r1 rest c hs
          by_cases h1 : c = 0x3a
          · rw [if_pos h1] at h
            cases hv : scanValue fuel depth rest with
            | error e => rw [hv] at h; cases h
            | ok p2 =>
              obtain ⟨v, r2⟩ := p2
              rw [hv] at h
              simp only at h
              have hl2 := ihV _ _ _ _ hv
              cases hs2 : skipSpace r2 with
              | nil => rw [hs2] at h; cases h
              | cons d rest2 =>
                rw [hs2] at h
                simp only at h
                have hlen2 := skipSpace_cons_length r2 rest2 d hs2
                by_cases h2 : d = 0x2c
                · rw [if_pos h2] at h
                  cases hm : scanMembers fuel depth rest2 with
                  | error e => rw [hm] at h; cases h
                  | ok p3 =>
                    rw [hm] at h
                    simp only [Except.ok.injEq, Prod.mk.injEq] at h
                    have := ihM _ _ _ _ hm
                    rw [← h.2]
                    omega
                · rw [if_neg h2] at h
                  by_cases h3 : d = 0x7d
                  · rw [if_pos h3] at h
                    simp only [Except.ok.injEq, Prod.mk.injEq] at h
                    rw [← h.2]
                    omega
                  · rw [if_neg h3] at h
                    cases h
          · rw [if_neg h1] at h
            cases h


/-- With two units of fuel per input byte the scanner never stops for lack of
fuel. -/
theorem scan_fuel (fuel : Nat) :
    (∀ depth s, 2 * s.length + 1 ≤ fuel → scanValue fuel depth s ≠ .error .fuel) ∧
    (∀ depth s, 2 * s.length + 2 ≤ fuel → scanElems fuel depth s ≠ .error .fuel) ∧
    (∀ depth s, 2 * s.length + 1 ≤ fuel → scanMembers fuel depth s ≠ .error .fuel) := by
  induction fuel with
  | zero =>
    refine ⟨?_, ?_, ?_⟩ <;> intro depth s hf <;> omega
  | succ fuel ih =>
    obtain ⟨ihV, ihE, ihM⟩ := ih
    refine ⟨?_, ?_, ?_⟩
    · intro depth s hf h
      simp only [scanValue] at h
      cases hs : skipSpace s with
      | nil => rw [hs] at h; cases h
      | cons c rest =>
        rw [hs] at h
        simp only at h
        have hlen := skipSpace_cons_length s rest c hs
        by_cases h1 : c = 0x7b
        · rw [if_pos h1] at h
          by_cases hd : depth + 1 ≤ maxNestingDepth
          · rw [if_pos hd] at h
            cases hs2 : skipSpace rest with
            | nil => rw [hs2] at h; cases h
            | cons d rest2 =>
              rw [hs2] at h
              simp only at h
              have hlen2 := skipSpace_cons_length rest rest2 d hs2
              by_cases h2 : d = 0x7d
              · rw [if_pos h2] at h
                cases h
              · rw [if_neg h2] at h
                cases hm : scanMembers fuel (depth + 1) (d :: rest2) with
                | error e =>
                  rw [hm] at h
                  simp only [Except.error.injEq] at h
                  exact ihM (depth + 1) (d :: rest2)
                    (by simp only [List.length_cons]; omega) (by rw [hm, h])
                | ok p => rw [hm] at h; cases h
          · rw [if_neg hd] at h
            cases h
        · rw [if_neg h1] at h
          by_cases h3 : c = 0x5b
          · rw [if_pos h3] at h
            by_cases hd : depth + 1 ≤ maxNestingDepth
            · rw [if_pos hd] at h
              cases hs2 : skipSpace rest with
              | nil => rw [hs2] at h; cases h
              | cons d rest2 =>
                rw [hs2] at h
                simp only at h
                have hlen2 := skipSpace_cons_length rest rest2 d hs2
                by_cases h2 : d = 0x5d
                · rw [if_pos h2] at h
                  cases h
                · rw [if_neg h2] at h
                  cases hm : scanElems fuel (depth + 1) (d :: rest2) with
                  | error e =>
                    rw [hm] at h
                    simp only [Except.error.injEq] at h
                    exact ihE (depth + 1) (d :: rest2)
                      (by simp only [List.length_cons]; omega) (by rw [hm, h])
                  | ok p => rw [hm] at h; cases h
            · rw [if_neg hd] at h
              cases h
          · rw [if_neg h3] at h
            by_cases h4 : c = 0x22
            · rw [if_pos h4] at h
              cases hm : scanString (c :: rest) with
              | error e =>
                rw [hm] at h
                simp only [Except.error.injEq] at h
                exact scanString_no_fuel (c :: rest) (by rw [hm, h])
              | ok p => rw [hm] at h; cases h
            · rw [if_neg h4] at h
              by_cases h5 : (c = 0x2d || isDigit c) = true
              · rw [if_pos h5] at h
                cases hm : scanNumber (c :: rest) with
                | error e =>
                  rw [hm] at h
                  simp only [Except.error.injEq] at h
                  exact scanNumber_no_fuel (c :: rest) (by rw [hm, h])
                | ok p => rw [hm] at h; cases h
              · rw [if_neg h5] at h
                by_cases h6 : c = 0x74
                · rw [if_pos h6] at h
                  cases hm : expectBytes [0x72, 0x75, 0x65] rest with
                  | error e =>
                    rw [hm] at h
                    simp only [Except.error.injEq] at h
                    exact expectBytes_no_fuel _ rest (by rw [hm, h])
                  | ok p => rw [hm] at h; cases h
                · rw [if_neg h6] at h
                  by_cases h7 : c = 0x66
                  · rw [if_pos h7] at h
                    cases hm : expectBytes [0x61, 0x6c, 0x73, 0x65] rest with
                    | error e =>
                      rw [hm] at h
                      simp only [Except.error.injEq] at h
                      exact expectBytes_no_fuel _ rest (by rw [hm, h])
                    | ok p => rw [hm] at h; cases h
                  · rw [if_neg h7] at h
                    by_cases h8 : c = 0x6e
                    · rw [if_pos h8] at h
                      cases hm : expectBytes [0x75, 0x6c, 0x6c] rest with
                      | error e =>
                        rw [hm] at h
                        simp only [Except.error.injEq] at h
                        exact expectBytes_no_fuel _ rest (by rw [hm, h])
                      | ok p => rw [hm] at h; cases h
                    · rw [if_neg h8] at h
                      cases h
    · intro depth s hf h
      simp only [scanElems] at h
      cases hv : scanValue fuel depth s with
      | error e =>
        rw [hv] at h
        simp only [Except.error.injEq] at h
        exact ihV depth s (by omega) (by rw [hv, h])
      | ok p =>
        obtain ⟨v, r1⟩ := p
        rw [hv] at h
        simp only at h
        have hl1 := (scan_length fuel).1 _ _ _ _ hv
        cases hs : skipSpace r1 with
        | nil => rw [hs] at h; cases h
        | cons c rest =>
          rw [hs] at h
          simp only at h
          have hlen := skipSpace_cons_length r1 rest c hs
          by_cases h1 : c = 0x2c
          · rw [if_pos h1] at h
            cases hm : scanElems fuel depth rest with
            | error e =>
              rw [hm] at h
              simp only [Except.error.injEq] at h
              exact ihE depth rest (by omega) (by rw [hm, h])
            | ok p2 => rw [hm] at h; cases h
          · rw [if_neg h1] at h
            by_cases h2 : c = 0x5d
            · rw [if_pos h2] at h
              cases h
            · rw [if_neg h2] at h
              cases h
    · intro depth s hf h
      simp only [scanMembers] at h
      cases hk : scanString (skipSpace s) with
      | error e =>
        rw [hk] at h
        simp only [Except.error.injEq] at h
        exact scanString_no_fuel _ (by rw [hk, h])
      | ok p =>
        obtain ⟨key, r1⟩ := p
        rw [hk] at h
        simp only at h
        have hl0 := skipSpace_length s
        have hl1 := scanString_length _ _ _ hk
        cases hs : skipSpace r1 with
        | nil => rw [hs] at h; cases h
        | cons c rest =>
          rw [hs] at h
          simp only at h
          have hlen := skipSpace_cons_length r1 rest c hs
          by_cases h1 : c = 0x3a
          · rw [if_pos h1] at h
            cases hv : scanValue fuel depth rest with
            | error e =>
              rw [hv] at h
              simp only [Except.error.injEq] at h
              exact ihV depth rest (by omega) (by rw [hv, h])
            | ok p2 =>
              obtain ⟨v, r2⟩ := p2
              rw [hv] at h
              simp only at h
              have hl2 := (scan_length fuel).1 _ _ _ _ hv
              cases hs2 : skipSpace r2 with
              | nil => rw [hs2] at h; cases h
              | cons d rest2 =>
                rw [hs2] at h
                simp only at h
                have hlen2 := skipSpace_cons_length r2 rest2 d hs2
                by_cases h2 : d = 0x2c
                · rw [if_pos h2] at h
                  cases hm : scanMembers fuel depth rest2 with
                  | error e =>
                    rw [hm] at h
                    simp only [Except.error.injEq] at h
                    exact ihM depth rest2 (by omega) (by rw [hm, h])
                  | ok p3 => rw [hm] at h; cases h
                · rw [if_neg h2] at h
                  by_cases h3 : d = 0x7d
                  · rw [if_pos h3] at h
                    cases h
                  · rw [if_neg h3] at h
                    cases h
          · rw [if_neg h1] at h
            cases h

/-- The function `parse` never reports a lack of fuel: its scan ends with a value or with a
rejected byte or the end of input. -/
theorem parse_fuel (data : List UInt8) :
    scanValue (2 * (data.map UInt8.toNat).length + 1) 0 (data.map UInt8.toNat) ≠ .error .fuel :=
  (scan_fuel _).1 0 _ (Nat.le_refl _)


/-- The function `unquote` does not depend on its fuel once there is one unit per byte: no
string is cut short. -/
theorem unquote_fuel (n : Nat) :
    ∀ (fuel1 fuel2 : Nat) (s : List Nat), s.length ≤ n → n ≤ fuel1 → n ≤ fuel2 →
      unquote fuel1 s = unquote fuel2 s := by
  induction n with
  | zero =>
    intro fuel1 fuel2 s hs _ _
    have : s = [] := List.length_eq_zero.mp (Nat.le_zero.mp hs)
    subst this
    cases fuel1 <;> cases fuel2 <;> simp [unquote]
  | succ n ih =>
    intro fuel1 fuel2 s hs h1 h2
    cases s with
    | nil => cases fuel1 <;> cases fuel2 <;> simp [unquote]
    | cons c rest =>
      obtain ⟨f1, rfl⟩ : ∃ f1, fuel1 = f1 + 1 := ⟨fuel1 - 1, by omega⟩
      obtain ⟨f2, rfl⟩ : ∃ f2, fuel2 = f2 + 1 := ⟨fuel2 - 1, by omega⟩
      simp only [List.length_cons] at hs
      have hrest : rest.length ≤ n := by omega
      have key : ∀ t : List Nat, t.length ≤ rest.length → unquote f1 t = unquote f2 t :=
        fun t ht => ih f1 f2 t (by omega) (by omega) (by omega)
      have hdrop : ∀ (t : List Nat) (k : Nat), t.length ≤ rest.length →
          (t.drop k).length ≤ rest.length := by
        intro t k ht
        rw [List.length_drop]
        omega
      cases rest with
      | nil =>
        simp only [unquote]
        split
        · rfl
        · split
          · rw [key _ (Nat.le_refl _)]
          · rw [key _ (hdrop _ _ (Nat.le_refl _))]
      | cons e rest2 =>
        have h2len : rest2.length ≤ (e :: rest2).length := by simp
        simp only [unquote]
        split
        · split
          · split
            · rfl
            · split
              · split
                · rw [key _ (hdrop _ 6 (hdrop _ 4 h2len))]
                · rw [key _ (hdrop _ 4 h2len)]
              · rw [key _ (hdrop _ 4 h2len)]
          · rw [key _ h2len]
        · split
          · rw [key _ (Nat.le_refl _)]
          · rw [key _ (hdrop _ _ (Nat.le_refl _))]

end Json

namespace GoJson

open Json

section Decoder

variable {α β : Type}

theorem saveError_none (e : Option JsonError) : saveError none e = e := rfl

theorem saveError_none_right (e : Option JsonError) : saveError e none = e := by
  cases e <;> rfl

theorem saveError_assoc (a b c : Option JsonError) :
    saveError (saveError a b) c = saveError a (saveError b c) := by
  cases a <;> rfl

/-- The saved error a member loop starts with only goes in front of the one the
loop saves itself. -/
theorem decodeMembers_saved (fields : List (StructField α)) (ms : List (String × JSON)) :
    ∀ (a : α) (saved : Option JsonError),
      decodeMembers fields ms a saved =
        match decodeMembers fields ms a none with
        | .error e => .error e
        | .ok (a2, new) => .ok (a2, saveError saved new) := by
  induction ms with
  | nil => intro a saved; simp [decodeMembers, saveError_none_right]
  | cons kv ms ih =>
    intro a saved
    obtain ⟨key, v⟩ := kv
    simp only [decodeMembers]
    cases hfind : findField fields key with
    | none => simpa using ih a saved
    | some f =>
      simp only
      cases hst : f.store v a with
      | error e => rfl
      | ok r =>
        obtain ⟨a2, new⟩ := r
        simp only [saveError_none]
        rw [ih a2 (saveError saved new), ih a2 new]
        cases decodeMembers fields ms a2 none with
        | error e => rfl
        | ok r2 => simp [saveError_assoc]

/-- Decoding `ms1 ++ ms2` is decoding `ms1`, then `ms2` from the state reached. -/
theorem decodeMembers_append (fields : List (StructField α)) (ms1 ms2 : List (String × JSON)) :
    ∀ (a : α) (saved : Option JsonError),
      decodeMembers fields (ms1 ++ ms2) a saved =
        match decodeMembers fields ms1 a saved with
        | .error e => .error e
        | .ok (a2, saved2) => decodeMembers fields ms2 a2 saved2 := by
  induction ms1 with
  | nil => intro a saved; simp [decodeMembers]
  | cons kv ms ih =>
    intro a saved
    obtain ⟨key, v⟩ := kv
    simp only [List.cons_append, decodeMembers]
    cases findField fields key with
    | none => simpa using ih a saved
    | some f =>
      simp only
      cases f.store v a with
      | error e => rfl
      | ok r => simpa using ih r.1 (saveError saved r.2)

@[simp] theorem StructField.lift_name (get : β → α) (set : β → α → β) (f : StructField α) :
    (StructField.lift get set f).name = f.name := rfl

/-- A key that matches none of the fields `extra` is looked up among the
promoted fields only. -/
theorem findField_promoted (get : β → α) (set : β → α → β) (base : List (StructField α))
    (extra : List (StructField β)) (key : String)
    (hkey : ∀ f ∈ extra, foldName f.name ≠ foldName key) :
    findField (base.map (StructField.lift get set) ++ extra) key =
      (findField base key).map (StructField.lift get set) := by
  have hexact : extra.find? (fun f => decide (f.name = key)) = none := by
    rw [List.find?_eq_none]
    intro f hf hname
    exact hkey f hf (by rw [of_decide_eq_true hname])
  have hfold : extra.find? (fun f => decide (foldName f.name = foldName key)) = none := by
    rw [List.find?_eq_none]
    intro f hf hname
    exact hkey f hf (of_decide_eq_true hname)
  have hcomp1 : ((fun f : StructField β => decide (f.name = key)) ∘ StructField.lift get set) =
      (fun f : StructField α => decide (f.name = key)) := rfl
  have hcomp2 : ((fun f : StructField β => decide (foldName f.name = foldName key)) ∘
      StructField.lift get set) =
      (fun f : StructField α => decide (foldName f.name = foldName key)) := rfl
  unfold findField
  rw [List.find?_append, List.find?_append, List.find?_map, List.find?_map, hexact, hfold,
    hcomp1, hcomp2]
  cases h1 : base.find? (fun f => decide (f.name = key)) with
  | some f => simp
  | none =>
    cases h2 : base.find? (fun f => decide (foldName f.name = foldName key)) with
    | some f => simp
    | none => simp

/-- Members none of whose keys matches a field of `extra` are decoded into the
embedded struct exactly as they would be decoded into that struct alone. -/
theorem decodeMembers_promoted (E : Embedding α β) (base : List (StructField α))
    (extra : List (StructField β)) (ms : List (String × JSON))
    (hms : ∀ kv ∈ ms, ∀ f ∈ extra, foldName f.name ≠ foldName kv.1) :
    ∀ (h : β) (saved : Option JsonError),
      decodeMembers (base.map (StructField.lift E.getE E.setE) ++ extra) ms h saved =
        match decodeMembers base ms (E.getE h) saved with
        | .error e => .error e
        | .ok (a, saved2) => .ok (E.setE h a, saved2) := by
  induction ms with
  | nil => intro h saved; simp [decodeMembers, E.setE_getE]
  | cons kv ms ih =>
    intro h saved
    obtain ⟨key, v⟩ := kv
    have hrest : ∀ kv ∈ ms, ∀ f ∈ extra, foldName f.name ≠ foldName kv.1 :=
      fun kv hkv => hms kv (List.mem_cons_of_mem _ hkv)
    simp only [decodeMembers]
    rw [findField_promoted E.getE E.setE base extra key (hms (key, v) (List.mem_cons_self _ _))]
    cases findField base key with
    | none => simpa using ih hrest h saved
    | some f =>
      simp only [Option.map_some', StructField.lift]
      cases f.store v (E.getE h) with
      | error e => rfl
      | ok r =>
        obtain ⟨a, new⟩ := r
        simp only
        rw [ih hrest (E.setE h a) (saveError saved new), E.getE_setE]
        cases decodeMembers base ms a (saveError saved new) with
        | error e => rfl
        | ok r2 => simp [E.setE_setE]

/-- The key `attributes` selects the helper's `Attributes` field. -/
theorem findField_attributes (E : Embedding α β) (zero : α) (goType : String)
    (base : List (StructField α)) (others : List (StructField β))
    (hbase : ∀ f ∈ base, f.name ≠ "attributes") :
    findField (base.map (StructField.lift E.getE E.setE) ++
        attributesField E zero goType base :: others) "attributes" =
      some (attributesField E zero goType base) := by
  have hnone : base.find? (fun f => decide (f.name = "attributes")) = none := by
    rw [List.find?_eq_none]
    intro f hf hname
    exact hbase f hf (of_decide_eq_true hname)
  have hcomp : ((fun f : StructField β => decide (f.name = "attributes")) ∘
      StructField.lift E.getE E.setE) =
      (fun f : StructField α => decide (f.name = "attributes")) := rfl
  unfold findField
  rw [List.find?_append, List.find?_map, hcomp, hnone]
  simp [attributesField]

/-- An `attributes` object met while the pointer still holds the address of the
embedded struct is decoded into the embedded struct. -/
theorem decodeMembers_attributes (E : Embedding α β) (zero : α) (goType : String)
    (base : List (StructField α)) (others : List (StructField β))
    (hbase : ∀ f ∈ base, f.name ≠ "attributes") (F tail : List (String × JSON)) (h : β)
    (hp : E.getP h = .embedded) (saved : Option JsonError) :
    decodeMembers (base.map (StructField.lift E.getE E.setE) ++
        attributesField E zero goType base :: others) (("attributes", .obj F) :: tail) h saved =
      match decodeMembers base F (E.getE h) none with
      | .error e => .error e
      | .ok (a, new) =>
        decodeMembers (base.map (StructField.lift E.getE E.setE) ++
          attributesField E zero goType base :: others) tail (E.setE h a) (saveError saved new) := by
  simp only [decodeMembers]
  rw [findField_attributes E zero goType base others hbase]
  simp only [attributesField, storeAttributes, hp, storeStruct]
  cases decodeMembers base F (E.getE h) none with
  | error e => rfl
  | ok r => rfl

/-- An envelope `pre…, "attributes": {F…}` decodes like the flat object
`pre…, F…`, when no key of `pre` or `F` selects `Attributes` or another field of
the helper itself. -/
theorem decodeMembers_envelope (E : Embedding α β) (zero : α) (goType : String)
    (base : List (StructField α)) (others : List (StructField β))
    (hbase : ∀ f ∈ base, f.name ≠ "attributes") (pre F : List (String × JSON)) (h : β)
    (hp : E.getP h = .embedded)
    (hpre : ∀ kv ∈ pre, ∀ f ∈ attributesField E zero goType base :: others,
      foldName f.name ≠ foldName kv.1)
    (hF : ∀ kv ∈ F, ∀ f ∈ attributesField E zero goType base :: others,
      foldName f.name ≠ foldName kv.1) :
    decodeMembers (base.map (StructField.lift E.getE E.setE) ++
        attributesField E zero goType base :: others) (pre ++ [("attributes", .obj F)]) h none =
    decodeMembers (base.map (StructField.lift E.getE E.setE) ++
        attributesField E zero goType base :: others) (pre ++ F) h none := by
  rw [decodeMembers_append, decodeMembers_append,
    decodeMembers_promoted E base _ pre hpre h none]
  cases decodeMembers base pre (E.getE h) none with
  | error e => rfl
  | ok r =>
    obtain ⟨a1, sv1⟩ := r
    simp only
    rw [decodeMembers_attributes E zero goType base others hbase F [] (E.setE h a1)
      (by rw [E.getP_setE]; exact hp) sv1,
      decodeMembers_promoted E base _ F hF (E.setE h a1) sv1, E.getE_setE,
      decodeMembers_saved base F a1 sv1]
    cases decodeMembers base F a1 none with
    | error e => rfl
    | ok r2 => simp [decodeMembers, E.setE_setE]

/-- A field found for a key is a field of the table, and its name matches the
key case-insensitively. -/
theorem findField_some (fields : List (StructField α)) (key : String) (f : StructField α)
    (h : findField fields key = some f) : f ∈ fields ∧ foldName f.name = foldName key := by
  unfold findField at h
  cases h1 : fields.find? (fun f => decide (f.name = key)) with
  | some g =>
    rw [h1] at h
    cases h
    have := List.find?_some h1
    exact ⟨List.mem_of_find?_eq_some h1, by rw [of_decide_eq_true this]⟩
  | none =>
    rw [h1] at h
    simp only at h
    have hp := List.find?_some h
    exact ⟨List.mem_of_find?_eq_some h, of_decide_eq_true hp⟩

/-- A key that matches a field's name case-insensitively finds some field. -/
theorem findField_ne_none (fields : List (StructField α)) (key : String) (f0 : StructField α)
    (h0 : f0 ∈ fields) (hk : foldName f0.name = foldName key) : findField fields key ≠ none := by
  unfold findField
  cases h1 : fields.find? (fun f => decide (f.name = key)) with
  | some g => simp
  | none =>
    simp only
    intro h2
    rw [List.find?_eq_none] at h2
    exact h2 f0 h0 (by simpa using hk)

/-- In a table whose names stay distinct when letter case is ignored, a key
selects the field named `n0` exactly when it matches `n0` case-insensitively. -/
theorem findField_selects (fields : List (StructField α)) (n0 key : String)
    (hinj : ∀ f ∈ fields, ∀ g ∈ fields, foldName f.name = foldName g.name → f.name = g.name)
    (h0 : ∃ f0 ∈ fields, f0.name = n0) :
    (∃ f, findField fields key = some f ∧ f.name = n0) ↔ foldName key = foldName n0 := by
  obtain ⟨f0, hf0, rfl⟩ := h0
  constructor
  · rintro ⟨f, hf, hn⟩
    rw [← hn, (findField_some fields key f hf).2]
  · intro hk
    cases hf : findField fields key with
    | none => exact absurd hf (findField_ne_none fields key f0 hf0 hk.symm)
    | some f =>
      obtain ⟨hmem, hfold⟩ := findField_some fields key f hf
      exact ⟨f, rfl, hinj f hmem f0 hf0 (by rw [hfold, hk])⟩

/-- A member loop that ends without saved error started without one. -/
theorem decodeMembers_ok_none (fields : List (StructField α)) (ms : List (String × JSON))
    (a a2 : α) (saved : Option JsonError)
    (h : decodeMembers fields ms a saved = .ok (a2, none)) :
    saved = none ∧ decodeMembers fields ms a none = .ok (a2, none) := by
  rw [decodeMembers_saved] at h
  cases h2 : decodeMembers fields ms a none with
  | error e => rw [h2] at h; cases h
  | ok r =>
    obtain ⟨a3, new⟩ := r
    rw [h2] at h
    simp only [Except.ok.injEq, Prod.mk.injEq] at h
    obtain ⟨rfl, hs⟩ := h
    cases saved with
    | some e => cases hs
    | none =>
      simp only [saveError_none] at hs
      exact ⟨rfl, by rw [hs]⟩

/-- What a successful member loop does to a component `get` of the struct that
only the field named `n0` writes (through `st0`): it decodes into it, in order,
the values of the members whose key matches `n0`. -/
theorem decodeMembers_component {γ : Type} (fields : List (StructField α)) (n0 : String)
    (get : α → γ) (st0 : Store γ)
    (hinj : ∀ f ∈ fields, ∀ g ∈ fields, foldName f.name = foldName g.name → f.name = g.name)
    (h0 : ∃ f0 ∈ fields, f0.name = n0)
    (hframe : ∀ f ∈ fields, f.name ≠ n0 → ∀ v a a2 e, f.store v a = .ok (a2, e) → get a2 = get a)
    (hact : ∀ f ∈ fields, f.name = n0 → ∀ v a a2 e, f.store v a = .ok (a2, e) →
      st0 v (get a) = .ok (get a2, e))
    (ms : List (String × JSON)) :
    ∀ (a a2 : α), decodeMembers fields ms a none = .ok (a2, none) →
      applyAll st0 ((ms.filter (fun kv => decide (foldName kv.1 = foldName n0))).map (·.2))
        (get a) = some (get a2) := by
  induction ms with
  | nil =>
    intro a a2 h
    simp only [decodeMembers, Except.ok.injEq, Prod.mk.injEq, and_true] at h
    subst h
    rfl
  | cons kv ms ih =>
    intro a a2 h
    obtain ⟨key, v⟩ := kv
    simp only [decodeMembers] at h
    have hsel := findField_selects fields n0 key hinj h0
    cases hf : findField fields key with
    | none =>
      rw [hf] at h
      simp only at h
      have hk : ¬ foldName key = foldName n0 := fun hk => by
        obtain ⟨f, hf2, _⟩ := hsel.2 hk
        rw [hf] at hf2
        cases hf2
      simp only [List.filter_cons, hk, decide_False, Bool.false_eq_true, if_false]
      exact ih a a2 h
    | some f =>
      rw [hf] at h
      simp only at h
      obtain ⟨hmem, _⟩ := findField_some fields key f hf
      cases hst : f.store v a with
      | error e => rw [hst] at h; cases h
      | ok r =>
        obtain ⟨a1, new⟩ := r
        rw [hst] at h
        simp only [saveError_none] at h
        obtain ⟨rfl, h⟩ := decodeMembers_ok_none fields ms a1 a2 new h
        by_cases hn : f.name = n0
        · have hk : foldName key = foldName n0 := hsel.1 ⟨f, hf, hn⟩
          simp only [List.filter_cons, hk, decide_True, if_true, List.map_cons, applyAll,
            hact f hmem hn v a a1 none hst]
          exact ih a1 a2 h
        · have hk : ¬ foldName key = foldName n0 := fun hk => by
            obtain ⟨g, hg, hgn⟩ := hsel.2 hk
            rw [hf] at hg
            cases hg
            exact hn hgn
          simp only [List.filter_cons, hk, decide_False, Bool.false_eq_true, if_false]
          rw [← hframe f hmem hn v a a1 none hst]
          exact ih a1 a2 h

/-- Struct values decoded one after the other into the same struct amount to one
member loop over all their members. -/
theorem applyAll_storeStruct (goType : String) (fields : List (StructField α)) (vs : List JSON) :
    ∀ (a a2 : α), applyAll (storeStruct goType fields) vs a = some a2 →
      decodeMembers fields (vs.flatMap membersOf) a none = .ok (a2, none) := by
  induction vs with
  | nil =>
    intro a a2 h
    simp only [applyAll, Option.some.injEq] at h
    subst h
    rfl
  | cons v vs ih =>
    intro a a2 h
    simp only [applyAll] at h
    cases v with
    | null =>
      simp only [storeStruct] at h
      simpa [membersOf] using ih a a2 h
    | obj ms =>
      simp only [storeStruct] at h
      cases hd : decodeMembers fields ms a none with
      | error e => rw [hd] at h; cases h
      | ok r =>
        obtain ⟨a1, new⟩ := r
        rw [hd] at h
        cases new with
        | some e => cases h
        | none =>
          simp only at h
          simp only [List.flatMap_cons, membersOf]
          rw [decodeMembers_append, hd]
          exact ih a1 a2 h
    | bool b => simp [storeStruct] at h
    | num n => simp [storeStruct] at h
    | str s0 => simp [storeStruct] at h
    | arr xs => simp [storeStruct] at h

/-- Values decoded one after the other into the same slice: the last one
decides, and the slice is unchanged when there is none. -/
theorem applyAll_storeSlice {γ : Type} (goType : String) (zero : γ) (st : Store γ)
    (vs : List JSON) :
    ∀ (cur g : Option (List γ)), applyAll (storeSlice goType zero st) vs cur = some g →
      match vs.getLast? with
      | none => g = cur
      | some v => storeSlice goType zero st v none = .ok (g, none) := by
  induction vs with
  | nil =>
    intro cur g h
    simp only [applyAll, Option.some.injEq] at h
    simp [h]
  | cons v vs ih =>
    intro cur g h
    simp only [applyAll] at h
    cases hst : storeSlice goType zero st v cur with
    | error e => rw [hst] at h; cases h
    | ok r =>
      obtain ⟨c1, new⟩ := r
      rw [hst] at h
      cases new with
      | some e => cases h
      | none =>
        simp only at h
        have hrec := ih c1 g h
        cases vs with
        | nil =>
          simp only [applyAll, Option.some.injEq] at h
          subst h
          simp only [List.getLast?_singleton]
          cases v with
          | null => simpa [storeSlice] using hst
          | arr xs => simpa [storeSlice] using hst
          | bool b => simp [storeSlice] at hst
          | num n => simp [storeSlice] at hst
          | str s0 => simp [storeSlice] at hst
          | obj ms => simp [storeSlice] at hst
        | cons v2 vs2 =>
          rw [List.getLast?_cons_cons]
          exact hrec

/-- A promoted field leaves alone whatever the embedded struct's writer leaves
alone. -/
theorem StructField.lift_frame {γ : Type} (getE : β → α) (setE : β → α → β) (get : β → γ)
    (hg : ∀ b a, get (setE b a) = get b) (f : StructField α) (v : JSON) (b b2 : β)
    (e : Option JsonError) (h : (StructField.lift getE setE f).store v b = .ok (b2, e)) :
    get b2 = get b := by
  simp only [StructField.lift] at h
  cases hst : f.store v (getE b) with
  | error e2 => rw [hst] at h; cases h
  | ok r =>
    rw [hst] at h
    simp only [Except.ok.injEq, Prod.mk.injEq] at h
    rw [← h.1, hg]

/-- A field leaves alone whatever its writer leaves alone. -/
theorem StructField.of_frame {γ δ : Type} (name : String) (getF : β → δ) (setF : β → δ → β)
    (st : Store δ) (get : β → γ) (hg : ∀ b a, get (setF b a) = get b) (v : JSON) (b b2 : β)
    (e : Option JsonError) (h : (StructField.of name getF setF st).store v b = .ok (b2, e)) :
    get b2 = get b := by
  simp only [StructField.of] at h
  cases hst : st v (getF b) with
  | error e2 => rw [hst] at h; cases h
  | ok r =>
    rw [hst] at h
    simp only [Except.ok.injEq, Prod.mk.injEq] at h
    rw [← h.1, hg]

/-- A field acts on its own component as its decoder does. -/
theorem StructField.of_act {δ : Type} (name : String) (getF : β → δ) (setF : β → δ → β)
    (st : Store δ) (hgs : ∀ b a, getF (setF b a) = a) (v : JSON) (b b2 : β)
    (e : Option JsonError) (h : (StructField.of name getF setF st).store v b = .ok (b2, e)) :
    st v (getF b) = .ok (getF b2, e) := by
  simp only [StructField.of] at h
  cases hst : st v (getF b) with
  | error e2 => rw [hst] at h; cases h
  | ok r =>
    rw [hst] at h
    simp only [Except.ok.injEq, Prod.mk.injEq] at h
    rw [← h.1, ← h.2, hgs]

/-- The `attributes` field leaves alone whatever the writers of the embedded
struct and of the pointer leave alone. -/
theorem attributesField_frame {γ : Type} (E : Embedding α β) (zero : α) (goType : String)
    (base : List (StructField α)) (get : β → γ) (hE : ∀ b a, get (E.setE b a) = get b)
    (hP : ∀ b q, get (E.setP b q) = get b) (v : JSON) (b b2 : β) (e : Option JsonError)
    (h : (attributesField E zero goType base).store v b = .ok (b2, e)) : get b2 = get b := by
  have key : ∀ (w : JSON), w ≠ .null →
      (attributesField E zero goType base).store w b = .ok (b2, e) → get b2 = get b := by
    intro w hw h
    simp only [attributesField, storeAttributes] at h
    cases hp : E.getP b with
    | embedded =>
      simp only [hp] at h
      cases hst : storeStruct goType base w (E.getE b) with
      | error e2 => rw [hst] at h; cases w <;> simp at h
      | ok r =>
        rw [hst] at h
        cases w <;> simp at h <;> first | exact absurd rfl hw | (rw [← h.1, hE])
    | nil =>
      simp only [hp] at h
      cases hst : storeStruct goType base w zero with
      | error e2 => rw [hst] at h; cases w <;> simp at h
      | ok r =>
        rw [hst] at h
        cases w <;> simp at h <;> first | exact absurd rfl hw | (rw [← h.1, hP])
    | fresh a0 =>
      simp only [hp] at h
      cases hst : storeStruct goType base w a0 with
      | error e2 => rw [hst] at h; cases w <;> simp at h
      | ok r =>
        rw [hst] at h
        cases w <;> simp at h <;> first | exact absurd rfl hw | (rw [← h.1, hP])
  by_cases hv : v = .null
  · subst hv
    simp only [attributesField, storeAttributes, Except.ok.injEq, Prod.mk.injEq] at h
    rw [← h.1, hP]
  · exact key v hv h

/-- Distinctness of the names of a table up to letter case, from the list of its
names. -/
theorem fold_injective_of_names (fields : List (StructField α)) (names : List String)
    (hnames : fields.map (·.name) = names)
    (hn : ∀ n ∈ names, ∀ m ∈ names, foldName n = foldName m → n = m) :
    ∀ f ∈ fields, ∀ g ∈ fields, foldName f.name = foldName g.name → f.name = g.name := by
  intro f hf g hg hfg
  have hf2 : f.name ∈ names := hnames ▸ List.mem_map_of_mem (·.name) hf
  have hg2 : g.name ∈ names := hnames ▸ List.mem_map_of_mem (·.name) hg
  exact hn _ hf2 _ hg2 hfg

/-- The slice found at the end of a path of three struct levels after a
successful member loop: decided by the last value the document holds under the
path, unchanged when it holds none. -/
theorem decodeMembers_path {R G δ : Type} (fields : List (StructField α)) (relName : String)
    (getR : α → R) (relType : String) (relFields : List (StructField R)) (gName : String)
    (getG : R → G) (gType : String) (gFields : List (StructField G))
    (getD : G → Option (List δ)) (sliceType : String) (zero : δ) (st : Store δ)
    (c1 : Component fields relName getR (storeStruct relType relFields))
    (c2 : Component relFields gName getG (storeStruct gType gFields))
    (c3 : Component gFields "data" getD (storeSlice sliceType zero st))
    (ms : List (String × JSON)) (a a2 : α)
    (h : decodeMembers fields ms a none = .ok (a2, none)) :
    match (valuesAt [relName, gName, "data"] [.obj ms]).getLast? with
    | none => getD (getG (getR a2)) = getD (getG (getR a))
    | some v => storeSlice sliceType zero st v none = .ok (getD (getG (getR a2)), none) := by
  have h1 := decodeMembers_component fields relName getR _ c1.hinj c1.h0 c1.hframe c1.hact ms a a2 h
  have h2 := applyAll_storeStruct relType relFields _ _ _ h1
  have h3 := decodeMembers_component relFields gName getG _ c2.hinj c2.h0 c2.hframe c2.hact _ _ _ h2
  have h4 := applyAll_storeStruct gType gFields _ _ _ h3
  have h5 := decodeMembers_component gFields "data" getD _ c3.hinj c3.h0 c3.hframe c3.hact _ _ _ h4
  have h6 := applyAll_storeSlice sliceType zero st _ _ _ h5
  simpa [valuesAt, membersOf] using h6

/-- The table of a helper with a `Relationships` field: that field is the one
writer of the helper's relationships. -/
theorem helper_component {R : Type} (E : Embedding α β) (zero : α) (goType : String)
    (base : List (StructField α)) (relName : String) (getR : β → R) (setR : β → R → β)
    (st : Store R) (names : List String) (hnames : base.map (·.name) = names)
    (hn : ∀ n ∈ names ++ ["attributes", relName], ∀ m ∈ names ++ ["attributes", relName],
      foldName n = foldName m → n = m)
    (hrel : relName ∉ names ∧ relName ≠ "attributes")
    (hRE : ∀ b a, getR (E.setE b a) = getR b) (hRP : ∀ b q, getR (E.setP b q) = getR b)
    (hRR : ∀ b r, getR (setR b r) = r) :
    Component (base.map (StructField.lift E.getE E.setE) ++
      [attributesField E zero goType base, StructField.of relName getR setR st]) relName getR st := by
  have hmem : ∀ f ∈ base.map (StructField.lift E.getE E.setE) ++
      [attributesField E zero goType base, StructField.of relName getR setR st],
      (∃ g ∈ base, f = StructField.lift E.getE E.setE g) ∨
      f = attributesField E zero goType base ∨ f = StructField.of relName getR setR st := by
    intro f hf
    simp only [List.mem_append, List.mem_map, List.mem_cons, List.mem_singleton,
      List.not_mem_nil, or_false] at hf
    rcases hf with ⟨g, hg, rfl⟩ | rfl | rfl
    · exact Or.inl ⟨g, hg, rfl⟩
    · exact Or.inr (Or.inl rfl)
    · exact Or.inr (Or.inr rfl)
  refine ⟨?_, ⟨StructField.of relName getR setR st, by simp, rfl⟩, ?_, ?_⟩
  · apply fold_injective_of_names _ (names ++ ["attributes", relName]) _ hn
    simp only [List.map_append, List.map_map, List.map_cons, List.map_nil]
    rw [← hnames]
    rfl
  · intro f hf hne v a a2 e hst
    rcases hmem f hf with ⟨g, _, rfl⟩ | rfl | rfl
    · exact StructField.lift_frame E.getE E.setE getR hRE g v a a2 e hst
    · exact attributesField_frame E zero goType base getR hRE hRP v a a2 e hst
    · exact absurd rfl hne
  · intro f hf heq v a a2 e hst
    rcases hmem f hf with ⟨g, hg, rfl⟩ | rfl | rfl
    · exfalso
      apply hrel.1
      rw [← hnames, ← heq]
      exact List.mem_map_of_mem (·.name) hg
    · exact absurd heq.symm hrel.2
    · exact StructField.of_act relName getR setR st hRR v a a2 e hst

/-- A table with the single field `name`. -/
theorem component_single {δ : Type} (name : String) (getF : β → δ) (setF : β → δ → β)
    (st : Store δ) (hgs : ∀ b a, getF (setF b a) = a) :
    Component [StructField.of name getF setF st] name getF st := by
  refine ⟨?_, ⟨_, List.mem_singleton_self _, rfl⟩, ?_, ?_⟩
  · intro f hf g hg _
    rw [List.mem_singleton] at hf hg
    rw [hf, hg]
  · intro f hf hne
    rw [List.mem_singleton] at hf
    subst hf
    exact absurd rfl hne
  · intro f hf _ v a a2 e hst
    rw [List.mem_singleton] at hf
    subst hf
    exact StructField.of_act name getF setF st hgs v a a2 e hst

/-- The first field of a table of two fields. -/
theorem component_first {δ ε : Type} (n1 n2 : String) (g1 : β → δ) (s1 : β → δ → β)
    (st1 : Store δ) (g2 : β → ε) (s2 : β → ε → β) (st2 : Store ε)
    (hne : foldName n1 ≠ foldName n2) (h11 : ∀ b a, g1 (s1 b a) = a)
    (h12 : ∀ b a, g1 (s2 b a) = g1 b) :
    Component [StructField.of n1 g1 s1 st1, StructField.of n2 g2 s2 st2] n1 g1 st1 := by
  have hn : n1 ≠ n2 := fun h => hne (by rw [h])
  refine ⟨?_, ⟨_, List.mem_cons_self _ _, rfl⟩, ?_, ?_⟩
  · intro f hf g hg hfg
    simp only [List.mem_cons, List.mem_singleton, List.not_mem_nil, or_false] at hf hg
    rcases hf with rfl | rfl <;> rcases hg with rfl | rfl
    · rfl
    · exact absurd hfg hne
    · exact absurd hfg.symm hne
    · rfl
  · intro f hf hname v a a2 e hst
    simp only [List.mem_cons, List.mem_singleton, List.not_mem_nil, or_false] at hf
    rcases hf with rfl | rfl
    · exact absurd rfl hname
    · exact StructField.of_frame n2 g2 s2 st2 g1 h12 v a a2 e hst
  · intro f hf hname v a a2 e hst
    simp only [List.mem_cons, List.mem_singleton, List.not_mem_nil, or_false] at hf
    rcases hf with rfl | rfl
    · exact StructField.of_act n1 g1 s1 st1 h11 v a a2 e hst
    · exact absurd hname.symm hn

/-- The second field of a table of two fields. -/
theorem component_second {δ ε : Type} (n1 n2 : String) (g1 : β → δ) (s1 : β → δ → β)
    (st1 : Store δ) (g2 : β → ε) (s2 : β → ε → β) (st2 : Store ε)
    (hne : foldName n1 ≠ foldName n2) (h22 : ∀ b a, g2 (s2 b a) = a)
    (h21 : ∀ b a, g2 (s1 b a) = g2 b) :
    Component [StructField.of n1 g1 s1 st1, StructField.of n2 g2 s2 st2] n2 g2 st2 := by
  have hn : n1 ≠ n2 := fun h => hne (by rw [h])
  refine ⟨?_, ⟨_, List.mem_cons_of_mem _ (List.mem_singleton_self _), rfl⟩, ?_, ?_⟩
  · intro f hf g hg hfg
    simp only [List.mem_cons, List.mem_singleton, List.not_mem_nil, or_false] at hf hg
    rcases hf with rfl | rfl <;> rcases hg with rfl | rfl
    · rfl
    · exact absurd hfg hne
    · exact absurd hfg.symm hne
    · rfl
  · intro f hf hname v a a2 e hst
    simp only [List.mem_cons, List.mem_singleton, List.not_mem_nil, or_false] at hf
    rcases hf with rfl | rfl
    · exact StructField.of_frame n1 g1 s1 st1 g2 h21 v a a2 e hst
    · exact absurd rfl hname
  · intro f hf hname v a a2 e hst
    simp only [List.mem_cons, List.mem_singleton, List.not_mem_nil, or_false] at hf
    rcases hf with rfl | rfl
    · exact absurd hname hn
    · exact StructField.of_act n2 g2 s2 st2 h22 v a a2 e hst

/-- The path of a document is followed case-insensitively. -/
theorem valuesAt_fold (k k2 : String) (ks : List String) (vs : List JSON)
    (h : foldName k = foldName k2) : valuesAt (k :: ks) vs = valuesAt (k2 :: ks) vs := by
  simp only [valuesAt, h]

/-- Members none of whose keys matches `n0` leave alone what every field not
named `n0` leaves alone. -/
theorem decodeMembers_absent {γ : Type} (fields : List (StructField α)) (n0 : String)
    (get : α → γ)
    (hframe : ∀ f ∈ fields, f.name ≠ n0 → ∀ v a a2 e, f.store v a = .ok (a2, e) → get a2 = get a)
    (ms : List (String × JSON)) (habs : ∀ kv ∈ ms, foldName kv.1 ≠ foldName n0) :
    ∀ (a a2 : α) (sv sv2 : Option JsonError),
      decodeMembers fields ms a sv = .ok (a2, sv2) → get a2 = get a := by
  induction ms with
  | nil =>
    intro a a2 sv sv2 h
    simp only [decodeMembers, Except.ok.injEq, Prod.mk.injEq] at h
    rw [h.1]
  | cons kv ms ih =>
    intro a a2 sv sv2 h
    obtain ⟨key, v⟩ := kv
    have hrest : ∀ kv ∈ ms, foldName kv.1 ≠ foldName n0 :=
      fun kv hkv => habs kv (List.mem_cons_of_mem _ hkv)
    simp only [decodeMembers] at h
    cases hf : findField fields key with
    | none =>
      rw [hf] at h
      exact ih hrest a a2 sv sv2 h
    | some f =>
      rw [hf] at h
      simp only at h
      obtain ⟨hmem, hfold⟩ := findField_some fields key f hf
      have hne : f.name ≠ n0 := fun hn =>
        habs (key, v) (List.mem_cons_self _ _) (by rw [← hfold, hn])
      cases hst : f.store v a with
      | error e => rw [hst] at h; cases h
      | ok r =>
        obtain ⟨a1, new⟩ := r
        rw [hst] at h
        rw [ih hrest a1 a2 _ sv2 h, hframe f hmem hne v a a1 new hst]

/-- A value none of whose members has a key matching `n0`, decoded as a struct. -/
theorem storeStruct_absent {γ : Type} (goType : String) (fields : List (StructField α))
    (n0 : String) (get : α → γ)
    (hframe : ∀ f ∈ fields, f.name ≠ n0 → ∀ v a a2 e, f.store v a = .ok (a2, e) → get a2 = get a)
    (v : JSON) (habs : ∀ kv ∈ membersOf v, foldName kv.1 ≠ foldName n0) (a a2 : α)
    (e : Option JsonError) (h : storeStruct goType fields v a = .ok (a2, e)) :
    get a2 = get a := by
  cases v with
  | obj ms => exact decodeMembers_absent fields n0 get hframe ms habs a a2 none e h
  | null => simp only [storeStruct, Except.ok.injEq, Prod.mk.injEq] at h; rw [h.1]
  | bool x => simp only [storeStruct, Except.ok.injEq, Prod.mk.injEq] at h; rw [h.1]
  | num x => simp only [storeStruct, Except.ok.injEq, Prod.mk.injEq] at h; rw [h.1]
  | str x => simp only [storeStruct, Except.ok.injEq, Prod.mk.injEq] at h; rw [h.1]
  | arr x => simp only [storeStruct, Except.ok.injEq, Prod.mk.injEq] at h; rw [h.1]

/-- The `attributes` field leaves a component of the embedded struct alone when
the value it decodes has no member matching the component's name. -/
theorem attributesField_absent {γ : Type} (E : Embedding α β) (zero : α) (goType : String)
    (base : List (StructField α)) (n0 : String) (get : α → γ)
    (hframe : ∀ f ∈ base, f.name ≠ n0 → ∀ v a a2 e, f.store v a = .ok (a2, e) → get a2 = get a)
    (v : JSON) (habs : ∀ kv ∈ membersOf v, foldName kv.1 ≠ foldName n0) (b b2 : β)
    (e : Option JsonError) (h : (attributesField E zero goType base).store v b = .ok (b2, e)) :
    get (E.getE b2) = get (E.getE b) := by
  by_cases hv : v = .null
  · subst hv
    simp only [attributesField, storeAttributes, Except.ok.injEq, Prod.mk.injEq] at h
    rw [← h.1, E.getE_setP]
  · have hstore : (attributesField E zero goType base).store v b =
        match E.getP b with
        | .embedded =>
          match storeStruct goType base v (E.getE b) with
          | .error e => .error e
          | .ok (a, saved) => .ok (E.setE b a, saved)
        | .nil =>
          match storeStruct goType base v zero with
          | .error e => .error e
          | .ok (a, saved) => .ok (E.setP b (.fresh a), saved)
        | .fresh a0 =>
          match storeStruct goType base v a0 with
          | .error e => .error e
          | .ok (a, saved) => .ok (E.setP b (.fresh a), saved) := by
      cases v <;> first | exact absurd rfl hv | rfl
    rw [hstore] at h
    cases hp : E.getP b with
    | embedded =>
      rw [hp] at h
      simp only at h
      cases hst : storeStruct goType base v (E.getE b) with
      | error e2 => rw [hst] at h; cases h
      | ok r =>
        obtain ⟨a, sv⟩ := r
        rw [hst] at h
        simp only [Except.ok.injEq, Prod.mk.injEq] at h
        rw [← h.1, E.getE_setE]
        exact storeStruct_absent goType base n0 get hframe v habs _ a sv hst
    | nil =>
      rw [hp] at h
      simp only at h
      cases hst : storeStruct goType base v zero with
      | error e2 => rw [hst] at h; cases h
      | ok r =>
        rw [hst] at h
        simp only [Except.ok.injEq, Prod.mk.injEq] at h
        rw [← h.1, E.getE_setP]
    | fresh a0 =>
      rw [hp] at h
      simp only at h
      cases hst : storeStruct goType base v a0 with
      | error e2 => rw [hst] at h; cases h
      | ok r =>
        rw [hst] at h
        simp only [Except.ok.injEq, Prod.mk.injEq] at h
        rw [← h.1, E.getE_setP]

/-- The predicate `absentFrom`, member by member. -/
theorem absentFrom_obj (n0 : String) (ms : List (String × JSON)) (h : absentFrom n0 (.obj ms)) :
    (∀ kv ∈ ms, foldName kv.1 ≠ foldName n0) ∧
    (∀ kv ∈ ms, foldName kv.1 = foldName "attributes" →
      ∀ kv2 ∈ membersOf kv.2, foldName kv2.1 ≠ foldName n0) := by
  obtain ⟨h1, h2⟩ := h
  simp only [valuesAt, List.flatMap_cons, List.flatMap_nil, List.append_nil, membersOf,
    List.map_eq_nil_iff, List.filter_eq_nil_iff, decide_eq_true_eq] at h1 h2
  refine ⟨fun kv hkv => h1 kv hkv, fun kv hkv hattr kv2 hkv2 => h2 kv2 ?_⟩
  rw [List.mem_flatMap]
  refine ⟨kv.2, ?_, hkv2⟩
  rw [List.mem_map]
  exact ⟨kv, by simp [List.mem_filter, hkv, hattr], rfl⟩

/-- A component of the embedded struct that no member of the document names,
at top level or under `attributes`, is left alone by the helper's member loop. -/
theorem decodeMembers_helper_absent {γ : Type} (E : Embedding α β) (zero : α)
    (goType : String) (base : List (StructField α)) (others : List (StructField β))
    (n0 : String) (get : α → γ)
    (hframe : ∀ f ∈ base, f.name ≠ n0 → ∀ v a a2 e, f.store v a = .ok (a2, e) → get a2 = get a)
    (hothers : ∀ f ∈ others, ∀ v b b2 e, f.store v b = .ok (b2, e) → E.getE b2 = E.getE b)
    (ms : List (String × JSON)) (htop : ∀ kv ∈ ms, foldName kv.1 ≠ foldName n0)
    (hattr : ∀ kv ∈ ms, foldName kv.1 = foldName "attributes" →
      ∀ kv2 ∈ membersOf kv.2, foldName kv2.1 ≠ foldName n0) :
    ∀ (b b2 : β) (sv sv2 : Option JsonError),
      decodeMembers (base.map (StructField.lift E.getE E.setE) ++
        attributesField E zero goType base :: others) ms b sv = .ok (b2, sv2) →
      get (E.getE b2) = get (E.getE b) := by
  induction ms with
  | nil =>
    intro b b2 sv sv2 h
    simp only [decodeMembers, Except.ok.injEq, Prod.mk.injEq] at h
    rw [h.1]
  | cons kv ms ih =>
    intro b b2 sv sv2 h
    obtain ⟨key, v⟩ := kv
    have htop2 : ∀ kv ∈ ms, foldName kv.1 ≠ foldName n0 :=
      fun kv hkv => htop kv (List.mem_cons_of_mem _ hkv)
    have hattr2 : ∀ kv ∈ ms, foldName kv.1 = foldName "attributes" →
        ∀ kv2 ∈ membersOf kv.2, foldName kv2.1 ≠ foldName n0 :=
      fun kv hkv => hattr kv (List.mem_cons_of_mem _ hkv)
    simp only [decodeMembers] at h
    cases hf : findField (base.map (StructField.lift E.getE E.setE) ++
        attributesField E zero goType base :: others) key with
    | none =>
      rw [hf] at h
      exact ih htop2 hattr2 b b2 sv sv2 h
    | some f =>
      rw [hf] at h
      simp only at h
      obtain ⟨hmem, hfold⟩ := findField_some _ key f hf
      cases hst : f.store v b with
      | error e => rw [hst] at h; cases h
      | ok r =>
        obtain ⟨b1, new⟩ := r
        rw [hst] at h
        rw [ih htop2 hattr2 b1 b2 _ sv2 h]
        simp only [List.mem_append, List.mem_map, List.mem_cons] at hmem
        rcases hmem with ⟨g, hg, rfl⟩ | rfl | hoth
        · have hne : g.name ≠ n0 := fun hn =>
            htop (key, v) (List.mem_cons_self _ _) (by
              rw [← hfold, StructField.lift_name, hn])
          simp only [StructField.lift] at hst
          cases hgs : g.store v (E.getE b) with
          | error e => rw [hgs] at hst; cases hst
          | ok r2 =>
            obtain ⟨a, new2⟩ := r2
            rw [hgs] at hst
            simp only [Except.ok.injEq, Prod.mk.injEq] at hst
            rw [← hst.1, E.getE_setE]
            exact hframe g hg hne v _ a new2 hgs
        · exact attributesField_absent E zero goType base n0 get hframe v
            (hattr (key, v) (List.mem_cons_self _ _) hfold.symm) b b1 new hst
        · rw [hothers f hoth v b b1 new hst]

end Decoder

/-! ### Members decoded in place, `null` members, encoded values -/

section Merge

variable {α β : Type}

/-- An `attributes` object met while the pointer still holds the address of the
embedded struct is decoded in place: `pre…, "attributes": {A…}, post…` decodes
like `pre…, A…, post…`, when no key of `pre` or `A` selects `Attributes` or
another field of the helper itself. -/
theorem decodeMembers_flatten (E : Embedding α β) (zero : α) (goType : String)
    (base : List (StructField α)) (others : List (StructField β))
    (hbase : ∀ f ∈ base, f.name ≠ "attributes") (pre A post : List (String × JSON)) (h : β)
    (hp : E.getP h = .embedded)
    (hpre : ∀ kv ∈ pre, ∀ f ∈ attributesField E zero goType base :: others,
      foldName f.name ≠ foldName kv.1)
    (hA : ∀ kv ∈ A, ∀ f ∈ attributesField E zero goType base :: others,
      foldName f.name ≠ foldName kv.1) (sv : Option JsonError) :
    decodeMembers (base.map (StructField.lift E.getE E.setE) ++
        attributesField E zero goType base :: others)
        (pre ++ ("attributes", .obj A) :: post) h sv =
    decodeMembers (base.map (StructField.lift E.getE E.setE) ++
        attributesField E zero goType base :: others) (pre ++ (A ++ post)) h sv := by
  rw [decodeMembers_append, decodeMembers_append,
    decodeMembers_promoted E base _ pre hpre h sv]
  cases decodeMembers base pre (E.getE h) sv with
  | error e => rfl
  | ok r =>
    obtain ⟨a1, sv1⟩ := r
    simp only
    rw [decodeMembers_attributes E zero goType base others hbase A post (E.setE h a1)
      (by rw [E.getP_setE]; exact hp) sv1, decodeMembers_append,
      decodeMembers_promoted E base _ A hA (E.setE h a1) sv1, E.getE_setE,
      decodeMembers_saved base A a1 sv1]
    cases decodeMembers base A a1 none with
    | error e => rfl
    | ok r2 => simp [E.setE_setE]

/-- Members none of whose keys matches the name of the field `g` keep `null`
without effect on that field, when every other field does. -/
theorem decodeMembers_null_inv (base : List (StructField α)) (g : StructField α)
    (hframe : ∀ f ∈ base, f.name ≠ g.name → ∀ v a a2 e, f.store v a = .ok (a2, e) →
      g.store .null a = .ok (a, none) → g.store .null a2 = .ok (a2, none))
    (ms : List (String × JSON)) (habs : ∀ kv ∈ ms, foldName kv.1 ≠ foldName g.name) :
    ∀ (a a2 : α) (sv sv2 : Option JsonError),
      decodeMembers base ms a sv = .ok (a2, sv2) →
      g.store .null a = .ok (a, none) → g.store .null a2 = .ok (a2, none) := by
  induction ms with
  | nil =>
    intro a a2 sv sv2 h hn
    simp only [decodeMembers, Except.ok.injEq, Prod.mk.injEq] at h
    rw [← h.1]
    exact hn
  | cons kv ms ih =>
    intro a a2 sv sv2 h hn
    obtain ⟨key, v⟩ := kv
    have hrest : ∀ kv ∈ ms, foldName kv.1 ≠ foldName g.name :=
      fun kv hkv => habs kv (List.mem_cons_of_mem _ hkv)
    simp only [decodeMembers] at h
    cases hf : findField base key with
    | none =>
      rw [hf] at h
      exact ih hrest a a2 sv sv2 h hn
    | some f =>
      rw [hf] at h
      simp only at h
      obtain ⟨hmem, hfold⟩ := findField_some base key f hf
      have hne : f.name ≠ g.name := fun hname =>
        habs (key, v) (List.mem_cons_self _ _) (by rw [← hfold, hname])
      cases hst : f.store v a with
      | error e => rw [hst] at h; cases h
      | ok r =>
        obtain ⟨a1, new⟩ := r
        rw [hst] at h
        exact ih hrest a1 a2 _ sv2 h (hframe f hmem hne v a a1 new hst hn)

/-- A member `k: null` that no earlier member of the same object names can be
left out, when `null` has no effect on the zero value of each field. -/
theorem decodeMembers_null_member (base : List (StructField α))
    (hframe : ∀ g ∈ base, ∀ f ∈ base, f.name ≠ g.name → ∀ v a a2 e, f.store v a = .ok (a2, e) →
      g.store .null a = .ok (a, none) → g.store .null a2 = .ok (a2, none))
    (k : String) (ms1 ms2 : List (String × JSON))
    (habs : ∀ kv ∈ ms1, foldName kv.1 ≠ foldName k) (a : α) (sv : Option JsonError)
    (ha : ∀ g ∈ base, foldName g.name = foldName k → g.store .null a = .ok (a, none)) :
    decodeMembers base (ms1 ++ (k, .null) :: ms2) a sv = decodeMembers base (ms1 ++ ms2) a sv := by
  rw [decodeMembers_append, decodeMembers_append]
  cases h1 : decodeMembers base ms1 a sv with
  | error e => rfl
  | ok r =>
    obtain ⟨a1, sv1⟩ := r
    simp only [decodeMembers]
    cases hf : findField base k with
    | none => rfl
    | some g =>
      obtain ⟨hmem, hfold⟩ := findField_some base k g hf
      have hn := decodeMembers_null_inv base g (hframe g hmem) ms1
        (fun kv hkv => by rw [hfold]; exact habs kv hkv) a a1 sv sv1 h1 (ha g hmem hfold)
      simp only [hn, saveError_none_right]

/-- What the member loop of a helper keeps true of a field `g` of the embedded
struct while no member names it: `null` has no effect on it, in the embedded
struct and in the struct a detached `Attributes` pointer points at. -/
theorem decodeMembers_helper_null_inv (E : Embedding α β) (zero : α)
    (goType : String) (base : List (StructField α)) (others : List (StructField β))
    (hPP : ∀ h q, E.getP (E.setP h q) = q)
    (g : StructField α)
    (hzero : g.store .null zero = .ok (zero, none))
    (hframe : ∀ f ∈ base, f.name ≠ g.name → ∀ v a a2 e, f.store v a = .ok (a2, e) →
      g.store .null a = .ok (a, none) → g.store .null a2 = .ok (a2, none))
    (hothers : ∀ f ∈ others, ∀ v b b2 e, f.store v b = .ok (b2, e) →
      E.getE b2 = E.getE b ∧ E.getP b2 = E.getP b)
    (ms : List (String × JSON)) (htop : ∀ kv ∈ ms, foldName kv.1 ≠ foldName g.name)
    (hattr : ∀ kv ∈ ms, foldName kv.1 = foldName "attributes" →
      ∀ kv2 ∈ membersOf kv.2, foldName kv2.1 ≠ foldName g.name) :
    ∀ (b b2 : β) (sv sv2 : Option JsonError),
      decodeMembers (base.map (StructField.lift E.getE E.setE) ++
        attributesField E zero goType base :: others) ms b sv = .ok (b2, sv2) →
      (g.store .null (E.getE b) = .ok (E.getE b, none) ∧
        ∀ a, E.getP b = .fresh a → g.store .null a = .ok (a, none)) →
      (g.store .null (E.getE b2) = .ok (E.getE b2, none) ∧
        ∀ a, E.getP b2 = .fresh a → g.store .null a = .ok (a, none)) := by
  have hstruct : ∀ (v : JSON), (∀ kv2 ∈ membersOf v, foldName kv2.1 ≠ foldName g.name) →
      ∀ (a a2 : α) (e : Option JsonError), storeStruct goType base v a = .ok (a2, e) →
      g.store .null a = .ok (a, none) → g.store .null a2 = .ok (a2, none) := by
    intro v hv a a2 e hst hn
    cases v with
    | obj ms2 => exact decodeMembers_null_inv base g hframe ms2 hv a a2 none e hst hn
    | null => simp only [storeStruct, Except.ok.injEq, Prod.mk.injEq] at hst; rw [← hst.1]; exact hn
    | bool x => simp only [storeStruct, Except.ok.injEq, Prod.mk.injEq] at hst; rw [← hst.1]; exact hn
    | num x => simp only [storeStruct, Except.ok.injEq, Prod.mk.injEq] at hst; rw [← hst.1]; exact hn
    | str x => simp only [storeStruct, Except.ok.injEq, Prod.mk.injEq] at hst; rw [← hst.1]; exact hn
    | arr x => simp only [storeStruct, Except.ok.injEq, Prod.mk.injEq] at hst; rw [← hst.1]; exact hn
  induction ms with
  | nil =>
    intro b b2 sv sv2 h hJ
    simp only [decodeMembers, Except.ok.injEq, Prod.mk.injEq] at h
    rw [← h.1]
    exact hJ
  | cons kv ms ih =>
    intro b b2 sv sv2 h hJ
    obtain ⟨key, v⟩ := kv
    have htop2 : ∀ kv ∈ ms, foldName kv.1 ≠ foldName g.name :=
      fun kv hkv => htop kv (List.mem_cons_of_mem _ hkv)
    have hattr2 : ∀ kv ∈ ms, foldName kv.1 = foldName "attributes" →
        ∀ kv2 ∈ membersOf kv.2, foldName kv2.1 ≠ foldName g.name :=
      fun kv hkv => hattr kv (List.mem_cons_of_mem _ hkv)
    simp only [decodeMembers] at h
    cases hf : findField (base.map (StructField.lift E.getE E.setE) ++
        attributesField E zero goType base :: others) key with
    | none =>
      rw [hf] at h
      exact ih htop2 hattr2 b b2 sv sv2 h hJ
    | some f =>
      rw [hf] at h
      simp only at h
      obtain ⟨hmem, hfold⟩ := findField_some _ key f hf
      cases hst : f.store v b with
      | error e => rw [hst] at h; cases h
      | ok r =>
        obtain ⟨b1, new⟩ := r
        rw [hst] at h
        refine ih htop2 hattr2 b1 b2 _ sv2 h ?_
        simp only [List.mem_append, List.mem_map, List.mem_cons] at hmem
        rcases hmem with ⟨f0, hf0, rfl⟩ | rfl | hoth
        · have hne : f0.name ≠ g.name := fun hname =>
            htop (key, v) (List.mem_cons_self _ _) (by
              rw [← hfold, StructField.lift_name, hname])
          simp only [StructField.lift] at hst
          cases hgs : f0.store v (E.getE b) with
          | error e => rw [hgs] at hst; cases hst
          | ok r2 =>
            obtain ⟨a, new2⟩ := r2
            rw [hgs] at hst
            simp only [Except.ok.injEq, Prod.mk.injEq] at hst
            rw [← hst.1, E.getE_setE, E.getP_setE]
            exact ⟨hframe f0 hf0 hne v _ a new2 hgs hJ.1, hJ.2⟩
        · have hv := hattr (key, v) (List.mem_cons_self _ _) hfold.symm
          by_cases hnull : v = .null
          · subst hnull
            simp only [attributesField, storeAttributes, Except.ok.injEq, Prod.mk.injEq] at hst
            rw [← hst.1, E.getE_setP, hPP]
            exact ⟨hJ.1, fun a ha => by cases ha⟩
          · have hstore : (attributesField E zero goType base).store v b =
                match E.getP b with
                | .embedded =>
                  match storeStruct goType base v (E.getE b) with
                  | .error e => .error e
                  | .ok (a, saved) => .ok (E.setE b a, saved)
                | .nil =>
                  match storeStruct goType base v zero with
                  | .error e => .error e
                  | .ok (a, saved) => .ok (E.setP b (.fresh a), saved)
                | .fresh a0 =>
                  match storeStruct goType base v a0 with
                  | .error e => .error e
                  | .ok (a, saved) => .ok (E.setP b (.fresh a), saved) := by
              cases v <;> first | exact absurd rfl hnull | rfl
            rw [hstore] at hst
            cases hp : E.getP b with
            | embedded =>
              rw [hp] at hst
              simp only at hst
              cases hs : storeStruct goType base v (E.getE b) with
              | error e2 => rw [hs] at hst; cases hst
              | ok r =>
                obtain ⟨a, sv3⟩ := r
                rw [hs] at hst
                simp only [Except.ok.injEq, Prod.mk.injEq] at hst
                rw [← hst.1, E.getE_setE, E.getP_setE, hp]
                exact ⟨hstruct v hv _ a sv3 hs hJ.1, fun a ha => by cases ha⟩
            | nil =>
              rw [hp] at hst
              simp only at hst
              cases hs : storeStruct goType base v zero with
              | error e2 => rw [hs] at hst; cases hst
              | ok r =>
                obtain ⟨a, sv3⟩ := r
                rw [hs] at hst
                simp only [Except.ok.injEq, Prod.mk.injEq] at hst
                rw [← hst.1, E.getE_setP, hPP]
                refine ⟨hJ.1, fun a2 ha2 => ?_⟩
                cases ha2
                exact hstruct v hv _ a sv3 hs hzero
            | fresh a0 =>
              rw [hp] at hst
              simp only at hst
              cases hs : storeStruct goType base v a0 with
              | error e2 => rw [hs] at hst; cases hst
              | ok r =>
                obtain ⟨a, sv3⟩ := r
                rw [hs] at hst
                simp only [Except.ok.injEq, Prod.mk.injEq] at hst
                rw [← hst.1, E.getE_setP, hPP]
                refine ⟨hJ.1, fun a2 ha2 => ?_⟩
                cases ha2
                exact hstruct v hv _ a sv3 hs (hJ.2 a0 hp)
        · obtain ⟨h1, h2⟩ := hothers f hoth v b b1 new hst
          rw [h1, h2]
          exact hJ

/-- A top-level member `k: null` of a helper's document can be left out, when
no earlier member names `k`, at top level or under `attributes`, and `k` does
not select the `Attributes` pointer itself. -/
theorem decodeMembers_helper_null_member (E : Embedding α β) (zero : α)
    (goType : String) (base : List (StructField α)) (others : List (StructField β))
    (hPP : ∀ h q, E.getP (E.setP h q) = q)
    (hzero : ∀ g ∈ base, g.store .null zero = .ok (zero, none))
    (hframe : ∀ g ∈ base, ∀ f ∈ base, f.name ≠ g.name → ∀ v a a2 e, f.store v a = .ok (a2, e) →
      g.store .null a = .ok (a, none) → g.store .null a2 = .ok (a2, none))
    (hothers : ∀ f ∈ others, ∀ v b b2 e, f.store v b = .ok (b2, e) →
      E.getE b2 = E.getE b ∧ E.getP b2 = E.getP b)
    (hothersNull : ∀ f ∈ others, ∀ b, f.store .null b = .ok (b, none))
    (k : String) (hk : foldName k ≠ foldName "attributes")
    (ms1 ms2 : List (String × JSON)) (htop : ∀ kv ∈ ms1, foldName kv.1 ≠ foldName k)
    (hattr : ∀ kv ∈ ms1, foldName kv.1 = foldName "attributes" →
      ∀ kv2 ∈ membersOf kv.2, foldName kv2.1 ≠ foldName k)
    (b : β) (sv : Option JsonError)
    (hb : ∀ g ∈ base, g.store .null (E.getE b) = .ok (E.getE b, none) ∧
      ∀ a, E.getP b = .fresh a → g.store .null a = .ok (a, none)) :
    decodeMembers (base.map (StructField.lift E.getE E.setE) ++
        attributesField E zero goType base :: others) (ms1 ++ (k, .null) :: ms2) b sv =
    decodeMembers (base.map (StructField.lift E.getE E.setE) ++
        attributesField E zero goType base :: others) (ms1 ++ ms2) b sv := by
  rw [decodeMembers_append, decodeMembers_append]
  cases h1 : decodeMembers (base.map (StructField.lift E.getE E.setE) ++
      attributesField E zero goType base :: others) ms1 b sv with
  | error e => rfl
  | ok r =>
    obtain ⟨b1, sv1⟩ := r
    simp only [decodeMembers]
    cases hf : findField (base.map (StructField.lift E.getE E.setE) ++
        attributesField E zero goType base :: others) k with
    | none => rfl
    | some f =>
      obtain ⟨hmem, hfold⟩ := findField_some _ k f hf
      have hid : f.store .null b1 = .ok (b1, none) := by
        simp only [List.mem_append, List.mem_map, List.mem_cons] at hmem
        rcases hmem with ⟨g, hg, rfl⟩ | rfl | hoth
        · rw [StructField.lift_name] at hfold
          have hJ := decodeMembers_helper_null_inv E zero goType base others hPP g
            (hzero g hg) (hframe g hg) hothers ms1
            (fun kv hkv => by rw [hfold]; exact htop kv hkv)
            (fun kv hkv ha kv2 hkv2 => by rw [hfold]; exact hattr kv hkv ha kv2 hkv2)
            b b1 sv sv1 h1 (hb g hg)
          simp only [StructField.lift, hJ.1, E.setE_getE]
        · exact absurd hfold.symm hk
        · exact hothersNull f hoth b1
      simp only [hid, saveError_none_right]

/-- A member `k: null` of an `attributes` object can be left out, when no
earlier member names `k`, in that object, at top level or in an earlier
`attributes` object. -/
theorem decodeMembers_helper_null_attribute (E : Embedding α β) (zero : α)
    (goType : String) (base : List (StructField α)) (others : List (StructField β))
    (hPP : ∀ h q, E.getP (E.setP h q) = q)
    (hbase : ∀ f ∈ base, foldName f.name ≠ foldName "attributes")
    (hnames : ∀ f ∈ others, foldName f.name ≠ foldName "attributes")
    (hzero : ∀ g ∈ base, g.store .null zero = .ok (zero, none))
    (hframe : ∀ g ∈ base, ∀ f ∈ base, f.name ≠ g.name → ∀ v a a2 e, f.store v a = .ok (a2, e) →
      g.store .null a = .ok (a, none) → g.store .null a2 = .ok (a2, none))
    (hothers : ∀ f ∈ others, ∀ v b b2 e, f.store v b = .ok (b2, e) →
      E.getE b2 = E.getE b ∧ E.getP b2 = E.getP b)
    (ka k : String) (hka : foldName ka = foldName "attributes")
    (ms1 as1 as2 ms2 : List (String × JSON)) (htop : ∀ kv ∈ ms1, foldName kv.1 ≠ foldName k)
    (hattr : ∀ kv ∈ ms1, foldName kv.1 = foldName "attributes" →
      ∀ kv2 ∈ membersOf kv.2, foldName kv2.1 ≠ foldName k)
    (has1 : ∀ kv ∈ as1, foldName kv.1 ≠ foldName k)
    (b : β) (sv : Option JsonError)
    (hb : ∀ g ∈ base, g.store .null (E.getE b) = .ok (E.getE b, none) ∧
      ∀ a, E.getP b = .fresh a → g.store .null a = .ok (a, none)) :
    decodeMembers (base.map (StructField.lift E.getE E.setE) ++
        attributesField E zero goType base :: others)
        (ms1 ++ (ka, .obj (as1 ++ (k, .null) :: as2)) :: ms2) b sv =
    decodeMembers (base.map (StructField.lift E.getE E.setE) ++
        attributesField E zero goType base :: others)
        (ms1 ++ (ka, .obj (as1 ++ as2)) :: ms2) b sv := by
  rw [decodeMembers_append, decodeMembers_append]
  cases h1 : decodeMembers (base.map (StructField.lift E.getE E.setE) ++
      attributesField E zero goType base :: others) ms1 b sv with
  | error e => rfl
  | ok r =>
    obtain ⟨b1, sv1⟩ := r
    simp only [decodeMembers]
    cases hf : findField (base.map (StructField.lift E.getE E.setE) ++
        attributesField E zero goType base :: others) ka with
    | none => rfl
    | some f =>
      obtain ⟨hmem, hfold⟩ := findField_some _ ka f hf
      have hsame : f.store (.obj (as1 ++ (k, .null) :: as2)) b1 =
          f.store (.obj (as1 ++ as2)) b1 := by
        simp only [List.mem_append, List.mem_map, List.mem_cons] at hmem
        rcases hmem with ⟨g, hg, rfl⟩ | rfl | hoth
        · rw [StructField.lift_name] at hfold
          exact absurd (hfold.trans hka) (hbase g hg)
        · have hJ : ∀ g ∈ base, foldName g.name = foldName k →
              (g.store .null (E.getE b1) = .ok (E.getE b1, none) ∧
                ∀ a, E.getP b1 = .fresh a → g.store .null a = .ok (a, none)) :=
            fun g hg hgk => decodeMembers_helper_null_inv E zero goType base others hPP g
              (hzero g hg) (hframe g hg) hothers ms1
              (fun kv hkv => by rw [hgk]; exact htop kv hkv)
              (fun kv hkv ha kv2 hkv2 => by rw [hgk]; exact hattr kv hkv ha kv2 hkv2)
              b b1 sv sv1 h1 (hb g hg)
          simp only [attributesField, storeAttributes, storeStruct]
          cases hp : E.getP b1 with
          | embedded =>
            simp only
            rw [decodeMembers_null_member base hframe k as1 as2 has1 (E.getE b1) none
              (fun g hg hgk => (hJ g hg hgk).1)]
          | nil =>
            simp only
            rw [decodeMembers_null_member base hframe k as1 as2 has1 zero none
              (fun g hg _ => hzero g hg)]
          | fresh a0 =>
            simp only
            rw [decodeMembers_null_member base hframe k as1 as2 has1 a0 none
              (fun g hg hgk => (hJ g hg hgk).2 a0 hp)]
        · exact absurd (hfold.trans hka) (hnames f hoth)
      simp only [hsame]

/-- A top-level member `n0: v` that no later member overrides decides the
component `get` of the embedded struct that the field named `n0` writes. -/
theorem decodeMembers_helper_written {γ : Type} (E : Embedding α β) (zero : α)
    (goType : String) (base : List (StructField α)) (others : List (StructField β))
    (n0 : String) (get : α → γ)
    (hframe : ∀ f ∈ base, f.name ≠ n0 → ∀ v a a2 e, f.store v a = .ok (a2, e) → get a2 = get a)
    (hothers : ∀ f ∈ others, ∀ v b b2 e, f.store v b = .ok (b2, e) → E.getE b2 = E.getE b)
    (g : StructField α)
    (hfind : findField (base.map (StructField.lift E.getE E.setE) ++
        attributesField E zero goType base :: others) n0 = some (StructField.lift E.getE E.setE g))
    (v : JSON) (c : γ) (hact : ∀ a a2 e, g.store v a = .ok (a2, e) → get a2 = c)
    (ms1 ms2 : List (String × JSON)) (htop : ∀ kv ∈ ms2, foldName kv.1 ≠ foldName n0)
    (hattr : ∀ kv ∈ ms2, foldName kv.1 = foldName "attributes" →
      ∀ kv2 ∈ membersOf kv.2, foldName kv2.1 ≠ foldName n0)
    (b b2 : β) (sv sv2 : Option JsonError)
    (h : decodeMembers (base.map (StructField.lift E.getE E.setE) ++
        attributesField E zero goType base :: others) (ms1 ++ (n0, v) :: ms2) b sv =
        .ok (b2, sv2)) :
    get (E.getE b2) = c := by
  rw [decodeMembers_append] at h
  cases h1 : decodeMembers (base.map (StructField.lift E.getE E.setE) ++
      attributesField E zero goType base :: others) ms1 b sv with
  | error e => rw [h1] at h; cases h
  | ok r =>
    obtain ⟨b1, sv1⟩ := r
    rw [h1] at h
    simp only [decodeMembers, hfind, StructField.lift] at h
    cases hgs : g.store v (E.getE b1) with
    | error e => rw [hgs] at h; cases h
    | ok r2 =>
      obtain ⟨a, new⟩ := r2
      rw [hgs] at h
      simp only at h
      rw [decodeMembers_helper_absent E zero goType base others n0 get hframe hothers ms2
        htop hattr _ b2 _ sv2 h, E.getE_setE]
      exact hact _ a new hgs

/-- A pair of `StructField.of` fields with independent storage: decoding into
one keeps `null` without effect on the other. -/
theorem StructField.of_null_frame {δ γ : Type} (nf : String) (getf : α → δ) (setf : α → δ → α)
    (stf : Store δ) (ng : String) (getg : α → γ) (setg : α → γ → α) (stg : Store γ)
    (h1 : ∀ b x, getg (setf b x) = getg b)
    (h2 : ∀ b x y, setg (setf b x) y = setf (setg b y) x)
    (v : JSON) (a a2 : α) (e : Option JsonError)
    (hst : (StructField.of nf getf setf stf).store v a = .ok (a2, e))
    (hn : (StructField.of ng getg setg stg).store .null a = .ok (a, none)) :
    (StructField.of ng getg setg stg).store .null a2 = .ok (a2, none) := by
  simp only [StructField.of] at hst hn ⊢
  cases hs : stf v (getf a) with
  | error e2 => rw [hs] at hst; cases hst
  | ok r =>
    obtain ⟨x, sv⟩ := r
    rw [hs] at hst
    simp only [Except.ok.injEq, Prod.mk.injEq] at hst
    rw [← hst.1, h1]
    cases hg : stg .null (getg a) with
    | error e2 => rw [hg] at hn; cases hn
    | ok r2 =>
      obtain ⟨y, sv2⟩ := r2
      rw [hg] at hn
      simp only [Except.ok.injEq, Prod.mk.injEq] at hn
      simp only [h2, hn.1, hn.2]

end Merge
section Encoding

/-- A member whose key selects no field can be left out. -/
theorem decodeMembers_unknown_member {α : Type} (fields : List (StructField α)) (k : String)
    (hk : findField fields k = none) (v : JSON) (ms1 ms2 : List (String × JSON)) (a : α)
    (sv : Option JsonError) :
    decodeMembers fields (ms1 ++ (k, v) :: ms2) a sv = decodeMembers fields (ms1 ++ ms2) a sv := by
  rw [decodeMembers_append, decodeMembers_append]
  cases decodeMembers fields ms1 a sv with
  | error e => rfl
  | ok r => simp only [decodeMembers, hk]
/-- A pointer encoded by `marshalPtr` is decoded back into a nil pointer, when
the decoder of the pointee inverts its encoder. -/
theorem storePtr_marshalPtr {α : Type} (zero : α) (st : Store α) (enc : α → JSON)
    (h : ∀ a, enc a ≠ .null ∧ st (enc a) zero = .ok (a, none)) (x : Option α) :
    storePtr zero st (marshalPtr enc x) none = .ok (x, none) := by
  cases x with
  | none => rfl
  | some a =>
    obtain ⟨h1, h2⟩ := h a
    simp only [marshalPtr]
    cases hv : enc a with
    | null => exact absurd hv h1
    | bool b => rw [hv] at h2; simp only [storePtr, Option.getD_none, h2]
    | num b => rw [hv] at h2; simp only [storePtr, Option.getD_none, h2]
    | str b => rw [hv] at h2; simp only [storePtr, Option.getD_none, h2]
    | arr b => rw [hv] at h2; simp only [storePtr, Option.getD_none, h2]
    | obj b => rw [hv] at h2; simp only [storePtr, Option.getD_none, h2]

theorem storePtr_marshalPtr_str (x : Option String) (cur : Option String) :
    storePtr "" storeString (marshalPtr JSON.str x) cur = .ok (x, none) := by
  cases x <;> rfl

theorem storePtr_marshalPtr_bool (x : Option Bool) (cur : Option Bool) :
    storePtr false storeBool (marshalPtr JSON.bool x) cur = .ok (x, none) := by
  cases x <;> rfl

/-- The encoded elements of a slice are decoded back one by one. -/
theorem storeElems_marshal {α : Type} (zero : α) (st : Store α) (enc : α → JSON)
    (h : ∀ a, st (enc a) zero = .ok (a, none)) (xs : List α) :
    storeElems zero st (xs.map enc) = .ok (xs, none) := by
  induction xs with
  | nil => rfl
  | cons x xs ih => simp only [List.map_cons, storeElems, h x, ih, saveError]

theorem storeSlice_marshal {α : Type} (goType : String) (zero : α) (st : Store α)
    (enc : α → JSON) (h : ∀ a, st (enc a) zero = .ok (a, none)) (xs : List α)
    (cur : Option (List α)) :
    storeSlice goType zero st (.arr (xs.map enc)) cur = .ok (some xs, none) := by
  simp only [storeSlice, storeElems_marshal zero st enc h xs]

end Encoding

end GoJson

namespace H1

open Json GoJson

section PaginationLemmas

variable {World Request Err Item : Type}

theorem ReportService.ListAll_eq_paginate {ReportListFilter : Type}
    (s : service World Request Err ReportListFilter Item) (filterOpts : ReportListFilter)
    (fuel : Nat) (w : World) :
    ReportService.ListAll s filterOpts fuel w =
      paginate (ReportService.List s filterOpts) s.NextPageNumber s.defaultPageSize fuel w := rfl

theorem ProgramService.ListAllStructuredScopes_eq_paginate
    (s : service World Request Err Unit Item) (programID : String) (fuel : Nat) (w : World) :
    ProgramService.ListAllStructuredScopes s programID fuel w =
      paginate (ProgramService.ListStructuredScopes s programID) s.NextPageNumber
        s.defaultPageSize fuel w := rfl

theorem CredentialService.ListAllCredentialInquiries_eq_paginate
    (s : service World Request Err Unit Item) (programID : String) (fuel : Nat) (w : World) :
    CredentialService.ListAllCredentialInquiries s programID fuel w =
      paginate (CredentialService.ListCredentialInquiries s programID) s.NextPageNumber
        s.defaultPageSize fuel w := rfl

theorem CredentialService.ListAllCredentialInquiryResponses_eq_paginate
    (s : service World Request Err Unit Item) (programID inquiryID : String) (fuel : Nat)
    (w : World) :
    CredentialService.ListAllCredentialInquiryResponses s programID inquiryID fuel w =
      paginate (CredentialService.ListCredentialInquiryResponses s programID inquiryID)
        s.NextPageNumber s.defaultPageSize fuel w := rfl

variable (fetch : ListOptions → World → Listing Item Err × World) (next : Links → Nat)

/-- A pass of the loop on a page that has a `next` link. -/
theorem paginateBody_more (opts : ListOptions) (data : List Item) (w w1 : World) (calls : Nat)
    (p : Page Item) (hf : fetch opts w = ({ items := p.1, resp := some p.2, err := none }, w1))
    (hn : p.2.Links.Next ≠ "") :
    paginateBody fetch next (opts, data, w, calls) =
      .again ({ opts with Page := next p.2.Links }, data ++ p.items, w1, calls + 1) := by
  simp [paginateBody, hf, hn, Page.items]

/-- A pass of the loop on a page without `next` link. -/
theorem paginateBody_last (opts : ListOptions) (data : List Item) (w w1 : World) (calls : Nat)
    (p : Page Item) (hf : fetch opts w = ({ items := p.1, resp := some p.2, err := none }, w1))
    (hn : p.2.Links.Next = "") :
    paginateBody fetch next (opts, data, w, calls) =
      .leave (.returned { items := some (data ++ p.items), resp := none, err := none }, w1,
        calls + 1) := by
  simp [paginateBody, hf, hn, Page.items]

/-- A pass of the loop on a failed fetch. -/
theorem paginateBody_fail (opts : ListOptions) (data : List Item) (w w1 : World) (calls : Nat)
    (items : Option (List Item)) (resp : Option Response) (e : Err)
    (hf : fetch opts w = ({ items := items, resp := resp, err := some e }, w1)) :
    paginateBody fetch next (opts, data, w, calls) =
      .leave (.returned { items := none, resp := resp, err := some e }, w1, calls + 1) := by
  simp [paginateBody, hf]

/-- After pages that all carry a `next` link the loop is still running, in the
state reached by accumulating them. -/
theorem forLoop_serves (ps : List (Page Item)) :
    ∀ (opts opts2 : ListOptions) (data : List Item) (w w2 : World) (calls fuel : Nat),
      Serves fetch next opts w ps w2 opts2 → (∀ p ∈ ps, p.2.Links.Next ≠ "") →
      forLoop (paginateBody fetch next) (ps.length + fuel) (opts, data, w, calls) =
        forLoop (paginateBody fetch next) fuel
          (opts2, data ++ ps.flatMap Page.items, w2, calls + ps.length) := by
  induction ps with
  | nil =>
    intro opts opts2 data w w2 calls fuel hs _
    obtain ⟨rfl, rfl⟩ := hs
    simp
  | cons p ps ih =>
    intro opts opts2 data w w2 calls fuel hs hn
    obtain ⟨w1, hf, hrest⟩ := hs
    have hp : p.2.Links.Next ≠ "" := hn p (List.mem_cons_self _ _)
    have hrec := ih _ opts2 (data ++ p.items) w1 w2 (calls + 1) fuel hrest
      (fun q hq => hn q (List.mem_cons_of_mem _ hq))
    have hlen : (p :: ps).length + fuel = (ps.length + fuel) + 1 := by
      simp only [List.length_cons]; omega
    rw [hlen, forLoop, paginateBody_more fetch next opts data w w1 calls p hf hp]
    simp only [hrec, List.flatMap_cons, List.append_assoc, List.length_cons]
    have hc : calls + 1 + ps.length = calls + (ps.length + 1) := by omega
    rw [hc]

/-- With fewer passes than pages the loop does not finish. -/
theorem forLoop_serves_short (ps : List (Page Item)) :
    ∀ (opts opts2 : ListOptions) (data : List Item) (w w2 : World) (calls fuel : Nat),
      Serves fetch next opts w ps w2 opts2 → (∀ p ∈ ps, p.2.Links.Next ≠ "") →
      fuel ≤ ps.length →
      forLoop (paginateBody fetch next) fuel (opts, data, w, calls) = none := by
  induction ps with
  | nil =>
    intro opts opts2 data w w2 calls fuel _ _ hfuel
    have : fuel = 0 := by simpa using hfuel
    subst this
    rfl
  | cons p ps ih =>
    intro opts opts2 data w w2 calls fuel hs hn hfuel
    obtain ⟨w1, hf, hrest⟩ := hs
    cases fuel with
    | zero => rfl
    | succ fuel =>
      have hp : p.2.Links.Next ≠ "" := hn p (List.mem_cons_self _ _)
      rw [forLoop, paginateBody_more fetch next opts data w w1 calls p hf hp]
      exact ih _ opts2 _ w1 w2 _ fuel hrest (fun q hq => hn q (List.mem_cons_of_mem _ hq))
        (by simpa using hfuel)

/-- Serving `ps ++ qs` is serving `ps`, then `qs` from where `ps` ended. -/
theorem serves_append (ps qs : List (Page Item)) :
    ∀ (opts opts2 : ListOptions) (w w2 : World),
      Serves fetch next opts w (ps ++ qs) w2 opts2 ↔
        ∃ w1 opts1, Serves fetch next opts w ps w1 opts1 ∧ Serves fetch next opts1 w1 qs w2 opts2 := by
  induction ps with
  | nil =>
    intro opts opts2 w w2
    constructor
    · intro h
      exact ⟨w, opts, ⟨rfl, rfl⟩, h⟩
    · rintro ⟨w1, opts1, ⟨rfl, rfl⟩, h⟩
      exact h
  | cons p ps ih =>
    intro opts opts2 w w2
    constructor
    · rintro ⟨w1, hf, hrest⟩
      obtain ⟨w3, opts3, h1, h2⟩ := (ih _ _ _ _).1 hrest
      exact ⟨w3, opts3, ⟨w1, hf, h1⟩, h2⟩
    · rintro ⟨w3, opts3, ⟨w1, hf, h1⟩, h2⟩
      exact ⟨w1, hf, (ih _ _ _ _).2 ⟨w3, opts3, h1, h2⟩⟩

/-- The loop over pages `ps ++ [last]`, where exactly `last` has no `next` link. -/
theorem paginate_complete (pageSize : Nat) (ps : List (Page Item)) (last : Page Item)
    (w w2 : World) (opts2 : ListOptions) (fuel : Nat)
    (hs : Serves fetch next { Page := 0, PageSize := pageSize } w (ps ++ [last]) w2 opts2)
    (hn : ∀ p ∈ ps, p.2.Links.Next ≠ "") (hl : last.2.Links.Next = "")
    (hfuel : ps.length + 1 ≤ fuel) :
    paginate fetch next pageSize fuel w =
      some (.returned { items := some ((ps ++ [last]).flatMap Page.items), resp := none,
                        err := none }, w2, ps.length + 1) := by
  obtain ⟨w1, opts1, h1, w3, hf, rfl, _⟩ := (serves_append fetch next ps [last] _ _ _ _).1 hs
  obtain ⟨extra, rfl⟩ : ∃ extra, fuel = ps.length + (extra + 1) := ⟨fuel - (ps.length + 1), by omega⟩
  unfold paginate
  rw [forLoop_serves fetch next ps _ opts1 [] w w1 0 (extra + 1) h1 hn, forLoop,
    paginateBody_last fetch next opts1 _ w1 w2 _ last hf hl]
  simp [List.flatMap_append]

/-- The loop when the fetch after the pages `ps` fails. -/
theorem paginate_abort (pageSize : Nat) (ps : List (Page Item)) (w w1 w2 : World)
    (opts1 : ListOptions) (items : Option (List Item)) (resp : Option Response) (e : Err)
    (fuel : Nat)
    (hs : Serves fetch next { Page := 0, PageSize := pageSize } w ps w1 opts1)
    (hn : ∀ p ∈ ps, p.2.Links.Next ≠ "")
    (hf : fetch opts1 w1 = ({ items := items, resp := resp, err := some e }, w2))
    (hfuel : ps.length + 1 ≤ fuel) :
    paginate fetch next pageSize fuel w =
      some (.returned { items := none, resp := resp, err := some e }, w2, ps.length + 1) := by
  obtain ⟨extra, rfl⟩ : ∃ extra, fuel = ps.length + (extra + 1) := ⟨fuel - (ps.length + 1), by omega⟩
  unfold paginate
  rw [forLoop_serves fetch next ps _ opts1 [] w w1 0 (extra + 1) hs hn, forLoop,
    paginateBody_fail fetch next opts1 _ w1 w2 _ items resp e hf]
  simp

/-- The loop is still running after fewer passes than there are pages with a
`next` link. -/
theorem paginate_running (pageSize : Nat) (ps : List (Page Item)) (w w1 : World)
    (opts1 : ListOptions) (fuel : Nat)
    (hs : Serves fetch next { Page := 0, PageSize := pageSize } w ps w1 opts1)
    (hn : ∀ p ∈ ps, p.2.Links.Next ≠ "") (hfuel : fuel ≤ ps.length) :
    paginate fetch next pageSize fuel w = none :=
  forLoop_serves_short fetch next ps _ opts1 [] w w1 0 fuel hs hn hfuel

end PaginationLemmas

/-- C5. Over pages `ps ++ [last]` served in this order with a nil error, where
every page of `ps` carries a `next` link and `last` carries none, each of the
four `ListAll…` methods returns, given enough passes, a nil error and exactly
the concatenation of the pages' items in page order. -/
theorem listAll_concatenates_pages {World Request Err Item ReportListFilter : Type}
    (sr : service World Request Err ReportListFilter Item)
    (s : service World Request Err Unit Item) (filterOpts : ReportListFilter)
    (programID inquiryID : String) (ps : List (Page Item)) (last : Page Item) (w : World)
    (fuel : Nat) (hn : ∀ p ∈ ps, p.2.Links.Next ≠ "") (hl : last.2.Links.Next = "")
    (hfuel : ps.length + 1 ≤ fuel) :
    (∀ w2 opts2,
      Serves (ReportService.List sr filterOpts) sr.NextPageNumber
        { Page := 0, PageSize := sr.defaultPageSize } w (ps ++ [last]) w2 opts2 →
      ∃ calls, ReportService.ListAll sr filterOpts fuel w =
        some (.returned { items := some ((ps ++ [last]).flatMap Page.items), resp := none,
                          err := none }, w2, calls)) ∧
    (∀ w2 opts2,
      Serves (ProgramService.ListStructuredScopes s programID) s.NextPageNumber
        { Page := 0, PageSize := s.defaultPageSize } w (ps ++ [last]) w2 opts2 →
      ∃ calls, ProgramService.ListAllStructuredScopes s programID fuel w =
        some (.returned { items := some ((ps ++ [last]).flatMap Page.items), resp := none,
                          err := none }, w2, calls)) ∧
    (∀ w2 opts2,
      Serves (CredentialService.ListCredentialInquiries s programID) s.NextPageNumber
        { Page := 0, PageSize := s.defaultPageSize } w (ps ++ [last]) w2 opts2 →
      ∃ calls, CredentialService.ListAllCredentialInquiries s programID fuel w =
        some (.returned { items := some ((ps ++ [last]).flatMap Page.items), resp := none,
                          err := none }, w2, calls)) ∧
    (∀ w2 opts2,
      Serves (CredentialService.ListCredentialInquiryResponses s programID inquiryID)
        s.NextPageNumber { Page := 0, PageSize := s.defaultPageSize } w (ps ++ [last]) w2 opts2 →
      ∃ calls, CredentialService.ListAllCredentialInquiryResponses s programID inquiryID fuel w =
        some (.returned { items := some ((ps ++ [last]).flatMap Page.items), resp := none,
                          err := none }, w2, calls)) := by
  refine ⟨?_, ?_, ?_, ?_⟩ <;> intro w2 opts2 hs <;> refine ⟨ps.length + 1, ?_⟩
  · rw [ReportService.ListAll_eq_paginate]
    exact paginate_complete _ _ _ ps last w w2 opts2 fuel hs hn hl hfuel
  · rw [ProgramService.ListAllStructuredScopes_eq_paginate]
    exact paginate_complete _ _ _ ps last w w2 opts2 fuel hs hn hl hfuel
  · rw [CredentialService.ListAllCredentialInquiries_eq_paginate]
    exact paginate_complete _ _ _ ps last w w2 opts2 fuel hs hn hl hfuel
  · rw [CredentialService.ListAllCredentialInquiryResponses_eq_paginate]
    exact paginate_complete _ _ _ ps last w w2 opts2 fuel hs hn hl hfuel

/-- Witness of C5: three pages of sizes 2, 2, 1 give the five items in order. -/
theorem listAll_concatenates_pages_witness :
    (∃ w2 calls, ReportService.ListAll (scripted "closed" 2) () 3 sampleWorld =
        some (.returned { items := some [1, 2, 3, 4, 5], resp := none, err := none }, w2, calls)) ∧
    (∃ w2 calls, ProgramService.ListAllStructuredScopes (scripted "closed" 2) "7" 3 sampleWorld =
        some (.returned { items := some [1, 2, 3, 4, 5], resp := none, err := none }, w2, calls)) ∧
    (∃ w2 calls, CredentialService.ListAllCredentialInquiries (scripted "closed" 2) "7" 3
        sampleWorld =
        some (.returned { items := some [1, 2, 3, 4, 5], resp := none, err := none }, w2, calls)) ∧
    (∃ w2 calls, CredentialService.ListAllCredentialInquiryResponses (scripted "closed" 2) "7" "9"
        3 sampleWorld =
        some (.returned { items := some [1, 2, 3, 4, 5], resp := none, err := none },
          w2, calls)) := by
  have h := listAll_concatenates_pages (scripted "closed" 2) (scripted "closed" 2) () "7" "9"
    (samplePages.take 2) (some [5], { Links := { Self := "p3", Next := "", Previous := "p2" } })
    sampleWorld 3 (by decide) rfl (by decide)
  obtain ⟨h1, h2, h3, h4⟩ := h
  exact ⟨⟨_, h1 _ _ ⟨_, rfl, _, rfl, _, rfl, rfl, rfl⟩⟩, ⟨_, h2 _ _ ⟨_, rfl, _, rfl, _, rfl, rfl, rfl⟩⟩,
    ⟨_, h3 _ _ ⟨_, rfl, _, rfl, _, rfl, rfl, rfl⟩⟩, ⟨_, h4 _ _ ⟨_, rfl, _, rfl, _, rfl, rfl, rfl⟩⟩⟩

/-- C6. When the pages `ps` (all with a `next` link) were served and the next
fetch returns an error, each of the four `ListAll…` methods returns that error
with a nil slice, and it has called the page fetch exactly `ps.length + 1` times:
the failing fetch is its last. -/
theorem listAll_aborts_on_error {World Request Err Item ReportListFilter : Type}
    (sr : service World Request Err ReportListFilter Item)
    (s : service World Request Err Unit Item) (filterOpts : ReportListFilter)
    (programID inquiryID : String) (ps : List (Page Item)) (w : World)
    (items : Option (List Item)) (resp : Option Response) (e : Err)
    (fuel : Nat) (hn : ∀ p ∈ ps, p.2.Links.Next ≠ "") (hfuel : ps.length + 1 ≤ fuel) :
    (∀ w1 opts1 w2,
      Serves (ReportService.List sr filterOpts) sr.NextPageNumber
        { Page := 0, PageSize := sr.defaultPageSize } w ps w1 opts1 →
      ReportService.List sr filterOpts opts1 w1 =
        ({ items := items, resp := resp, err := some e }, w2) →
      ReportService.ListAll sr filterOpts fuel w =
        some (.returned { items := none, resp := resp, err := some e }, w2, ps.length + 1)) ∧
    (∀ w1 opts1 w2,
      Serves (ProgramService.ListStructuredScopes s programID) s.NextPageNumber
        { Page := 0, PageSize := s.defaultPageSize } w ps w1 opts1 →
      ProgramService.ListStructuredScopes s programID opts1 w1 =
        ({ items := items, resp := resp, err := some e }, w2) →
      ProgramService.ListAllStructuredScopes s programID fuel w =
        some (.returned { items := none, resp := resp, err := some e }, w2, ps.length + 1)) ∧
    (∀ w1 opts1 w2,
      Serves (CredentialService.ListCredentialInquiries s programID) s.NextPageNumber
        { Page := 0, PageSize := s.defaultPageSize } w ps w1 opts1 →
      CredentialService.ListCredentialInquiries s programID opts1 w1 =
        ({ items := items, resp := resp, err := some e }, w2) →
      CredentialService.ListAllCredentialInquiries s programID fuel w =
        some (.returned { items := none, resp := resp, err := some e }, w2, ps.length + 1)) ∧
    (∀ w1 opts1 w2,
      Serves (CredentialService.ListCredentialInquiryResponses s programID inquiryID)
        s.NextPageNumber { Page := 0, PageSize := s.defaultPageSize } w ps w1 opts1 →
      CredentialService.ListCredentialInquiryResponses s programID inquiryID opts1 w1 =
        ({ items := items, resp := resp, err := some e }, w2) →
      CredentialService.ListAllCredentialInquiryResponses s programID inquiryID fuel w =
        some (.returned { items := none, resp := resp, err := some e }, w2, ps.length + 1)) := by
  refine ⟨?_, ?_, ?_, ?_⟩ <;> intro w1 opts1 w2 hs hf
  · rw [ReportService.ListAll_eq_paginate]
    exact paginate_abort _ _ _ ps w w1 w2 opts1 items resp e fuel hs hn hf hfuel
  · rw [ProgramService.ListAllStructuredScopes_eq_paginate]
    exact paginate_abort _ _ _ ps w w1 w2 opts1 items resp e fuel hs hn hf hfuel
  · rw [CredentialService.ListAllCredentialInquiries_eq_paginate]
    exact paginate_abort _ _ _ ps w w1 w2 opts1 items resp e fuel hs hn hf hfuel
  · rw [CredentialService.ListAllCredentialInquiryResponses_eq_paginate]
    exact paginate_abort _ _ _ ps w w1 w2 opts1 items resp e fuel hs hn hf hfuel

/-- Witness of C6: the second of three fetches fails; the error comes back with a
nil slice after two fetch calls, and the third answer is still queued. -/
theorem listAll_aborts_on_error_witness :
    (∃ w2, ReportService.ListAll (scripted "closed" 2) () 5 failingWorld =
        some (.returned { items := none, resp := none, err := some "boom" }, w2, 2) ∧
        w2.pending.length = 1 ∧ w2.requests.length = 2) ∧
    (∃ w2, ProgramService.ListAllStructuredScopes (scripted "closed" 2) "7" 5 failingWorld =
        some (.returned { items := none, resp := none, err := some "boom" }, w2, 2) ∧
        w2.pending.length = 1 ∧ w2.requests.length = 2) ∧
    (∃ w2, CredentialService.ListAllCredentialInquiries (scripted "closed" 2) "7" 5 failingWorld =
        some (.returned { items := none, resp := none, err := some "boom" }, w2, 2) ∧
        w2.pending.length = 1 ∧ w2.requests.length = 2) ∧
    (∃ w2, CredentialService.ListAllCredentialInquiryResponses (scripted "closed" 2) "7" "9" 5
        failingWorld =
        some (.returned { items := none, resp := none, err := some "boom" }, w2, 2) ∧
        w2.pending.length = 1 ∧ w2.requests.length = 2) := by
  have h := listAll_aborts_on_error (scripted "closed" 2) (scripted "closed" 2) () "7" "9"
    (samplePages.take 1) failingWorld none none "boom" 5 (by decide) (by decide)
  obtain ⟨h1, h2, h3, h4⟩ := h
  exact ⟨⟨_, h1 _ _ _ ⟨_, rfl, rfl, rfl⟩ rfl, rfl, rfl⟩, ⟨_, h2 _ _ _ ⟨_, rfl, rfl, rfl⟩ rfl, rfl, rfl⟩,
    ⟨_, h3 _ _ _ ⟨_, rfl, rfl, rfl⟩ rfl, rfl, rfl⟩, ⟨_, h4 _ _ _ ⟨_, rfl, rfl, rfl⟩ rfl, rfl, rfl⟩⟩

/-- C7. Over pages `ps ++ [last]` served in this order, where `last` is the first
page without a `next` link, each of the four `ListAll…` methods returns as soon
as it is given `ps.length + 1` passes, having called the page fetch exactly
`ps.length + 1` times, and has not returned after any smaller number of passes. -/
theorem listAll_stops_at_first_page_without_next
    {World Request Err Item ReportListFilter : Type}
    (sr : service World Request Err ReportListFilter Item)
    (s : service World Request Err Unit Item) (filterOpts : ReportListFilter)
    (programID inquiryID : String) (ps : List (Page Item)) (last : Page Item) (w : World)
    (hn : ∀ p ∈ ps, p.2.Links.Next ≠ "") (hl : last.2.Links.Next = "") :
    (∀ w2 opts2,
      Serves (ReportService.List sr filterOpts) sr.NextPageNumber
        { Page := 0, PageSize := sr.defaultPageSize } w (ps ++ [last]) w2 opts2 →
      (∀ fuel, ps.length + 1 ≤ fuel →
        ∃ r, ReportService.ListAll sr filterOpts fuel w = some (.returned r, w2, ps.length + 1)) ∧
      (∀ fuel, fuel ≤ ps.length → ReportService.ListAll sr filterOpts fuel w = none)) ∧
    (∀ w2 opts2,
      Serves (ProgramService.ListStructuredScopes s programID) s.NextPageNumber
        { Page := 0, PageSize := s.defaultPageSize } w (ps ++ [last]) w2 opts2 →
      (∀ fuel, ps.length + 1 ≤ fuel →
        ∃ r, ProgramService.ListAllStructuredScopes s programID fuel w =
          some (.returned r, w2, ps.length + 1)) ∧
      (∀ fuel, fuel ≤ ps.length →
        ProgramService.ListAllStructuredScopes s programID fuel w = none)) ∧
    (∀ w2 opts2,
      Serves (CredentialService.ListCredentialInquiries s programID) s.NextPageNumber
        { Page := 0, PageSize := s.defaultPageSize } w (ps ++ [last]) w2 opts2 →
      (∀ fuel, ps.length + 1 ≤ fuel →
        ∃ r, CredentialService.ListAllCredentialInquiries s programID fuel w =
          some (.returned r, w2, ps.length + 1)) ∧
      (∀ fuel, fuel ≤ ps.length →
        CredentialService.ListAllCredentialInquiries s programID fuel w = none)) ∧
    (∀ w2 opts2,
      Serves (CredentialService.ListCredentialInquiryResponses s programID inquiryID)
        s.NextPageNumber { Page := 0, PageSize := s.defaultPageSize } w (ps ++ [last]) w2 opts2 →
      (∀ fuel, ps.length + 1 ≤ fuel →
        ∃ r, CredentialService.ListAllCredentialInquiryResponses s programID inquiryID fuel w =
          some (.returned r, w2, ps.length + 1)) ∧
      (∀ fuel, fuel ≤ ps.length →
        CredentialService.ListAllCredentialInquiryResponses s programID inquiryID fuel w =
          none)) := by
  refine ⟨?_, ?_, ?_, ?_⟩ <;> intro w2 opts2 hs <;>
    obtain ⟨w1, opts1, h1, _⟩ := (serves_append _ _ ps [last] _ _ _ _).1 hs <;>
    refine ⟨fun fuel hfuel => ⟨Listing.mk (some ((ps ++ [last]).flatMap Page.items)) none none, ?_⟩,
      fun fuel hfuel => ?_⟩
  · rw [ReportService.ListAll_eq_paginate]
    exact paginate_complete _ _ _ ps last w w2 opts2 fuel hs hn hl hfuel
  · rw [ReportService.ListAll_eq_paginate]
    exact paginate_running _ _ _ ps w w1 opts1 fuel h1 hn hfuel
  · rw [ProgramService.ListAllStructuredScopes_eq_paginate]
    exact paginate_complete _ _ _ ps last w w2 opts2 fuel hs hn hl hfuel
  · rw [ProgramService.ListAllStructuredScopes_eq_paginate]
    exact paginate_running _ _ _ ps w w1 opts1 fuel h1 hn hfuel
  · rw [CredentialService.ListAllCredentialInquiries_eq_paginate]
    exact paginate_complete _ _ _ ps last w w2 opts2 fuel hs hn hl hfuel
  · rw [CredentialService.ListAllCredentialInquiries_eq_paginate]
    exact paginate_running _ _ _ ps w w1 opts1 fuel h1 hn hfuel
  · rw [CredentialService.ListAllCredentialInquiryResponses_eq_paginate]
    exact paginate_complete _ _ _ ps last w w2 opts2 fuel hs hn hl hfuel
  · rw [CredentialService.ListAllCredentialInquiryResponses_eq_paginate]
    exact paginate_running _ _ _ ps w w1 opts1 fuel h1 hn hfuel

/-- Witness of C7: three pages with `next` on the first two give exactly three
fetch calls (three requests reach the transport), and two passes do not finish. -/
theorem listAll_stops_at_first_page_without_next_witness :
    (∃ w2 r, ReportService.ListAll (scripted "closed" 2) () 3 sampleWorld =
        some (.returned r, w2, 3) ∧ w2.requests.length = 3 ∧ w2.pending = []) ∧
    ReportService.ListAll (scripted "closed" 2) () 2 sampleWorld = none := by
  have h := (listAll_stops_at_first_page_without_next (scripted "closed" 2)
    (scripted "closed" 2) () "7" "9" (samplePages.take 2)
    (some [5], { Links := { Self := "p3", Next := "", Previous := "p2" } })
    sampleWorld (by decide) rfl).1 _ _ ⟨_, rfl, _, rfl, _, rfl, rfl, rfl⟩
  obtain ⟨r, hr⟩ := h.1 3 (by decide)
  exact ⟨⟨_, r, hr, rfl, rfl⟩, h.2 2 (by decide)⟩

section Relationships

theorem programUnmarshalHelper.fields_eq_program (X : Externals) :
    programUnmarshalHelper.fields X =
      (program.fields X).map (StructField.lift (programUnmarshalHelper.embedding X).getE
        (programUnmarshalHelper.embedding X).setE) ++
      [ attributesField (programUnmarshalHelper.embedding X) (Program.zero X) "h1.program"
          (program.fields X),
        StructField.of "relationships" (·.Relationships)
          (fun h r => { h with Relationships := r })
          (storeStruct "struct Relationships" (programRelationships.fields X)) ] := rfl

theorem userUnmarshalHelper.fields_eq_user (X : Externals) :
    userUnmarshalHelper.fields X =
      (user.fields X).map (StructField.lift (userUnmarshalHelper.embedding X).getE
        (userUnmarshalHelper.embedding X).setE) ++
      [ attributesField (userUnmarshalHelper.embedding X) (User.zero X) "h1.user"
          (user.fields X),
        StructField.of "Relationships" (·.Relationships)
          (fun h r => { h with Relationships := r })
          (storeStruct "struct Relationships" (userRelationships.fields X)) ] := rfl

/-- The field `relationships` is the one writer of `programUnmarshalHelper.Relationships`. -/
theorem programUnmarshalHelper.component_program (X : Externals) :
    Component (programUnmarshalHelper.fields X) "relationships" (·.Relationships)
      (storeStruct "struct Relationships" (programRelationships.fields X)) := by
  rw [programUnmarshalHelper.fields_eq_program]
  exact helper_component (programUnmarshalHelper.embedding X) (Program.zero X) "h1.program"
    (program.fields X) "relationships" (·.Relationships)
    (fun h r => { h with Relationships := r }) _
    ["id", "type", "handle", "policy", "created_at", "updated_at", "groups", "member"] rfl
    (by decide) (by decide) (fun _ _ => rfl) (fun _ _ => rfl) (fun _ _ => rfl)

/-- The field `Relationships` is the one writer of `userUnmarshalHelper.Relationships`. -/
theorem userUnmarshalHelper.component_user (X : Externals) :
    Component (userUnmarshalHelper.fields X) "Relationships" (·.Relationships)
      (storeStruct "struct Relationships" (userRelationships.fields X)) := by
  rw [userUnmarshalHelper.fields_eq_user]
  exact helper_component (userUnmarshalHelper.embedding X) (User.zero X) "h1.user"
    (user.fields X) "Relationships" (·.Relationships)
    (fun h r => { h with Relationships := r }) _
    ["id", "type", "disabled", "username", "name", "profile_picture", "bio", "website",
      "location", "reputation", "signal", "impact", "hackerone_triager", "created_at",
      "participating_programs"] rfl
    (by decide) (by decide) (fun _ _ => rfl) (fun _ _ => rfl) (fun _ _ => rfl)

theorem programRelationships.component_groups (X : Externals) :
    Component (programRelationships.fields X) "groups" (·.Groups)
      (storeStruct "struct Relationships.Groups"
        [ StructField.of "data" (·.Data) (fun (_ : programRelationshipsGroups X) x => { Data := x })
            (storeGroups X) ]) := by
  unfold programRelationships.fields
  exact component_first _ _ _ _ _ _ _ _ (by decide) (fun _ _ => rfl) (fun _ _ => rfl)

theorem programRelationships.component_members (X : Externals) :
    Component (programRelationships.fields X) "members" (·.Members)
      (storeStruct "struct Relationships.Members"
        [ StructField.of "data" (·.Data) (fun (_ : programRelationshipsMembers X) x => { Data := x })
            (storeMembers X) ]) := by
  unfold programRelationships.fields
  exact component_second _ _ _ _ _ _ _ _ (by decide) (fun _ _ => rfl) (fun _ _ => rfl)

theorem programRelationshipsGroups.component_data_groups (X : Externals) :
    Component
      [ StructField.of "data" (·.Data) (fun (_ : programRelationshipsGroups X) x => { Data := x })
          (storeGroups X) ] "data" (·.Data)
      (storeSlice "[]*h1.Group" none (storePtr X.zeroGroup X.storeGroup)) := by
  unfold storeGroups
  exact component_single _ _ _ _ (fun _ _ => rfl)

theorem programRelationshipsMembers.component_data_members (X : Externals) :
    Component
      [ StructField.of "data" (·.Data) (fun (_ : programRelationshipsMembers X) x => { Data := x })
          (storeMembers X) ] "data" (·.Data)
      (storeSlice "[]*h1.Member" none (storePtr X.zeroMember X.storeMember)) := by
  unfold storeMembers
  exact component_single _ _ _ _ (fun _ _ => rfl)

theorem userRelationships.component_programs (X : Externals) :
    Component (userRelationships.fields X) "participating_programs" (·.ParticipatingPrograms)
      (storeStruct "struct Relationships.ParticipatingPrograms"
        [ StructField.of "data" (·.Data)
            (fun (_ : userRelationshipsParticipatingPrograms X) x => { Data := x })
            (storePrograms X) ]) := by
  unfold userRelationships.fields
  exact component_single _ _ _ _ (fun _ _ => rfl)

theorem userRelationshipsParticipatingPrograms.component_data_programs (X : Externals) :
    Component
      [ StructField.of "data" (·.Data)
          (fun (_ : userRelationshipsParticipatingPrograms X) x => { Data := x })
          (storePrograms X) ] "data" (·.Data)
      (storeSlice "[]h1.Program" (Program.zero X) (storeProgram X)) := by
  unfold storePrograms
  exact component_single _ _ _ _ (fun _ _ => rfl)

/-- What `Unmarshal` into the program helper, when it returns nil, leaves in
`Relationships.Groups.Data` and `Relationships.Members.Data`. -/
theorem programUnmarshalHelper.relationships_data_program (X : Externals) (ms : List (String × JSON))
    (h2 : programUnmarshalHelper X)
    (h : decodeMembers (programUnmarshalHelper.fields X) ms (programUnmarshalHelper.init X) none
      = .ok (h2, none)) :
    (match (valuesAt ["relationships", "groups", "data"] [.obj ms]).getLast? with
      | none => h2.Relationships.Groups.Data = none
      | some v => storeGroups X v none = .ok (h2.Relationships.Groups.Data, none)) ∧
    (match (valuesAt ["relationships", "members", "data"] [.obj ms]).getLast? with
      | none => h2.Relationships.Members.Data = none
      | some v => storeMembers X v none = .ok (h2.Relationships.Members.Data, none)) := by
  constructor
  · exact decodeMembers_path (programUnmarshalHelper.fields X) "relationships"
      (·.Relationships) _ (programRelationships.fields X) "groups" (·.Groups) _ _ (·.Data)
      "[]*h1.Group" none (storePtr X.zeroGroup X.storeGroup)
      (programUnmarshalHelper.component_program X) (programRelationships.component_groups X)
      (programRelationshipsGroups.component_data_groups X) ms _ h2 h
  · exact decodeMembers_path (programUnmarshalHelper.fields X) "relationships"
      (·.Relationships) _ (programRelationships.fields X) "members" (·.Members) _ _ (·.Data)
      "[]*h1.Member" none (storePtr X.zeroMember X.storeMember)
      (programUnmarshalHelper.component_program X) (programRelationships.component_members X)
      (programRelationshipsMembers.component_data_members X) ms _ h2 h

/-- What `Unmarshal` into the user helper, when it returns nil, leaves in
`Relationships.ParticipatingPrograms.Data`. -/
theorem userUnmarshalHelper.relationships_data_user (X : Externals) (ms : List (String × JSON))
    (h2 : userUnmarshalHelper X)
    (h : decodeMembers (userUnmarshalHelper.fields X) ms (userUnmarshalHelper.init X) none
      = .ok (h2, none)) :
    match (valuesAt ["relationships", "participating_programs", "data"] [.obj ms]).getLast? with
    | none => h2.Relationships.ParticipatingPrograms.Data = none
    | some v => storePrograms X v none = .ok (h2.Relationships.ParticipatingPrograms.Data, none) := by
  rw [valuesAt_fold "relationships" "Relationships" _ _ (by decide)]
  exact decodeMembers_path (userUnmarshalHelper.fields X) "Relationships"
    (·.Relationships) _ (userRelationships.fields X) "participating_programs"
    (·.ParticipatingPrograms) _ _ (·.Data) "[]h1.Program" (Program.zero X) (storeProgram X)
    (userUnmarshalHelper.component_user X) (userRelationships.component_programs X)
    (userRelationshipsParticipatingPrograms.component_data_programs X) ms _ h2 h

/-- How `Program.UnmarshalJSON` can return nil: the document is `null` and the
result is the zero `Program`, or it is an object that decoded into the helper
without any error. -/
theorem Program.unmarshal_ok_program {X : Externals} (p p2 : Program X) (b : List UInt8) (doc : JSON)
    (hb : parse b = .ok doc) (h : Program.UnmarshalJSON p b = (p2, none)) :
    (doc = .null ∧ p2 = Program.zero X) ∨
    ∃ ms h2, doc = .obj ms ∧
      decodeMembers (programUnmarshalHelper.fields X) ms (programUnmarshalHelper.init X) none
        = .ok (h2, none) ∧
      p2 = { (h2.program : Program X) with
        Groups := h2.Relationships.Groups.Data, Members := h2.Relationships.Members.Data } := by
  unfold Program.UnmarshalJSON Unmarshal at h
  rw [hb] at h
  cases doc with
  | null =>
    left
    simp only [storeStruct, Prod.mk.injEq, and_true] at h
    exact ⟨rfl, h.symm⟩
  | obj ms =>
    right
    simp only [storeStruct] at h
    cases hd : decodeMembers (programUnmarshalHelper.fields X) ms (programUnmarshalHelper.init X)
        none with
    | error e => rw [hd] at h; simp at h
    | ok r =>
      obtain ⟨h2, sv⟩ := r
      rw [hd] at h
      cases sv with
      | some e => simp at h
      | none =>
        simp only [Prod.mk.injEq, and_true] at h
        exact ⟨ms, h2, rfl, hd, h.symm⟩
  | bool v => simp [storeStruct] at h
  | num v => simp [storeStruct] at h
  | str v => simp [storeStruct] at h
  | arr v => simp [storeStruct] at h

/-- How `User.UnmarshalJSON` can return nil. -/
theorem User.unmarshal_ok_user {X : Externals} (u u2 : User X) (b : List UInt8) (doc : JSON)
    (hb : parse b = .ok doc) (h : User.UnmarshalJSON u b = (u2, none)) :
    (doc = .null ∧ u2 = User.zero X) ∨
    ∃ ms h2, doc = .obj ms ∧
      decodeMembers (userUnmarshalHelper.fields X) ms (userUnmarshalHelper.init X) none
        = .ok (h2, none) ∧
      u2 = { (h2.user : User X) with
        ParticipatingPrograms := h2.Relationships.ParticipatingPrograms.Data } := by
  unfold User.UnmarshalJSON Unmarshal at h
  rw [hb] at h
  cases doc with
  | null =>
    left
    simp only [storeStruct, Prod.mk.injEq, and_true] at h
    exact ⟨rfl, h.symm⟩
  | obj ms =>
    right
    simp only [storeStruct] at h
    cases hd : decodeMembers (userUnmarshalHelper.fields X) ms (userUnmarshalHelper.init X)
        none with
    | error e => rw [hd] at h; simp at h
    | ok r =>
      obtain ⟨h2, sv⟩ := r
      rw [hd] at h
      cases sv with
      | some e => simp at h
      | none =>
        simp only [Prod.mk.injEq, and_true] at h
        exact ⟨ms, h2, rfl, hd, h.symm⟩
  | bool v => simp [storeStruct] at h
  | num v => simp [storeStruct] at h
  | str v => simp [storeStruct] at h
  | arr v => simp [storeStruct] at h

/-- The groups and members a successful `Program.UnmarshalJSON` leaves in the
receiver, read off the document. -/
theorem Program.relationships_of_program {X : Externals} (p p2 : Program X)
    (b : List UInt8) (doc : JSON) (hb : parse b = .ok doc)
    (h : Program.UnmarshalJSON p b = (p2, none)) :
    (match (valuesAt ["relationships", "groups", "data"] [doc]).getLast? with
      | none => p2.Groups = none
      | some v => storeGroups X v none = .ok (p2.Groups, none)) ∧
    (match (valuesAt ["relationships", "members", "data"] [doc]).getLast? with
      | none => p2.Members = none
      | some v => storeMembers X v none = .ok (p2.Members, none)) := by
  rcases Program.unmarshal_ok_program p p2 b doc hb h with ⟨rfl, rfl⟩ | ⟨ms, h2, rfl, hd, rfl⟩
  · simp [valuesAt, membersOf, Program.zero]
  · exact programUnmarshalHelper.relationships_data_program X ms h2 hd

/-- The participating programs a successful `User.UnmarshalJSON` leaves in the
receiver, read off the document. -/
theorem User.relationships_of_user {X : Externals} (u u2 : User X)
    (b : List UInt8) (doc : JSON) (hb : parse b = .ok doc)
    (h : User.UnmarshalJSON u b = (u2, none)) :
    match (valuesAt ["relationships", "participating_programs", "data"] [doc]).getLast? with
    | none => u2.ParticipatingPrograms = none
    | some v => storePrograms X v none = .ok (u2.ParticipatingPrograms, none) := by
  rcases User.unmarshal_ok_user u u2 b doc hb h with ⟨rfl, rfl⟩ | ⟨ms, h2, rfl, hd, rfl⟩
  · simp [valuesAt, membersOf, User.zero]
  · exact userUnmarshalHelper.relationships_data_user X ms h2 hd

end Relationships

section Envelope

theorem credentialUnmarshalHelper.fields_eq_credential :
    credentialUnmarshalHelper.fields =
      credential.fields.map (StructField.lift credentialUnmarshalHelper.embedding.getE
        credentialUnmarshalHelper.embedding.setE) ++
      attributesField credentialUnmarshalHelper.embedding Credential.zero "h1.credential"
        credential.fields :: [] := rfl

theorem credentialInquiryUnmarshalHelper.fields_eq_inquiry :
    credentialInquiryUnmarshalHelper.fields =
      credentialInquiry.fields.map (StructField.lift credentialInquiryUnmarshalHelper.embedding.getE
        credentialInquiryUnmarshalHelper.embedding.setE) ++
      attributesField credentialInquiryUnmarshalHelper.embedding CredentialInquiry.zero
        "h1.credentialInquiry" credentialInquiry.fields :: [] := rfl

theorem structuredScopeUnmarshalHelper.fields_eq_scope (X : Externals) :
    structuredScopeUnmarshalHelper.fields X =
      (structuredScope.fields X).map
        (StructField.lift (structuredScopeUnmarshalHelper.embedding X).getE
          (structuredScopeUnmarshalHelper.embedding X).setE) ++
      attributesField (structuredScopeUnmarshalHelper.embedding X) (StructuredScope.zero X)
        "h1.structuredScope" (structuredScope.fields X) :: [] := rfl

theorem credential.no_attributes_credential : ∀ f ∈ credential.fields, f.name ≠ "attributes" := by
  simp [credential.fields, StructField.of]

theorem credentialInquiry.no_attributes_inquiry :
    ∀ f ∈ credentialInquiry.fields, f.name ≠ "attributes" := by
  simp [credentialInquiry.fields, StructField.of]

theorem structuredScope.no_attributes_scope (X : Externals) :
    ∀ f ∈ structuredScope.fields X, f.name ≠ "attributes" := by
  simp [structuredScope.fields, StructField.of]

theorem foldName_id : foldName "attributes" ≠ foldName "id" := by decide

theorem foldName_type : foldName "attributes" ≠ foldName "type" := by decide

/-- The hypotheses of `decodeMembers_envelope` for an envelope whose members
before `attributes` are `id` and `type`. -/
theorem envelope_keys {β : Type} (a : StructField β) (ha : a.name = "attributes") (i t : JSON)
    (F : List (String × JSON))
    (hF : ∀ kv ∈ F, kv.1 ≠ "id" ∧ kv.1 ≠ "type" ∧ foldName kv.1 ≠ foldName "attributes") :
    (∀ kv ∈ [("id", i), ("type", t)], ∀ f ∈ [a], foldName f.name ≠ foldName kv.1) ∧
    (∀ kv ∈ F, ∀ f ∈ [a], foldName f.name ≠ foldName kv.1) := by
  constructor
  · intro kv hkv f hf
    simp only [List.mem_singleton] at hf
    subst hf
    rw [ha]
    simp only [List.mem_cons, List.mem_singleton, List.not_mem_nil, or_false] at hkv
    rcases hkv with rfl | rfl
    · exact foldName_id
    · exact foldName_type
  · intro kv hkv f hf
    simp only [List.mem_singleton] at hf
    subst hf
    rw [ha]
    exact fun h => (hF kv hkv).2.2 h.symm

theorem Credential.envelope_flat_credential (ci : Credential) (i t : JSON)
    (F : List (String × JSON)) (envelope flat : List UInt8)
    (henv : parse envelope = .ok (.obj [("id", i), ("type", t), ("attributes", .obj F)]))
    (hflat : parse flat = .ok (.obj (("id", i) :: ("type", t) :: F)))
    (hF : ∀ kv ∈ F, kv.1 ≠ "id" ∧ kv.1 ≠ "type" ∧ foldName kv.1 ≠ foldName "attributes") :
    Credential.UnmarshalJSON ci envelope = Credential.UnmarshalJSON ci flat := by
  obtain ⟨hpre, hF2⟩ := envelope_keys
    (attributesField credentialUnmarshalHelper.embedding Credential.zero "h1.credential"
      credential.fields) rfl i t F hF
  have h := decodeMembers_envelope credentialUnmarshalHelper.embedding Credential.zero
    "h1.credential" credential.fields [] credential.no_attributes_credential
    [("id", i), ("type", t)] F { credential := Credential.zero, Attributes := .embedded } rfl
    hpre hF2
  unfold Credential.UnmarshalJSON Unmarshal
  rw [henv, hflat]
  simp only [storeStruct]
  rw [credentialUnmarshalHelper.fields_eq_credential]
  rw [show [("id", i), ("type", t), ("attributes", JSON.obj F)] =
    [("id", i), ("type", t)] ++ [("attributes", JSON.obj F)] from rfl,
    show (("id", i) :: ("type", t) :: F) = [("id", i), ("type", t)] ++ F from rfl, h]

theorem CredentialInquiry.envelope_flat_inquiry (ci : CredentialInquiry) (i t : JSON)
    (F : List (String × JSON)) (envelope flat : List UInt8)
    (henv : parse envelope = .ok (.obj [("id", i), ("type", t), ("attributes", .obj F)]))
    (hflat : parse flat = .ok (.obj (("id", i) :: ("type", t) :: F)))
    (hF : ∀ kv ∈ F, kv.1 ≠ "id" ∧ kv.1 ≠ "type" ∧ foldName kv.1 ≠ foldName "attributes") :
    CredentialInquiry.UnmarshalJSON ci envelope = CredentialInquiry.UnmarshalJSON ci flat := by
  obtain ⟨hpre, hF2⟩ := envelope_keys
    (attributesField credentialInquiryUnmarshalHelper.embedding CredentialInquiry.zero
      "h1.credentialInquiry" credentialInquiry.fields) rfl i t F hF
  have h := decodeMembers_envelope credentialInquiryUnmarshalHelper.embedding
    CredentialInquiry.zero "h1.credentialInquiry" credentialInquiry.fields []
    credentialInquiry.no_attributes_inquiry [("id", i), ("type", t)] F
    { credentialInquiry := CredentialInquiry.zero, Attributes := .embedded } rfl hpre hF2
  unfold CredentialInquiry.UnmarshalJSON Unmarshal
  rw [henv, hflat]
  simp only [storeStruct]
  rw [credentialInquiryUnmarshalHelper.fields_eq_inquiry]
  rw [show [("id", i), ("type", t), ("attributes", JSON.obj F)] =
    [("id", i), ("type", t)] ++ [("attributes", JSON.obj F)] from rfl,
    show (("id", i) :: ("type", t) :: F) = [("id", i), ("type", t)] ++ F from rfl, h]

theorem StructuredScope.envelope_flat_scope {X : Externals} (sc : StructuredScope X)
    (i t : JSON) (F : List (String × JSON)) (envelope flat : List UInt8)
    (henv : parse envelope = .ok (.obj [("id", i), ("type", t), ("attributes", .obj F)]))
    (hflat : parse flat = .ok (.obj (("id", i) :: ("type", t) :: F)))
    (hF : ∀ kv ∈ F, kv.1 ≠ "id" ∧ kv.1 ≠ "type" ∧ foldName kv.1 ≠ foldName "attributes") :
    StructuredScope.UnmarshalJSON sc envelope = StructuredScope.UnmarshalJSON sc flat := by
  obtain ⟨hpre, hF2⟩ := envelope_keys
    (attributesField (structuredScopeUnmarshalHelper.embedding X) (StructuredScope.zero X)
      "h1.structuredScope" (structuredScope.fields X)) rfl i t F hF
  have h := decodeMembers_envelope (structuredScopeUnmarshalHelper.embedding X)
    (StructuredScope.zero X) "h1.structuredScope" (structuredScope.fields X) []
    (structuredScope.no_attributes_scope X) [("id", i), ("type", t)] F
    { structuredScope := StructuredScope.zero X, Attributes := .embedded } rfl hpre hF2
  unfold StructuredScope.UnmarshalJSON Unmarshal
  rw [henv, hflat]
  simp only [storeStruct]
  rw [structuredScopeUnmarshalHelper.fields_eq_scope]
  rw [show [("id", i), ("type", t), ("attributes", JSON.obj F)] =
    [("id", i), ("type", t)] ++ [("attributes", JSON.obj F)] from rfl,
    show (("id", i) :: ("type", t) :: F) = [("id", i), ("type", t)] ++ F from rfl, h]

end Envelope

section Absent
/-- Every field of `credential` other than the one a test of `Credential` is about leaves
the test alone. -/
theorem credential.frame_credential :
    ∀ fd ∈ Credential.pointers, ∀ f ∈ credential.fields, f.name ≠ fd.1 →
      ∀ v a a2 e, f.store v a = .ok (a2, e) → fd.2 a2 = fd.2 a := by
  intro fd hfd f hf hne v a a2 e hst
  simp only [credential.fields, List.mem_cons, List.mem_singleton, List.not_mem_nil,
    or_false] at hf
  rcases hf with rfl | rfl | rfl | rfl | rfl | rfl
  all_goals
    refine StructField.of_frame _ _ _ _ fd.2 ?_ v a a2 e hst
    intro b x
    simp only [Credential.pointers, List.mem_cons, List.mem_singleton, List.not_mem_nil,
      or_false] at hfd
    rcases hfd with rfl | rfl | rfl | rfl | rfl | rfl
    all_goals first | exact absurd rfl hne | rfl

/-- The zero `Credential` passes every test. -/
theorem Credential.zero_unset_credential : ∀ fd ∈ Credential.pointers, fd.2 (Credential.zero) := by
  intro fd hfd
  simp only [Credential.pointers, List.mem_cons, List.mem_singleton, List.not_mem_nil,
    or_false] at hfd
  rcases hfd with rfl | rfl | rfl | rfl | rfl | rfl <;> rfl

/-- How `Credential.UnmarshalJSON` can return nil. -/
theorem Credential.unmarshal_ok_credential (c c2 : Credential) (b : List UInt8) (doc : JSON)
    (hb : parse b = .ok doc) (h : Credential.UnmarshalJSON c b = (c2, none)) :
    (doc = .null ∧ c2 = Credential.zero) ∨
    ∃ ms h2, doc = .obj ms ∧
      decodeMembers (credentialUnmarshalHelper.fields) ms
        ({ credential := Credential.zero, Attributes := .embedded } : credentialUnmarshalHelper) none = .ok (h2, none) ∧
      c2 = h2.credential := by
  unfold Credential.UnmarshalJSON Unmarshal at h
  rw [hb] at h
  cases doc with
  | null =>
    left
    simp only [storeStruct, Prod.mk.injEq, and_true] at h
    exact ⟨rfl, h.symm⟩
  | obj ms =>
    right
    simp only [storeStruct] at h
    cases hd : decodeMembers (credentialUnmarshalHelper.fields) ms
        ({ credential := Credential.zero, Attributes := .embedded } : credentialUnmarshalHelper) none with
    | error e => rw [hd] at h; simp at h
    | ok r =>
      obtain ⟨h2, sv⟩ := r
      rw [hd] at h
      cases sv with
      | some e => simp at h
      | none =>
        simp only [Prod.mk.injEq, and_true] at h
        exact ⟨ms, h2, rfl, hd, h.symm⟩
  | bool v => simp [storeStruct] at h
  | num v => simp [storeStruct] at h
  | str v => simp [storeStruct] at h
  | arr v => simp [storeStruct] at h

/-- After a successful `Credential.UnmarshalJSON`, every test about a field that
the document does not name holds. -/
theorem Credential.absent_credential (c c2 : Credential) (b : List UInt8) (doc : JSON)
    (hb : parse b = .ok doc) (h : Credential.UnmarshalJSON c b = (c2, none)) :
    ∀ fd ∈ Credential.pointers, absentFrom fd.1 doc → fd.2 c2 := by
  intro fd hfd habs
  rcases Credential.unmarshal_ok_credential c c2 b doc hb h with ⟨rfl, rfl⟩ | ⟨ms, h2, rfl, hd, rfl⟩
  · exact Credential.zero_unset_credential fd hfd
  · obtain ⟨htop, hattr⟩ := absentFrom_obj fd.1 ms habs
    rw [credentialUnmarshalHelper.fields_eq_credential] at hd
    have key := decodeMembers_helper_absent credentialUnmarshalHelper.embedding (Credential.zero) "h1.credential"
      (credential.fields) _ fd.1 fd.2 (credential.frame_credential fd hfd)
      (by simp) ms htop hattr _ h2 none none hd
    exact Eq.mpr key (Credential.zero_unset_credential fd hfd)

/-- Every field of `credentialInquiry` other than the one a test of `CredentialInquiry` is about leaves
the test alone. -/
theorem credentialInquiry.frame_inquiry :
    ∀ fd ∈ CredentialInquiry.pointers, ∀ f ∈ credentialInquiry.fields, f.name ≠ fd.1 →
      ∀ v a a2 e, f.store v a = .ok (a2, e) → fd.2 a2 = fd.2 a := by
  intro fd hfd f hf hne v a a2 e hst
  simp only [credentialInquiry.fields, List.mem_cons, List.mem_singleton, List.not_mem_nil,
    or_false] at hf
  rcases hf with rfl | rfl | rfl
  all_goals
    refine StructField.of_frame _ _ _ _ fd.2 ?_ v a a2 e hst
    intro b x
    simp only [CredentialInquiry.pointers, List.mem_cons, List.mem_singleton, List.not_mem_nil,
      or_false] at hfd
    rcases hfd with rfl | rfl | rfl
    all_goals first | exact absurd rfl hne | rfl

/-- The zero `CredentialInquiry` passes every test. -/
theorem CredentialInquiry.zero_unset_inquiry : ∀ fd ∈ CredentialInquiry.pointers, fd.2 (CredentialInquiry.zero) := by
  intro fd hfd
  simp only [CredentialInquiry.pointers, List.mem_cons, List.mem_singleton, List.not_mem_nil,
    or_false] at hfd
  rcases hfd with rfl | rfl | rfl <;> rfl

/-- How `CredentialInquiry.UnmarshalJSON` can return nil. -/
theorem CredentialInquiry.unmarshal_ok_inquiry (c c2 : CredentialInquiry) (b : List UInt8) (doc : JSON)
    (hb : parse b = .ok doc) (h : CredentialInquiry.UnmarshalJSON c b = (c2, none)) :
    (doc = .null ∧ c2 = CredentialInquiry.zero) ∨
    ∃ ms h2, doc = .obj ms ∧
      decodeMembers (credentialInquiryUnmarshalHelper.fields) ms
        ({ credentialInquiry := CredentialInquiry.zero, Attributes := .embedded } : credentialInquiryUnmarshalHelper) none = .ok (h2, none) ∧
      c2 = h2.credentialInquiry := by
  unfold CredentialInquiry.UnmarshalJSON Unmarshal at h
  rw [hb] at h
  cases doc with
  | null =>
    left
    simp only [storeStruct, Prod.mk.injEq, and_true] at h
    exact ⟨rfl, h.symm⟩
  | obj ms =>
    right
    simp only [storeStruct] at h
    cases hd : decodeMembers (credentialInquiryUnmarshalHelper.fields) ms
        ({ credentialInquiry := CredentialInquiry.zero, Attributes := .embedded } : credentialInquiryUnmarshalHelper) none with
    | error e => rw [hd] at h; simp at h
    | ok r =>
      obtain ⟨h2, sv⟩ := r
      rw [hd] at h
      cases sv with
      | some e => simp at h
      | none =>
        simp only [Prod.mk.injEq, and_true] at h
        exact ⟨ms, h2, rfl, hd, h.symm⟩
  | bool v => simp [storeStruct] at h
  | num v => simp [storeStruct] at h
  | str v => simp [storeStruct] at h
  | arr v => simp [storeStruct] at h

/-- After a successful `CredentialInquiry.UnmarshalJSON`, every test about a field that
the document does not name holds. -/
theorem CredentialInquiry.absent_inquiry (c c2 : CredentialInquiry) (b : List UInt8) (doc : JSON)
    (hb : parse b = .ok doc) (h : CredentialInquiry.UnmarshalJSON c b = (c2, none)) :
    ∀ fd ∈ CredentialInquiry.pointers, absentFrom fd.1 doc → fd.2 c2 := by
  intro fd hfd habs
  rcases CredentialInquiry.unmarshal_ok_inquiry c c2 b doc hb h with ⟨rfl, rfl⟩ | ⟨ms, h2, rfl, hd, rfl⟩
  · exact CredentialInquiry.zero_unset_inquiry fd hfd
  · obtain ⟨htop, hattr⟩ := absentFrom_obj fd.1 ms habs
    rw [credentialInquiryUnmarshalHelper.fields_eq_inquiry] at hd
    have key := decodeMembers_helper_absent credentialInquiryUnmarshalHelper.embedding (CredentialInquiry.zero) "h1.credentialInquiry"
      (credentialInquiry.fields) _ fd.1 fd.2 (credentialInquiry.frame_inquiry fd hfd)
      (by simp) ms htop hattr _ h2 none none hd
    exact Eq.mpr key (CredentialInquiry.zero_unset_inquiry fd hfd)

/-- Every field of `structuredScope` other than the one a test of `StructuredScope` is about leaves
the test alone. -/
theorem structuredScope.frame_scope (X : Externals) :
    ∀ fd ∈ StructuredScope.pointers X ++ StructuredScope.values X, ∀ f ∈ structuredScope.fields X, f.name ≠ fd.1 →
      ∀ v a a2 e, f.store v a = .ok (a2, e) → fd.2 a2 = fd.2 a := by
  intro fd hfd f hf hne v a a2 e hst
  simp only [structuredScope.fields, List.mem_cons, List.mem_singleton, List.not_mem_nil,
    or_false] at hf
  rcases hf with rfl | rfl | rfl | rfl | rfl | rfl | rfl | rfl | rfl | rfl | rfl | rfl | rfl | rfl
  all_goals
    refine StructField.of_frame _ _ _ _ fd.2 ?_ v a a2 e hst
    intro b x
    simp only [StructuredScope.pointers, StructuredScope.values, List.cons_append, List.nil_append, List.mem_cons, List.mem_singleton, List.not_mem_nil,
      or_false] at hfd
    rcases hfd with rfl | rfl | rfl | rfl | rfl | rfl | rfl | rfl | rfl | rfl | rfl | rfl | rfl | rfl
    all_goals first | exact absurd rfl hne | rfl

/-- The zero `StructuredScope` passes every test. -/
theorem StructuredScope.zero_unset_scope (X : Externals) : ∀ fd ∈ StructuredScope.pointers X ++ StructuredScope.values X, fd.2 (StructuredScope.zero X) := by
  intro fd hfd
  simp only [StructuredScope.pointers, StructuredScope.values, List.cons_append, List.nil_append, List.mem_cons, List.mem_singleton, List.not_mem_nil,
    or_false] at hfd
  rcases hfd with rfl | rfl | rfl | rfl | rfl | rfl | rfl | rfl | rfl | rfl | rfl | rfl | rfl | rfl <;> rfl

/-- How `StructuredScope.UnmarshalJSON` can return nil. -/
theorem StructuredScope.unmarshal_ok_scope {X : Externals} (c c2 : (StructuredScope X)) (b : List UInt8) (doc : JSON)
    (hb : parse b = .ok doc) (h : StructuredScope.UnmarshalJSON c b = (c2, none)) :
    (doc = .null ∧ c2 = StructuredScope.zero X) ∨
    ∃ ms h2, doc = .obj ms ∧
      decodeMembers (structuredScopeUnmarshalHelper.fields X) ms
        ({ structuredScope := StructuredScope.zero X, Attributes := .embedded } : structuredScopeUnmarshalHelper X) none = .ok (h2, none) ∧
      c2 = h2.structuredScope := by
  unfold StructuredScope.UnmarshalJSON Unmarshal at h
  rw [hb] at h
  cases doc with
  | null =>
    left
    simp only [storeStruct, Prod.mk.injEq, and_true] at h
    exact ⟨rfl, h.symm⟩
  | obj ms =>
    right
    simp only [storeStruct] at h
    cases hd : decodeMembers (structuredScopeUnmarshalHelper.fields X) ms
        ({ structuredScope := StructuredScope.zero X, Attributes := .embedded } : structuredScopeUnmarshalHelper X) none with
    | error e => rw [hd] at h; simp at h
    | ok r =>
      obtain ⟨h2, sv⟩ := r
      rw [hd] at h
      cases sv with
      | some e => simp at h
      | none =>
        simp only [Prod.mk.injEq, and_true] at h
        exact ⟨ms, h2, rfl, hd, h.symm⟩
  | bool v => simp [storeStruct] at h
  | num v => simp [storeStruct] at h
  | str v => simp [storeStruct] at h
  | arr v => simp [storeStruct] at h

/-- After a successful `StructuredScope.UnmarshalJSON`, every test about a field that
the document does not name holds. -/
theorem StructuredScope.absent_scope {X : Externals} (c c2 : (StructuredScope X)) (b : List UInt8) (doc : JSON)
    (hb : parse b = .ok doc) (h : StructuredScope.UnmarshalJSON c b = (c2, none)) :
    ∀ fd ∈ StructuredScope.pointers X ++ StructuredScope.values X, absentFrom fd.1 doc → fd.2 c2 := by
  intro fd hfd habs
  rcases StructuredScope.unmarshal_ok_scope c c2 b doc hb h with ⟨rfl, rfl⟩ | ⟨ms, h2, rfl, hd, rfl⟩
  · exact StructuredScope.zero_unset_scope X fd hfd
  · obtain ⟨htop, hattr⟩ := absentFrom_obj fd.1 ms habs
    rw [structuredScopeUnmarshalHelper.fields_eq_scope] at hd
    have key := decodeMembers_helper_absent (structuredScopeUnmarshalHelper.embedding X) (StructuredScope.zero X) "h1.structuredScope"
      (structuredScope.fields X) _ fd.1 fd.2 (structuredScope.frame_scope X fd hfd)
      (by simp) ms htop hattr _ h2 none none hd
    exact Eq.mpr key (StructuredScope.zero_unset_scope X fd hfd)

/-- Every field of `program` other than the one a test of `Program` is about leaves
the test alone. -/
theorem program.frame_program (X : Externals) :
    ∀ fd ∈ Program.pointers X, ∀ f ∈ program.fields X, f.name ≠ fd.1 →
      ∀ v a a2 e, f.store v a = .ok (a2, e) → fd.2 a2 = fd.2 a := by
  intro fd hfd f hf hne v a a2 e hst
  simp only [program.fields, List.mem_cons, List.mem_singleton, List.not_mem_nil,
    or_false] at hf
  rcases hf with rfl | rfl | rfl | rfl | rfl | rfl | rfl | rfl
  all_goals
    refine StructField.of_frame _ _ _ _ fd.2 ?_ v a a2 e hst
    intro b x
    simp only [Program.pointers, List.mem_cons, List.mem_singleton, List.not_mem_nil,
      or_false] at hfd
    rcases hfd with rfl | rfl | rfl | rfl | rfl | rfl
    all_goals first | exact absurd rfl hne | rfl

/-- The zero `Program` passes every test. -/
theorem Program.zero_unset_program (X : Externals) : ∀ fd ∈ Program.pointers X, fd.2 (Program.zero X) := by
  intro fd hfd
  simp only [Program.pointers, List.mem_cons, List.mem_singleton, List.not_mem_nil,
    or_false] at hfd
  rcases hfd with rfl | rfl | rfl | rfl | rfl | rfl <;> rfl

/-- After a successful `Program.UnmarshalJSON`, every test about a field that
the document does not name holds. -/
theorem Program.absent_program {X : Externals} (c c2 : (Program X)) (b : List UInt8) (doc : JSON)
    (hb : parse b = .ok doc) (h : Program.UnmarshalJSON c b = (c2, none)) :
    ∀ fd ∈ Program.pointers X, absentFrom fd.1 doc → fd.2 c2 := by
  intro fd hfd habs
  rcases Program.unmarshal_ok_program c c2 b doc hb h with ⟨rfl, rfl⟩ | ⟨ms, h2, rfl, hd, hc2⟩
  · exact Program.zero_unset_program X fd hfd
  · obtain ⟨htop, hattr⟩ := absentFrom_obj fd.1 ms habs
    rw [programUnmarshalHelper.fields_eq_program] at hd
    have key := decodeMembers_helper_absent (programUnmarshalHelper.embedding X) (Program.zero X) "h1.program"
      (program.fields X) _ fd.1 fd.2 (program.frame_program X fd hfd)
      (by
        intro f hf v b b2 e hst
        rw [List.mem_singleton] at hf
        subst hf
        refine StructField.of_frame _ _ _ _ (·.program) ?_ v b b2 e hst
        intro _ _
        rfl) ms htop hattr _ h2 none none hd
    have hr : fd.2 c2 = fd.2 h2.program := by
      rw [hc2]
      simp only [Program.pointers, List.mem_cons, List.mem_singleton, List.not_mem_nil,
        or_false] at hfd
      rcases hfd with rfl | rfl | rfl | rfl | rfl | rfl <;> rfl
    rw [hr]
    exact Eq.mpr key (Program.zero_unset_program X fd hfd)

/-- Every field of `user` other than the one a test of `User` is about leaves
the test alone. -/
theorem user.frame_user (X : Externals) :
    ∀ fd ∈ User.pointers X ++ User.values X, ∀ f ∈ user.fields X, f.name ≠ fd.1 →
      ∀ v a a2 e, f.store v a = .ok (a2, e) → fd.2 a2 = fd.2 a := by
  intro fd hfd f hf hne v a a2 e hst
  simp only [user.fields, List.mem_cons, List.mem_singleton, List.not_mem_nil,
    or_false] at hf
  rcases hf with rfl | rfl | rfl | rfl | rfl | rfl | rfl | rfl | rfl | rfl | rfl | rfl | rfl | rfl | rfl
  all_goals
    refine StructField.of_frame _ _ _ _ fd.2 ?_ v a a2 e hst
    intro b x
    simp only [User.pointers, User.values, List.cons_append, List.nil_append, List.mem_cons, List.mem_singleton, List.not_mem_nil,
      or_false] at hfd
    rcases hfd with rfl | rfl | rfl | rfl | rfl | rfl | rfl | rfl | rfl | rfl | rfl | rfl | rfl | rfl
    all_goals first | exact absurd rfl hne | rfl

/-- The zero `User` passes every test. -/
theorem User.zero_unset_user (X : Externals) : ∀ fd ∈ User.pointers X ++ User.values X, fd.2 (User.zero X) := by
  intro fd hfd
  simp only [User.pointers, User.values, List.cons_append, List.nil_append, List.mem_cons, List.mem_singleton, List.not_mem_nil,
    or_false] at hfd
  rcases hfd with rfl | rfl | rfl | rfl | rfl | rfl | rfl | rfl | rfl | rfl | rfl | rfl | rfl | rfl <;> rfl

/-- After a successful `User.UnmarshalJSON`, every test about a field that
the document does not name holds. -/
theorem User.absent_user {X : Externals} (c c2 : (User X)) (b : List UInt8) (doc : JSON)
    (hb : parse b = .ok doc) (h : User.UnmarshalJSON c b = (c2, none)) :
    ∀ fd ∈ User.pointers X ++ User.values X, absentFrom fd.1 doc → fd.2 c2 := by
  intro fd hfd habs
  rcases User.unmarshal_ok_user c c2 b doc hb h with ⟨rfl, rfl⟩ | ⟨ms, h2, rfl, hd, hc2⟩
  · exact User.zero_unset_user X fd hfd
  · obtain ⟨htop, hattr⟩ := absentFrom_obj fd.1 ms habs
    rw [userUnmarshalHelper.fields_eq_user] at hd
    have key := decodeMembers_helper_absent (userUnmarshalHelper.embedding X) (User.zero X) "h1.user"
      (user.fields X) _ fd.1 fd.2 (user.frame_user X fd hfd)
      (by
        intro f hf v b b2 e hst
        rw [List.mem_singleton] at hf
        subst hf
        refine StructField.of_frame _ _ _ _ (·.user) ?_ v b b2 e hst
        intro _ _
        rfl) ms htop hattr _ h2 none none hd
    have hr : fd.2 c2 = fd.2 h2.user := by
      rw [hc2]
      simp only [User.pointers, User.values, List.cons_append, List.nil_append, List.mem_cons, List.mem_singleton, List.not_mem_nil,
        or_false] at hfd
      rcases hfd with rfl | rfl | rfl | rfl | rfl | rfl | rfl | rfl | rfl | rfl | rfl | rfl | rfl | rfl <;> rfl
    rw [hr]
    exact Eq.mpr key (User.zero_unset_user X fd hfd)

end Absent

/-- C1, as stated, fails: with `F = {"Attributes": {"revoked": true}}`, whose only
key differs from `id`, `type` and `attributes`, the envelope decodes to a
`Credential` without `Revoked`, the flat object to one with `Revoked = true`
(the flat key `Attributes` selects the helper's `attributes` field
case-insensitively; inside the envelope it is an unknown key). Keys that differ
only in letter case select the same field, and the later member wins: with
`F = {"ID": "2"}` the envelope decodes to the `ID` 2 and the flat object
`{"ID":"2","id":"1","type":"credential"}` to the `ID` 1; with
`F = {"revoked": true, "Revoked": false}` the envelope decodes to
`Revoked = false` and the flat object that holds `Revoked` before `revoked` to
`Revoked = true`. -/
theorem envelope_equals_flat_counterexample :
    parse (bytes "\x7b\"id\":\"1\",\"type\":\"credential\",\"attributes\":\x7b\"Attributes\":\x7b\"revoked\":true\x7d\x7d\x7d")
      = .ok (.obj [("id", .str "1"), ("type", .str "credential"),
          ("attributes", .obj [("Attributes", .obj [("revoked", .bool true)])])]) ∧
    parse (bytes "\x7b\"id\":\"1\",\"type\":\"credential\",\"Attributes\":\x7b\"revoked\":true\x7d\x7d")
      = .ok (.obj [("id", .str "1"), ("type", .str "credential"),
          ("Attributes", .obj [("revoked", .bool true)])]) ∧
    ("Attributes" ≠ "id" ∧ "Attributes" ≠ "type" ∧ "Attributes" ≠ "attributes") ∧
    (Credential.UnmarshalJSON Credential.zero
      (bytes "\x7b\"id\":\"1\",\"type\":\"credential\",\"attributes\":\x7b\"Attributes\":\x7b\"revoked\":true\x7d\x7d\x7d")).1
      = { ID := some "1", «Type» := some "credential", Credentials := none, Revoked := none,
          AssigneeID := none, AssigneeUsername := none } ∧
    (Credential.UnmarshalJSON Credential.zero
      (bytes "\x7b\"id\":\"1\",\"type\":\"credential\",\"Attributes\":\x7b\"revoked\":true\x7d\x7d")).1
      = { ID := some "1", «Type» := some "credential", Credentials := none, Revoked := some true,
          AssigneeID := none, AssigneeUsername := none } ∧
    parse (bytes "\x7b\"id\":\"1\",\"type\":\"credential\",\"attributes\":\x7b\"ID\":\"2\"\x7d\x7d")
      = .ok (.obj [("id", .str "1"), ("type", .str "credential"),
          ("attributes", .obj [("ID", .str "2")])]) ∧
    parse (bytes "\x7b\"ID\":\"2\",\"id\":\"1\",\"type\":\"credential\"\x7d")
      = .ok (.obj [("ID", .str "2"), ("id", .str "1"), ("type", .str "credential")]) ∧
    ("ID" ≠ "id" ∧ "ID" ≠ "type" ∧ "ID" ≠ "attributes") ∧
    Credential.UnmarshalJSON Credential.zero
      (bytes "\x7b\"id\":\"1\",\"type\":\"credential\",\"attributes\":\x7b\"ID\":\"2\"\x7d\x7d")
      = ({ ID := some "2", «Type» := some "credential", Credentials := none, Revoked := none,
           AssigneeID := none, AssigneeUsername := none }, none) ∧
    Credential.UnmarshalJSON Credential.zero
      (bytes "\x7b\"ID\":\"2\",\"id\":\"1\",\"type\":\"credential\"\x7d")
      = ({ ID := some "1", «Type» := some "credential", Credentials := none, Revoked := none,
           AssigneeID := none, AssigneeUsername := none }, none) ∧
    parse (bytes "\x7b\"id\":\"1\",\"type\":\"credential\",\"attributes\":\x7b\"revoked\":true,\"Revoked\":false\x7d\x7d")
      = .ok (.obj [("id", .str "1"), ("type", .str "credential"),
          ("attributes", .obj [("revoked", .bool true), ("Revoked", .bool false)])]) ∧
    parse (bytes "\x7b\"id\":\"1\",\"type\":\"credential\",\"Revoked\":false,\"revoked\":true\x7d")
      = .ok (.obj [("id", .str "1"), ("type", .str "credential"), ("Revoked", .bool false),
          ("revoked", .bool true)]) ∧
    ("revoked" ≠ "Revoked" ∧ "revoked" ≠ "id" ∧ "revoked" ≠ "type" ∧ "revoked" ≠ "attributes" ∧
      "Revoked" ≠ "id" ∧ "Revoked" ≠ "type" ∧ "Revoked" ≠ "attributes") ∧
    Credential.UnmarshalJSON Credential.zero
      (bytes "\x7b\"id\":\"1\",\"type\":\"credential\",\"attributes\":\x7b\"revoked\":true,\"Revoked\":false\x7d\x7d")
      = ({ ID := some "1", «Type» := some "credential", Credentials := none,
           Revoked := some false, AssigneeID := none, AssigneeUsername := none }, none) ∧
    Credential.UnmarshalJSON Credential.zero
      (bytes "\x7b\"id\":\"1\",\"type\":\"credential\",\"Revoked\":false,\"revoked\":true\x7d")
      = ({ ID := some "1", «Type» := some "credential", Credentials := none,
           Revoked := some true, AssigneeID := none, AssigneeUsername := none }, none) :=
  ⟨rfl, rfl, by decide, by decide, by decide, rfl, rfl, by decide, by decide, by decide,
    rfl, rfl, by decide, by decide, by decide⟩

/-- C4. After a successful decode of a document whose `data` under
`relationships.groups`, `relationships.members` or
`relationships.participating_programs` is the empty array, the corresponding
field is the empty slice, which is not nil; when the document has no such `data`
member, the field is nil. -/
theorem empty_relationship_is_empty_not_nil (X : Externals) :
    (∀ (p p2 : Program X) (b : List UInt8) (doc : JSON), parse b = .ok doc →
      Program.UnmarshalJSON p b = (p2, none) →
      ((valuesAt ["relationships", "groups", "data"] [doc]).getLast? = some (.arr []) →
        p2.Groups = some [] ∧ p2.Groups ≠ none) ∧
      (valuesAt ["relationships", "groups", "data"] [doc] = [] → p2.Groups = none) ∧
      ((valuesAt ["relationships", "members", "data"] [doc]).getLast? = some (.arr []) →
        p2.Members = some [] ∧ p2.Members ≠ none) ∧
      (valuesAt ["relationships", "members", "data"] [doc] = [] → p2.Members = none)) ∧
    (∀ (u u2 : User X) (b : List UInt8) (doc : JSON), parse b = .ok doc →
      User.UnmarshalJSON u b = (u2, none) →
      ((valuesAt ["relationships", "participating_programs", "data"] [doc]).getLast?
          = some (.arr []) →
        u2.ParticipatingPrograms = some [] ∧ u2.ParticipatingPrograms ≠ none) ∧
      (valuesAt ["relationships", "participating_programs", "data"] [doc] = [] →
        u2.ParticipatingPrograms = none)) := by
  constructor
  · intro p p2 b doc hb h
    obtain ⟨hg, hm⟩ := Program.relationships_of_program p p2 b doc hb h
    refine ⟨fun he => ?_, fun he => ?_, fun he => ?_, fun he => ?_⟩
    · rw [he] at hg
      simp only [storeGroups, storeSlice, storeElems, Except.ok.injEq, Prod.mk.injEq,
        and_true] at hg
      rw [← hg]
      simp
    · rw [he] at hg
      simpa using hg
    · rw [he] at hm
      simp only [storeMembers, storeSlice, storeElems, Except.ok.injEq, Prod.mk.injEq,
        and_true] at hm
      rw [← hm]
      simp
    · rw [he] at hm
      simpa using hm
  · intro u u2 b doc hb h
    have hp := User.relationships_of_user u u2 b doc hb h
    refine ⟨fun he => ?_, fun he => ?_⟩
    · rw [he] at hp
      simp only [storePrograms, storeSlice, storeElems, Except.ok.injEq, Prod.mk.injEq,
        and_true] at hp
      rw [← hp]
      simp
    · rw [he] at hp
      simpa using hp

set_option maxRecDepth 100000 in
/-- Witness of C4: `data: []` gives the empty non-nil slices, no `relationships`
gives nil. -/
theorem empty_relationship_is_empty_not_nil_witness :
    ((Program.UnmarshalJSON (Program.zero Externals.text)
        (bytes "\x7b\"id\":\"1\",\"relationships\":\x7b\"groups\":\x7b\"data\":[]\x7d,\"members\":\x7b\"data\":[]\x7d\x7d\x7d")).1.Groups
      = some [] ∧
     (Program.UnmarshalJSON (Program.zero Externals.text)
        (bytes "\x7b\"id\":\"1\",\"relationships\":\x7b\"groups\":\x7b\"data\":[]\x7d,\"members\":\x7b\"data\":[]\x7d\x7d\x7d")).1.Groups
      ≠ none) ∧
    (Program.UnmarshalJSON (Program.zero Externals.text) (bytes "\x7b\"id\":\"1\"\x7d")).1.Groups
      = none ∧
    (User.UnmarshalJSON (User.zero Externals.text)
        (bytes "\x7b\"id\":\"1\",\"relationships\":\x7b\"participating_programs\":\x7b\"data\":[]\x7d\x7d\x7d")).1.ParticipatingPrograms
      = some [] :=
  ⟨((empty_relationship_is_empty_not_nil Externals.text).1 (Program.zero Externals.text) _
      (bytes "\x7b\"id\":\"1\",\"relationships\":\x7b\"groups\":\x7b\"data\":[]\x7d,\"members\":\x7b\"data\":[]\x7d\x7d\x7d")
      _ rfl rfl).1 rfl,
   ((empty_relationship_is_empty_not_nil Externals.text).1 (Program.zero Externals.text) _
      (bytes "\x7b\"id\":\"1\"\x7d") _ rfl rfl).2.1 rfl,
   (((empty_relationship_is_empty_not_nil Externals.text).2 (User.zero Externals.text) _
      (bytes "\x7b\"id\":\"1\",\"relationships\":\x7b\"participating_programs\":\x7b\"data\":[]\x7d\x7d\x7d")
      _ rfl rfl).1 rfl).1⟩


/-- The scanner reports every failure as a syntax error. -/
theorem parse_error_is_syntaxError (b : List UInt8) (e : JsonError) (h : parse b = .error e) :
    ∃ offset, e = .syntaxError offset := by
  unfold parse at h
  simp only at h
  cases hs : scanValue (2 * (b.map UInt8.toNat).length + 1) 0 (b.map UInt8.toNat) with
  | error f =>
    rw [hs] at h
    simp only [Except.error.injEq] at h
    cases f <;> exact ⟨_, h.symm⟩
  | ok r =>
    obtain ⟨v, rest⟩ := r
    rw [hs] at h
    simp only at h
    cases hr : skipSpace rest with
    | nil => rw [hr] at h; cases h
    | cons c cs =>
      rw [hr] at h
      simp only [Except.error.injEq] at h
      exact ⟨_, h.symm⟩

/-- The function `Unmarshal` returns the scanner's error when the input is not well-formed. -/
theorem Unmarshal_of_parse_error {α : Type} (b : List UInt8) (e : JsonError) (st : Store α)
    (v : α) (h : parse b = .error e) : Unmarshal b st v = .error e := by
  unfold Unmarshal
  rw [h]

/-- C8. On every input that is not well-formed JSON, `UnmarshalJSON` of each of
the five resource types returns (it has no panicking path) a non-nil error,
which is the syntax error of `json.Unmarshal` itself. -/
theorem malformed_json_gives_syntax_error (X : Externals) (b : List UInt8)
    (hbad : ∀ doc, parse b ≠ .ok doc) :
    ∃ offset, parse b = .error (.syntaxError offset) ∧
      (∀ ci : Credential, (Credential.UnmarshalJSON ci b).2 = some (.syntaxError offset)) ∧
      (∀ ci : CredentialInquiry,
        (CredentialInquiry.UnmarshalJSON ci b).2 = some (.syntaxError offset)) ∧
      (∀ p : Program X, (Program.UnmarshalJSON p b).2 = some (.syntaxError offset)) ∧
      (∀ sc : StructuredScope X,
        (StructuredScope.UnmarshalJSON sc b).2 = some (.syntaxError offset)) ∧
      (∀ u : User X, (User.UnmarshalJSON u b).2 = some (.syntaxError offset)) := by
  cases hp : parse b with
  | ok doc => exact absurd hp (hbad doc)
  | error e =>
    obtain ⟨offset, rfl⟩ := parse_error_is_syntaxError b e hp
    refine ⟨offset, rfl, fun ci => ?_, fun ci => ?_, fun p => ?_, fun sc => ?_, fun u => ?_⟩
    · simp only [Credential.UnmarshalJSON, Unmarshal_of_parse_error b _ _ _ hp]
    · simp only [CredentialInquiry.UnmarshalJSON, Unmarshal_of_parse_error b _ _ _ hp]
    · simp only [Program.UnmarshalJSON, Unmarshal_of_parse_error b _ _ _ hp]
    · simp only [StructuredScope.UnmarshalJSON, Unmarshal_of_parse_error b _ _ _ hp]
    · simp only [User.UnmarshalJSON, Unmarshal_of_parse_error b _ _ _ hp]

/-- Witness of C8: a truncated object; the scanner stops at the end of the ten
bytes. -/
theorem malformed_json_gives_syntax_error_witness :
    parse (bytes "\x7b\"id\": \"1\"") = .error (.syntaxError 10) ∧
    ∃ offset, parse (bytes "\x7b\"id\": \"1\"") = .error (.syntaxError offset) ∧
      (∀ ci : Credential,
        (Credential.UnmarshalJSON ci (bytes "\x7b\"id\": \"1\"")).2 = some (.syntaxError offset)) ∧
      (∀ ci : CredentialInquiry,
        (CredentialInquiry.UnmarshalJSON ci (bytes "\x7b\"id\": \"1\"")).2
          = some (.syntaxError offset)) ∧
      (∀ p : Program Externals.text,
        (Program.UnmarshalJSON p (bytes "\x7b\"id\": \"1\"")).2 = some (.syntaxError offset)) ∧
      (∀ sc : StructuredScope Externals.text,
        (StructuredScope.UnmarshalJSON sc (bytes "\x7b\"id\": \"1\"")).2
          = some (.syntaxError offset)) ∧
      (∀ u : User Externals.text,
        (User.UnmarshalJSON u (bytes "\x7b\"id\": \"1\"")).2 = some (.syntaxError offset)) :=
  ⟨rfl, malformed_json_gives_syntax_error Externals.text (bytes "\x7b\"id\": \"1\"")
    (fun doc h => by
      rw [show parse (bytes "\x7b\"id\": \"1\"") = .error (.syntaxError 10) from rfl] at h
      cases h)⟩

/-- C9. Whenever `UnmarshalJSON` of one of the five resource types returns an
error, the receiver is exactly what it was before the call; and when it returns
nil, the receiver is what was decoded, whatever it held before. -/
theorem unmarshal_is_all_or_nothing (X : Externals) (b : List UInt8) :
    (∀ ci : Credential,
      ((Credential.UnmarshalJSON ci b).2 ≠ none → (Credential.UnmarshalJSON ci b).1 = ci) ∧
      ((Credential.UnmarshalJSON ci b).2 = none →
        ∀ other, Credential.UnmarshalJSON other b = Credential.UnmarshalJSON ci b)) ∧
    (∀ ci : CredentialInquiry,
      ((CredentialInquiry.UnmarshalJSON ci b).2 ≠ none →
        (CredentialInquiry.UnmarshalJSON ci b).1 = ci) ∧
      ((CredentialInquiry.UnmarshalJSON ci b).2 = none →
        ∀ other, CredentialInquiry.UnmarshalJSON other b = CredentialInquiry.UnmarshalJSON ci b)) ∧
    (∀ p : Program X,
      ((Program.UnmarshalJSON p b).2 ≠ none → (Program.UnmarshalJSON p b).1 = p) ∧
      ((Program.UnmarshalJSON p b).2 = none →
        ∀ other, Program.UnmarshalJSON other b = Program.UnmarshalJSON p b)) ∧
    (∀ sc : StructuredScope X,
      ((StructuredScope.UnmarshalJSON sc b).2 ≠ none →
        (StructuredScope.UnmarshalJSON sc b).1 = sc) ∧
      ((StructuredScope.UnmarshalJSON sc b).2 = none →
        ∀ other, StructuredScope.UnmarshalJSON other b = StructuredScope.UnmarshalJSON sc b)) ∧
    (∀ u : User X,
      ((User.UnmarshalJSON u b).2 ≠ none → (User.UnmarshalJSON u b).1 = u) ∧
      ((User.UnmarshalJSON u b).2 = none →
        ∀ other, User.UnmarshalJSON other b = User.UnmarshalJSON u b)) := by
  refine ⟨fun ci => ?_, fun ci => ?_, fun p => ?_, fun sc => ?_, fun u => ?_⟩
  · simp only [Credential.UnmarshalJSON]
    generalize Unmarshal b _ _ = r
    cases r <;> simp
  · simp only [CredentialInquiry.UnmarshalJSON]
    generalize Unmarshal b _ _ = r
    cases r <;> simp
  · simp only [Program.UnmarshalJSON]
    generalize Unmarshal b _ _ = r
    cases r <;> simp
  · simp only [StructuredScope.UnmarshalJSON]
    generalize Unmarshal b _ _ = r
    cases r <;> simp
  · simp only [User.UnmarshalJSON]
    generalize Unmarshal b _ _ = r
    cases r <;> simp

/-- Witness of C9: a document with a number for `id` after a valid `revoked`
makes `Credential.UnmarshalJSON` fail, and the receiver keeps its fields. -/
theorem unmarshal_is_all_or_nothing_witness :
    (Credential.UnmarshalJSON
        { ID := some "old", «Type» := none, Credentials := none, Revoked := some false,
          AssigneeID := none, AssigneeUsername := none }
        (bytes "\x7b\"revoked\":true,\"id\":5\x7d")).2
      = some (.unmarshalTypeError "number" "string") ∧
    (Credential.UnmarshalJSON
        { ID := some "old", «Type» := none, Credentials := none, Revoked := some false,
          AssigneeID := none, AssigneeUsername := none }
        (bytes "\x7b\"revoked\":true,\"id\":5\x7d")).1
      = { ID := some "old", «Type» := none, Credentials := none, Revoked := some false,
          AssigneeID := none, AssigneeUsername := none } :=
  ⟨by decide, ((unmarshal_is_all_or_nothing Externals.text (bytes "\x7b\"revoked\":true,\"id\":5\x7d")).1
    { ID := some "old", «Type» := none, Credentials := none, Revoked := some false,
      AssigneeID := none, AssigneeUsername := none }).1 (by decide)⟩


/-- C10, as stated, fails. `StructuredScope` has fields of value type: after
decoding `{}` into a scope whose `AssetIdentifier` was `"old"`, the fields
`asset_identifier`, `asset_type`, `max_severity` hold the empty string and
`eligible_for_bounty`, `eligible_for_submission` hold `false`. And a field filled
from `relationships` is set although the document names it neither at top level
nor under `attributes`. -/
theorem absent_fields_are_nil_counterexample :
    parse (bytes "\x7b\x7d") = .ok (.obj []) ∧
    (StructuredScope.UnmarshalJSON
      { StructuredScope.zero Externals.text with AssetIdentifier := "old" }
      (bytes "\x7b\x7d")).2 = none ∧
    (StructuredScope.UnmarshalJSON
      { StructuredScope.zero Externals.text with AssetIdentifier := "old" }
      (bytes "\x7b\x7d")).1.AssetIdentifier = "" ∧
    (StructuredScope.UnmarshalJSON
      { StructuredScope.zero Externals.text with AssetIdentifier := "old" }
      (bytes "\x7b\x7d")).1.AssetType = "" ∧
    (StructuredScope.UnmarshalJSON
      { StructuredScope.zero Externals.text with AssetIdentifier := "old" }
      (bytes "\x7b\x7d")).1.MaxSeverity = "" ∧
    (StructuredScope.UnmarshalJSON
      { StructuredScope.zero Externals.text with AssetIdentifier := "old" }
      (bytes "\x7b\x7d")).1.EligibleForBounty = false ∧
    (StructuredScope.UnmarshalJSON
      { StructuredScope.zero Externals.text with AssetIdentifier := "old" }
      (bytes "\x7b\x7d")).1.EligibleForSubmission = false ∧
    absentFrom "groups"
      (.obj [("relationships", .obj [("groups", .obj [("data", .arr [.str "g"])])])]) ∧
    parse (bytes "\x7b\"relationships\":\x7b\"groups\":\x7b\"data\":[\"g\"]\x7d\x7d\x7d") =
      .ok (.obj [("relationships", .obj [("groups", .obj [("data", .arr [.str "g"])])])]) ∧
    Program.UnmarshalJSON (Program.zero Externals.text)
      (bytes "\x7b\"relationships\":\x7b\"groups\":\x7b\"data\":[\"g\"]\x7d\x7d\x7d") =
      ({ Program.zero Externals.text with Groups := some [some "g"] }, none) :=
  ⟨rfl, rfl, rfl, rfl, rfl, rfl, rfl, ⟨rfl, rfl⟩, rfl, rfl⟩

/-- C10, amended. After a successful decode of a document that names a field
neither at top level nor under `attributes` (in any letter case): every pointer
field of `Credential`, `CredentialInquiry`, `Program`, `StructuredScope` and
`User` is nil; the value fields of `StructuredScope` (`asset_identifier`,
`asset_type`, `max_severity`, `eligible_for_bounty`, `eligible_for_submission`)
hold the empty string or `false`, and `User.ProfilePicture` is the struct with
four nil sizes. The fields filled from `relationships` are not covered. -/
theorem absent_pointer_fields_are_nil (X : Externals) (b : List UInt8) (doc : JSON)
    (hb : parse b = .ok doc) :
    (∀ c c2 : Credential, Credential.UnmarshalJSON c b = (c2, none) →
      ∀ fd ∈ Credential.pointers, absentFrom fd.1 doc → fd.2 c2) ∧
    (∀ c c2 : CredentialInquiry, CredentialInquiry.UnmarshalJSON c b = (c2, none) →
      ∀ fd ∈ CredentialInquiry.pointers, absentFrom fd.1 doc → fd.2 c2) ∧
    (∀ p p2 : Program X, Program.UnmarshalJSON p b = (p2, none) →
      ∀ fd ∈ Program.pointers X, absentFrom fd.1 doc → fd.2 p2) ∧
    (∀ s s2 : StructuredScope X, StructuredScope.UnmarshalJSON s b = (s2, none) →
      (∀ fd ∈ StructuredScope.pointers X, absentFrom fd.1 doc → fd.2 s2) ∧
      (∀ fd ∈ StructuredScope.values X, absentFrom fd.1 doc → fd.2 s2)) ∧
    (∀ u u2 : User X, User.UnmarshalJSON u b = (u2, none) →
      (∀ fd ∈ User.pointers X, absentFrom fd.1 doc → fd.2 u2) ∧
      (∀ fd ∈ User.values X, absentFrom fd.1 doc → fd.2 u2)) := by
  refine ⟨fun c c2 h => Credential.absent_credential c c2 b doc hb h,
    fun c c2 h => CredentialInquiry.absent_inquiry c c2 b doc hb h,
    fun p p2 h => Program.absent_program p p2 b doc hb h,
    fun s s2 h => ⟨fun fd hfd => StructuredScope.absent_scope s s2 b doc hb h fd
        (List.mem_append_left _ hfd),
      fun fd hfd => StructuredScope.absent_scope s s2 b doc hb h fd
        (List.mem_append_right _ hfd)⟩,
    fun u u2 h => ⟨fun fd hfd => User.absent_user u u2 b doc hb h fd
        (List.mem_append_left _ hfd),
      fun fd hfd => User.absent_user u u2 b doc hb h fd (List.mem_append_right _ hfd)⟩⟩

/-- Witness of C10 (amended): a credential document with `id` only leaves
`Revoked` nil, and a scope document with `id` only leaves `AssetIdentifier`
empty. -/
theorem absent_pointer_fields_are_nil_witness :
    (Credential.UnmarshalJSON Credential.zero (bytes "\x7b\"id\":\"1\"\x7d")).1.Revoked = none ∧
    (StructuredScope.UnmarshalJSON (StructuredScope.zero Externals.text)
      (bytes "\x7b\"id\":\"1\"\x7d")).1.AssetIdentifier = "" :=
  ⟨(absent_pointer_fields_are_nil Externals.text (bytes "\x7b\"id\":\"1\"\x7d")
      (.obj [("id", .str "1")]) rfl).1 Credential.zero _ rfl
      ("revoked", fun c => c.Revoked = none) (by simp [Credential.pointers]) ⟨rfl, rfl⟩,
   ((absent_pointer_fields_are_nil Externals.text (bytes "\x7b\"id\":\"1\"\x7d")
      (.obj [("id", .str "1")]) rfl).2.2.2.1 (StructuredScope.zero Externals.text) _ rfl).2
      ("asset_identifier", fun c => c.AssetIdentifier = "")
      (by simp [StructuredScope.values]) ⟨rfl, rfl⟩⟩


/-! ### Null members, the `type` member and the order of members -/

section Merge

/-- Two documents whose members the helper decodes alike are decoded alike by
`Credential.UnmarshalJSON`. -/
theorem Credential.unmarshal_congr_credential (c : Credential) (b1 b2 : List UInt8)
    (ms1 ms2 : List (String × JSON))
    (h1 : parse b1 = .ok (.obj ms1)) (h2 : parse b2 = .ok (.obj ms2))
    (h : decodeMembers credentialUnmarshalHelper.fields ms1 ({ credential := Credential.zero, Attributes := .embedded } : credentialUnmarshalHelper) none =
      decodeMembers credentialUnmarshalHelper.fields ms2 ({ credential := Credential.zero, Attributes := .embedded } : credentialUnmarshalHelper) none) :
    Credential.UnmarshalJSON c b1 = Credential.UnmarshalJSON c b2 := by
  unfold Credential.UnmarshalJSON Unmarshal
  rw [h1, h2]
  simp only [storeStruct]
  rw [h]

/-- On the zero `Credential`, `null` has no effect, whatever field it is decoded into. -/
theorem credential.null_zero_credential :
    ∀ g ∈ credential.fields, g.store .null Credential.zero = .ok (Credential.zero, none) := by
  intro g hg
  simp only [credential.fields, List.mem_cons, List.mem_singleton, List.not_mem_nil, or_false] at hg
  rcases hg with rfl | rfl | rfl | rfl | rfl | rfl <;> rfl

/-- Decoding into one field of `credential` keeps `null` without effect on another. -/
theorem credential.null_frame_credential :
    ∀ g ∈ credential.fields, ∀ f ∈ credential.fields, f.name ≠ g.name →
      ∀ v a a2 e, f.store v a = .ok (a2, e) →
        g.store .null a = .ok (a, none) → g.store .null a2 = .ok (a2, none) := by
  intro g hg f hf hne v a a2 e hst hn
  simp only [credential.fields, List.mem_cons, List.mem_singleton, List.not_mem_nil, or_false] at hg hf
  rcases hg with rfl | rfl | rfl | rfl | rfl | rfl
  all_goals
    rcases hf with rfl | rfl | rfl | rfl | rfl | rfl
    all_goals first
      | exact absurd rfl hne
      | (refine StructField.of_null_frame _ _ _ _ _ _ _ _ ?_ ?_ v a a2 e hst hn <;> intros <;> rfl)

/-- No field of `credential` is selected by the key `attributes`, in any letter case. -/
theorem credential.fold_attributes_credential :
    ∀ f ∈ credential.fields, foldName f.name ≠ foldName "attributes" := by
  intro f hf
  simp only [credential.fields, List.mem_cons, List.mem_singleton, List.not_mem_nil, or_false] at hf
  rcases hf with rfl | rfl | rfl | rfl | rfl | rfl <;> (simp only [StructField.of]; decide)

/-- Every field of `credential` other than `type` leaves `Type` alone. -/
theorem credential.frame_type_credential :
    ∀ f ∈ credential.fields, f.name ≠ "type" →
      ∀ v a a2 e, f.store v a = .ok (a2, e) → a2.«Type» = a.«Type» := by
  intro f hf hne v a a2 e hst
  simp only [credential.fields, List.mem_cons, List.mem_singleton, List.not_mem_nil, or_false] at hf
  rcases hf with rfl | rfl | rfl | rfl | rfl | rfl
  all_goals first
    | exact absurd rfl hne
    | (refine StructField.of_frame _ _ _ _ (·.«Type») ?_ v a a2 e hst; intro _ _; rfl)

/-- Two documents whose members the helper decodes alike are decoded alike by
`CredentialInquiry.UnmarshalJSON`. -/
theorem CredentialInquiry.unmarshal_congr_inquiry (c : CredentialInquiry) (b1 b2 : List UInt8)
    (ms1 ms2 : List (String × JSON))
    (h1 : parse b1 = .ok (.obj ms1)) (h2 : parse b2 = .ok (.obj ms2))
    (h : decodeMembers credentialInquiryUnmarshalHelper.fields ms1 ({ credentialInquiry := CredentialInquiry.zero, Attributes := .embedded } : credentialInquiryUnmarshalHelper) none =
      decodeMembers credentialInquiryUnmarshalHelper.fields ms2 ({ credentialInquiry := CredentialInquiry.zero, Attributes := .embedded } : credentialInquiryUnmarshalHelper) none) :
    CredentialInquiry.UnmarshalJSON c b1 = CredentialInquiry.UnmarshalJSON c b2 := by
  unfold CredentialInquiry.UnmarshalJSON Unmarshal
  rw [h1, h2]
  simp only [storeStruct]
  rw [h]

/-- On the zero `CredentialInquiry`, `null` has no effect, whatever field it is decoded into. -/
theorem credentialInquiry.null_zero_inquiry :
    ∀ g ∈ credentialInquiry.fields, g.store .null CredentialInquiry.zero = .ok (CredentialInquiry.zero, none) := by
  intro g hg
  simp only [credentialInquiry.fields, List.mem_cons, List.mem_singleton, List.not_mem_nil, or_false] at hg
  rcases hg with rfl | rfl | rfl <;> rfl

/-- Decoding into one field of `credentialInquiry` keeps `null` without effect on another. -/
theorem credentialInquiry.null_frame_inquiry :
    ∀ g ∈ credentialInquiry.fields, ∀ f ∈ credentialInquiry.fields, f.name ≠ g.name →
      ∀ v a a2 e, f.store v a = .ok (a2, e) →
        g.store .null a = .ok (a, none) → g.store .null a2 = .ok (a2, none) := by
  intro g hg f hf hne v a a2 e hst hn
  simp only [credentialInquiry.fields, List.mem_cons, List.mem_singleton, List.not_mem_nil, or_false] at hg hf
  rcases hg with rfl | rfl | rfl
  all_goals
    rcases hf with rfl | rfl | rfl
    all_goals first
      | exact absurd rfl hne
      | (refine StructField.of_null_frame _ _ _ _ _ _ _ _ ?_ ?_ v a a2 e hst hn <;> intros <;> rfl)

/-- No field of `credentialInquiry` is selected by the key `attributes`, in any letter case. -/
theorem credentialInquiry.fold_attributes_inquiry :
    ∀ f ∈ credentialInquiry.fields, foldName f.name ≠ foldName "attributes" := by
  intro f hf
  simp only [credentialInquiry.fields, List.mem_cons, List.mem_singleton, List.not_mem_nil, or_false] at hf
  rcases hf with rfl | rfl | rfl <;> (simp only [StructField.of]; decide)

/-- Every field of `credentialInquiry` other than `type` leaves `Type` alone. -/
theorem credentialInquiry.frame_type_inquiry :
    ∀ f ∈ credentialInquiry.fields, f.name ≠ "type" →
      ∀ v a a2 e, f.store v a = .ok (a2, e) → a2.«Type» = a.«Type» := by
  intro f hf hne v a a2 e hst
  simp only [credentialInquiry.fields, List.mem_cons, List.mem_singleton, List.not_mem_nil, or_false] at hf
  rcases hf with rfl | rfl | rfl
  all_goals first
    | exact absurd rfl hne
    | (refine StructField.of_frame _ _ _ _ (·.«Type») ?_ v a a2 e hst; intro _ _; rfl)

/-- Two documents whose members the helper decodes alike are decoded alike by
`StructuredScope.UnmarshalJSON`. -/
theorem StructuredScope.unmarshal_congr_scope {X : Externals} (c : (StructuredScope X)) (b1 b2 : List UInt8)
    (ms1 ms2 : List (String × JSON))
    (h1 : parse b1 = .ok (.obj ms1)) (h2 : parse b2 = .ok (.obj ms2))
    (h : decodeMembers (structuredScopeUnmarshalHelper.fields X) ms1 ({ structuredScope := StructuredScope.zero X, Attributes := .embedded } : structuredScopeUnmarshalHelper X) none =
      decodeMembers (structuredScopeUnmarshalHelper.fields X) ms2 ({ structuredScope := StructuredScope.zero X, Attributes := .embedded } : structuredScopeUnmarshalHelper X) none) :
    StructuredScope.UnmarshalJSON c b1 = StructuredScope.UnmarshalJSON c b2 := by
  unfold StructuredScope.UnmarshalJSON Unmarshal
  rw [h1, h2]
  simp only [storeStruct]
  rw [h]

/-- On the zero `StructuredScope`, `null` has no effect, whatever field it is decoded into. -/
theorem structuredScope.null_zero_scope (X : Externals) :
    ∀ g ∈ (structuredScope.fields X), g.store .null (StructuredScope.zero X) = .ok ((StructuredScope.zero X), none) := by
  intro g hg
  simp only [structuredScope.fields, List.mem_cons, List.mem_singleton, List.not_mem_nil, or_false] at hg
  rcases hg with rfl | rfl | rfl | rfl | rfl | rfl | rfl | rfl | rfl | rfl | rfl | rfl | rfl | rfl <;> rfl

/-- Decoding into one field of `structuredScope` keeps `null` without effect on another. -/
theorem structuredScope.null_frame_scope (X : Externals) :
    ∀ g ∈ (structuredScope.fields X), ∀ f ∈ (structuredScope.fields X), f.name ≠ g.name →
      ∀ v a a2 e, f.store v a = .ok (a2, e) →
        g.store .null a = .ok (a, none) → g.store .null a2 = .ok (a2, none) := by
  intro g hg f hf hne v a a2 e hst hn
  simp only [structuredScope.fields, List.mem_cons, List.mem_singleton, List.not_mem_nil, or_false] at hg hf
  rcases hg with rfl | rfl | rfl | rfl | rfl | rfl | rfl | rfl | rfl | rfl | rfl | rfl | rfl | rfl
  all_goals
    rcases hf with rfl | rfl | rfl | rfl | rfl | rfl | rfl | rfl | rfl | rfl | rfl | rfl | rfl | rfl
    all_goals first
      | exact absurd rfl hne
      | (refine StructField.of_null_frame _ _ _ _ _ _ _ _ ?_ ?_ v a a2 e hst hn <;> intros <;> rfl)

/-- No field of `structuredScope` is selected by the key `attributes`, in any letter case. -/
theorem structuredScope.fold_attributes_scope (X : Externals) :
    ∀ f ∈ (structuredScope.fields X), foldName f.name ≠ foldName "attributes" := by
  intro f hf
  simp only [structuredScope.fields, List.mem_cons, List.mem_singleton, List.not_mem_nil, or_false] at hf
  rcases hf with rfl | rfl | rfl | rfl | rfl | rfl | rfl | rfl | rfl | rfl | rfl | rfl | rfl | rfl <;> (simp only [StructField.of]; decide)

/-- Every field of `structuredScope` other than `type` leaves `Type` alone. -/
theorem structuredScope.frame_type_scope (X : Externals) :
    ∀ f ∈ (structuredScope.fields X), f.name ≠ "type" →
      ∀ v a a2 e, f.store v a = .ok (a2, e) → a2.«Type» = a.«Type» := by
  intro f hf hne v a a2 e hst
  simp only [structuredScope.fields, List.mem_cons, List.mem_singleton, List.not_mem_nil, or_false] at hf
  rcases hf with rfl | rfl | rfl | rfl | rfl | rfl | rfl | rfl | rfl | rfl | rfl | rfl | rfl | rfl
  all_goals first
    | exact absurd rfl hne
    | (refine StructField.of_frame _ _ _ _ (·.«Type») ?_ v a a2 e hst; intro _ _; rfl)

/-- Two documents whose members the helper decodes alike are decoded alike by
`Program.UnmarshalJSON`. -/
theorem Program.unmarshal_congr_program {X : Externals} (c : (Program X)) (b1 b2 : List UInt8)
    (ms1 ms2 : List (String × JSON))
    (h1 : parse b1 = .ok (.obj ms1)) (h2 : parse b2 = .ok (.obj ms2))
    (h : decodeMembers (programUnmarshalHelper.fields X) ms1 (programUnmarshalHelper.init X) none =
      decodeMembers (programUnmarshalHelper.fields X) ms2 (programUnmarshalHelper.init X) none) :
    Program.UnmarshalJSON c b1 = Program.UnmarshalJSON c b2 := by
  unfold Program.UnmarshalJSON Unmarshal
  rw [h1, h2]
  simp only [storeStruct]
  rw [h]

/-- On the zero `Program`, `null` has no effect, whatever field it is decoded into. -/
theorem program.null_zero_program (X : Externals) :
    ∀ g ∈ (program.fields X), g.store .null (Program.zero X) = .ok ((Program.zero X), none) := by
  intro g hg
  simp only [program.fields, List.mem_cons, List.mem_singleton, List.not_mem_nil, or_false] at hg
  rcases hg with rfl | rfl | rfl | rfl | rfl | rfl | rfl | rfl <;> rfl

/-- Decoding into one field of `program` keeps `null` without effect on another. -/
theorem program.null_frame_program (X : Externals) :
    ∀ g ∈ (program.fields X), ∀ f ∈ (program.fields X), f.name ≠ g.name →
      ∀ v a a2 e, f.store v a = .ok (a2, e) →
        g.store .null a = .ok (a, none) → g.store .null a2 = .ok (a2, none) := by
  intro g hg f hf hne v a a2 e hst hn
  simp only [program.fields, List.mem_cons, List.mem_singleton, List.not_mem_nil, or_false] at hg hf
  rcases hg with rfl | rfl | rfl | rfl | rfl | rfl | rfl | rfl
  all_goals
    rcases hf with rfl | rfl | rfl | rfl | rfl | rfl | rfl | rfl
    all_goals first
      | exact absurd rfl hne
      | (refine StructField.of_null_frame _ _ _ _ _ _ _ _ ?_ ?_ v a a2 e hst hn <;> intros <;> rfl)

/-- No field of `program` is selected by the key `attributes`, in any letter case. -/
theorem program.fold_attributes_program (X : Externals) :
    ∀ f ∈ (program.fields X), foldName f.name ≠ foldName "attributes" := by
  intro f hf
  simp only [program.fields, List.mem_cons, List.mem_singleton, List.not_mem_nil, or_false] at hf
  rcases hf with rfl | rfl | rfl | rfl | rfl | rfl | rfl | rfl <;> (simp only [StructField.of]; decide)

/-- Every field of `program` other than `type` leaves `Type` alone. -/
theorem program.frame_type_program (X : Externals) :
    ∀ f ∈ (program.fields X), f.name ≠ "type" →
      ∀ v a a2 e, f.store v a = .ok (a2, e) → a2.«Type» = a.«Type» := by
  intro f hf hne v a a2 e hst
  simp only [program.fields, List.mem_cons, List.mem_singleton, List.not_mem_nil, or_false] at hf
  rcases hf with rfl | rfl | rfl | rfl | rfl | rfl | rfl | rfl
  all_goals first
    | exact absurd rfl hne
    | (refine StructField.of_frame _ _ _ _ (·.«Type») ?_ v a a2 e hst; intro _ _; rfl)

/-- Two documents whose members the helper decodes alike are decoded alike by
`User.UnmarshalJSON`. -/
theorem User.unmarshal_congr_user {X : Externals} (c : (User X)) (b1 b2 : List UInt8)
    (ms1 ms2 : List (String × JSON))
    (h1 : parse b1 = .ok (.obj ms1)) (h2 : parse b2 = .ok (.obj ms2))
    (h : decodeMembers (userUnmarshalHelper.fields X) ms1 (userUnmarshalHelper.init X) none =
      decodeMembers (userUnmarshalHelper.fields X) ms2 (userUnmarshalHelper.init X) none) :
    User.UnmarshalJSON c b1 = User.UnmarshalJSON c b2 := by
  unfold User.UnmarshalJSON Unmarshal
  rw [h1, h2]
  simp only [storeStruct]
  rw [h]

/-- On the zero `User`, `null` has no effect, whatever field it is decoded into. -/
theorem user.null_zero_user (X : Externals) :
    ∀ g ∈ (user.fields X), g.store .null (User.zero X) = .ok ((User.zero X), none) := by
  intro g hg
  simp only [user.fields, List.mem_cons, List.mem_singleton, List.not_mem_nil, or_false] at hg
  rcases hg with rfl | rfl | rfl | rfl | rfl | rfl | rfl | rfl | rfl | rfl | rfl | rfl | rfl | rfl | rfl <;> rfl

/-- Decoding into one field of `user` keeps `null` without effect on another. -/
theorem user.null_frame_user (X : Externals) :
    ∀ g ∈ (user.fields X), ∀ f ∈ (user.fields X), f.name ≠ g.name →
      ∀ v a a2 e, f.store v a = .ok (a2, e) →
        g.store .null a = .ok (a, none) → g.store .null a2 = .ok (a2, none) := by
  intro g hg f hf hne v a a2 e hst hn
  simp only [user.fields, List.mem_cons, List.mem_singleton, List.not_mem_nil, or_false] at hg hf
  rcases hg with rfl | rfl | rfl | rfl | rfl | rfl | rfl | rfl | rfl | rfl | rfl | rfl | rfl | rfl | rfl
  all_goals
    rcases hf with rfl | rfl | rfl | rfl | rfl | rfl | rfl | rfl | rfl | rfl | rfl | rfl | rfl | rfl | rfl
    all_goals first
      | exact absurd rfl hne
      | (refine StructField.of_null_frame _ _ _ _ _ _ _ _ ?_ ?_ v a a2 e hst hn <;> intros <;> rfl)

/-- No field of `user` is selected by the key `attributes`, in any letter case. -/
theorem user.fold_attributes_user (X : Externals) :
    ∀ f ∈ (user.fields X), foldName f.name ≠ foldName "attributes" := by
  intro f hf
  simp only [user.fields, List.mem_cons, List.mem_singleton, List.not_mem_nil, or_false] at hf
  rcases hf with rfl | rfl | rfl | rfl | rfl | rfl | rfl | rfl | rfl | rfl | rfl | rfl | rfl | rfl | rfl <;> (simp only [StructField.of]; decide)

/-- Every field of `user` other than `type` leaves `Type` alone. -/
theorem user.frame_type_user (X : Externals) :
    ∀ f ∈ (user.fields X), f.name ≠ "type" →
      ∀ v a a2 e, f.store v a = .ok (a2, e) → a2.«Type» = a.«Type» := by
  intro f hf hne v a a2 e hst
  simp only [user.fields, List.mem_cons, List.mem_singleton, List.not_mem_nil, or_false] at hf
  rcases hf with rfl | rfl | rfl | rfl | rfl | rfl | rfl | rfl | rfl | rfl | rfl | rfl | rfl | rfl | rfl
  all_goals first
    | exact absurd rfl hne
    | (refine StructField.of_frame _ _ _ _ (·.«Type») ?_ v a a2 e hst; intro _ _; rfl)

/-- Absence of a name is absence of every name that matches it
case-insensitively. -/
theorem absentFrom_fold (k k2 : String) (h : foldName k = foldName k2) (doc : JSON)
    (habs : absentFrom k doc) : absentFrom k2 doc := by
  unfold absentFrom at habs ⊢
  simp only [valuesAt, h] at habs ⊢
  exact habs

/-- What absence from a document without the member `k: null` says about the
members before it. -/
theorem absentFrom_dropped_top (k : String) (ms1 ms2 : List (String × JSON))
    (habs : absentFrom k (.obj (ms1 ++ ms2))) :
    (∀ kv ∈ ms1, foldName kv.1 ≠ foldName k) ∧
    (∀ kv ∈ ms1, foldName kv.1 = foldName "attributes" →
      ∀ kv2 ∈ membersOf kv.2, foldName kv2.1 ≠ foldName k) := by
  obtain ⟨htop, hattr⟩ := absentFrom_obj k _ habs
  exact ⟨fun kv hkv => htop kv (List.mem_append_left _ hkv),
    fun kv hkv => hattr kv (List.mem_append_left _ hkv)⟩

theorem absentFrom_dropped_attribute (k ka : String) (hka : foldName ka = foldName "attributes")
    (ms1 as1 as2 ms2 : List (String × JSON))
    (habs : absentFrom k (.obj (ms1 ++ (ka, .obj (as1 ++ as2)) :: ms2))) :
    (∀ kv ∈ ms1, foldName kv.1 ≠ foldName k) ∧
    (∀ kv ∈ ms1, foldName kv.1 = foldName "attributes" →
      ∀ kv2 ∈ membersOf kv.2, foldName kv2.1 ≠ foldName k) ∧
    (∀ kv ∈ as1, foldName kv.1 ≠ foldName k) := by
  obtain ⟨htop, hattr⟩ := absentFrom_obj k _ habs
  refine ⟨fun kv hkv => htop kv (List.mem_append_left _ hkv),
    fun kv hkv => hattr kv (List.mem_append_left _ hkv), fun kv hkv => ?_⟩
  exact hattr (ka, .obj (as1 ++ as2))
    (List.mem_append_right _ (List.mem_cons_self _ _)) hka kv (List.mem_append_left _ hkv)

/-- A member `k: null` that the rest of the document does not name can be left
out of a document decoded by `Credential.UnmarshalJSON`. -/
theorem Credential.null_dropped_credential (c : Credential) (k : String)
    (hk : foldName k ≠ foldName "attributes") (doc1 doc2 : JSON) (b1 b2 : List UInt8)
    (hb1 : parse b1 = .ok doc1) (hb2 : parse b2 = .ok doc2)
    (hdrop : nullDropped k doc1 doc2) (habs : absentFrom k doc2) :
    Credential.UnmarshalJSON c b1 = Credential.UnmarshalJSON c b2 := by
  rcases hdrop with ⟨ms1, ms2, rfl, rfl⟩ | ⟨ms1, ka, as1, as2, ms2, hka, rfl, rfl⟩
  · obtain ⟨htop, hattr⟩ := absentFrom_dropped_top k ms1 ms2 habs
    refine Credential.unmarshal_congr_credential c b1 b2 _ _ hb1 hb2 ?_
    rw [credentialUnmarshalHelper.fields_eq_credential]
    exact decodeMembers_helper_null_member credentialUnmarshalHelper.embedding Credential.zero "h1.credential" credential.fields _
      (fun _ _ => rfl) credential.null_zero_credential credential.null_frame_credential (by simp) (by simp)
      k hk ms1 ms2 htop hattr _ none
      (fun g hg => ⟨credential.null_zero_credential g hg, fun a ha => by cases ha⟩)
  · obtain ⟨htop, hattr, has1⟩ := absentFrom_dropped_attribute k ka hka ms1 as1 as2 ms2 habs
    refine Credential.unmarshal_congr_credential c b1 b2 _ _ hb1 hb2 ?_
    rw [credentialUnmarshalHelper.fields_eq_credential]
    exact decodeMembers_helper_null_attribute credentialUnmarshalHelper.embedding Credential.zero "h1.credential" credential.fields _
      (fun _ _ => rfl) credential.fold_attributes_credential (by simp) credential.null_zero_credential
      credential.null_frame_credential (by simp) ka k hka ms1 as1 as2 ms2 htop hattr has1 _ none
      (fun g hg => ⟨credential.null_zero_credential g hg, fun a ha => by cases ha⟩)

/-- A member `k: null` that the rest of the document does not name can be left
out of a document decoded by `CredentialInquiry.UnmarshalJSON`. -/
theorem CredentialInquiry.null_dropped_inquiry (c : CredentialInquiry) (k : String)
    (hk : foldName k ≠ foldName "attributes") (doc1 doc2 : JSON) (b1 b2 : List UInt8)
    (hb1 : parse b1 = .ok doc1) (hb2 : parse b2 = .ok doc2)
    (hdrop : nullDropped k doc1 doc2) (habs : absentFrom k doc2) :
    CredentialInquiry.UnmarshalJSON c b1 = CredentialInquiry.UnmarshalJSON c b2 := by
  rcases hdrop with ⟨ms1, ms2, rfl, rfl⟩ | ⟨ms1, ka, as1, as2, ms2, hka, rfl, rfl⟩
  · obtain ⟨htop, hattr⟩ := absentFrom_dropped_top k ms1 ms2 habs
    refine CredentialInquiry.unmarshal_congr_inquiry c b1 b2 _ _ hb1 hb2 ?_
    rw [credentialInquiryUnmarshalHelper.fields_eq_inquiry]
    exact decodeMembers_helper_null_member credentialInquiryUnmarshalHelper.embedding CredentialInquiry.zero "h1.credentialInquiry" credentialInquiry.fields _
      (fun _ _ => rfl) credentialInquiry.null_zero_inquiry credentialInquiry.null_frame_inquiry (by simp) (by simp)
      k hk ms1 ms2 htop hattr _ none
      (fun g hg => ⟨credentialInquiry.null_zero_inquiry g hg, fun a ha => by cases ha⟩)
  · obtain ⟨htop, hattr, has1⟩ := absentFrom_dropped_attribute k ka hka ms1 as1 as2 ms2 habs
    refine CredentialInquiry.unmarshal_congr_inquiry c b1 b2 _ _ hb1 hb2 ?_
    rw [credentialInquiryUnmarshalHelper.fields_eq_inquiry]
    exact decodeMembers_helper_null_attribute credentialInquiryUnmarshalHelper.embedding CredentialInquiry.zero "h1.credentialInquiry" credentialInquiry.fields _
      (fun _ _ => rfl) credentialInquiry.fold_attributes_inquiry (by simp) credentialInquiry.null_zero_inquiry
      credentialInquiry.null_frame_inquiry (by simp) ka k hka ms1 as1 as2 ms2 htop hattr has1 _ none
      (fun g hg => ⟨credentialInquiry.null_zero_inquiry g hg, fun a ha => by cases ha⟩)

/-- A member `k: null` that the rest of the document does not name can be left
out of a document decoded by `StructuredScope.UnmarshalJSON`. -/
theorem StructuredScope.null_dropped_scope {X : Externals} (c : (StructuredScope X)) (k : String)
    (hk : foldName k ≠ foldName "attributes") (doc1 doc2 : JSON) (b1 b2 : List UInt8)
    (hb1 : parse b1 = .ok doc1) (hb2 : parse b2 = .ok doc2)
    (hdrop : nullDropped k doc1 doc2) (habs : absentFrom k doc2) :
    StructuredScope.UnmarshalJSON c b1 = StructuredScope.UnmarshalJSON c b2 := by
  rcases hdrop with ⟨ms1, ms2, rfl, rfl⟩ | ⟨ms1, ka, as1, as2, ms2, hka, rfl, rfl⟩
  · obtain ⟨htop, hattr⟩ := absentFrom_dropped_top k ms1 ms2 habs
    refine StructuredScope.unmarshal_congr_scope c b1 b2 _ _ hb1 hb2 ?_
    rw [structuredScopeUnmarshalHelper.fields_eq_scope X]
    exact decodeMembers_helper_null_member (structuredScopeUnmarshalHelper.embedding X) (StructuredScope.zero X) "h1.structuredScope" (structuredScope.fields X) _
      (fun _ _ => rfl) (structuredScope.null_zero_scope X) (structuredScope.null_frame_scope X) (by simp) (by simp)
      k hk ms1 ms2 htop hattr _ none
      (fun g hg => ⟨(structuredScope.null_zero_scope X) g hg, fun a ha => by cases ha⟩)
  · obtain ⟨htop, hattr, has1⟩ := absentFrom_dropped_attribute k ka hka ms1 as1 as2 ms2 habs
    refine StructuredScope.unmarshal_congr_scope c b1 b2 _ _ hb1 hb2 ?_
    rw [structuredScopeUnmarshalHelper.fields_eq_scope X]
    exact decodeMembers_helper_null_attribute (structuredScopeUnmarshalHelper.embedding X) (StructuredScope.zero X) "h1.structuredScope" (structuredScope.fields X) _
      (fun _ _ => rfl) (structuredScope.fold_attributes_scope X) (by simp) (structuredScope.null_zero_scope X)
      (structuredScope.null_frame_scope X) (by simp) ka k hka ms1 as1 as2 ms2 htop hattr has1 _ none
      (fun g hg => ⟨(structuredScope.null_zero_scope X) g hg, fun a ha => by cases ha⟩)

/-- The field `relationships` of the helper leaves the embedded struct and the
`Attributes` pointer alone, and `null` has no effect on it. -/
theorem programUnmarshalHelper.others_program (X : Externals) :
    (∀ f ∈ [StructField.of "relationships" (fun h : programUnmarshalHelper X => h.Relationships)
        (fun h r => { h with Relationships := r })
        (storeStruct "struct Relationships" (programRelationships.fields X))],
      (∀ v b b2 e, f.store v b = .ok (b2, e) →
        (programUnmarshalHelper.embedding X).getE b2 = (programUnmarshalHelper.embedding X).getE b ∧ (programUnmarshalHelper.embedding X).getP b2 = (programUnmarshalHelper.embedding X).getP b) ∧
      (∀ b, f.store .null b = .ok (b, none)) ∧
      foldName f.name ≠ foldName "attributes") := by
  intro f hf
  rw [List.mem_singleton] at hf
  subst hf
  refine ⟨fun v b b2 e hst => ?_, fun b => rfl, by simp only [StructField.of]; decide⟩
  have h : (fun h : programUnmarshalHelper X => (h.program, h.Attributes)) b2 =
      (fun h : programUnmarshalHelper X => (h.program, h.Attributes)) b := by
    refine StructField.of_frame _ _ _ _ (fun h : programUnmarshalHelper X => (h.program, h.Attributes)) ?_ v b b2 e hst
    intro _ _
    rfl
  simp only [Prod.mk.injEq] at h
  exact h

/-- A member `k: null` that the rest of the document does not name can be left
out of a document decoded by `Program.UnmarshalJSON`. -/
theorem Program.null_dropped_program {X : Externals} (c : (Program X)) (k : String)
    (hk : foldName k ≠ foldName "attributes") (doc1 doc2 : JSON) (b1 b2 : List UInt8)
    (hb1 : parse b1 = .ok doc1) (hb2 : parse b2 = .ok doc2)
    (hdrop : nullDropped k doc1 doc2) (habs : absentFrom k doc2) :
    Program.UnmarshalJSON c b1 = Program.UnmarshalJSON c b2 := by
  rcases hdrop with ⟨ms1, ms2, rfl, rfl⟩ | ⟨ms1, ka, as1, as2, ms2, hka, rfl, rfl⟩
  · obtain ⟨htop, hattr⟩ := absentFrom_dropped_top k ms1 ms2 habs
    refine Program.unmarshal_congr_program c b1 b2 _ _ hb1 hb2 ?_
    rw [programUnmarshalHelper.fields_eq_program X]
    exact decodeMembers_helper_null_member (programUnmarshalHelper.embedding X) (Program.zero X) "h1.program" (program.fields X) _
      (fun _ _ => rfl) (program.null_zero_program X) (program.null_frame_program X) (fun f hf => ((programUnmarshalHelper.others_program X) f hf).1) (fun f hf => ((programUnmarshalHelper.others_program X) f hf).2.1)
      k hk ms1 ms2 htop hattr _ none
      (fun g hg => ⟨(program.null_zero_program X) g hg, fun a ha => by cases ha⟩)
  · obtain ⟨htop, hattr, has1⟩ := absentFrom_dropped_attribute k ka hka ms1 as1 as2 ms2 habs
    refine Program.unmarshal_congr_program c b1 b2 _ _ hb1 hb2 ?_
    rw [programUnmarshalHelper.fields_eq_program X]
    exact decodeMembers_helper_null_attribute (programUnmarshalHelper.embedding X) (Program.zero X) "h1.program" (program.fields X) _
      (fun _ _ => rfl) (program.fold_attributes_program X) (fun f hf => ((programUnmarshalHelper.others_program X) f hf).2.2) (program.null_zero_program X)
      (program.null_frame_program X) (fun f hf => ((programUnmarshalHelper.others_program X) f hf).1) ka k hka ms1 as1 as2 ms2 htop hattr has1 _ none
      (fun g hg => ⟨(program.null_zero_program X) g hg, fun a ha => by cases ha⟩)

/-- The field `relationships` of the helper leaves the embedded struct and the
`Attributes` pointer alone, and `null` has no effect on it. -/
theorem userUnmarshalHelper.others_user (X : Externals) :
    (∀ f ∈ [StructField.of "Relationships" (fun h : userUnmarshalHelper X => h.Relationships)
        (fun h r => { h with Relationships := r })
        (storeStruct "struct Relationships" (userRelationships.fields X))],
      (∀ v b b2 e, f.store v b = .ok (b2, e) →
        (userUnmarshalHelper.embedding X).getE b2 = (userUnmarshalHelper.embedding X).getE b ∧ (userUnmarshalHelper.embedding X).getP b2 = (userUnmarshalHelper.embedding X).getP b) ∧
      (∀ b, f.store .null b = .ok (b, none)) ∧
      foldName f.name ≠ foldName "attributes") := by
  intro f hf
  rw [List.mem_singleton] at hf
  subst hf
  refine ⟨fun v b b2 e hst => ?_, fun b => rfl, by simp only [StructField.of]; decide⟩
  have h : (fun h : userUnmarshalHelper X => (h.user, h.Attributes)) b2 =
      (fun h : userUnmarshalHelper X => (h.user, h.Attributes)) b := by
    refine StructField.of_frame _ _ _ _ (fun h : userUnmarshalHelper X => (h.user, h.Attributes)) ?_ v b b2 e hst
    intro _ _
    rfl
  simp only [Prod.mk.injEq] at h
  exact h

/-- A member `k: null` that the rest of the document does not name can be left
out of a document decoded by `User.UnmarshalJSON`. -/
theorem User.null_dropped_user {X : Externals} (c : (User X)) (k : String)
    (hk : foldName k ≠ foldName "attributes") (doc1 doc2 : JSON) (b1 b2 : List UInt8)
    (hb1 : parse b1 = .ok doc1) (hb2 : parse b2 = .ok doc2)
    (hdrop : nullDropped k doc1 doc2) (habs : absentFrom k doc2) :
    User.UnmarshalJSON c b1 = User.UnmarshalJSON c b2 := by
  rcases hdrop with ⟨ms1, ms2, rfl, rfl⟩ | ⟨ms1, ka, as1, as2, ms2, hka, rfl, rfl⟩
  · obtain ⟨htop, hattr⟩ := absentFrom_dropped_top k ms1 ms2 habs
    refine User.unmarshal_congr_user c b1 b2 _ _ hb1 hb2 ?_
    rw [userUnmarshalHelper.fields_eq_user X]
    exact decodeMembers_helper_null_member (userUnmarshalHelper.embedding X) (User.zero X) "h1.user" (user.fields X) _
      (fun _ _ => rfl) (user.null_zero_user X) (user.null_frame_user X) (fun f hf => ((userUnmarshalHelper.others_user X) f hf).1) (fun f hf => ((userUnmarshalHelper.others_user X) f hf).2.1)
      k hk ms1 ms2 htop hattr _ none
      (fun g hg => ⟨(user.null_zero_user X) g hg, fun a ha => by cases ha⟩)
  · obtain ⟨htop, hattr, has1⟩ := absentFrom_dropped_attribute k ka hka ms1 as1 as2 ms2 habs
    refine User.unmarshal_congr_user c b1 b2 _ _ hb1 hb2 ?_
    rw [userUnmarshalHelper.fields_eq_user X]
    exact decodeMembers_helper_null_attribute (userUnmarshalHelper.embedding X) (User.zero X) "h1.user" (user.fields X) _
      (fun _ _ => rfl) (user.fold_attributes_user X) (fun f hf => ((userUnmarshalHelper.others_user X) f hf).2.2) (user.null_zero_user X)
      (user.null_frame_user X) (fun f hf => ((userUnmarshalHelper.others_user X) f hf).1) ka k hka ms1 as1 as2 ms2 htop hattr has1 _ none
      (fun g hg => ⟨(user.null_zero_user X) g hg, fun a ha => by cases ha⟩)

/-- A top-level member `type` with a string value that no later member
overrides is what `Credential.UnmarshalJSON` stores in `Type`. -/
theorem Credential.type_written_credential (c c2 : Credential) (t : String)
    (ms1 ms2 : List (String × JSON)) (b : List UInt8)
    (hb : parse b = .ok (.obj (ms1 ++ ("type", .str t) :: ms2)))
    (habs : absentFrom "type" (.obj ms2))
    (h : Credential.UnmarshalJSON c b = (c2, none)) : c2.«Type» = some t := by
  rcases Credential.unmarshal_ok_credential c c2 b _ hb h with ⟨hnull, _⟩ | ⟨ms, h2, hdoc, hd, hc2⟩
  · cases hnull
  · cases hdoc
    obtain ⟨htop, hattr⟩ := absentFrom_obj "type" ms2 habs
    rw [credentialUnmarshalHelper.fields_eq_credential] at hd
    have key := decodeMembers_helper_written credentialUnmarshalHelper.embedding Credential.zero "h1.credential" credential.fields _
      "type" (·.«Type») credential.frame_type_credential (by simp)
      (StructField.of "type" (fun s : H1.credential => s.«Type») (fun s x => { s with «Type» := x })
        (storePtr "" storeString)) rfl (.str t) (some t)
      (by
        intro a a2 e hst
        simp only [StructField.of, storePtr, storeString, Except.ok.injEq, Prod.mk.injEq] at hst
        rw [← hst.1])
      ms1 ms2 htop hattr _ h2 none none hd
    rw [hc2]
    exact key

/-- An `attributes` object is decoded in place by `Credential.UnmarshalJSON`. -/
theorem Credential.flatten_credential (c : Credential) (pre A post : List (String × JSON))
    (b1 b2 : List UInt8)
    (hb1 : parse b1 = .ok (.obj (pre ++ ("attributes", .obj A) :: post)))
    (hb2 : parse b2 = .ok (.obj (pre ++ (A ++ post))))
    (hkeys : ∀ kv ∈ pre ++ A, foldName kv.1 ≠ foldName "attributes") :
    Credential.UnmarshalJSON c b1 = Credential.UnmarshalJSON c b2 := by
  refine Credential.unmarshal_congr_credential c b1 b2 _ _ hb1 hb2 ?_
  rw [credentialUnmarshalHelper.fields_eq_credential]
  have hall : ∀ kv ∈ pre ++ A, ∀ f ∈ attributesField credentialUnmarshalHelper.embedding Credential.zero "h1.credential" credential.fields ::
      ([] : List (StructField (credentialUnmarshalHelper))), foldName f.name ≠ foldName kv.1 := by
    intro kv hkv f hf
    simp only [List.mem_singleton] at hf
    subst hf
    exact fun h => hkeys kv hkv h.symm
  exact decodeMembers_flatten credentialUnmarshalHelper.embedding Credential.zero "h1.credential" credential.fields _
    credential.no_attributes_credential pre A post ({ credential := Credential.zero, Attributes := .embedded } : credentialUnmarshalHelper) rfl
    (fun kv hkv => hall kv (List.mem_append_left _ hkv))
    (fun kv hkv => hall kv (List.mem_append_right _ hkv)) none

/-- A string field given at top level and under `attributes` holds the value
of the later of the two members. -/
theorem Credential.later_wins_credential (c : Credential) (x y : String) (b1 b2 : List UInt8) :
    ∀ fd ∈ Credential.strings,
      parse b1 = .ok (.obj [(fd.1, .str x), ("attributes", .obj [(fd.1, .str y)])]) →
      parse b2 = .ok (.obj [("attributes", .obj [(fd.1, .str y)]), (fd.1, .str x)]) →
      fd.2 (Credential.UnmarshalJSON c b1).1 = some y ∧ fd.2 (Credential.UnmarshalJSON c b2).1 = some x := by
  intro fd hfd hb1 hb2
  simp only [Credential.strings, List.mem_cons, List.mem_singleton, List.not_mem_nil, or_false] at hfd
  unfold Credential.UnmarshalJSON Unmarshal
  rw [hb1, hb2]
  rcases hfd with rfl | rfl | rfl | rfl <;> exact ⟨rfl, rfl⟩

/-- A top-level member `type` with a string value that no later member
overrides is what `CredentialInquiry.UnmarshalJSON` stores in `Type`. -/
theorem CredentialInquiry.type_written_inquiry (c c2 : CredentialInquiry) (t : String)
    (ms1 ms2 : List (String × JSON)) (b : List UInt8)
    (hb : parse b = .ok (.obj (ms1 ++ ("type", .str t) :: ms2)))
    (habs : absentFrom "type" (.obj ms2))
    (h : CredentialInquiry.UnmarshalJSON c b = (c2, none)) : c2.«Type» = some t := by
  rcases CredentialInquiry.unmarshal_ok_inquiry c c2 b _ hb h with ⟨hnull, _⟩ | ⟨ms, h2, hdoc, hd, hc2⟩
  · cases hnull
  · cases hdoc
    obtain ⟨htop, hattr⟩ := absentFrom_obj "type" ms2 habs
    rw [credentialInquiryUnmarshalHelper.fields_eq_inquiry] at hd
    have key := decodeMembers_helper_written credentialInquiryUnmarshalHelper.embedding CredentialInquiry.zero "h1.credentialInquiry" credentialInquiry.fields _
      "type" (·.«Type») credentialInquiry.frame_type_inquiry (by simp)
      (StructField.of "type" (fun s : H1.credentialInquiry => s.«Type») (fun s x => { s with «Type» := x })
        (storePtr "" storeString)) rfl (.str t) (some t)
      (by
        intro a a2 e hst
        simp only [StructField.of, storePtr, storeString, Except.ok.injEq, Prod.mk.injEq] at hst
        rw [← hst.1])
      ms1 ms2 htop hattr _ h2 none none hd
    rw [hc2]
    exact key

/-- An `attributes` object is decoded in place by `CredentialInquiry.UnmarshalJSON`. -/
theorem CredentialInquiry.flatten_inquiry (c : CredentialInquiry) (pre A post : List (String × JSON))
    (b1 b2 : List UInt8)
    (hb1 : parse b1 = .ok (.obj (pre ++ ("attributes", .obj A) :: post)))
    (hb2 : parse b2 = .ok (.obj (pre ++ (A ++ post))))
    (hkeys : ∀ kv ∈ pre ++ A, foldName kv.1 ≠ foldName "attributes") :
    CredentialInquiry.UnmarshalJSON c b1 = CredentialInquiry.UnmarshalJSON c b2 := by
  refine CredentialInquiry.unmarshal_congr_inquiry c b1 b2 _ _ hb1 hb2 ?_
  rw [credentialInquiryUnmarshalHelper.fields_eq_inquiry]
  have hall : ∀ kv ∈ pre ++ A, ∀ f ∈ attributesField credentialInquiryUnmarshalHelper.embedding CredentialInquiry.zero "h1.credentialInquiry" credentialInquiry.fields ::
      ([] : List (StructField (credentialInquiryUnmarshalHelper))), foldName f.name ≠ foldName kv.1 := by
    intro kv hkv f hf
    simp only [List.mem_singleton] at hf
    subst hf
    exact fun h => hkeys kv hkv h.symm
  exact decodeMembers_flatten credentialInquiryUnmarshalHelper.embedding CredentialInquiry.zero "h1.credentialInquiry" credentialInquiry.fields _
    credentialInquiry.no_attributes_inquiry pre A post ({ credentialInquiry := CredentialInquiry.zero, Attributes := .embedded } : credentialInquiryUnmarshalHelper) rfl
    (fun kv hkv => hall kv (List.mem_append_left _ hkv))
    (fun kv hkv => hall kv (List.mem_append_right _ hkv)) none

/-- A string field given at top level and under `attributes` holds the value
of the later of the two members. -/
theorem CredentialInquiry.later_wins_inquiry (c : CredentialInquiry) (x y : String) (b1 b2 : List UInt8) :
    ∀ fd ∈ CredentialInquiry.strings,
      parse b1 = .ok (.obj [(fd.1, .str x), ("attributes", .obj [(fd.1, .str y)])]) →
      parse b2 = .ok (.obj [("attributes", .obj [(fd.1, .str y)]), (fd.1, .str x)]) →
      fd.2 (CredentialInquiry.UnmarshalJSON c b1).1 = some y ∧ fd.2 (CredentialInquiry.UnmarshalJSON c b2).1 = some x := by
  intro fd hfd hb1 hb2
  simp only [CredentialInquiry.strings, List.mem_cons, List.mem_singleton, List.not_mem_nil, or_false] at hfd
  unfold CredentialInquiry.UnmarshalJSON Unmarshal
  rw [hb1, hb2]
  rcases hfd with rfl | rfl | rfl <;> exact ⟨rfl, rfl⟩

/-- A top-level member `type` with a string value that no later member
overrides is what `StructuredScope.UnmarshalJSON` stores in `Type`. -/
theorem StructuredScope.type_written_scope {X : Externals} (c c2 : (StructuredScope X)) (t : String)
    (ms1 ms2 : List (String × JSON)) (b : List UInt8)
    (hb : parse b = .ok (.obj (ms1 ++ ("type", .str t) :: ms2)))
    (habs : absentFrom "type" (.obj ms2))
    (h : StructuredScope.UnmarshalJSON c b = (c2, none)) : c2.«Type» = some t := by
  rcases StructuredScope.unmarshal_ok_scope c c2 b _ hb h with ⟨hnull, _⟩ | ⟨ms, h2, hdoc, hd, hc2⟩
  · cases hnull
  · cases hdoc
    obtain ⟨htop, hattr⟩ := absentFrom_obj "type" ms2 habs
    rw [structuredScopeUnmarshalHelper.fields_eq_scope X] at hd
    have key := decodeMembers_helper_written (structuredScopeUnmarshalHelper.embedding X) (StructuredScope.zero X) "h1.structuredScope" (structuredScope.fields X) _
      "type" (·.«Type») (structuredScope.frame_type_scope X) (by simp)
      (StructField.of "type" (fun s : (H1.structuredScope X) => s.«Type») (fun s x => { s with «Type» := x })
        (storePtr "" storeString)) rfl (.str t) (some t)
      (by
        intro a a2 e hst
        simp only [StructField.of, storePtr, storeString, Except.ok.injEq, Prod.mk.injEq] at hst
        rw [← hst.1])
      ms1 ms2 htop hattr _ h2 none none hd
    rw [hc2]
    exact key

/-- An `attributes` object is decoded in place by `StructuredScope.UnmarshalJSON`. -/
theorem StructuredScope.flatten_scope {X : Externals} (c : (StructuredScope X)) (pre A post : List (String × JSON))
    (b1 b2 : List UInt8)
    (hb1 : parse b1 = .ok (.obj (pre ++ ("attributes", .obj A) :: post)))
    (hb2 : parse b2 = .ok (.obj (pre ++ (A ++ post))))
    (hkeys : ∀ kv ∈ pre ++ A, foldName kv.1 ≠ foldName "attributes") :
    StructuredScope.UnmarshalJSON c b1 = StructuredScope.UnmarshalJSON c b2 := by
  refine StructuredScope.unmarshal_congr_scope c b1 b2 _ _ hb1 hb2 ?_
  rw [structuredScopeUnmarshalHelper.fields_eq_scope X]
  have hall : ∀ kv ∈ pre ++ A, ∀ f ∈ attributesField (structuredScopeUnmarshalHelper.embedding X) (StructuredScope.zero X) "h1.structuredScope" (structuredScope.fields X) ::
      ([] : List (StructField (structuredScopeUnmarshalHelper X))), foldName f.name ≠ foldName kv.1 := by
    intro kv hkv f hf
    simp only [List.mem_singleton] at hf
    subst hf
    exact fun h => hkeys kv hkv h.symm
  exact decodeMembers_flatten (structuredScopeUnmarshalHelper.embedding X) (StructuredScope.zero X) "h1.structuredScope" (structuredScope.fields X) _
    (structuredScope.no_attributes_scope X) pre A post ({ structuredScope := StructuredScope.zero X, Attributes := .embedded } : structuredScopeUnmarshalHelper X) rfl
    (fun kv hkv => hall kv (List.mem_append_left _ hkv))
    (fun kv hkv => hall kv (List.mem_append_right _ hkv)) none

/-- A string field given at top level and under `attributes` holds the value
of the later of the two members. -/
theorem StructuredScope.later_wins_scope {X : Externals} (c : (StructuredScope X)) (x y : String) (b1 b2 : List UInt8) :
    ∀ fd ∈ StructuredScope.strings X,
      parse b1 = .ok (.obj [(fd.1, .str x), ("attributes", .obj [(fd.1, .str y)])]) →
      parse b2 = .ok (.obj [("attributes", .obj [(fd.1, .str y)]), (fd.1, .str x)]) →
      fd.2 (StructuredScope.UnmarshalJSON c b1).1 = some y ∧ fd.2 (StructuredScope.UnmarshalJSON c b2).1 = some x := by
  intro fd hfd hb1 hb2
  simp only [StructuredScope.strings, List.mem_cons, List.mem_singleton, List.not_mem_nil, or_false] at hfd
  unfold StructuredScope.UnmarshalJSON Unmarshal
  rw [hb1, hb2]
  rcases hfd with rfl | rfl | rfl | rfl | rfl | rfl | rfl | rfl | rfl | rfl <;> exact ⟨rfl, rfl⟩

/-- No field of `program` is named `attributes`. -/
theorem program.no_attributes_program (X : Externals) : ∀ f ∈ (program.fields X), f.name ≠ "attributes" := by
  simp [program.fields, StructField.of]

/-- A top-level member `type` with a string value that no later member
overrides is what `Program.UnmarshalJSON` stores in `Type`. -/
theorem Program.type_written_program {X : Externals} (c c2 : (Program X)) (t : String)
    (ms1 ms2 : List (String × JSON)) (b : List UInt8)
    (hb : parse b = .ok (.obj (ms1 ++ ("type", .str t) :: ms2)))
    (habs : absentFrom "type" (.obj ms2))
    (h : Program.UnmarshalJSON c b = (c2, none)) : c2.«Type» = some t := by
  rcases Program.unmarshal_ok_program c c2 b _ hb h with ⟨hnull, _⟩ | ⟨ms, h2, hdoc, hd, hc2⟩
  · cases hnull
  · cases hdoc
    obtain ⟨htop, hattr⟩ := absentFrom_obj "type" ms2 habs
    rw [programUnmarshalHelper.fields_eq_program X] at hd
    have key := decodeMembers_helper_written (programUnmarshalHelper.embedding X) (Program.zero X) "h1.program" (program.fields X) _
      "type" (·.«Type») (program.frame_type_program X) (fun f hf v b b2 e hst => ((((programUnmarshalHelper.others_program X) f hf).1) v b b2 e hst).1)
      (StructField.of "type" (fun s : (H1.program X) => s.«Type») (fun s x => { s with «Type» := x })
        (storePtr "" storeString)) rfl (.str t) (some t)
      (by
        intro a a2 e hst
        simp only [StructField.of, storePtr, storeString, Except.ok.injEq, Prod.mk.injEq] at hst
        rw [← hst.1])
      ms1 ms2 htop hattr _ h2 none none hd
    rw [hc2]
    exact key

/-- An `attributes` object is decoded in place by `Program.UnmarshalJSON`. -/
theorem Program.flatten_program {X : Externals} (c : (Program X)) (pre A post : List (String × JSON))
    (b1 b2 : List UInt8)
    (hb1 : parse b1 = .ok (.obj (pre ++ ("attributes", .obj A) :: post)))
    (hb2 : parse b2 = .ok (.obj (pre ++ (A ++ post))))
    (hkeys : ∀ kv ∈ pre ++ A, foldName kv.1 ≠ foldName "attributes" ∧ foldName kv.1 ≠ foldName "relationships") :
    Program.UnmarshalJSON c b1 = Program.UnmarshalJSON c b2 := by
  refine Program.unmarshal_congr_program c b1 b2 _ _ hb1 hb2 ?_
  rw [programUnmarshalHelper.fields_eq_program X]
  have hall : ∀ kv ∈ pre ++ A, ∀ f ∈ attributesField (programUnmarshalHelper.embedding X) (Program.zero X) "h1.program" (program.fields X) ::
      [StructField.of "relationships" (fun h : programUnmarshalHelper X => h.Relationships)
        (fun h r => { h with Relationships := r })
        (storeStruct "struct Relationships" (programRelationships.fields X))], foldName f.name ≠ foldName kv.1 := by
    intro kv hkv f hf
    simp only [List.mem_cons, List.mem_singleton, List.not_mem_nil, or_false] at hf
    rcases hf with rfl | rfl
    · exact fun h => (hkeys kv hkv).1 h.symm
    · exact fun h => (hkeys kv hkv).2 (h.symm.trans
        (show foldName "relationships" = foldName "relationships" by decide))
  exact decodeMembers_flatten (programUnmarshalHelper.embedding X) (Program.zero X) "h1.program" (program.fields X) _
    (program.no_attributes_program X) pre A post (programUnmarshalHelper.init X) rfl
    (fun kv hkv => hall kv (List.mem_append_left _ hkv))
    (fun kv hkv => hall kv (List.mem_append_right _ hkv)) none

/-- A string field given at top level and under `attributes` holds the value
of the later of the two members. -/
theorem Program.later_wins_program {X : Externals} (c : (Program X)) (x y : String) (b1 b2 : List UInt8) :
    ∀ fd ∈ Program.strings X,
      parse b1 = .ok (.obj [(fd.1, .str x), ("attributes", .obj [(fd.1, .str y)])]) →
      parse b2 = .ok (.obj [("attributes", .obj [(fd.1, .str y)]), (fd.1, .str x)]) →
      fd.2 (Program.UnmarshalJSON c b1).1 = some y ∧ fd.2 (Program.UnmarshalJSON c b2).1 = some x := by
  intro fd hfd hb1 hb2
  simp only [Program.strings, List.mem_cons, List.mem_singleton, List.not_mem_nil, or_false] at hfd
  unfold Program.UnmarshalJSON Unmarshal
  rw [hb1, hb2]
  rcases hfd with rfl | rfl | rfl | rfl <;> exact ⟨rfl, rfl⟩

/-- No field of `user` is named `attributes`. -/
theorem user.no_attributes_user (X : Externals) : ∀ f ∈ (user.fields X), f.name ≠ "attributes" := by
  simp [user.fields, StructField.of]

/-- A top-level member `type` with a string value that no later member
overrides is what `User.UnmarshalJSON` stores in `Type`. -/
theorem User.type_written_user {X : Externals} (c c2 : (User X)) (t : String)
    (ms1 ms2 : List (String × JSON)) (b : List UInt8)
    (hb : parse b = .ok (.obj (ms1 ++ ("type", .str t) :: ms2)))
    (habs : absentFrom "type" (.obj ms2))
    (h : User.UnmarshalJSON c b = (c2, none)) : c2.«Type» = some t := by
  rcases User.unmarshal_ok_user c c2 b _ hb h with ⟨hnull, _⟩ | ⟨ms, h2, hdoc, hd, hc2⟩
  · cases hnull
  · cases hdoc
    obtain ⟨htop, hattr⟩ := absentFrom_obj "type" ms2 habs
    rw [userUnmarshalHelper.fields_eq_user X] at hd
    have key := decodeMembers_helper_written (userUnmarshalHelper.embedding X) (User.zero X) "h1.user" (user.fields X) _
      "type" (·.«Type») (user.frame_type_user X) (fun f hf v b b2 e hst => ((((userUnmarshalHelper.others_user X) f hf).1) v b b2 e hst).1)
      (StructField.of "type" (fun s : (H1.user X) => s.«Type») (fun s x => { s with «Type» := x })
        (storePtr "" storeString)) rfl (.str t) (some t)
      (by
        intro a a2 e hst
        simp only [StructField.of, storePtr, storeString, Except.ok.injEq, Prod.mk.injEq] at hst
        rw [← hst.1])
      ms1 ms2 htop hattr _ h2 none none hd
    rw [hc2]
    exact key

/-- An `attributes` object is decoded in place by `User.UnmarshalJSON`. -/
theorem User.flatten_user {X : Externals} (c : (User X)) (pre A post : List (String × JSON))
    (b1 b2 : List UInt8)
    (hb1 : parse b1 = .ok (.obj (pre ++ ("attributes", .obj A) :: post)))
    (hb2 : parse b2 = .ok (.obj (pre ++ (A ++ post))))
    (hkeys : ∀ kv ∈ pre ++ A, foldName kv.1 ≠ foldName "attributes" ∧ foldName kv.1 ≠ foldName "relationships") :
    User.UnmarshalJSON c b1 = User.UnmarshalJSON c b2 := by
  refine User.unmarshal_congr_user c b1 b2 _ _ hb1 hb2 ?_
  rw [userUnmarshalHelper.fields_eq_user X]
  have hall : ∀ kv ∈ pre ++ A, ∀ f ∈ attributesField (userUnmarshalHelper.embedding X) (User.zero X) "h1.user" (user.fields X) ::
      [StructField.of "Relationships" (fun h : userUnmarshalHelper X => h.Relationships)
        (fun h r => { h with Relationships := r })
        (storeStruct "struct Relationships" (userRelationships.fields X))], foldName f.name ≠ foldName kv.1 := by
    intro kv hkv f hf
    simp only [List.mem_cons, List.mem_singleton, List.not_mem_nil, or_false] at hf
    rcases hf with rfl | rfl
    · exact fun h => (hkeys kv hkv).1 h.symm
    · exact fun h => (hkeys kv hkv).2 (h.symm.trans
        (show foldName "Relationships" = foldName "relationships" by decide))
  exact decodeMembers_flatten (userUnmarshalHelper.embedding X) (User.zero X) "h1.user" (user.fields X) _
    (user.no_attributes_user X) pre A post (userUnmarshalHelper.init X) rfl
    (fun kv hkv => hall kv (List.mem_append_left _ hkv))
    (fun kv hkv => hall kv (List.mem_append_right _ hkv)) none

/-- A string field given at top level and under `attributes` holds the value
of the later of the two members. -/
theorem User.later_wins_user {X : Externals} (c : (User X)) (x y : String) (b1 b2 : List UInt8) :
    ∀ fd ∈ User.strings X,
      parse b1 = .ok (.obj [(fd.1, .str x), ("attributes", .obj [(fd.1, .str y)])]) →
      parse b2 = .ok (.obj [("attributes", .obj [(fd.1, .str y)]), (fd.1, .str x)]) →
      fd.2 (User.UnmarshalJSON c b1).1 = some y ∧ fd.2 (User.UnmarshalJSON c b2).1 = some x := by
  intro fd hfd hb1 hb2
  simp only [User.strings, List.mem_cons, List.mem_singleton, List.not_mem_nil, or_false] at hfd
  unfold User.UnmarshalJSON Unmarshal
  rw [hb1, hb2]
  rcases hfd with rfl | rfl | rfl | rfl | rfl | rfl | rfl <;> exact ⟨rfl, rfl⟩

end Merge

/-- C11 as stated fails: in a credential document that gives `id` under
`attributes` and then `"id": null` at top level, the `null` resets the field, so
the document decodes to a nil `ID`, whereas the document without the
`"id": null` member decodes to `ID = "1"`. -/
theorem null_member_is_absent_member_counterexample :
    nullDropped "id"
      (.obj [("attributes", .obj [("id", .str "1")]), ("id", .null)])
      (.obj [("attributes", .obj [("id", .str "1")])]) ∧
    parse (bytes "\x7b\"attributes\":\x7b\"id\":\"1\"\x7d,\"id\":null\x7d") =
      .ok (.obj [("attributes", .obj [("id", .str "1")]), ("id", .null)]) ∧
    parse (bytes "\x7b\"attributes\":\x7b\"id\":\"1\"\x7d\x7d") =
      .ok (.obj [("attributes", .obj [("id", .str "1")])]) ∧
    Credential.UnmarshalJSON Credential.zero
      (bytes "\x7b\"attributes\":\x7b\"id\":\"1\"\x7d,\"id\":null\x7d") =
      (Credential.zero, none) ∧
    Credential.UnmarshalJSON Credential.zero
      (bytes "\x7b\"attributes\":\x7b\"id\":\"1\"\x7d\x7d") =
      ({ Credential.zero with ID := some "1" }, none) :=
  ⟨Or.inl ⟨[("attributes", .obj [("id", .str "1")])], [], rfl, rfl⟩, rfl, rfl, rfl, rfl⟩

/-- C11, amended. Let `doc2` be `doc1` without one member `k: null`, taken out at
top level or out of an object under `attributes`, where `k` does not select the
`attributes` member itself and no member of `doc2` has a key matching `k`, at
top level or under `attributes`. Then each of the five decoders returns the
same struct for both documents and fails on both or on neither; after a
successful decode the field named `k` is unset: nil for a pointer field, the
zero value for a value field of `StructuredScope` or `User`. -/
theorem null_member_is_absent_member (X : Externals) (k : String)
    (hk : foldName k ≠ foldName "attributes") (doc1 doc2 : JSON) (b1 b2 : List UInt8)
    (hb1 : parse b1 = .ok doc1) (hb2 : parse b2 = .ok doc2)
    (hdrop : nullDropped k doc1 doc2) (habs : absentFrom k doc2) :
    (∀ c : Credential,
      sameOutcome (Credential.UnmarshalJSON c b1) (Credential.UnmarshalJSON c b2) ∧
      ∀ c2, Credential.UnmarshalJSON c b2 = (c2, none) →
        ∀ fd ∈ Credential.pointers, foldName fd.1 = foldName k → fd.2 c2) ∧
    (∀ c : CredentialInquiry,
      sameOutcome (CredentialInquiry.UnmarshalJSON c b1) (CredentialInquiry.UnmarshalJSON c b2) ∧
      ∀ c2, CredentialInquiry.UnmarshalJSON c b2 = (c2, none) →
        ∀ fd ∈ CredentialInquiry.pointers, foldName fd.1 = foldName k → fd.2 c2) ∧
    (∀ p : Program X,
      sameOutcome (Program.UnmarshalJSON p b1) (Program.UnmarshalJSON p b2) ∧
      ∀ p2, Program.UnmarshalJSON p b2 = (p2, none) →
        ∀ fd ∈ Program.pointers X, foldName fd.1 = foldName k → fd.2 p2) ∧
    (∀ s : StructuredScope X,
      sameOutcome (StructuredScope.UnmarshalJSON s b1) (StructuredScope.UnmarshalJSON s b2) ∧
      ∀ s2, StructuredScope.UnmarshalJSON s b2 = (s2, none) →
        ∀ fd ∈ StructuredScope.pointers X ++ StructuredScope.values X,
          foldName fd.1 = foldName k → fd.2 s2) ∧
    (∀ u : User X,
      sameOutcome (User.UnmarshalJSON u b1) (User.UnmarshalJSON u b2) ∧
      ∀ u2, User.UnmarshalJSON u b2 = (u2, none) →
        ∀ fd ∈ User.pointers X ++ User.values X, foldName fd.1 = foldName k → fd.2 u2) := by
  refine ⟨fun c => ⟨?_, fun c2 h fd hfd hfold => ?_⟩, fun c => ⟨?_, fun c2 h fd hfd hfold => ?_⟩,
    fun c => ⟨?_, fun c2 h fd hfd hfold => ?_⟩, fun c => ⟨?_, fun c2 h fd hfd hfold => ?_⟩,
    fun c => ⟨?_, fun c2 h fd hfd hfold => ?_⟩⟩
  · rw [Credential.null_dropped_credential c k hk doc1 doc2 b1 b2 hb1 hb2 hdrop habs]
    exact ⟨rfl, Iff.rfl⟩
  · exact Credential.absent_credential c c2 b2 doc2 hb2 h fd hfd
      (absentFrom_fold k fd.1 hfold.symm doc2 habs)
  · rw [CredentialInquiry.null_dropped_inquiry c k hk doc1 doc2 b1 b2 hb1 hb2 hdrop habs]
    exact ⟨rfl, Iff.rfl⟩
  · exact CredentialInquiry.absent_inquiry c c2 b2 doc2 hb2 h fd hfd
      (absentFrom_fold k fd.1 hfold.symm doc2 habs)
  · rw [Program.null_dropped_program c k hk doc1 doc2 b1 b2 hb1 hb2 hdrop habs]
    exact ⟨rfl, Iff.rfl⟩
  · exact Program.absent_program c c2 b2 doc2 hb2 h fd hfd
      (absentFrom_fold k fd.1 hfold.symm doc2 habs)
  · rw [StructuredScope.null_dropped_scope c k hk doc1 doc2 b1 b2 hb1 hb2 hdrop habs]
    exact ⟨rfl, Iff.rfl⟩
  · exact StructuredScope.absent_scope c c2 b2 doc2 hb2 h fd hfd
      (absentFrom_fold k fd.1 hfold.symm doc2 habs)
  · rw [User.null_dropped_user c k hk doc1 doc2 b1 b2 hb1 hb2 hdrop habs]
    exact ⟨rfl, Iff.rfl⟩
  · exact User.absent_user c c2 b2 doc2 hb2 h fd hfd
      (absentFrom_fold k fd.1 hfold.symm doc2 habs)

/-- Witness of C11 (amended): `"revoked": null` in a credential document that
gives `revoked` nowhere else, at top level and under `attributes`. -/
theorem null_member_is_absent_member_witness :
    sameOutcome
      (Credential.UnmarshalJSON Credential.zero
        (bytes "\x7b\"id\":\"1\",\"revoked\":null\x7d"))
      (Credential.UnmarshalJSON Credential.zero (bytes "\x7b\"id\":\"1\"\x7d")) ∧
    sameOutcome
      (StructuredScope.UnmarshalJSON (StructuredScope.zero Externals.text)
        (bytes "\x7b\"id\":\"1\",\"attributes\":\x7b\"asset_type\":null,\"reference\":\"r\"\x7d\x7d"))
      (StructuredScope.UnmarshalJSON (StructuredScope.zero Externals.text)
        (bytes "\x7b\"id\":\"1\",\"attributes\":\x7b\"reference\":\"r\"\x7d\x7d")) :=
  ⟨((null_member_is_absent_member Externals.text "revoked" (by decide)
      (.obj [("id", .str "1"), ("revoked", .null)]) (.obj [("id", .str "1")])
      (bytes "\x7b\"id\":\"1\",\"revoked\":null\x7d") (bytes "\x7b\"id\":\"1\"\x7d") rfl rfl
      (Or.inl ⟨[("id", .str "1")], [], rfl, rfl⟩) ⟨rfl, rfl⟩).1 Credential.zero).1,
   ((null_member_is_absent_member Externals.text "asset_type" (by decide)
      (.obj [("id", .str "1"), ("attributes", .obj [("asset_type", .null), ("reference", .str "r")])])
      (.obj [("id", .str "1"), ("attributes", .obj [("reference", .str "r")])])
      (bytes "\x7b\"id\":\"1\",\"attributes\":\x7b\"asset_type\":null,\"reference\":\"r\"\x7d\x7d")
      (bytes "\x7b\"id\":\"1\",\"attributes\":\x7b\"reference\":\"r\"\x7d\x7d") rfl rfl
      (Or.inr ⟨[("id", .str "1")], "attributes", [], [("reference", .str "r")], [], rfl, rfl, rfl⟩)
      ⟨rfl, rfl⟩).2.2.2.1 (StructuredScope.zero Externals.text)).1⟩

/-- C12 as stated fails: `Credential.UnmarshalJSON` does not unwrap `data`. On the
document of the claim it returns nil and leaves every field nil, `ID` included. -/
theorem credential_decoding_unwraps_data_counterexample :
    Credential.UnmarshalJSON Credential.zero
      (bytes "\x7b\"data\":\x7b\"id\":\"1\",\"type\":\"credential\",\"attributes\":\x7b\"revoked\":true\x7d\x7d\x7d") =
      ({ ID := none, «Type» := none, Credentials := none, Revoked := none, AssigneeID := none,
         AssigneeUsername := none }, none) ∧
    (Credential.UnmarshalJSON Credential.zero
      (bytes "\x7b\"data\":\x7b\"id\":\"1\",\"type\":\"credential\",\"attributes\":\x7b\"revoked\":true\x7d\x7d\x7d")).1.ID ≠
      some "1" :=
  ⟨rfl, by decide⟩

/-- C12, amended. `Credential.UnmarshalJSON` decodes the resource object itself:
on `{"id":"1","type":"credential","attributes":{"revoked":true}}` it yields
`ID = "1"`, `Type = "credential"`, `Revoked = true` and leaves `Credentials`,
`AssigneeID` and `AssigneeUsername` nil. It does not unwrap `data`: a top-level
member `data` is skipped whatever its value, so a document and the same document
without that member decode alike, and a document holding `data` only decodes to
the `Credential` with every field nil. -/
theorem credential_decodes_resource_object :
    (∀ c : Credential, Credential.UnmarshalJSON c
      (bytes "\x7b\"id\":\"1\",\"type\":\"credential\",\"attributes\":\x7b\"revoked\":true\x7d\x7d") =
      ({ ID := some "1", «Type» := some "credential", Credentials := none, Revoked := some true,
         AssigneeID := none, AssigneeUsername := none }, none)) ∧
    (∀ (c : Credential) (v : JSON) (ms1 ms2 : List (String × JSON)) (b1 b2 : List UInt8),
      parse b1 = .ok (.obj (ms1 ++ ("data", v) :: ms2)) → parse b2 = .ok (.obj (ms1 ++ ms2)) →
      sameOutcome (Credential.UnmarshalJSON c b1) (Credential.UnmarshalJSON c b2)) ∧
    (∀ (c : Credential) (v : JSON) (b : List UInt8), parse b = .ok (.obj [("data", v)]) →
      Credential.UnmarshalJSON c b = (Credential.zero, none)) := by
  refine ⟨fun c => rfl, fun c v ms1 ms2 b1 b2 h1 h2 => ?_, fun c v b hb => ?_⟩
  · rw [Credential.unmarshal_congr_credential c b1 b2 _ _ h1 h2
      (decodeMembers_unknown_member credentialUnmarshalHelper.fields "data" rfl v ms1 ms2 _ none)]
    exact ⟨rfl, Iff.rfl⟩
  · unfold Credential.UnmarshalJSON Unmarshal
    rw [hb]
    rfl

/-- Witness of C12 (amended): the document of the claim decodes like the empty
object. -/
theorem credential_decodes_resource_object_witness :
    sameOutcome
      (Credential.UnmarshalJSON Credential.zero
        (bytes "\x7b\"data\":\x7b\"id\":\"1\",\"type\":\"credential\",\"attributes\":\x7b\"revoked\":true\x7d\x7d\x7d"))
      (Credential.UnmarshalJSON Credential.zero (bytes "\x7b\x7d")) ∧
    Credential.UnmarshalJSON Credential.zero (bytes "\x7b\"data\":\x7b\"id\":\"1\"\x7d\x7d") =
      (Credential.zero, none) :=
  ⟨credential_decodes_resource_object.2.1 Credential.zero
      (.obj [("id", .str "1"), ("type", .str "credential"),
        ("attributes", .obj [("revoked", .bool true)])]) [] []
      (bytes "\x7b\"data\":\x7b\"id\":\"1\",\"type\":\"credential\",\"attributes\":\x7b\"revoked\":true\x7d\x7d\x7d")
      (bytes "\x7b\x7d") rfl rfl,
   credential_decodes_resource_object.2.2 Credential.zero (.obj [("id", .str "1")])
      (bytes "\x7b\"data\":\x7b\"id\":\"1\"\x7d\x7d") rfl⟩

/-- C13 as stated fails: the decoders store whatever `type` the document gives.
A document of type `user` decodes into a `Credential` without error, and the
`Credential` carries the type `user`, not `credential`. -/
theorem decoded_type_is_discriminator_counterexample :
    Credential.UnmarshalJSON Credential.zero (bytes "\x7b\"id\":\"1\",\"type\":\"user\"\x7d") =
      ({ ID := some "1", «Type» := some "user", Credentials := none, Revoked := none,
         AssigneeID := none, AssigneeUsername := none }, none) ∧
    (Credential.UnmarshalJSON Credential.zero
      (bytes "\x7b\"id\":\"1\",\"type\":\"user\"\x7d")).1.«Type» ≠ some "credential" :=
  ⟨rfl, by decide⟩

/-- C13, amended. The decoders do not compare `type` with a discriminator: for each
of the five resource types, after a successful decode of a document with a
top-level member `"type": t`, `t` a string, that no later member overrides
(no later key matches `type`, at top level or under `attributes`), the decoded
`Type` is `t`, whatever resource `t` names. -/
theorem decoded_type_is_document_type (X : Externals) (t : String)
    (ms1 ms2 : List (String × JSON)) (b : List UInt8)
    (hb : parse b = .ok (.obj (ms1 ++ ("type", .str t) :: ms2)))
    (habs : absentFrom "type" (.obj ms2)) :
    (∀ c c2 : Credential, Credential.UnmarshalJSON c b = (c2, none) → c2.«Type» = some t) ∧
    (∀ c c2 : CredentialInquiry, CredentialInquiry.UnmarshalJSON c b = (c2, none) →
      c2.«Type» = some t) ∧
    (∀ p p2 : Program X, Program.UnmarshalJSON p b = (p2, none) → p2.«Type» = some t) ∧
    (∀ s s2 : StructuredScope X, StructuredScope.UnmarshalJSON s b = (s2, none) →
      s2.«Type» = some t) ∧
    (∀ u u2 : User X, User.UnmarshalJSON u b = (u2, none) → u2.«Type» = some t) :=
  ⟨fun c c2 h => Credential.type_written_credential c c2 t ms1 ms2 b hb habs h,
   fun c c2 h => CredentialInquiry.type_written_inquiry c c2 t ms1 ms2 b hb habs h,
   fun c c2 h => Program.type_written_program c c2 t ms1 ms2 b hb habs h,
   fun c c2 h => StructuredScope.type_written_scope c c2 t ms1 ms2 b hb habs h,
   fun c c2 h => User.type_written_user c c2 t ms1 ms2 b hb habs h⟩

/-- Witness of C13 (amended): a document of type `user` decoded into a `Program`. -/
theorem decoded_type_is_document_type_witness :
    (Program.UnmarshalJSON (Program.zero Externals.text)
      (bytes "\x7b\"id\":\"1\",\"type\":\"user\",\"attributes\":\x7b\"handle\":\"h\"\x7d\x7d")).1.«Type» =
      some "user" :=
  (decoded_type_is_document_type Externals.text "user" [("id", .str "1")]
    [("attributes", .obj [("handle", .str "h")])]
    (bytes "\x7b\"id\":\"1\",\"type\":\"user\",\"attributes\":\x7b\"handle\":\"h\"\x7d\x7d") rfl
    ⟨rfl, rfl⟩).2.2.1 (Program.zero Externals.text) _ rfl

/-- C14 as stated fails: when `attributes` comes before the top-level key, the
top-level value is decoded last and wins. -/
theorem attributes_overlay_top_level_counterexample :
    Credential.UnmarshalJSON Credential.zero
      (bytes "\x7b\"attributes\":\x7b\"id\":\"b\"\x7d,\"id\":\"a\"\x7d") =
      ({ ID := some "a", «Type» := none, Credentials := none, Revoked := none,
         AssigneeID := none, AssigneeUsername := none }, none) ∧
    Credential.UnmarshalJSON Credential.zero
      (bytes "\x7b\"id\":\"a\",\"attributes\":\x7b\"id\":\"b\"\x7d\x7d") =
      ({ ID := some "b", «Type» := none, Credentials := none, Revoked := none,
         AssigneeID := none, AssigneeUsername := none }, none) :=
  ⟨rfl, rfl⟩

/-- C14, amended. The members at top level and the members under `attributes` are
decoded in document order into the same struct. For each of the five resource
types, a document `pre…, "attributes": {A…}, post…` decodes like the flat
document `pre…, A…, post…` (same struct, and an error for both or for neither),
when no key of `pre` or `A` matches `attributes` (nor `relationships`, for
`Program` and `User`). Hence for every field that holds a string, given as the
string `x` at top level and as the string `y` under `attributes`: the decoded
field is `y` when `attributes` comes after the top-level key, and `x` when the
top-level key comes after `attributes`. -/
theorem later_member_wins (X : Externals) :
    (∀ (pre A post : List (String × JSON)) (b1 b2 : List UInt8),
      parse b1 = .ok (.obj (pre ++ ("attributes", .obj A) :: post)) →
      parse b2 = .ok (.obj (pre ++ (A ++ post))) →
      (∀ kv ∈ pre ++ A, foldName kv.1 ≠ foldName "attributes") →
      (∀ c : Credential,
        sameOutcome (Credential.UnmarshalJSON c b1) (Credential.UnmarshalJSON c b2)) ∧
      (∀ c : CredentialInquiry,
        sameOutcome (CredentialInquiry.UnmarshalJSON c b1) (CredentialInquiry.UnmarshalJSON c b2)) ∧
      (∀ s : StructuredScope X,
        sameOutcome (StructuredScope.UnmarshalJSON s b1) (StructuredScope.UnmarshalJSON s b2)) ∧
      ((∀ kv ∈ pre ++ A, foldName kv.1 ≠ foldName "relationships") →
        (∀ p : Program X, sameOutcome (Program.UnmarshalJSON p b1) (Program.UnmarshalJSON p b2)) ∧
        (∀ u : User X, sameOutcome (User.UnmarshalJSON u b1) (User.UnmarshalJSON u b2)))) ∧
    (∀ (n x y : String) (b1 b2 : List UInt8),
      parse b1 = .ok (.obj [(n, .str x), ("attributes", .obj [(n, .str y)])]) →
      parse b2 = .ok (.obj [("attributes", .obj [(n, .str y)]), (n, .str x)]) →
      (∀ c : Credential, ∀ fd ∈ Credential.strings, fd.1 = n →
        fd.2 (Credential.UnmarshalJSON c b1).1 = some y ∧
        fd.2 (Credential.UnmarshalJSON c b2).1 = some x) ∧
      (∀ c : CredentialInquiry, ∀ fd ∈ CredentialInquiry.strings, fd.1 = n →
        fd.2 (CredentialInquiry.UnmarshalJSON c b1).1 = some y ∧
        fd.2 (CredentialInquiry.UnmarshalJSON c b2).1 = some x) ∧
      (∀ s : StructuredScope X, ∀ fd ∈ StructuredScope.strings X, fd.1 = n →
        fd.2 (StructuredScope.UnmarshalJSON s b1).1 = some y ∧
        fd.2 (StructuredScope.UnmarshalJSON s b2).1 = some x) ∧
      (∀ p : Program X, ∀ fd ∈ Program.strings X, fd.1 = n →
        fd.2 (Program.UnmarshalJSON p b1).1 = some y ∧
        fd.2 (Program.UnmarshalJSON p b2).1 = some x) ∧
      (∀ u : User X, ∀ fd ∈ User.strings X, fd.1 = n →
        fd.2 (User.UnmarshalJSON u b1).1 = some y ∧
        fd.2 (User.UnmarshalJSON u b2).1 = some x)) := by
  refine ⟨fun pre A post b1 b2 h1 h2 hk => ⟨fun c => ?_, fun c => ?_, fun c => ?_,
    fun hr => ⟨fun c => ?_, fun c => ?_⟩⟩, fun n x y b1 b2 h1 h2 => ⟨?_, ?_, ?_, ?_, ?_⟩⟩
  · rw [Credential.flatten_credential c pre A post b1 b2 h1 h2 hk]
    exact ⟨rfl, Iff.rfl⟩
  · rw [CredentialInquiry.flatten_inquiry c pre A post b1 b2 h1 h2 hk]
    exact ⟨rfl, Iff.rfl⟩
  · rw [StructuredScope.flatten_scope c pre A post b1 b2 h1 h2 hk]
    exact ⟨rfl, Iff.rfl⟩
  · rw [Program.flatten_program c pre A post b1 b2 h1 h2 (fun kv hkv => ⟨hk kv hkv, hr kv hkv⟩)]
    exact ⟨rfl, Iff.rfl⟩
  · rw [User.flatten_user c pre A post b1 b2 h1 h2 (fun kv hkv => ⟨hk kv hkv, hr kv hkv⟩)]
    exact ⟨rfl, Iff.rfl⟩
  · intro c fd hfd hn
    subst hn
    exact Credential.later_wins_credential c x y b1 b2 fd hfd h1 h2
  · intro c fd hfd hn
    subst hn
    exact CredentialInquiry.later_wins_inquiry c x y b1 b2 fd hfd h1 h2
  · intro c fd hfd hn
    subst hn
    exact StructuredScope.later_wins_scope c x y b1 b2 fd hfd h1 h2
  · intro c fd hfd hn
    subst hn
    exact Program.later_wins_program c x y b1 b2 fd hfd h1 h2
  · intro c fd hfd hn
    subst hn
    exact User.later_wins_user c x y b1 b2 fd hfd h1 h2

/-- Witness of C14 (amended): `id` given as `a` at top level and as `b` under
`attributes`, in both orders, decoded into `Credential`. -/
theorem later_member_wins_witness :
    (Credential.UnmarshalJSON Credential.zero
      (bytes "\x7b\"id\":\"a\",\"attributes\":\x7b\"id\":\"b\"\x7d\x7d")).1.ID = some "b" ∧
    (Credential.UnmarshalJSON Credential.zero
      (bytes "\x7b\"attributes\":\x7b\"id\":\"b\"\x7d,\"id\":\"a\"\x7d")).1.ID = some "a" :=
  ((later_member_wins Externals.text).2 "id" "a" "b"
    (bytes "\x7b\"id\":\"a\",\"attributes\":\x7b\"id\":\"b\"\x7d\x7d")
    (bytes "\x7b\"attributes\":\x7b\"id\":\"b\"\x7d,\"id\":\"a\"\x7d") rfl rfl).1
    Credential.zero ("id", fun c => c.ID) (by simp [Credential.strings]) rfl

/-! ### The cursor of the listing loops -/

section CursorLemmas
variable {World Request Err Opts Item : Type}

/-- What a loop that returns has added to the record of the recording transport
follows the cursor the loop started with. -/
theorem forLoop_cursorTrace (s : service World Request Err Opts Item) (path : String)
    (opts : Opts) (fuel : Nat) :
    ∀ (c : ListOptions) (data : List Item) (w : World) (log : List (Request × Option Response))
      (calls : Nat) (out : Outcome (Listing Item Err)) (w2 : World)
      (log2 : List (Request × Option Response)) (calls2 : Nat),
      forLoop (paginateBody (listWith (recording s) path opts) s.NextPageNumber) fuel
        (c, data, (w, log), calls) = some (out, (w2, log2), calls2) →
      ∃ tail, log2 = log ++ tail ∧
        cursorTrace (fun c => s.NewRequest "GET" (s.addOptions path opts c)) s.NextPageNumber
          c tail := by
  induction fuel with
  | zero => intro c data w log calls out w2 log2 calls2 h; simp [forLoop] at h
  | succ fuel ih =>
    intro c data w log calls out w2 log2 calls2 h
    rw [forLoop] at h
    cases hreq : s.NewRequest "GET" (s.addOptions path opts c) with
    | error err =>
      simp only [paginateBody, listWith, recording, hreq, Option.some.injEq, Prod.mk.injEq] at h
      exact ⟨[], by simp [h.2.1.2], trivial⟩
    | ok req =>
      cases hdo : s.Do req w with
      | mk r w1 =>
        obtain ⟨rdata, rresp, rerr⟩ := r
        cases rerr with
        | some e =>
          simp only [paginateBody, listWith, recording, hreq, hdo, Option.some.injEq,
            Prod.mk.injEq] at h
          exact ⟨[(req, rresp)], h.2.1.2.symm, hreq, Or.inl rfl⟩
        | none =>
          cases rresp with
          | none =>
            simp only [paginateBody, listWith, recording, hreq, hdo, Option.some.injEq,
              Prod.mk.injEq] at h
            exact ⟨[(req, none)], h.2.1.2.symm, hreq, Or.inl rfl⟩
          | some resp =>
            by_cases hnext : resp.Links.Next = ""
            · simp only [paginateBody, listWith, recording, hreq, hdo, hnext, if_true,
                Option.some.injEq, Prod.mk.injEq] at h
              exact ⟨[(req, some resp)], h.2.1.2.symm, hreq, Or.inl rfl⟩
            · simp only [paginateBody, listWith, recording, hreq, hdo, hnext, if_false] at h
              obtain ⟨tail, ht, htrace⟩ := ih _ _ _ _ _ _ _ _ _ h
              refine ⟨(req, some resp) :: tail, ?_, hreq, Or.inr ⟨resp, rfl, htrace⟩⟩
              rw [ht, List.append_assoc]
              rfl

theorem ReportService.List_eq_listWith {ReportListFilter : Type}
    (s : service World Request Err ReportListFilter Item) (filterOpts : ReportListFilter) :
    ReportService.List s filterOpts = listWith s "reports" filterOpts := rfl

theorem ProgramService.ListStructuredScopes_eq_listWith
    (s : service World Request Err Unit Item) (programID : String) :
    ProgramService.ListStructuredScopes s programID =
      listWith s ("programs/" ++ programID ++ "/structured_scopes") () := rfl

theorem CredentialService.ListCredentialInquiries_eq_listWith
    (s : service World Request Err Unit Item) (programID : String) :
    CredentialService.ListCredentialInquiries s programID =
      listWith s ("programs/" ++ programID ++ "/credential_inquiries") () := rfl

theorem CredentialService.ListCredentialInquiryResponses_eq_listWith
    (s : service World Request Err Unit Item) (programID inquiryID : String) :
    CredentialService.ListCredentialInquiryResponses s programID inquiryID =
      listWith s ("programs/" ++ programID ++ "/credential_inquiries/" ++ inquiryID
        ++ "/credential_inquiry_responses") () := rfl

/-- The recorded requests of a paginating loop that returns follow the cursor
from the start of the loop. -/
theorem paginate_cursorTrace (s : service World Request Err Opts Item) (path : String)
    (opts : Opts) (fuel : Nat) (w w2 : World) (log : List (Request × Option Response))
    (out : Outcome (Listing Item Err)) (calls : Nat)
    (h : paginate (listWith (recording s) path opts) s.NextPageNumber s.defaultPageSize fuel
      (w, []) = some (out, (w2, log), calls)) :
    cursorTrace (fun c => s.NewRequest "GET" (s.addOptions path opts c)) s.NextPageNumber
      { Page := 0, PageSize := s.defaultPageSize } log := by
  obtain ⟨tail, ht, htrace⟩ := forLoop_cursorTrace s path opts fuel _ _ _ _ _ _ _ _ _ h
  rw [ht]
  exact htrace

/-- Pages served by a service are served by the recording service as well,
which records one request for each. -/
theorem serves_recording (s : service World Request Err Opts Item) (path : String) (opts : Opts)
    (pages : List (Page Item)) :
    ∀ (c c2 : ListOptions) (w w2 : World) (log : List (Request × Option Response)),
      Serves (listWith s path opts) s.NextPageNumber c w pages w2 c2 →
      ∃ tail, tail.length = pages.length ∧
        Serves (listWith (recording s) path opts) s.NextPageNumber c (w, log) pages
          (w2, log ++ tail) c2 := by
  induction pages with
  | nil =>
    intro c c2 w w2 log h
    obtain ⟨rfl, rfl⟩ := h
    exact ⟨[], rfl, by simp [Serves]⟩
  | cons p ps ih =>
    intro c c2 w w2 log h
    obtain ⟨w1, hf, hrest⟩ := h
    have hstep : ∃ req, listWith (recording s) path opts c (w, log) =
        ({ items := p.1, resp := some p.2, err := none }, (w1, log ++ [(req, some p.2)])) := by
      cases hreq : s.NewRequest "GET" (s.addOptions path opts c) with
      | error err => simp [listWith, hreq] at hf
      | ok req =>
        cases hdo : s.Do req w with
        | mk r w3 =>
          obtain ⟨rdata, rresp, rerr⟩ := r
          cases rerr with
          | some e => simp [listWith, hreq, hdo] at hf
          | none =>
            simp only [listWith, hreq, hdo, Prod.mk.injEq, Listing.mk.injEq, and_true] at hf
            obtain ⟨⟨rfl, rfl⟩, rfl⟩ := hf
            exact ⟨req, by simp [listWith, recording, hreq, hdo]⟩
    obtain ⟨req, hreq⟩ := hstep
    obtain ⟨tail, hlen, hs⟩ := ih _ c2 w1 w2 (log ++ [(req, some p.2)]) hrest
    refine ⟨(req, some p.2) :: tail, by simp [hlen], (w1, log ++ [(req, some p.2)]), hreq, ?_⟩
    rw [show log ++ (req, some p.2) :: tail = (log ++ [(req, some p.2)]) ++ tail by simp]
    exact hs

/-- Over served pages the recording service returns what the service returns,
and its record follows the cursor. -/
theorem paginate_recording (s : service World Request Err Opts Item) (path : String)
    (opts : Opts) (ps : List (Page Item)) (last : Page Item) (w w2 : World)
    (opts2 : ListOptions) (fuel : Nat)
    (hs : Serves (listWith s path opts) s.NextPageNumber
      { Page := 0, PageSize := s.defaultPageSize } w (ps ++ [last]) w2 opts2)
    (hn : ∀ p ∈ ps, p.2.Links.Next ≠ "") (hl : last.2.Links.Next = "")
    (hfuel : ps.length + 1 ≤ fuel) :
    ∃ log, paginate (listWith (recording s) path opts) s.NextPageNumber s.defaultPageSize fuel
        (w, []) =
        some (.returned { items := some ((ps ++ [last]).flatMap Page.items), resp := none,
                          err := none }, (w2, log), ps.length + 1) ∧
      log.length = ps.length + 1 ∧
      cursorTrace (fun c => s.NewRequest "GET" (s.addOptions path opts c)) s.NextPageNumber
        { Page := 0, PageSize := s.defaultPageSize } log := by
  obtain ⟨tail, hlen, hs2⟩ := serves_recording s path opts (ps ++ [last]) _ _ _ _ [] hs
  have h := paginate_complete (listWith (recording s) path opts) s.NextPageNumber
    s.defaultPageSize ps last (w, []) (w2, [] ++ tail) opts2 fuel hs2 hn hl hfuel
  refine ⟨[] ++ tail, h, by simpa using hlen, ?_⟩
  exact paginate_cursorTrace s path opts fuel w w2 _ _ _ h

end CursorLemmas

/-- C15 as stated fails: the first fetch is not issued with page number 1. The
cursor starts as `ListOptions{PageSize: defaultPageSize}`, its page number left
at the zero value: over the scripted transport, whose URLs render the cursor,
the first request of `ReportService.ListAll` carries `page=0`. -/
theorem listAll_first_page_is_one_counterexample :
    ReportService.ListAll (scripted "closed" 2) () 3 cursorWorld =
      some (.returned { items := some [1, 2, 3, 4, 5], resp := none, err := none },
        { pending := [],
          requests := [("GET", "reports?page=0&size=2"), ("GET", "reports?page=4&size=2"),
            ("GET", "reports?page=7&size=2")] }, 3) :=
  rfl

/-- C15, amended. Each `ListAll…` paginator issues its first fetch with the
cursor `{Page: 0, PageSize: defaultPageSize}` (the page number is left at its
zero value, not set to 1), and every later fetch with the page number
`Links.NextPageNumber()` of the response to the fetch before it and the same
page size. In terms of the requests a recording transport receives: in every
run that returns, the recorded requests follow that cursor (`cursorTrace`);
and over pages `ps ++ [last]` served without error, where exactly `last` has
no `next` link, the run returns, given enough passes, after one recorded
request for each page. -/
theorem listAll_cursor_follows_next_link {World Request Err Item ReportListFilter : Type}
    (sr : service World Request Err ReportListFilter Item)
    (s : service World Request Err Unit Item) (filterOpts : ReportListFilter)
    (programID inquiryID : String) :
    (∀ (fuel : Nat) (w w2 : World) (log : List (Request × Option Response))
        (out : Outcome (Listing Item Err)) (calls : Nat),
      ReportService.ListAll (recording sr) filterOpts fuel (w, []) = some (out, (w2, log), calls) →
      cursorTrace (fun c => sr.NewRequest "GET" (sr.addOptions "reports" filterOpts c))
        sr.NextPageNumber { Page := 0, PageSize := sr.defaultPageSize } log) ∧
    (∀ (fuel : Nat) (w w2 : World) (log : List (Request × Option Response))
        (out : Outcome (Listing Item Err)) (calls : Nat),
      ProgramService.ListAllStructuredScopes (recording s) programID fuel (w, []) = some (out, (w2, log), calls) →
      cursorTrace (fun c => s.NewRequest "GET" (s.addOptions ("programs/" ++ programID ++ "/structured_scopes") () c))
        s.NextPageNumber { Page := 0, PageSize := s.defaultPageSize } log) ∧
    (∀ (fuel : Nat) (w w2 : World) (log : List (Request × Option Response))
        (out : Outcome (Listing Item Err)) (calls : Nat),
      CredentialService.ListAllCredentialInquiries (recording s) programID fuel (w, []) = some (out, (w2, log), calls) →
      cursorTrace (fun c => s.NewRequest "GET" (s.addOptions ("programs/" ++ programID ++ "/credential_inquiries") () c))
        s.NextPageNumber { Page := 0, PageSize := s.defaultPageSize } log) ∧
    (∀ (fuel : Nat) (w w2 : World) (log : List (Request × Option Response))
        (out : Outcome (Listing Item Err)) (calls : Nat),
      CredentialService.ListAllCredentialInquiryResponses (recording s) programID inquiryID fuel (w, []) = some (out, (w2, log), calls) →
      cursorTrace (fun c => s.NewRequest "GET" (s.addOptions ("programs/" ++ programID ++ "/credential_inquiries/" ++ inquiryID
          ++ "/credential_inquiry_responses") () c))
        s.NextPageNumber { Page := 0, PageSize := s.defaultPageSize } log) ∧
    (∀ (ps : List (Page Item)) (last : Page Item) (w w2 : World) (opts2 : ListOptions)
        (fuel : Nat),
      (∀ p ∈ ps, p.2.Links.Next ≠ "") → last.2.Links.Next = "" → ps.length + 1 ≤ fuel →
      Serves (ReportService.List sr filterOpts) sr.NextPageNumber
        { Page := 0, PageSize := sr.defaultPageSize } w (ps ++ [last]) w2 opts2 →
      ∃ log, ReportService.ListAll (recording sr) filterOpts fuel (w, []) =
          some (.returned { items := some ((ps ++ [last]).flatMap Page.items), resp := none,
                            err := none }, (w2, log), ps.length + 1) ∧
        log.length = ps.length + 1 ∧
        cursorTrace (fun c => sr.NewRequest "GET" (sr.addOptions "reports" filterOpts c))
          sr.NextPageNumber { Page := 0, PageSize := sr.defaultPageSize } log) ∧
    (∀ (ps : List (Page Item)) (last : Page Item) (w w2 : World) (opts2 : ListOptions)
        (fuel : Nat),
      (∀ p ∈ ps, p.2.Links.Next ≠ "") → last.2.Links.Next = "" → ps.length + 1 ≤ fuel →
      Serves (ProgramService.ListStructuredScopes s programID) s.NextPageNumber
        { Page := 0, PageSize := s.defaultPageSize } w (ps ++ [last]) w2 opts2 →
      ∃ log, ProgramService.ListAllStructuredScopes (recording s) programID fuel (w, []) =
          some (.returned { items := some ((ps ++ [last]).flatMap Page.items), resp := none,
                            err := none }, (w2, log), ps.length + 1) ∧
        log.length = ps.length + 1 ∧
        cursorTrace (fun c => s.NewRequest "GET" (s.addOptions ("programs/" ++ programID ++ "/structured_scopes") () c))
          s.NextPageNumber { Page := 0, PageSize := s.defaultPageSize } log) ∧
    (∀ (ps : List (Page Item)) (last : Page Item) (w w2 : World) (opts2 : ListOptions)
        (fuel : Nat),
      (∀ p ∈ ps, p.2.Links.Next ≠ "") → last.2.Links.Next = "" → ps.length + 1 ≤ fuel →
      Serves (CredentialService.ListCredentialInquiries s programID) s.NextPageNumber
        { Page := 0, PageSize := s.defaultPageSize } w (ps ++ [last]) w2 opts2 →
      ∃ log, CredentialService.ListAllCredentialInquiries (recording s) programID fuel (w, []) =
          some (.returned { items := some ((ps ++ [last]).flatMap Page.items), resp := none,
                            err := none }, (w2, log), ps.length + 1) ∧
        log.length = ps.length + 1 ∧
        cursorTrace (fun c => s.NewRequest "GET" (s.addOptions ("programs/" ++ programID ++ "/credential_inquiries") () c))
          s.NextPageNumber { Page := 0, PageSize := s.defaultPageSize } log) ∧
    (∀ (ps : List (Page Item)) (last : Page Item) (w w2 : World) (opts2 : ListOptions)
        (fuel : Nat),
      (∀ p ∈ ps, p.2.Links.Next ≠ "") → last.2.Links.Next = "" → ps.length + 1 ≤ fuel →
      Serves (CredentialService.ListCredentialInquiryResponses s programID inquiryID) s.NextPageNumber
        { Page := 0, PageSize := s.defaultPageSize } w (ps ++ [last]) w2 opts2 →
      ∃ log, CredentialService.ListAllCredentialInquiryResponses (recording s) programID inquiryID fuel (w, []) =
          some (.returned { items := some ((ps ++ [last]).flatMap Page.items), resp := none,
                            err := none }, (w2, log), ps.length + 1) ∧
        log.length = ps.length + 1 ∧
        cursorTrace (fun c => s.NewRequest "GET" (s.addOptions ("programs/" ++ programID ++ "/credential_inquiries/" ++ inquiryID
          ++ "/credential_inquiry_responses") () c))
          s.NextPageNumber { Page := 0, PageSize := s.defaultPageSize } log) := by
  refine ⟨?_, ?_, ?_, ?_, ?_, ?_, ?_, ?_⟩
  · intro fuel w w2 log out calls h
    rw [ReportService.ListAll_eq_paginate, ReportService.List_eq_listWith] at h
    exact paginate_cursorTrace _ _ _ fuel w w2 log out calls h
  · intro fuel w w2 log out calls h
    rw [ProgramService.ListAllStructuredScopes_eq_paginate, ProgramService.ListStructuredScopes_eq_listWith] at h
    exact paginate_cursorTrace _ _ _ fuel w w2 log out calls h
  · intro fuel w w2 log out calls h
    rw [CredentialService.ListAllCredentialInquiries_eq_paginate, CredentialService.ListCredentialInquiries_eq_listWith] at h
    exact paginate_cursorTrace _ _ _ fuel w w2 log out calls h
  · intro fuel w w2 log out calls h
    rw [CredentialService.ListAllCredentialInquiryResponses_eq_paginate, CredentialService.ListCredentialInquiryResponses_eq_listWith] at h
    exact paginate_cursorTrace _ _ _ fuel w w2 log out calls h
  · intro ps last w w2 opts2 fuel hn hl hfuel hs
    rw [ReportService.List_eq_listWith] at hs
    simp only [ReportService.ListAll_eq_paginate, ReportService.List_eq_listWith]
    exact paginate_recording _ _ _ ps last w w2 opts2 fuel hs hn hl hfuel
  · intro ps last w w2 opts2 fuel hn hl hfuel hs
    rw [ProgramService.ListStructuredScopes_eq_listWith] at hs
    simp only [ProgramService.ListAllStructuredScopes_eq_paginate, ProgramService.ListStructuredScopes_eq_listWith]
    exact paginate_recording _ _ _ ps last w w2 opts2 fuel hs hn hl hfuel
  · intro ps last w w2 opts2 fuel hn hl hfuel hs
    rw [CredentialService.ListCredentialInquiries_eq_listWith] at hs
    simp only [CredentialService.ListAllCredentialInquiries_eq_paginate, CredentialService.ListCredentialInquiries_eq_listWith]
    exact paginate_recording _ _ _ ps last w w2 opts2 fuel hs hn hl hfuel
  · intro ps last w w2 opts2 fuel hn hl hfuel hs
    rw [CredentialService.ListCredentialInquiryResponses_eq_listWith] at hs
    simp only [CredentialService.ListAllCredentialInquiryResponses_eq_paginate, CredentialService.ListCredentialInquiryResponses_eq_listWith]
    exact paginate_recording _ _ _ ps last w w2 opts2 fuel hs hn hl hfuel

/-- Witness of C15 (amended): three pages served to `ReportService.ListAll` over
the scripted transport; the three recorded requests carry the pages 0, 4 and 7
(the lengths of the `next` links) and the page size 2. -/
theorem listAll_cursor_follows_next_link_witness :
    ∃ log, ReportService.ListAll (recording (scripted "closed" 2)) () 3 (cursorWorld, []) =
        some (.returned { items := some [1, 2, 3, 4, 5], resp := none, err := none },
          ({ pending := [],
             requests := [("GET", "reports?page=0&size=2"), ("GET", "reports?page=4&size=2"),
               ("GET", "reports?page=7&size=2")] }, log), 3) ∧
      log.length = 3 ∧
      cursorTrace
        (fun c => (scripted "closed" 2 : service (Script Nat String) (String × String) String
          Unit Nat).NewRequest "GET" ("reports?page=" ++ toString c.Page ++ "&size=" ++
            toString c.PageSize))
        (fun l => l.Next.length) { Page := 0, PageSize := 2 } log :=
  (listAll_cursor_follows_next_link (scripted "closed" 2) (scripted "closed" 2) () "7" "9").2.2.2.2.1
    (cursorPages.take 2) (some [5], { Links := { Self := "c", Next := "", Previous := "b" } })
    cursorWorld _ _ 3 (by decide) rfl (by decide) ⟨_, rfl, _, rfl, _, rfl, rfl, rfl⟩

end H1

namespace Json

/-! ### Go strings and their text -/

section Utf8

/-- The decoder of runes reads back the rune the encoder of runes wrote, and its
length. -/
theorem decodeRune_encodeRune (r : Nat) (h : r < 0xD800 ∨ (0xDFFF < r ∧ r < 0x110000))
    (rest : List Nat) :
    decodeRune (encodeRune r ++ rest) = (r, (encodeRune r).length) := by
  unfold encodeRune
  by_cases h1 : r < 0x80
  · simp [decodeRune, h1]
  · by_cases h2 : r < 0x800
    · have a1 : ¬ (0xC0 + r / 0x40 < 0x80) := by omega
      have a2 : ¬ (0xC0 + r / 0x40 < 0xC2) := by omega
      have a3 : ¬ (0xF4 < 0xC0 + r / 0x40) := by omega
      have a4 : 0xC0 + r / 0x40 < 0xE0 := by omega
      have a5 : ¬ (0xC0 + r / 0x40 = 0xE0) := by omega
      have a6 : ¬ (0xC0 + r / 0x40 = 0xF0) := by omega
      have a7 : ¬ (0xC0 + r / 0x40 = 0xED) := by omega
      have a8 : ¬ (0xC0 + r / 0x40 = 0xF4) := by omega
      have a9 : ¬ (0x80 + r % 0x40 < 0x80) := by omega
      have a10 : ¬ (0xBF < 0x80 + r % 0x40) := by omega
      simp [decodeRune, h1, h2, a1, a2, a3, a4, a5, a6, a7, a8, a9, a10]
      omega
    · by_cases h3 : r < 0x10000
      · have a1 : ¬ (0xE0 + r / 0x1000 < 0x80) := by omega
        have a2 : ¬ (0xE0 + r / 0x1000 < 0xC2) := by omega
        have a3 : ¬ (0xF4 < 0xE0 + r / 0x1000) := by omega
        have a4 : ¬ (0xE0 + r / 0x1000 < 0xE0) := by omega
        have a5 : 0xE0 + r / 0x1000 < 0xF0 := by omega
        have a6 : ¬ (0xE0 + r / 0x1000 = 0xF0) := by omega
        have a8 : ¬ (0xE0 + r / 0x1000 = 0xF4) := by omega
        have a9 : ¬ (0x80 + r % 0x40 < 0x80) := by omega
        have a10 : ¬ (0xBF < 0x80 + r % 0x40) := by omega
        have a11 : ¬ (0x80 + r / 0x40 % 0x40 < 0x80) := by omega
        have a12 : ¬ (0xBF < 0x80 + r / 0x40 % 0x40) := by omega
        by_cases b1 : 0xE0 + r / 0x1000 = 0xE0
        · have c1 : ¬ (0x80 + r / 0x40 % 0x40 < 0xA0) := by omega
          have b2 : ¬ (0xE0 + r / 0x1000 = 0xED) := by omega
          simp [decodeRune, h1, h2, h3, a1, a2, a3, a4, a5, a6, a8, a9, a10, a11, a12, b1, b2, c1]
          omega
        · by_cases b2 : 0xE0 + r / 0x1000 = 0xED
          · have c1 : ¬ (0x9F < 0x80 + r / 0x40 % 0x40) := by omega
            simp [decodeRune, h1, h2, h3, a1, a2, a3, a4, a5, a6, a8, a9, a10, a11, a12, b1, b2,
              c1]
            omega
          · simp [decodeRune, h1, h2, h3, a1, a2, a3, a4, a5, a6, a8, a9, a10, a11, a12, b1, b2]
            omega
      · have a1 : ¬ (0xF0 + r / 0x40000 < 0x80) := by omega
        have a2 : ¬ (0xF0 + r / 0x40000 < 0xC2) := by omega
        have a3 : ¬ (0xF4 < 0xF0 + r / 0x40000) := by omega
        have a4 : ¬ (0xF0 + r / 0x40000 < 0xE0) := by omega
        have a5 : ¬ (0xF0 + r / 0x40000 < 0xF0) := by omega
        have a6 : ¬ (0xF0 + r / 0x40000 = 0xE0) := by omega
        have a7 : ¬ (0xF0 + r / 0x40000 = 0xED) := by omega
        have a9 : ¬ (0x80 + r % 0x40 < 0x80) := by omega
        have a10 : ¬ (0xBF < 0x80 + r % 0x40) := by omega
        have a11 : ¬ (0x80 + r / 0x40 % 0x40 < 0x80) := by omega
        have a12 : ¬ (0xBF < 0x80 + r / 0x40 % 0x40) := by omega
        have a13 : ¬ (0x80 + r / 0x1000 % 0x40 < 0x80) := by omega
        have a14 : ¬ (0xBF < 0x80 + r / 0x1000 % 0x40) := by omega
        by_cases b1 : 0xF0 + r / 0x40000 = 0xF0
        · have c1 : ¬ (0x80 + r / 0x1000 % 0x40 < 0x90) := by omega
          have b2 : ¬ (0xF0 + r / 0x40000 = 0xF4) := by omega
          simp [decodeRune, h1, h2, h3, a1, a2, a3, a4, a5, a6, a7, a9, a10, a11, a12, a13, a14,
            b1, b2, c1]
          omega
        · by_cases b2 : 0xF0 + r / 0x40000 = 0xF4
          · have c1 : ¬ (0x8F < 0x80 + r / 0x1000 % 0x40) := by omega
            simp [decodeRune, h1, h2, h3, a1, a2, a3, a4, a5, a6, a7, a9, a10, a11, a12, a13,
              a14, b1, b2, c1]
            omega
          · simp [decodeRune, h1, h2, h3, a1, a2, a3, a4, a5, a6, a7, a9, a10, a11, a12, a13,
              a14, b1, b2]
            omega


/-- The bytes still to skip of a rune are skipped. -/
theorem validRunes_skip (l rest : List Nat) :
    validRunes l.length (l ++ rest) = validRunes 0 rest := by
  induction l with
  | nil => rfl
  | cons x l ih => simpa [validRunes] using ih

/-- A rune is encoded in at least one byte. -/
theorem encodeRune_ne_nil (r : Nat) : encodeRune r ≠ [] := by
  unfold encodeRune
  split_ifs <;> simp

/-- The encoding of a rune is made of bytes. -/
theorem encodeRune_lt (r : Nat) (h : r < 0x110000) : ∀ b ∈ encodeRune r, b < 256 := by
  unfold encodeRune
  split_ifs <;> simp <;> omega

/-- The encoding of a character is read back as the character. -/
theorem validRunes_encodeRune (c : Char) (rest : List Nat) :
    validRunes 0 (encodeRune c.toNat ++ rest) = c :: validRunes 0 rest := by
  have hv : c.toNat < 0xD800 ∨ (0xDFFF < c.toNat ∧ c.toNat < 0x110000) := c.valid
  have hd := decodeRune_encodeRune c.toNat hv rest
  cases he : encodeRune c.toNat with
  | nil => exact absurd he (encodeRune_ne_nil _)
  | cons b bs =>
    rw [he] at hd
    simp only [List.cons_append] at hd ⊢
    simp only [validRunes, hd, List.length_cons, Nat.add_sub_cancel]
    rw [validRunes_skip]
    congr 1
    exact Char.ofNat_toNat c

/-- The encoding of a list of characters is read back as the list. -/
theorem validRunes_flatMap (cs : List Char) :
    validRunes 0 (cs.flatMap (fun c => encodeRune c.toNat)) = cs := by
  induction cs with
  | nil => rfl
  | cons c cs ih => rw [List.flatMap_cons, validRunes_encodeRune, ih]

/-- A text is read back from its UTF-8 encoding. -/
theorem goText_goString (s : String) : goText (goString s) = s := by
  unfold goText goString
  have h : (s.data.flatMap (fun c => (encodeRune c.toNat).map UInt8.ofNat)).map UInt8.toNat =
      s.data.flatMap (fun c => encodeRune c.toNat) := by
    induction s.data with
    | nil => rfl
    | cons c cs ih =>
      rw [List.flatMap_cons, List.flatMap_cons, List.map_append, ih]
      congr 1
      have hlt := encodeRune_lt c.toNat (by
        have hv : c.toNat < 0xD800 ∨ (0xDFFF < c.toNat ∧ c.toNat < 0x110000) := c.valid
        omega)
      generalize encodeRune c.toNat = l at hlt
      induction l with
      | nil => rfl
      | cons x l ih2 =>
        simp only [List.map_cons, List.cons.injEq]
        refine ⟨?_, ih2 (fun b hb => hlt b (List.mem_cons_of_mem _ hb))⟩
        have hx := hlt x (List.mem_cons_self _ _)
        simp [UInt8.toNat, UInt8.ofNat, Fin.ofNat, Nat.mod_eq_of_lt hx]
  rw [h, validRunes_flatMap]

end Utf8

end Json

namespace GoJson

open Json

/-! ### The order of the members of an object -/

section Permutation

variable {α β : Type}

theorem Agree.refl (r : Except JsonError (α × Option JsonError)) : Agree r r := by
  rcases r with e | ⟨a, s⟩
  · trivial
  · exact ⟨rfl, Iff.rfl⟩

theorem Agree.trans {r1 r2 r3 : Except JsonError (α × Option JsonError)}
    (h1 : Agree r1 r2) (h2 : Agree r2 r3) : Agree r1 r3 := by
  rcases r1 with e1 | ⟨a1, s1⟩ <;> rcases r2 with e2 | ⟨a2, s2⟩ <;>
    rcases r3 with e3 | ⟨a3, s3⟩ <;> simp only [Agree] at h1 h2 ⊢
  · exact ⟨h1.1.trans h2.1, h1.2.trans h2.2⟩

/-- A result that agrees with a result without error is that result. -/
theorem Agree.eq_of_ok {r : Except JsonError (α × Option JsonError)} {a : α}
    (h : Agree r (.ok (a, none))) : r = .ok (a, none) := by
  rcases r with e | ⟨a1, s1⟩
  · simp only [Agree] at h
  · obtain ⟨rfl, hs⟩ := h
    rw [hs.2 rfl]

theorem saveError_eq_none (a b : Option JsonError) :
    saveError a b = none ↔ a = none ∧ b = none := by
  cases a <;> cases b <;> simp [saveError]

/-- The member loop from the same value with and without a saved error. -/
theorem decodeMembers_agree_saved (fields : List (StructField α)) (ms : List (String × JSON))
    (a : α) (sv sv2 : Option JsonError) (h : sv = none ↔ sv2 = none) :
    Agree (decodeMembers fields ms a sv) (decodeMembers fields ms a sv2) := by
  rw [decodeMembers_saved fields ms a sv, decodeMembers_saved fields ms a sv2]
  rcases decodeMembers fields ms a none with e | ⟨a2, new⟩
  · trivial
  · refine ⟨rfl, ?_⟩
    rw [saveError_eq_none, saveError_eq_none, h]

/-- Members whose keys stay distinct when letter case is ignored can be decoded
in any order, when any two fields of the table decode independently. -/
theorem decodeMembers_perm (fields : List (StructField α))
    (hcomm : ∀ f ∈ fields, ∀ g ∈ fields, f.name ≠ g.name → Commute f g)
    (l1 l2 : List (String × JSON)) (hp : l1.Perm l2) :
    (l1.map (fun kv => foldName kv.1)).Nodup →
    ∀ (a : α) (sv sv2 : Option JsonError), (sv = none ↔ sv2 = none) →
      Agree (decodeMembers fields l1 a sv) (decodeMembers fields l2 a sv2) := by
  induction hp with
  | nil => intro _ a sv sv2 h; exact ⟨rfl, h⟩
  | cons x hp ih =>
    intro hnd a sv sv2 h
    obtain ⟨k, v⟩ := x
    simp only [List.map_cons, List.nodup_cons] at hnd
    simp only [decodeMembers]
    cases findField fields k with
    | none => exact ih hnd.2 a sv sv2 h
    | some f =>
      simp only
      rcases f.store v a with e | ⟨a2, new⟩
      · trivial
      · exact ih hnd.2 a2 _ _ (by rw [saveError_eq_none, saveError_eq_none, h])
  | swap x y l =>
    intro hnd a sv sv2 h
    obtain ⟨kx, vx⟩ := x
    obtain ⟨ky, vy⟩ := y
    simp only [List.map_cons, List.nodup_cons, List.mem_cons, not_or] at hnd
    have hne : foldName ky ≠ foldName kx := hnd.1.1
    simp only [decodeMembers]
    cases hfy : findField fields ky with
    | none =>
      cases hfx : findField fields kx with
      | none => exact decodeMembers_agree_saved fields l a sv sv2 h
      | some fx =>
        simp only
        rcases fx.store vx a with e | ⟨a2, new⟩
        · trivial
        · exact decodeMembers_agree_saved fields l a2 _ _
            (by rw [saveError_eq_none, saveError_eq_none, h])
    | some fy =>
      cases hfx : findField fields kx with
      | none =>
        simp only
        rcases fy.store vy a with e | ⟨a2, new⟩
        · trivial
        · exact decodeMembers_agree_saved fields l a2 _ _
            (by rw [saveError_eq_none, saveError_eq_none, h])
      | some fx =>
        simp only
        obtain ⟨hmy, hfoldy⟩ := findField_some fields ky fy hfy
        obtain ⟨hmx, hfoldx⟩ := findField_some fields kx fx hfx
        have hname : fy.name ≠ fx.name := fun hn => hne (by rw [← hfoldy, ← hfoldx, hn])
        have hc := hcomm fy hmy fx hmx hname vy vx a
        rcases hy : fy.store vy a with e | ⟨a1, e1⟩ <;>
          rcases hx : fx.store vx a with e2 | ⟨a2, e2⟩ <;> rw [hy, hx] at hc <;>
          simp only at hc ⊢
        · trivial
        · obtain ⟨e3, h3⟩ := hc
          rw [h3]
          trivial
        · obtain ⟨e3, h3⟩ := hc
          rw [h3]
          trivial
        · obtain ⟨a3, h3, h4⟩ := hc
          rw [h3, h4]
          simp only
          exact decodeMembers_agree_saved fields l a3 _ _ (by
            simp only [saveError_eq_none]
            constructor
            · rintro ⟨⟨hs, h1⟩, h2⟩
              exact ⟨⟨h.1 hs, h2⟩, h1⟩
            · rintro ⟨⟨hs, h2⟩, h1⟩
              exact ⟨⟨h.2 hs, h1⟩, h2⟩)
  | trans hp1 hp2 ih1 ih2 =>
    intro hnd a sv sv2 h
    have hnd2 := (List.Perm.nodup_iff (List.Perm.map _ hp1)).1 hnd
    exact Agree.trans (ih1 hnd a sv sv Iff.rfl) (ih2 hnd2 a sv sv2 h)

/-- Two `StructField.of` fields with independent storage decode independently
of each other. -/
theorem StructField.of_commute {δ γ : Type} (nf : String) (getf : α → δ) (setf : α → δ → α)
    (stf : Store δ) (ng : String) (getg : α → γ) (setg : α → γ → α) (stg : Store γ)
    (h1 : ∀ b x, getg (setf b x) = getg b) (h2 : ∀ b y, getf (setg b y) = getf b)
    (h3 : ∀ b x y, setg (setf b x) y = setf (setg b y) x) :
    Commute (StructField.of nf getf setf stf) (StructField.of ng getg setg stg) := by
  intro v w a
  simp only [StructField.of]
  rcases hf : stf v (getf a) with e | ⟨x, e1⟩ <;>
    rcases hg : stg w (getg a) with e2 | ⟨y, e2⟩ <;> simp only
  · exact ⟨e, by rw [h2, hf]⟩
  · exact ⟨e2, by rw [h1, hg]⟩
  · exact ⟨setg (setf a x) y, by rw [h1, hg], by rw [h2, hf, h3]⟩

/-- The helper's member loop agrees on two lists of members when the loop of
the embedded struct does, no key selecting a field of the helper itself. -/
theorem decodeMembers_promoted_agree (E : Embedding α β) (base : List (StructField α))
    (extra : List (StructField β)) (l1 l2 : List (String × JSON))
    (h1 : ∀ kv ∈ l1, ∀ f ∈ extra, foldName f.name ≠ foldName kv.1)
    (h2 : ∀ kv ∈ l2, ∀ f ∈ extra, foldName f.name ≠ foldName kv.1) (h : β)
    (hag : Agree (decodeMembers base l1 (E.getE h) none) (decodeMembers base l2 (E.getE h) none)) :
    Agree (decodeMembers (base.map (StructField.lift E.getE E.setE) ++ extra) l1 h none)
      (decodeMembers (base.map (StructField.lift E.getE E.setE) ++ extra) l2 h none) := by
  rw [decodeMembers_promoted E base extra l1 h1 h none,
    decodeMembers_promoted E base extra l2 h2 h none]
  revert hag
  generalize decodeMembers base l1 (E.getE h) none = r1
  generalize decodeMembers base l2 (E.getE h) none = r2
  intro hag
  rcases r1 with e1 | ⟨a1, s1⟩ <;> rcases r2 with e2 | ⟨a2, s2⟩ <;> simp only [Agree] at hag ⊢
  exact ⟨by rw [hag.1], hag.2⟩

/-- An envelope `pre…, "attributes": {F…}, post…` and a flat object that holds
the members of `pre`, `F` and `post` in any order are decoded alike, when the
keys of the flat object stay distinct when letter case is ignored and none of
them selects a field of the helper itself. -/
theorem decodeMembers_envelope_perm (E : Embedding α β) (zero : α) (goType : String)
    (base : List (StructField α)) (others : List (StructField β))
    (hbase : ∀ f ∈ base, f.name ≠ "attributes")
    (hcomm : ∀ f ∈ base, ∀ g ∈ base, f.name ≠ g.name → Commute f g)
    (pre F post fl : List (String × JSON)) (h : β) (hp : E.getP h = .embedded)
    (hperm : fl.Perm (pre ++ (F ++ post)))
    (hkeys : ∀ kv ∈ fl, ∀ f ∈ attributesField E zero goType base :: others,
      foldName f.name ≠ foldName kv.1)
    (hnd : (fl.map (fun kv => foldName kv.1)).Nodup) :
    Agree
      (decodeMembers (base.map (StructField.lift E.getE E.setE) ++
        attributesField E zero goType base :: others)
        (pre ++ ("attributes", .obj F) :: post) h none)
      (decodeMembers (base.map (StructField.lift E.getE E.setE) ++
        attributesField E zero goType base :: others) fl h none) := by
  have hall : ∀ kv ∈ pre ++ (F ++ post), ∀ f ∈ attributesField E zero goType base :: others,
      foldName f.name ≠ foldName kv.1 := fun kv hkv => hkeys kv (hperm.mem_iff.2 hkv)
  rw [decodeMembers_flatten E zero goType base others hbase pre F post h hp
    (fun kv hkv => hall kv (List.mem_append_left _ hkv))
    (fun kv hkv => hall kv (List.mem_append_right _ (List.mem_append_left _ hkv))) none]
  refine decodeMembers_promoted_agree E base _ _ _ hall hkeys h ?_
  exact decodeMembers_perm base hcomm _ _ hperm.symm
    ((List.Perm.nodup_iff (List.Perm.map _ hperm)).1 hnd) _ none none Iff.rfl

/-- A list that is a rearrangement of `x :: l` is `x` between two lists that
together are a rearrangement of `l`. -/
theorem perm_cons_split {γ : Type} (x : γ) (l env : List γ) (h : env.Perm (x :: l)) :
    ∃ pre post, env = pre ++ x :: post ∧ (pre ++ post).Perm l := by
  obtain ⟨pre, post, rfl⟩ := List.append_of_mem (h.mem_iff.2 (List.mem_cons_self x l))
  exact ⟨pre, post, rfl, (List.perm_middle.symm.trans h).cons_inv⟩

end Permutation

/-! ### The elements of a decoded slice -/

section Slices
variable {α : Type}

/-- The elements a successful decoding of an array gives, one by one. -/
theorem storeElems_elements (zero : α) (st : Store α) (vs : List JSON) :
    ∀ (as : List α), storeElems zero st vs = .ok (as, none) →
      List.Forall₂ (fun e a => st e zero = .ok (a, none)) vs as := by
  induction vs with
  | nil =>
    intro as h
    simp only [storeElems, Except.ok.injEq, Prod.mk.injEq, and_true] at h
    subst h
    exact List.Forall₂.nil
  | cons v vs ih =>
    intro as h
    simp only [storeElems] at h
    rcases hst : st v zero with e | ⟨a, saved⟩
    · rw [hst] at h; cases h
    · rw [hst] at h
      simp only at h
      rcases hrest : storeElems zero st vs with e | ⟨as2, saved2⟩
      · rw [hrest] at h; cases h
      · rw [hrest] at h
        simp only [Except.ok.injEq, Prod.mk.injEq] at h
        obtain ⟨rfl, hs⟩ := h
        obtain ⟨rfl, rfl⟩ := (saveError_eq_none saved saved2).1 hs
        exact List.Forall₂.cons hst (ih as2 hrest)

/-- What a successful decoding into a slice has stored: nil for `null`, and for
an array the decoded elements, in order. -/
theorem storeSlice_elements (goType : String) (zero : α) (st : Store α) (v : JSON)
    (cur r : Option (List α)) (h : storeSlice goType zero st v cur = .ok (r, none)) :
    (v = .null ∧ r = none) ∨
    ∃ vs as, v = .arr vs ∧ r = some as ∧
      List.Forall₂ (fun e a => st e zero = .ok (a, none)) vs as := by
  cases v with
  | null =>
    simp only [storeSlice, Except.ok.injEq, Prod.mk.injEq, and_true] at h
    exact Or.inl ⟨rfl, h.symm⟩
  | arr vs =>
    simp only [storeSlice] at h
    rcases hel : storeElems zero st vs with e | ⟨as, saved⟩
    · rw [hel] at h; cases h
    · rw [hel] at h
      simp only [Except.ok.injEq, Prod.mk.injEq] at h
      obtain ⟨rfl, rfl⟩ := h
      exact Or.inr ⟨vs, as, rfl, rfl, storeElems_elements zero st vs as hel⟩
  | bool x => simp [storeSlice] at h
  | num x => simp [storeSlice] at h
  | str x => simp [storeSlice] at h
  | obj x => simp [storeSlice] at h

/-- What a successful decoding into a nil pointer has stored: nil for `null`,
else a pointer to the value decoded into a zero pointee. -/
theorem storePtr_element (zero : α) (st : Store α) (e : JSON) (g : Option α)
    (h : storePtr zero st e none = .ok (g, none)) :
    (e = .null ∧ g = none) ∨ (e ≠ .null ∧ ∃ x, g = some x ∧ st e zero = .ok (x, none)) := by
  by_cases he : e = .null
  · subst he
    simp only [storePtr, Except.ok.injEq, Prod.mk.injEq, and_true] at h
    exact Or.inl ⟨rfl, h.symm⟩
  · right
    refine ⟨he, ?_⟩
    have hst : storePtr zero st e none =
        match st e zero with
        | .error err => .error err
        | .ok (a, saved) => .ok (some a, saved) := by
      cases e <;> first | exact absurd rfl he | rfl
    rw [hst] at h
    rcases hs : st e zero with err | ⟨a, saved⟩
    · rw [hs] at h; cases h
    · rw [hs] at h
      simp only [Except.ok.injEq, Prod.mk.injEq] at h
      obtain ⟨rfl, rfl⟩ := h
      exact ⟨a, rfl, rfl⟩

end Slices

/-! ### Decoding what the encoder writes -/

section Encoding2

/-- A pointer to a string is decoded from its encoding as the pointer to its text. -/
theorem storePtr_marshalString (x : Option GoString) (cur : Option String) :
    storePtr "" storeString (marshalPtr marshalString x) cur = .ok (x.map goText, none) := by
  cases x <;> rfl

/-- A string is decoded from its encoding as its text. -/
theorem storeString_marshalString (g : GoString) (cur : String) :
    storeString (marshalString g) cur = .ok (goText g, none) := rfl

/-- The encoded elements of a slice are decoded without an error when each of them is. -/
theorem storeElems_marshal_ok {α : Type} (zero : α) (st : Store α) (enc : α → JSON)
    (h : ∀ a, ∃ a2, st (enc a) zero = .ok (a2, none)) (xs : List α) :
    ∃ ys, storeElems zero st (xs.map enc) = .ok (ys, none) := by
  induction xs with
  | nil => exact ⟨[], rfl⟩
  | cons x xs ih =>
    obtain ⟨a2, h2⟩ := h x
    obtain ⟨ys, hys⟩ := ih
    exact ⟨a2 :: ys, by simp only [List.map_cons, storeElems, h2, hys, saveError]⟩

/-- An encoded pointer is decoded without an error when its pointee is. -/
theorem storePtr_marshalPtr_ok {α : Type} (zero : α) (st : Store α) (enc : α → JSON)
    (h : ∀ a, ∃ a2, st (enc a) zero = .ok (a2, none)) (x : Option α) :
    ∃ y, storePtr zero st (marshalPtr enc x) none = .ok (y, none) := by
  cases x with
  | none => exact ⟨none, rfl⟩
  | some a =>
    obtain ⟨a2, h2⟩ := h a
    simp only [marshalPtr]
    cases hv : enc a with
    | null => exact ⟨none, rfl⟩
    | bool b => rw [hv] at h2; exact ⟨some a2, by simp only [storePtr, Option.getD_none, h2]⟩
    | num b => rw [hv] at h2; exact ⟨some a2, by simp only [storePtr, Option.getD_none, h2]⟩
    | str b => rw [hv] at h2; exact ⟨some a2, by simp only [storePtr, Option.getD_none, h2]⟩
    | arr b => rw [hv] at h2; exact ⟨some a2, by simp only [storePtr, Option.getD_none, h2]⟩
    | obj b => rw [hv] at h2; exact ⟨some a2, by simp only [storePtr, Option.getD_none, h2]⟩

/-- An encoded slice of pointers is decoded without an error when each pointee is. -/
theorem storeSlice_marshal_ok {α : Type} (goType : String) (zero : α) (st : Store α)
    (enc : α → JSON) (h : ∀ a, ∃ a2, st (enc a) zero = .ok (a2, none)) (xs : List (Option α)) :
    ∃ ys, ∀ cur, storeSlice goType none (storePtr zero st) (.arr (xs.map (marshalPtr enc))) cur =
      .ok (some ys, none) := by
  obtain ⟨ys, hys⟩ := storeElems_marshal_ok none (storePtr zero st) (marshalPtr enc)
    (storePtr_marshalPtr_ok zero st enc h) xs
  exact ⟨ys, fun cur => by simp only [storeSlice, hys]⟩

end Encoding2

end GoJson

namespace H1

open Json GoJson

/-! ### Envelopes and flat objects in any order of their members -/

section Order

/-- Any two fields of `credential` decode independently of each other. -/
theorem credential.commute_credential :
    ∀ f ∈ credential.fields, ∀ g ∈ credential.fields, f.name ≠ g.name → Commute f g := by
  intro f hf g hg hne
  simp only [credential.fields, List.mem_cons, List.mem_singleton, List.not_mem_nil, or_false] at hf hg
  rcases hf with rfl | rfl | rfl | rfl | rfl | rfl
  all_goals
    rcases hg with rfl | rfl | rfl | rfl | rfl | rfl
    all_goals first
      | exact absurd rfl hne
      | (refine StructField.of_commute _ _ _ _ _ _ _ _ ?_ ?_ ?_ <;> intros <;> rfl)

/-- Two documents on whose members the helper's loop agrees have the same
outcome under `Credential.UnmarshalJSON`. -/
theorem Credential.unmarshal_agree_credential (c : Credential) (b1 b2 : List UInt8)
    (l1 l2 : List (String × JSON))
    (h1 : parse b1 = .ok (.obj l1)) (h2 : parse b2 = .ok (.obj l2))
    (h : Agree (decodeMembers credentialUnmarshalHelper.fields l1 ({ credential := Credential.zero, Attributes := .embedded } : credentialUnmarshalHelper) none)
      (decodeMembers credentialUnmarshalHelper.fields l2 ({ credential := Credential.zero, Attributes := .embedded } : credentialUnmarshalHelper) none)) :
    sameOutcome (Credential.UnmarshalJSON c b1) (Credential.UnmarshalJSON c b2) := by
  unfold Credential.UnmarshalJSON Unmarshal
  rw [h1, h2]
  simp only [storeStruct]
  revert h
  generalize decodeMembers credentialUnmarshalHelper.fields l1 _ none = r1
  generalize decodeMembers credentialUnmarshalHelper.fields l2 _ none = r2
  intro h
  rcases r1 with e1 | ⟨a1, _ | s1⟩ <;> rcases r2 with e2 | ⟨a2, _ | s2⟩ <;>
    simp only [Agree] at h <;> simp_all [sameOutcome]

/-- The envelope with `id`, `type` and `attributes` in any order and the flat
object with `id`, `type` and the members of `F` in any order have the same
outcome under `Credential.UnmarshalJSON`, when the keys stay distinct when letter case
is ignored. -/
theorem Credential.envelope_perm_credential (c : Credential) (i t : JSON)
    (F env fl : List (String × JSON)) (envelope flat : List UInt8)
    (henv : parse envelope = .ok (.obj env))
    (hpe : env.Perm [("id", i), ("type", t), ("attributes", .obj F)])
    (hflat : parse flat = .ok (.obj fl))
    (hpf : fl.Perm (("id", i) :: ("type", t) :: F))
    (hnd : ("ID" :: "TYPE" :: "ATTRIBUTES" :: F.map (fun kv => foldName kv.1)).Nodup) :
    sameOutcome (Credential.UnmarshalJSON c envelope) (Credential.UnmarshalJSON c flat) := by
  obtain ⟨pre, post, rfl, hpp⟩ := perm_cons_split ("attributes", JSON.obj F)
    [("id", i), ("type", t)] env
    (hpe.trans (List.Perm.trans (List.Perm.cons _ (List.Perm.swap _ _ _)) (List.Perm.swap _ _ _)))
  refine Credential.unmarshal_agree_credential c envelope flat _ _ henv hflat ?_
  rw [credentialUnmarshalHelper.fields_eq_credential]
  have hperm : fl.Perm (pre ++ (F ++ post)) := by
    refine hpf.trans ?_
    have h1 : (pre ++ (F ++ post)).Perm ((pre ++ post) ++ F) := by
      rw [List.append_assoc]
      exact List.Perm.append_left pre List.perm_append_comm
    exact (h1.trans (List.Perm.append_right F hpp)).symm
  have hnd2 : ((("id", i) :: ("type", t) :: F).map (fun kv => foldName kv.1)).Nodup := by
    simp only [List.map_cons, List.nodup_cons, List.mem_cons, not_or] at hnd ⊢
    exact ⟨⟨by decide, hnd.1.2.2⟩, hnd.2.1.2, hnd.2.2.2⟩
  refine decodeMembers_envelope_perm credentialUnmarshalHelper.embedding Credential.zero "h1.credential" credential.fields
    [] credential.no_attributes_credential credential.commute_credential pre F post fl _ rfl hperm ?_
    ((List.Perm.nodup_iff (List.Perm.map _ hpf)).2 hnd2)
  intro kv hkv f hf
  simp only [List.mem_singleton] at hf
  subst hf
  have hmem := hpf.mem_iff.1 hkv
  simp only [List.map_cons, List.nodup_cons, List.mem_cons, not_or, List.mem_map,
    not_exists, not_and] at hnd
  simp only [List.mem_cons] at hmem
  rcases hmem with rfl | rfl | hF
  · exact foldName_id
  · exact foldName_type
  · exact fun h => hnd.2.2.1 kv hF h.symm

/-- Any two fields of `credentialInquiry` decode independently of each other. -/
theorem credentialInquiry.commute_inquiry :
    ∀ f ∈ credentialInquiry.fields, ∀ g ∈ credentialInquiry.fields, f.name ≠ g.name → Commute f g := by
  intro f hf g hg hne
  simp only [credentialInquiry.fields, List.mem_cons, List.mem_singleton, List.not_mem_nil, or_false] at hf hg
  rcases hf with rfl | rfl | rfl
  all_goals
    rcases hg with rfl | rfl | rfl
    all_goals first
      | exact absurd rfl hne
      | (refine StructField.of_commute _ _ _ _ _ _ _ _ ?_ ?_ ?_ <;> intros <;> rfl)

/-- Two documents on whose members the helper's loop agrees have the same
outcome under `CredentialInquiry.UnmarshalJSON`. -/
theorem CredentialInquiry.unmarshal_agree_inquiry (c : CredentialInquiry) (b1 b2 : List UInt8)
    (l1 l2 : List (String × JSON))
    (h1 : parse b1 = .ok (.obj l1)) (h2 : parse b2 = .ok (.obj l2))
    (h : Agree (decodeMembers credentialInquiryUnmarshalHelper.fields l1 ({ credentialInquiry := CredentialInquiry.zero, Attributes := .embedded } : credentialInquiryUnmarshalHelper) none)
      (decodeMembers credentialInquiryUnmarshalHelper.fields l2 ({ credentialInquiry := CredentialInquiry.zero, Attributes := .embedded } : credentialInquiryUnmarshalHelper) none)) :
    sameOutcome (CredentialInquiry.UnmarshalJSON c b1) (CredentialInquiry.UnmarshalJSON c b2) := by
  unfold CredentialInquiry.UnmarshalJSON Unmarshal
  rw [h1, h2]
  simp only [storeStruct]
  revert h
  generalize decodeMembers credentialInquiryUnmarshalHelper.fields l1 _ none = r1
  generalize decodeMembers credentialInquiryUnmarshalHelper.fields l2 _ none = r2
  intro h
  rcases r1 with e1 | ⟨a1, _ | s1⟩ <;> rcases r2 with e2 | ⟨a2, _ | s2⟩ <;>
    simp only [Agree] at h <;> simp_all [sameOutcome]

/-- The envelope with `id`, `type` and `attributes` in any order and the flat
object with `id`, `type` and the members of `F` in any order have the same
outcome under `CredentialInquiry.UnmarshalJSON`, when the keys stay distinct when letter case
is ignored. -/
theorem CredentialInquiry.envelope_perm_inquiry (c : CredentialInquiry) (i t : JSON)
    (F env fl : List (String × JSON)) (envelope flat : List UInt8)
    (henv : parse envelope = .ok (.obj env))
    (hpe : env.Perm [("id", i), ("type", t), ("attributes", .obj F)])
    (hflat : parse flat = .ok (.obj fl))
    (hpf : fl.Perm (("id", i) :: ("type", t) :: F))
    (hnd : ("ID" :: "TYPE" :: "ATTRIBUTES" :: F.map (fun kv => foldName kv.1)).Nodup) :
    sameOutcome (CredentialInquiry.UnmarshalJSON c envelope) (CredentialInquiry.UnmarshalJSON c flat) := by
  obtain ⟨pre, post, rfl, hpp⟩ := perm_cons_split ("attributes", JSON.obj F)
    [("id", i), ("type", t)] env
    (hpe.trans (List.Perm.trans (List.Perm.cons _ (List.Perm.swap _ _ _)) (List.Perm.swap _ _ _)))
  refine CredentialInquiry.unmarshal_agree_inquiry c envelope flat _ _ henv hflat ?_
  rw [credentialInquiryUnmarshalHelper.fields_eq_inquiry]
  have hperm : fl.Perm (pre ++ (F ++ post)) := by
    refine hpf.trans ?_
    have h1 : (pre ++ (F ++ post)).Perm ((pre ++ post) ++ F) := by
      rw [List.append_assoc]
      exact List.Perm.append_left pre List.perm_append_comm
    exact (h1.trans (List.Perm.append_right F hpp)).symm
  have hnd2 : ((("id", i) :: ("type", t) :: F).map (fun kv => foldName kv.1)).Nodup := by
    simp only [List.map_cons, List.nodup_cons, List.mem_cons, not_or] at hnd ⊢
    exact ⟨⟨by decide, hnd.1.2.2⟩, hnd.2.1.2, hnd.2.2.2⟩
  refine decodeMembers_envelope_perm credentialInquiryUnmarshalHelper.embedding CredentialInquiry.zero "h1.credentialInquiry" credentialInquiry.fields
    [] credentialInquiry.no_attributes_inquiry credentialInquiry.commute_inquiry pre F post fl _ rfl hperm ?_
    ((List.Perm.nodup_iff (List.Perm.map _ hpf)).2 hnd2)
  intro kv hkv f hf
  simp only [List.mem_singleton] at hf
  subst hf
  have hmem := hpf.mem_iff.1 hkv
  simp only [List.map_cons, List.nodup_cons, List.mem_cons, not_or, List.mem_map,
    not_exists, not_and] at hnd
  simp only [List.mem_cons] at hmem
  rcases hmem with rfl | rfl | hF
  · exact foldName_id
  · exact foldName_type
  · exact fun h => hnd.2.2.1 kv hF h.symm

/-- Any two fields of `structuredScope` decode independently of each other. -/
theorem structuredScope.commute_scope (X : Externals) :
    ∀ f ∈ (structuredScope.fields X), ∀ g ∈ (structuredScope.fields X), f.name ≠ g.name → Commute f g := by
  intro f hf g hg hne
  simp only [structuredScope.fields, List.mem_cons, List.mem_singleton, List.not_mem_nil, or_false] at hf hg
  rcases hf with rfl | rfl | rfl | rfl | rfl | rfl | rfl | rfl | rfl | rfl | rfl | rfl | rfl | rfl
  all_goals
    rcases hg with rfl | rfl | rfl | rfl | rfl | rfl | rfl | rfl | rfl | rfl | rfl | rfl | rfl | rfl
    all_goals first
      | exact absurd rfl hne
      | (refine StructField.of_commute _ _ _ _ _ _ _ _ ?_ ?_ ?_ <;> intros <;> rfl)

/-- Two documents on whose members the helper's loop agrees have the same
outcome under `StructuredScope.UnmarshalJSON`. -/
theorem StructuredScope.unmarshal_agree_scope {X : Externals} (c : (StructuredScope X)) (b1 b2 : List UInt8)
    (l1 l2 : List (String × JSON))
    (h1 : parse b1 = .ok (.obj l1)) (h2 : parse b2 = .ok (.obj l2))
    (h : Agree (decodeMembers (structuredScopeUnmarshalHelper.fields X) l1 ({ structuredScope := StructuredScope.zero X, Attributes := .embedded } : structuredScopeUnmarshalHelper X) none)
      (decodeMembers (structuredScopeUnmarshalHelper.fields X) l2 ({ structuredScope := StructuredScope.zero X, Attributes := .embedded } : structuredScopeUnmarshalHelper X) none)) :
    sameOutcome (StructuredScope.UnmarshalJSON c b1) (StructuredScope.UnmarshalJSON c b2) := by
  unfold StructuredScope.UnmarshalJSON Unmarshal
  rw [h1, h2]
  simp only [storeStruct]
  revert h
  generalize decodeMembers (structuredScopeUnmarshalHelper.fields X) l1 _ none = r1
  generalize decodeMembers (structuredScopeUnmarshalHelper.fields X) l2 _ none = r2
  intro h
  rcases r1 with e1 | ⟨a1, _ | s1⟩ <;> rcases r2 with e2 | ⟨a2, _ | s2⟩ <;>
    simp only [Agree] at h <;> simp_all [sameOutcome]

/-- The envelope with `id`, `type` and `attributes` in any order and the flat
object with `id`, `type` and the members of `F` in any order have the same
outcome under `StructuredScope.UnmarshalJSON`, when the keys stay distinct when letter case
is ignored. -/
theorem StructuredScope.envelope_perm_scope {X : Externals} (c : (StructuredScope X)) (i t : JSON)
    (F env fl : List (String × JSON)) (envelope flat : List UInt8)
    (henv : parse envelope = .ok (.obj env))
    (hpe : env.Perm [("id", i), ("type", t), ("attributes", .obj F)])
    (hflat : parse flat = .ok (.obj fl))
    (hpf : fl.Perm (("id", i) :: ("type", t) :: F))
    (hnd : ("ID" :: "TYPE" :: "ATTRIBUTES" :: F.map (fun kv => foldName kv.1)).Nodup) :
    sameOutcome (StructuredScope.UnmarshalJSON c envelope) (StructuredScope.UnmarshalJSON c flat) := by
  obtain ⟨pre, post, rfl, hpp⟩ := perm_cons_split ("attributes", JSON.obj F)
    [("id", i), ("type", t)] env
    (hpe.trans (List.Perm.trans (List.Perm.cons _ (List.Perm.swap _ _ _)) (List.Perm.swap _ _ _)))
  refine StructuredScope.unmarshal_agree_scope c envelope flat _ _ henv hflat ?_
  rw [structuredScopeUnmarshalHelper.fields_eq_scope X]
  have hperm : fl.Perm (pre ++ (F ++ post)) := by
    refine hpf.trans ?_
    have h1 : (pre ++ (F ++ post)).Perm ((pre ++ post) ++ F) := by
      rw [List.append_assoc]
      exact List.Perm.append_left pre List.perm_append_comm
    exact (h1.trans (List.Perm.append_right F hpp)).symm
  have hnd2 : ((("id", i) :: ("type", t) :: F).map (fun kv => foldName kv.1)).Nodup := by
    simp only [List.map_cons, List.nodup_cons, List.mem_cons, not_or] at hnd ⊢
    exact ⟨⟨by decide, hnd.1.2.2⟩, hnd.2.1.2, hnd.2.2.2⟩
  refine decodeMembers_envelope_perm (structuredScopeUnmarshalHelper.embedding X) (StructuredScope.zero X) "h1.structuredScope" (structuredScope.fields X)
    [] (structuredScope.no_attributes_scope X) (structuredScope.commute_scope X) pre F post fl _ rfl hperm ?_
    ((List.Perm.nodup_iff (List.Perm.map _ hpf)).2 hnd2)
  intro kv hkv f hf
  simp only [List.mem_singleton] at hf
  subst hf
  have hmem := hpf.mem_iff.1 hkv
  simp only [List.map_cons, List.nodup_cons, List.mem_cons, not_or, List.mem_map,
    not_exists, not_and] at hnd
  simp only [List.mem_cons] at hmem
  rcases hmem with rfl | rfl | hF
  · exact foldName_id
  · exact foldName_type
  · exact fun h => hnd.2.2.1 kv hF h.symm

/-- Any two fields of `user` decode independently of each other. -/
theorem user.commute_user (X : Externals) :
    ∀ f ∈ (user.fields X), ∀ g ∈ (user.fields X), f.name ≠ g.name → Commute f g := by
  intro f hf g hg hne
  simp only [user.fields, List.mem_cons, List.mem_singleton, List.not_mem_nil, or_false] at hf hg
  rcases hf with rfl | rfl | rfl | rfl | rfl | rfl | rfl | rfl | rfl | rfl | rfl | rfl | rfl | rfl | rfl
  all_goals
    rcases hg with rfl | rfl | rfl | rfl | rfl | rfl | rfl | rfl | rfl | rfl | rfl | rfl | rfl | rfl | rfl
    all_goals first
      | exact absurd rfl hne
      | (refine StructField.of_commute _ _ _ _ _ _ _ _ ?_ ?_ ?_ <;> intros <;> rfl)

/-- Any two fields of `UserProfilePicture` decode independently of each other. -/
theorem UserProfilePicture.commute_picture :
    ∀ f ∈ UserProfilePicture.fields, ∀ g ∈ UserProfilePicture.fields, f.name ≠ g.name → Commute f g := by
  intro f hf g hg hne
  simp only [UserProfilePicture.fields, List.mem_cons, List.mem_singleton, List.not_mem_nil, or_false] at hf hg
  rcases hf with rfl | rfl | rfl | rfl
  all_goals
    rcases hg with rfl | rfl | rfl | rfl
    all_goals first
      | exact absurd rfl hne
      | (refine StructField.of_commute _ _ _ _ _ _ _ _ ?_ ?_ ?_ <;> intros <;> rfl)

end Order

/-- The keys `id`, `type`, `attributes` and the keys of `F`, with letter case
ignored, written out. -/
theorem nodup_folded_keys (F : List (String × JSON))
    (hnd : (("id" :: "type" :: "attributes" :: F.map (fun kv => kv.1)).map foldName).Nodup) :
    ("ID" :: "TYPE" :: "ATTRIBUTES" :: F.map (fun kv => foldName kv.1)).Nodup := by
  have e : ("id" :: "type" :: "attributes" :: F.map (fun kv => kv.1)).map foldName =
      "ID" :: "TYPE" :: "ATTRIBUTES" :: F.map (fun kv => foldName kv.1) := by
    simp only [List.map_cons, List.map_map]
    rfl
  rw [← e]
  exact hnd

/-- C1, amended. For `Credential`, `CredentialInquiry` and `StructuredScope`, every
`id`, `type` and every list `F` of attribute members such that the keys `id`,
`type`, `attributes` and the keys of `F` are pairwise distinct when letter case
is ignored: every envelope that holds `id`, `type` and `attributes: F`, in any
order, and every flat object that holds `id`, `type` and the members of `F` at
top level, in any order, decode to the same struct, and one decodes without
error exactly when the other does. -/
theorem envelope_equals_flat (X : Externals) (i t : JSON) (F env fl : List (String × JSON))
    (envelope flat : List UInt8)
    (henv : parse envelope = .ok (.obj env))
    (hpe : env.Perm [("id", i), ("type", t), ("attributes", .obj F)])
    (hflat : parse flat = .ok (.obj fl))
    (hpf : fl.Perm (("id", i) :: ("type", t) :: F))
    (hF : (("id" :: "type" :: "attributes" :: F.map (fun kv => kv.1)).map foldName).Nodup) :
    (∀ ci : Credential,
      sameOutcome (Credential.UnmarshalJSON ci envelope) (Credential.UnmarshalJSON ci flat)) ∧
    (∀ ci : CredentialInquiry,
      sameOutcome (CredentialInquiry.UnmarshalJSON ci envelope)
        (CredentialInquiry.UnmarshalJSON ci flat)) ∧
    (∀ sc : StructuredScope X,
      sameOutcome (StructuredScope.UnmarshalJSON sc envelope)
        (StructuredScope.UnmarshalJSON sc flat)) :=
  ⟨fun c => Credential.envelope_perm_credential c i t F env fl envelope flat henv hpe hflat hpf
      (nodup_folded_keys F hF),
   fun c => CredentialInquiry.envelope_perm_inquiry c i t F env fl envelope flat henv hpe hflat
      hpf (nodup_folded_keys F hF),
   fun c => StructuredScope.envelope_perm_scope c i t F env fl envelope flat henv hpe hflat hpf
      (nodup_folded_keys F hF)⟩

set_option maxRecDepth 100000 in
/-- Witness of C1 (amended): an envelope with `type`, `attributes`, `id` in this
order and a flat object with the same members in another order, decoded into
`Credential`; both give the credential 1 with `Revoked` and `AssigneeID`. -/
theorem envelope_equals_flat_witness :
    sameOutcome
      (Credential.UnmarshalJSON Credential.zero
        (bytes "\x7b\"type\":\"credential\",\"attributes\":\x7b\"revoked\":true,\"assignee_id\":\"7\"\x7d,\"id\":\"1\"\x7d"))
      (Credential.UnmarshalJSON Credential.zero
        (bytes "\x7b\"assignee_id\":\"7\",\"id\":\"1\",\"revoked\":true,\"type\":\"credential\"\x7d")) ∧
    (Credential.UnmarshalJSON Credential.zero
      (bytes "\x7b\"assignee_id\":\"7\",\"id\":\"1\",\"revoked\":true,\"type\":\"credential\"\x7d")) =
      ({ ID := some "1", «Type» := some "credential", Credentials := none, Revoked := some true,
         AssigneeID := some "7", AssigneeUsername := none }, none) ∧
    (Credential.UnmarshalJSON Credential.zero
      (bytes "\x7b\"type\":\"credential\",\"attributes\":\x7b\"revoked\":true,\"assignee_id\":\"7\"\x7d,\"id\":\"1\"\x7d")) =
      ({ ID := some "1", «Type» := some "credential", Credentials := none, Revoked := some true,
         AssigneeID := some "7", AssigneeUsername := none }, none) :=
  ⟨(envelope_equals_flat Externals.text (.str "1") (.str "credential")
      [("revoked", .bool true), ("assignee_id", .str "7")]
      [("type", .str "credential"),
        ("attributes", .obj [("revoked", .bool true), ("assignee_id", .str "7")]),
        ("id", .str "1")]
      [("assignee_id", .str "7"), ("id", .str "1"), ("revoked", .bool true),
        ("type", .str "credential")]
      (bytes "\x7b\"type\":\"credential\",\"attributes\":\x7b\"revoked\":true,\"assignee_id\":\"7\"\x7d,\"id\":\"1\"\x7d")
      (bytes "\x7b\"assignee_id\":\"7\",\"id\":\"1\",\"revoked\":true,\"type\":\"credential\"\x7d")
      rfl
      ((List.Perm.cons _ (List.Perm.swap _ _ _)).trans (List.Perm.swap _ _ _))
      rfl
      ((List.Perm.swap _ _ _).trans (List.Perm.cons _
        ((List.Perm.cons _ (List.Perm.swap _ _ _)).trans
          ((List.Perm.swap _ _ _).trans (List.Perm.cons _ (List.Perm.swap _ _ _))))))
      (by decide)).1 Credential.zero,
   rfl, rfl⟩

/-- The four sizes of a profile picture, in any order. -/
theorem UserProfilePicture.decode_picture (s62 s82 s110 s260 : String)
    (pm : List (String × JSON))
    (hpm : pm.Perm [("62x62", .str s62), ("82x82", .str s82), ("110x110", .str s110),
      ("260x260", .str s260)]) (cur : UserProfilePicture) :
    decodeMembers UserProfilePicture.fields pm cur none =
      .ok ({ Size62x62 := some s62, Size82x82 := some s82, Size110x110 := some s110,
             Size260x260 := some s260 }, none) := by
  refine Agree.eq_of_ok ?_
  have h := decodeMembers_perm UserProfilePicture.fields UserProfilePicture.commute_picture _ _ hpm
    ((List.Perm.nodup_iff (List.Perm.map _ hpm)).2
      (by simp only [List.map_cons, List.map_nil]; decide)) cur none none Iff.rfl
  exact h

/-- C2. A user envelope that holds `id`, `type` and `attributes` in any order,
where `attributes` holds `disabled`, `username`, `name`, `profile_picture` and
`created_at` in any order and `profile_picture` holds its four sizes in any
order, and that has no `relationships` member, decodes without error to the
`User` built from exactly those values, every other field nil. -/
theorem user_envelope_decodes_to_literal (X : Externals) (u : User X) (b : List UInt8)
    (i t username name s62 s82 s110 s260 : String) (d : Bool) (c : JSON) (ts : X.Timestamp)
    (hc : c ≠ .null) (hts : X.storeTimestamp c X.zeroTimestamp = .ok (ts, none))
    (env am pm : List (String × JSON))
    (hb : parse b = .ok (.obj env))
    (henv : env.Perm [("id", .str i), ("type", .str t), ("attributes", .obj am)])
    (ham : am.Perm [("disabled", .bool d), ("username", .str username), ("name", .str name),
      ("profile_picture", .obj pm), ("created_at", c)])
    (hpm : pm.Perm [("62x62", .str s62), ("82x82", .str s82), ("110x110", .str s110),
      ("260x260", .str s260)]) :
    User.UnmarshalJSON u b =
      ({ ID := some i, «Type» := some t, Disabled := some d, Username := some username,
         Name := some name,
         ProfilePicture := { Size62x62 := some s62, Size82x82 := some s82,
                             Size110x110 := some s110, Size260x260 := some s260 },
         Bio := none, Website := none, Location := none, Reputation := none, Signal := none,
         Impact := none, HackeroneTriager := none, CreatedAt := some ts,
         ParticipatingPrograms := none }, none) := by
  have hpic := UserProfilePicture.decode_picture s62 s82 s110 s260 pm hpm
  obtain ⟨pre, post, rfl, hpp⟩ := perm_cons_split ("attributes", JSON.obj am)
    [("id", .str i), ("type", .str t)] env
    (henv.trans (List.Perm.trans (List.Perm.cons _ (List.Perm.swap _ _ _)) (List.Perm.swap _ _ _)))
  have hperm : (("id", JSON.str i) :: ("type", JSON.str t) ::
      [("disabled", .bool d), ("username", .str username), ("name", .str name),
        ("profile_picture", .obj pm), ("created_at", c)]).Perm (pre ++ (am ++ post)) := by
    have h1 : (pre ++ (am ++ post)).Perm ((pre ++ post) ++ am) := by
      rw [List.append_assoc]
      exact List.Perm.append_left pre List.perm_append_comm
    exact (h1.trans (List.Perm.append hpp ham)).symm
  have heval : decodeMembers (userUnmarshalHelper.fields X)
      (("id", JSON.str i) :: ("type", JSON.str t) ::
        [("disabled", .bool d), ("username", .str username), ("name", .str name),
          ("profile_picture", .obj pm), ("created_at", c)]) (userUnmarshalHelper.init X) none =
      .ok ({ user := { ID := some i, «Type» := some t, Disabled := some d,
                       Username := some username, Name := some name,
                       ProfilePicture := { Size62x62 := some s62, Size82x82 := some s82,
                                           Size110x110 := some s110, Size260x260 := some s260 },
                       Bio := none, Website := none, Location := none, Reputation := none,
                       Signal := none, Impact := none, HackeroneTriager := none,
                       CreatedAt := some ts, ParticipatingPrograms := none },
             Attributes := .embedded,
             Relationships := { ParticipatingPrograms := { Data := none } } }, none) := by
    cases c with
    | null => exact absurd rfl hc
    | _ =>
      simp [storeStruct, decodeMembers, findField, userUnmarshalHelper.fields, user.fields,
        StructField.of, StructField.lift, storePtr, storeString, storeBool,
        userUnmarshalHelper.init, User.zero, UserProfilePicture.zero, saveError, hts, hpic]
  have hag := decodeMembers_envelope_perm (userUnmarshalHelper.embedding X) (User.zero X) "h1.user"
    (user.fields X)
    [StructField.of "Relationships" (fun h : userUnmarshalHelper X => h.Relationships)
      (fun h r => { h with Relationships := r })
      (storeStruct "struct Relationships" (userRelationships.fields X))]
    (user.no_attributes_user X) (user.commute_user X) pre am post _
    (userUnmarshalHelper.init X) rfl hperm
    (by
      intro kv hkv f hf
      simp only [List.mem_cons, List.mem_singleton, List.not_mem_nil, or_false] at hkv hf
      rcases hf with rfl | rfl <;>
        rcases hkv with rfl | rfl | rfl | rfl | rfl | rfl | rfl <;>
        (simp only [attributesField, StructField.of]; decide))
    (by simp only [List.map_cons, List.map_nil]; decide)
  rw [← userUnmarshalHelper.fields_eq_user, heval] at hag
  have hres := Agree.eq_of_ok hag
  unfold User.UnmarshalJSON Unmarshal
  rw [hb]
  simp only [storeStruct, hres]

set_option maxRecDepth 100000 in
/-- Witness of C2: the user of the repository's test fixture, with the members
of the envelope, of `attributes` and of `profile_picture` in another order. -/
theorem user_envelope_decodes_to_literal_witness :
    User.UnmarshalJSON (User.zero Externals.text)
      (bytes "\x7b\"type\":\"user\",\"attributes\":\x7b\"username\":\"api-example\",\"disabled\":false,\"name\":\"API Example\",\"created_at\":\"2016-02-02T04:05:06.000Z\",\"profile_picture\":\x7b\"82x82\":\"/b.png\",\"62x62\":\"/a.png\",\"110x110\":\"/c.png\",\"260x260\":\"/d.png\"\x7d\x7d,\"id\":\"1337\"\x7d")
    = ({ ID := some "1337", «Type» := some "user", Disabled := some false,
         Username := some "api-example", Name := some "API Example",
         ProfilePicture := { Size62x62 := some "/a.png", Size82x82 := some "/b.png",
                             Size110x110 := some "/c.png", Size260x260 := some "/d.png" },
         Bio := none, Website := none, Location := none, Reputation := none, Signal := none,
         Impact := none, HackeroneTriager := none,
         CreatedAt := some "2016-02-02T04:05:06.000Z",
         ParticipatingPrograms := none }, none) :=
  user_envelope_decodes_to_literal Externals.text (User.zero Externals.text) _
    "1337" "user" "api-example" "API Example" "/a.png" "/b.png" "/c.png" "/d.png" false
    (.str "2016-02-02T04:05:06.000Z") "2016-02-02T04:05:06.000Z" (by simp) rfl
    [("type", .str "user"),
      ("attributes", .obj
        [("username", .str "api-example"), ("disabled", .bool false),
          ("name", .str "API Example"), ("created_at", .str "2016-02-02T04:05:06.000Z"),
          ("profile_picture", .obj
            [("82x82", .str "/b.png"), ("62x62", .str "/a.png"), ("110x110", .str "/c.png"),
              ("260x260", .str "/d.png")])]),
      ("id", .str "1337")]
    _ _ rfl
    ((List.Perm.cons _ (List.Perm.swap _ _ _)).trans (List.Perm.swap _ _ _))
    ((List.Perm.swap _ _ _).trans (List.Perm.cons _ (List.Perm.cons _ (List.Perm.cons _
      (List.Perm.swap _ _ _)))))
    (List.Perm.swap _ _ _)

/-- C3. After a successful decode, `Program.Groups`, `Program.Members` and
`User.ParticipatingPrograms` hold exactly what the document gives as `data` under
`relationships.groups`, `relationships.members` and
`relationships.participating_programs`, and nothing that stands at top level or
under `attributes`. When the document has no such `data` member the field is nil.
Otherwise the (last) `data` value is `null` and the field is nil, or it is an
array and the field is a slice with one element for each element of the array, in
order: for `Groups` and `Members` a nil pointer for `null` and else a pointer to
the `Group` or `Member` decoded from the element, for `ParticipatingPrograms`
the `Program` that `Program.UnmarshalJSON` decodes from the element. -/
theorem relationship_fields_come_from_relationships (X : Externals) :
    (∀ (p p2 : Program X) (b : List UInt8) (doc : JSON), parse b = .ok doc →
      Program.UnmarshalJSON p b = (p2, none) →
      (match (valuesAt ["relationships", "groups", "data"] [doc]).getLast? with
        | none => p2.Groups = none
        | some v =>
          (v = .null ∧ p2.Groups = none) ∨
          ∃ vs gs, v = .arr vs ∧ p2.Groups = some gs ∧
            List.Forall₂ (fun e g => (e = .null ∧ g = none) ∨
              (e ≠ .null ∧ ∃ x, g = some x ∧ X.storeGroup e X.zeroGroup = .ok (x, none)))
              vs gs) ∧
      (match (valuesAt ["relationships", "members", "data"] [doc]).getLast? with
        | none => p2.Members = none
        | some v =>
          (v = .null ∧ p2.Members = none) ∨
          ∃ vs ms, v = .arr vs ∧ p2.Members = some ms ∧
            List.Forall₂ (fun e m => (e = .null ∧ m = none) ∨
              (e ≠ .null ∧ ∃ x, m = some x ∧ X.storeMember e X.zeroMember = .ok (x, none)))
              vs ms)) ∧
    (∀ (u u2 : User X) (b : List UInt8) (doc : JSON), parse b = .ok doc →
      User.UnmarshalJSON u b = (u2, none) →
      match (valuesAt ["relationships", "participating_programs", "data"] [doc]).getLast? with
      | none => u2.ParticipatingPrograms = none
      | some v =>
        (v = .null ∧ u2.ParticipatingPrograms = none) ∨
        ∃ vs ps, v = .arr vs ∧ u2.ParticipatingPrograms = some ps ∧
          List.Forall₂ (fun e q => Program.unmarshalElement (Program.zero X) e = (q, none))
            vs ps) := by
  refine ⟨fun p p2 b doc hb h => ?_, fun u u2 b doc hb h => ?_⟩
  · obtain ⟨hg, hm⟩ := Program.relationships_of_program p p2 b doc hb h
    constructor
    · revert hg
      cases (valuesAt ["relationships", "groups", "data"] [doc]).getLast? with
      | none => exact id
      | some v =>
        intro hg
        rcases storeSlice_elements _ _ _ v none _ hg with h1 | ⟨vs, gs, h1, h2, h3⟩
        · exact Or.inl h1
        · exact Or.inr ⟨vs, gs, h1, h2,
            h3.imp (fun e g heg => storePtr_element X.zeroGroup X.storeGroup e g heg)⟩
    · revert hm
      cases (valuesAt ["relationships", "members", "data"] [doc]).getLast? with
      | none => exact id
      | some v =>
        intro hm
        rcases storeSlice_elements _ _ _ v none _ hm with h1 | ⟨vs, gs, h1, h2, h3⟩
        · exact Or.inl h1
        · exact Or.inr ⟨vs, gs, h1, h2,
            h3.imp (fun e g heg => storePtr_element X.zeroMember X.storeMember e g heg)⟩
  · have hu := User.relationships_of_user u u2 b doc hb h
    revert hu
    cases (valuesAt ["relationships", "participating_programs", "data"] [doc]).getLast? with
    | none => exact id
    | some v =>
      intro hu
      rcases storeSlice_elements _ _ _ v none _ hu with h1 | ⟨vs, ps, h1, h2, h3⟩
      · exact Or.inl h1
      · refine Or.inr ⟨vs, ps, h1, h2, h3.imp (fun e q heq => ?_)⟩
        simp only [storeProgram] at heq
        rcases hq : Program.unmarshalElement (Program.zero X) e with ⟨q2, _ | err⟩
        · rw [hq] at heq
          simp only [Except.ok.injEq, Prod.mk.injEq, and_true] at heq
          rw [heq]
        · rw [hq] at heq
          cases heq

set_option maxRecDepth 100000 in
/-- Witness of C3: a program document and a user document that give the
relationship fields at top level, under `attributes` and under `relationships`;
only the `data` arrays under `relationships` reach `Groups`, `Members` and
`ParticipatingPrograms`, and without `relationships` the fields are nil. -/
theorem relationship_fields_come_from_relationships_witness :
    ((JSON.arr [.str "m1", .str "m2"] = .null ∧
        (Program.UnmarshalJSON (Program.zero Externals.text) (bytes "\x7b\"id\":\"1\",\"groups\":[\"x\"],\"member\":[\"w\"],\"attributes\":\x7b\"groups\":[\"y\"],\"member\":[\"z\"]\x7d,\"relationships\":\x7b\"groups\":\x7b\"data\":[\"g1\",null]\x7d,\"members\":\x7b\"data\":[\"m1\",\"m2\"]\x7d\x7d\x7d")).1.Members = none) ∨
      ∃ vs ms, JSON.arr [.str "m1", .str "m2"] = .arr vs ∧
        (Program.UnmarshalJSON (Program.zero Externals.text) (bytes "\x7b\"id\":\"1\",\"groups\":[\"x\"],\"member\":[\"w\"],\"attributes\":\x7b\"groups\":[\"y\"],\"member\":[\"z\"]\x7d,\"relationships\":\x7b\"groups\":\x7b\"data\":[\"g1\",null]\x7d,\"members\":\x7b\"data\":[\"m1\",\"m2\"]\x7d\x7d\x7d")).1.Members = some ms ∧
        List.Forall₂ (fun e m => (e = .null ∧ m = none) ∨
          (e ≠ .null ∧ ∃ x, m = some x ∧
            Externals.text.storeMember e Externals.text.zeroMember = .ok (x, none))) vs ms) ∧
    (Program.UnmarshalJSON (Program.zero Externals.text) (bytes "\x7b\"id\":\"1\",\"groups\":[\"x\"],\"member\":[\"w\"],\"attributes\":\x7b\"groups\":[\"y\"],\"member\":[\"z\"]\x7d,\"relationships\":\x7b\"groups\":\x7b\"data\":[\"g1\",null]\x7d,\"members\":\x7b\"data\":[\"m1\",\"m2\"]\x7d\x7d\x7d")).1.Groups =
      some [some "g1", none] ∧
    (Program.UnmarshalJSON (Program.zero Externals.text) (bytes "\x7b\"id\":\"1\",\"groups\":[\"x\"],\"member\":[\"w\"],\"attributes\":\x7b\"groups\":[\"y\"],\"member\":[\"z\"]\x7d,\"relationships\":\x7b\"groups\":\x7b\"data\":[\"g1\",null]\x7d,\"members\":\x7b\"data\":[\"m1\",\"m2\"]\x7d\x7d\x7d")).1.Members =
      some [some "m1", some "m2"] ∧
    (User.UnmarshalJSON (User.zero Externals.text) (bytes "\x7b\"id\":\"7\",\"participating_programs\":[\x7b\"id\":\"x\"\x7d],\"attributes\":\x7b\"participating_programs\":[\x7b\"id\":\"y\"\x7d]\x7d,\"relationships\":\x7b\"participating_programs\":\x7b\"data\":[\x7b\"id\":\"p1\",\"attributes\":\x7b\"handle\":\"h\"\x7d\x7d]\x7d\x7d\x7d")).1.ParticipatingPrograms =
      some [{ ID := some "p1", «Type» := none, Handle := some "h", Policy := none,
              CreatedAt := none, UpdatedAt := none, Groups := none, Members := none }] ∧
    (Program.UnmarshalJSON (Program.zero Externals.text) (bytes "\x7b\"id\":\"1\",\"groups\":[\"x\"],\"attributes\":\x7b\"member\":[\"z\"]\x7d\x7d")).1.Groups = none ∧
    (Program.UnmarshalJSON (Program.zero Externals.text) (bytes "\x7b\"id\":\"1\",\"groups\":[\"x\"],\"attributes\":\x7b\"member\":[\"z\"]\x7d\x7d")).1.Members = none :=
  ⟨((relationship_fields_come_from_relationships Externals.text).1 (Program.zero Externals.text)
      _ (bytes "\x7b\"id\":\"1\",\"groups\":[\"x\"],\"member\":[\"w\"],\"attributes\":\x7b\"groups\":[\"y\"],\"member\":[\"z\"]\x7d,\"relationships\":\x7b\"groups\":\x7b\"data\":[\"g1\",null]\x7d,\"members\":\x7b\"data\":[\"m1\",\"m2\"]\x7d\x7d\x7d") _ rfl rfl).2, rfl, rfl, rfl, rfl, rfl⟩

/-! ### Decoding the default encoding -/

section RoundTrip

/-- A `CredentialsTable` is the text of the Go value that holds it. -/
theorem CredentialsTable.text_toValue_table (t : CredentialsTable) : t.toValue.text = t := by
  obtain ⟨u, p⟩ := t
  cases u <;> cases p <;>
    simp [CredentialsTable.toValue, CredentialsTableValue.text, goText_goString]

/-- A `Credentials` is the text of the Go value that holds it. -/
theorem Credentials.text_toValue_credentials (c : Credentials) : c.toValue.text = c := by
  obtain ⟨t⟩ := c
  cases t <;> simp [Credentials.toValue, CredentialsValue.text, CredentialsTable.text_toValue_table]

/-- A pointer to a text is read back from the Go string that holds it. -/
theorem map_goText_goString (x : Option String) : Option.map (goText ∘ goString) x = x := by
  cases x <;> simp [goText_goString]

/-- A `Credential` is the text of the Go value that holds it. -/
theorem Credential.text_toValue_credential (c : Credential) : c.toValue.text = c := by
  obtain ⟨i, t, cr, r, a, u⟩ := c
  cases cr <;>
    simp [Credential.toValue, CredentialValue.text, map_goText_goString,
      Credentials.text_toValue_credentials]

/-- A `CredentialInquiry` is the text of the Go value that holds it. -/
theorem CredentialInquiry.text_toValue_inquiry (c : CredentialInquiry) : c.toValue.text = c := by
  obtain ⟨i, t, d⟩ := c
  simp [CredentialInquiry.toValue, CredentialInquiryValue.text, map_goText_goString]

/-- A `StructuredScope` is the text of the Go value that holds it. -/
theorem StructuredScope.text_toValue_scope {X : Externals} (s : StructuredScope X) :
    s.toValue.text = s := by
  cases s
  simp [StructuredScope.toValue, StructuredScopeValue.text, map_goText_goString,
    goText_goString]

/-- The text of the Go value that holds a `Program` is the program without its
groups and members. -/
theorem Program.text_toValue_program {X : Externals} (p : Program X) :
    p.toValue.text = { p with Groups := none, Members := none } := by
  cases p
  simp [Program.toValue, ProgramValue.text, map_goText_goString]

/-- The field `credentials` of a `Credential` is decoded from its encoding as its
text. -/
theorem CredentialsValue.roundtrip (x : Option CredentialsValue) (cur : Option Credentials) :
    storePtr Credentials.zero (storeStruct "h1.Credentials" Credentials.fields)
      (marshalPtr CredentialsValue.Marshal x) cur = .ok (x.map CredentialsValue.text, none) := by
  cases x with
  | none => rfl
  | some c =>
    obtain ⟨t⟩ := c
    cases t with
    | none => rfl
    | some t =>
      obtain ⟨u, p⟩ := t
      cases u <;> cases p <;> rfl

/-- Decoding the encoding of a `Credential` gives its text. -/
theorem CredentialValue.roundtrip_credential (recv : Credential) (c : CredentialValue)
    (b : List UInt8) (hb : parse b = .ok (CredentialValue.Marshal c)) :
    Credential.UnmarshalJSON recv b = (c.text, none) := by
  unfold Credential.UnmarshalJSON Unmarshal
  rw [hb]
  simp [CredentialValue.Marshal, CredentialValue.text, storeStruct, decodeMembers, findField,
    credentialUnmarshalHelper.fields,
    credential.fields, StructField.lift, StructField.of, CredentialsValue.roundtrip, saveError,
    storePtr_marshalString, storePtr_marshalPtr_bool]

/-- Decoding the encoding of a `CredentialInquiry` gives its text. -/
theorem CredentialInquiryValue.roundtrip_inquiry (recv : CredentialInquiry)
    (c : CredentialInquiryValue) (b : List UInt8)
    (hb : parse b = .ok (CredentialInquiryValue.Marshal c)) :
    CredentialInquiry.UnmarshalJSON recv b = (c.text, none) := by
  unfold CredentialInquiry.UnmarshalJSON Unmarshal
  rw [hb]
  simp [CredentialInquiryValue.Marshal, CredentialInquiryValue.text, storeStruct, decodeMembers,
    findField,
    credentialInquiryUnmarshalHelper.fields, credentialInquiry.fields, StructField.lift,
    StructField.of, saveError, storePtr_marshalString]

/-- Decoding the encoding of a `StructuredScope` gives its text, when timestamps are
decoded back from their encoding. -/
theorem StructuredScopeValue.roundtrip_scope {X : Externals} (M : Encoders X)
    (hT : ∀ t, M.marshalTimestamp t ≠ .null ∧
      X.storeTimestamp (M.marshalTimestamp t) X.zeroTimestamp = .ok (t, none))
    (recv : StructuredScope X) (s : StructuredScopeValue X) (b : List UInt8)
    (hb : parse b = .ok (StructuredScopeValue.Marshal M s)) :
    StructuredScope.UnmarshalJSON recv b = (s.text, none) := by
  unfold StructuredScope.UnmarshalJSON Unmarshal
  rw [hb]
  have hts := storePtr_marshalPtr X.zeroTimestamp X.storeTimestamp M.marshalTimestamp hT
  simp [StructuredScopeValue.Marshal, StructuredScopeValue.text, storeStruct, decodeMembers,
    findField,
    structuredScopeUnmarshalHelper.fields, structuredScope.fields, StructField.lift,
    StructField.of, saveError, hts, StructuredScope.zero, storeString_marshalString, storeBool,
    storePtr_marshalString]

/-- Decoding the encoding of a `Program` gives its text, which has no groups and no
members, when timestamps are decoded back from their encoding and the encoding
of a group and of a member is decoded without an error. -/
theorem ProgramValue.roundtrip_program {X : Externals} (M : Encoders X)
    (hT : ∀ t, M.marshalTimestamp t ≠ .null ∧
      X.storeTimestamp (M.marshalTimestamp t) X.zeroTimestamp = .ok (t, none))
    (hG : ∀ g, ∃ g2, X.storeGroup (M.marshalGroup g) X.zeroGroup = .ok (g2, none))
    (hM : ∀ m, ∃ m2, X.storeMember (M.marshalMember m) X.zeroMember = .ok (m2, none))
    (recv : Program X) (p : ProgramValue X) (b : List UInt8)
    (hb : parse b = .ok (ProgramValue.Marshal M p)) :
    Program.UnmarshalJSON recv b = (p.text, none) := by
  unfold Program.UnmarshalJSON Unmarshal
  rw [hb]
  have hts := storePtr_marshalPtr X.zeroTimestamp X.storeTimestamp M.marshalTimestamp hT
  have hog : ∀ gs : Option (List (Option X.Group)),
      marshalOmitEmpty "groups" (marshalPtr M.marshalGroup) gs = [] ∨
      ∃ l, marshalOmitEmpty "groups" (marshalPtr M.marshalGroup) gs =
        [("groups", .arr (List.map (marshalPtr M.marshalGroup) l))] := by
    intro gs
    rcases gs with _ | _ | ⟨x, xs⟩
    · exact Or.inl rfl
    · exact Or.inl rfl
    · exact Or.inr ⟨x :: xs, rfl⟩
  have hom : ∀ gs : Option (List (Option X.Member)),
      marshalOmitEmpty "member" (marshalPtr M.marshalMember) gs = [] ∨
      ∃ l, marshalOmitEmpty "member" (marshalPtr M.marshalMember) gs =
        [("member", .arr (List.map (marshalPtr M.marshalMember) l))] := by
    intro gs
    rcases gs with _ | _ | ⟨x, xs⟩
    · exact Or.inl rfl
    · exact Or.inl rfl
    · exact Or.inr ⟨x :: xs, rfl⟩
  unfold ProgramValue.Marshal
  rcases hog p.Groups with h1 | ⟨l1, h1⟩ <;> rcases hom p.Members with h2 | ⟨l2, h2⟩ <;>
    rw [h1, h2]
  · simp [ProgramValue.text, storeStruct, decodeMembers, findField, programUnmarshalHelper.fields,
      program.fields, StructField.lift, StructField.of, saveError, hts,
      programUnmarshalHelper.init, Program.zero, storePtr_marshalString]
  · obtain ⟨ms, hms⟩ := storeSlice_marshal_ok "[]*h1.Member" X.zeroMember X.storeMember
      M.marshalMember hM l2
    simp [ProgramValue.text, storeStruct, decodeMembers, findField, programUnmarshalHelper.fields,
      program.fields, StructField.lift, StructField.of, saveError, hts, storeMembers, hms,
      programUnmarshalHelper.init, Program.zero, storePtr_marshalString]
  · obtain ⟨gs, hgs⟩ := storeSlice_marshal_ok "[]*h1.Group" X.zeroGroup X.storeGroup
      M.marshalGroup hG l1
    simp [ProgramValue.text, storeStruct, decodeMembers, findField, programUnmarshalHelper.fields,
      program.fields, StructField.lift, StructField.of, saveError, hts, storeGroups, hgs,
      programUnmarshalHelper.init, Program.zero, storePtr_marshalString]
  · obtain ⟨ms, hms⟩ := storeSlice_marshal_ok "[]*h1.Member" X.zeroMember X.storeMember
      M.marshalMember hM l2
    obtain ⟨gs, hgs⟩ := storeSlice_marshal_ok "[]*h1.Group" X.zeroGroup X.storeGroup
      M.marshalGroup hG l1
    simp [ProgramValue.text, storeStruct, decodeMembers, findField, programUnmarshalHelper.fields,
      program.fields, StructField.lift, StructField.of, saveError, hts, storeGroups, hgs,
      storeMembers, hms,
      programUnmarshalHelper.init, Program.zero, storePtr_marshalString]

end RoundTrip

set_option maxRecDepth 100000 in
/-- C16, as stated, fails. A Go string is a sequence of bytes, and the encoder
writes the rune U+FFFD for a byte that is not part of a valid UTF-8 encoding.
The `CredentialInquiry` whose `ID` is the three bytes `a`, `0xff`, `b` is
encoded with the id `a\ufffdb`, and that document is decoded without error to
the `ID` of the five bytes `a`, `0xef`, `0xbf`, `0xbd`, `b`: encode-then-decode
is not the identity on this value. -/
theorem inquiry_roundtrip_counterexample :
    parse (bytes "\x7b\"id\":\"a\\ufffdb\",\"type\":null,\"description\":null\x7d") =
      .ok (CredentialInquiryValue.Marshal
        { ID := some [0x61, 0xFF, 0x62], «Type» := none, Description := none }) ∧
    (CredentialInquiry.UnmarshalJSON CredentialInquiry.zero
      (bytes "\x7b\"id\":\"a\\ufffdb\",\"type\":null,\"description\":null\x7d")).2 = none ∧
    (CredentialInquiry.UnmarshalJSON CredentialInquiry.zero
      (bytes "\x7b\"id\":\"a\\ufffdb\",\"type\":null,\"description\":null\x7d")).1.toValue =
      { ID := some [0x61, 0xEF, 0xBF, 0xBD, 0x62], «Type» := none, Description := none } ∧
    (CredentialInquiry.UnmarshalJSON CredentialInquiry.zero
      (bytes "\x7b\"id\":\"a\\ufffdb\",\"type\":null,\"description\":null\x7d")).1.toValue ≠
      { ID := some [0x61, 0xFF, 0x62], «Type» := none, Description := none } :=
  ⟨rfl, rfl, rfl, by decide⟩

/-- C16, amended. The default encoding is modelled by the document `json.Marshal`
writes for the struct (`ProgramValue.Marshal` and its siblings: members in field
order under the tag names, `null` for a nil pointer, no `groups` / `member`
member for a nil or empty slice, strings as their text); an encoding of a value
is any input that scans to that document. `Timestamp`, `Group` and `Member` are
declared outside the embedded files: a timestamp is taken to be decoded back
from its encoding, and the encoding of a group and of a member to be decoded
without an error. For every `Program` `p` whose strings are valid UTF-8 (the
values `p.toValue`), decoding an encoding of `p` gives `p` with `Groups` and
`Members` nil, so the result is `p` exactly when both are nil in `p`; for every
`Credential`, `CredentialInquiry` and `StructuredScope` whose strings are valid
UTF-8, decoding an encoding of the value gives the value back. -/
theorem program_roundtrip_drops_relationships (X : Externals) (M : Encoders X)
    (hT : ∀ t, M.marshalTimestamp t ≠ .null ∧
      X.storeTimestamp (M.marshalTimestamp t) X.zeroTimestamp = .ok (t, none))
    (hG : ∀ g, ∃ g2, X.storeGroup (M.marshalGroup g) X.zeroGroup = .ok (g2, none))
    (hM : ∀ m, ∃ m2, X.storeMember (M.marshalMember m) X.zeroMember = .ok (m2, none)) :
    (∀ (recv p : Program X) (b : List UInt8),
      parse b = .ok (ProgramValue.Marshal M p.toValue) →
      Program.UnmarshalJSON recv b = ({ p with Groups := none, Members := none }, none) ∧
      (Program.UnmarshalJSON recv b = (p, none) ↔ p.Groups = none ∧ p.Members = none)) ∧
    (∀ (recv c : Credential) (b : List UInt8),
      parse b = .ok (CredentialValue.Marshal c.toValue) →
      Credential.UnmarshalJSON recv b = (c, none)) ∧
    (∀ (recv c : CredentialInquiry) (b : List UInt8),
      parse b = .ok (CredentialInquiryValue.Marshal c.toValue) →
      CredentialInquiry.UnmarshalJSON recv b = (c, none)) ∧
    (∀ (recv s : StructuredScope X) (b : List UInt8),
      parse b = .ok (StructuredScopeValue.Marshal M s.toValue) →
      StructuredScope.UnmarshalJSON recv b = (s, none)) := by
  refine ⟨fun recv p b hb => ?_, fun recv c b hb => ?_, fun recv c b hb => ?_,
    fun recv s b hb => ?_⟩
  · have h := ProgramValue.roundtrip_program M hT hG hM recv p.toValue b hb
    rw [Program.text_toValue_program] at h
    refine ⟨h, ?_⟩
    rw [h]
    constructor
    · intro heq
      have hp : ({ p with Groups := none, Members := none } : Program X) = p :=
        congrArg Prod.fst heq
      exact ⟨by rw [← hp], by rw [← hp]⟩
    · rintro ⟨hg, hm⟩
      obtain ⟨i, t, hd, po, ca, ua, g, m⟩ := p
      simp only at hg hm
      subst hg
      subst hm
      rfl
  · rw [CredentialValue.roundtrip_credential recv c.toValue b hb, Credential.text_toValue_credential]
  · rw [CredentialInquiryValue.roundtrip_inquiry recv c.toValue b hb,
      CredentialInquiry.text_toValue_inquiry]
  · rw [StructuredScopeValue.roundtrip_scope M hT recv s.toValue b hb,
      StructuredScope.text_toValue_scope]

set_option maxRecDepth 100000 in
/-- Witness of C16: a program with one group, whose handle holds runes of one to
four bytes, is encoded with a `groups` member and decoded without its group; a
credential is decoded to itself. The Go string of the handle is the UTF-8
encoding of its text. -/
theorem program_roundtrip_drops_relationships_witness :
    Program.UnmarshalJSON (Program.zero Externals.text)
      (bytes "\x7b\"id\":\"1\",\"type\":\"program\",\"handle\":\"hé€😀\",\"policy\":null,\"created_at\":\"t\",\"updated_at\":null,\"groups\":[\"g\",null]\x7d") =
      ({ ID := some "1", «Type» := some "program", Handle := some "hé€😀", Policy := none,
         CreatedAt := some "t", UpdatedAt := none, Groups := none, Members := none }, none) ∧
    Credential.UnmarshalJSON Credential.zero
      (bytes "\x7b\"id\":\"1\",\"type\":null,\"credentials\":\x7b\"table\":\x7b\"username\":\"u\",\"password\":null\x7d\x7d,\"revoked\":true,\"assignee_id\":null,\"assignee_username\":null\x7d") =
      ({ ID := some "1", «Type» := none,
         Credentials := some { Table := some { Username := some "u", Password := none } },
         Revoked := some true, AssigneeID := none, AssigneeUsername := none }, none) ∧
    goString "hé€😀" = bytes "hé€😀" ∧
    goString "hé€😀" = [0x68, 0xC3, 0xA9, 0xE2, 0x82, 0xAC, 0xF0, 0x9F, 0x98, 0x80] :=
  ⟨((program_roundtrip_drops_relationships Externals.text Encoders.text
      (fun _ => ⟨(fun h => by cases h), rfl⟩) (fun g => ⟨g, rfl⟩)
      (fun m => ⟨m, rfl⟩)).1 (Program.zero Externals.text)
      { ID := some "1", «Type» := some "program", Handle := some "hé€😀", Policy := none,
        CreatedAt := some "t", UpdatedAt := none, Groups := some [some "g", none],
        Members := none }
      (bytes "\x7b\"id\":\"1\",\"type\":\"program\",\"handle\":\"hé€😀\",\"policy\":null,\"created_at\":\"t\",\"updated_at\":null,\"groups\":[\"g\",null]\x7d")
      rfl).1,
   (program_roundtrip_drops_relationships Externals.text Encoders.text
      (fun _ => ⟨(fun h => by cases h), rfl⟩) (fun g => ⟨g, rfl⟩)
      (fun m => ⟨m, rfl⟩)).2.1 Credential.zero
      { ID := some "1", «Type» := none,
        Credentials := some { Table := some { Username := some "u", Password := none } },
        Revoked := some true, AssigneeID := none, AssigneeUsername := none }
      (bytes "\x7b\"id\":\"1\",\"type\":null,\"credentials\":\x7b\"table\":\x7b\"username\":\"u\",\"password\":null\x7d\x7d,\"revoked\":true,\"assignee_id\":null,\"assignee_username\":null\x7d")
      rfl, by decide, by decide⟩

end H1
